import Mathlib

/-!
# scopehal: edge detection, duration fill and FIR kernels

A shallow embedding of parts of `scopehal/Filter.cpp` and
`scopeprotocols/FIRFilter.cpp`, followed by theorems about them.

Conventions of the embedding.

* Sample arrays (`std::vector`, `AcceleratorBuffer`) are lists.  Every indexed
  read and write is bounds checked: a function returns `none` as soon as it
  touches an index outside the array, which in C++ is undefined behaviour.
* `size_t` arithmetic that can wrap (`i - 1`, `len - filterlen`) is computed
  modulo `2 ^ 64`.
* `int64_t` quantities (offsets, durations, timestamps) are integers; signed
  overflow is undefined in C++ and is outside the model.
* `float` quantities are values of a carrier type `α`.  Definitions that only
  move values around or combine them with `+` and `*` are generic in `α`;
  results that need the laws of arithmetic are stated for exact arithmetic
  (an ordered field such as `ℚ`), without rounding, infinities or NaN.
-/

namespace ScopeHal

/-! ## Part 1: definitions -/

/-- Modulus of `size_t` arithmetic on the 64 bit targets of the library. -/
def SIZE_MOD : Nat := 2 ^ 64

/-- Wrapping `size_t` subtraction `a - b`. -/
def subSize (a b : Nat) : Nat := (a % SIZE_MOD + (SIZE_MOD - b % SIZE_MOD)) % SIZE_MOD

/-- Bounds checked read `buf[i]`. -/
def rd {α : Type} (buf : List α) (i : Nat) : Option α := buf[i]?

/-- Bounds checked write `buf[i] = v`. -/
def wr {α : Type} (buf : List α) (i : Nat) (v : α) : Option (List α) :=
  if i < buf.length then some (buf.set i v) else none

/-- The loop `for(size_t i = start; i < stop; i += step) body`, threading a state
through a body that may fail.  The first argument bounds the trip count; running
out of it while `i < stop` still holds is reported as `none`. -/
def forLoop {σ : Type} (stop step : Nat) (body : Nat → σ → Option σ) :
    Nat → Nat → σ → Option σ
  | 0, i, s => if i < stop then none else some s
  | fuel + 1, i, s =>
    if i < stop then (body i s).bind (forLoop stop step body fuel (i + step)) else some s

/-- Contents of a buffer after `resize(n)`: the first `n` old elements are kept,
new elements (unspecified in C++) are filled with `pad`. -/
def resize {α : Type} (pad : α) (xs : List α) (n : Nat) : List α :=
  xs.take n ++ List.replicate (n - xs.length) pad

/-- Timebase arrays of a sparse waveform (`SparseWaveformBase`); `size()` is the
length of `m_offsets`. -/
structure SparseWaveformBase where
  m_offsets : List Int
  m_durations : List Int
deriving DecidableEq, Repr

/-- Sample count `wfm.size()` of a sparse waveform. -/
def SparseWaveformBase.size (wfm : SparseWaveformBase) : Nat := wfm.m_offsets.length

/-- Loop body shared by both duration fills:
`m_durations[i-1] = m_offsets[i] - m_offsets[i-1]` with `i - 1` in `size_t`. -/
def durationStep (offs : List Int) (i : Nat) (durs : List Int) : Option (List Int) :=
  (rd offs i).bind fun a =>
  (rd offs (subSize i 1)).bind fun b =>
  wr durs (subSize i 1) (a - b)

/-- Embeds `Filter::FillDurationsGeneric`. -/
def FillDurationsGeneric (wfm : SparseWaveformBase) : Option SparseWaveformBase :=
  let len := wfm.size
  let durs := resize 0 wfm.m_durations len
  (forLoop len 1 (durationStep wfm.m_offsets) len 1 durs).bind fun durs1 =>
  (wr durs1 (subSize len 1) 1).map fun durs2 =>
  { wfm with m_durations := durs2 }

/-- Unaligned 256 bit load of four `int64_t` lanes starting at `p[i]`. -/
def loadu4 (p : List Int) (i : Nat) : Option (List Int) :=
  (rd p i).bind fun a =>
  (rd p (i + 1)).bind fun b =>
  (rd p (i + 2)).bind fun c =>
  (rd p (i + 3)).map fun d => [a, b, c, d]

/-- Unaligned 256 bit store of the lanes `v` to `p[i]`, `p[i+1]`, ... -/
def storeu (p : List Int) (i : Nat) : List Int → Option (List Int)
  | [] => some p
  | x :: v => (wr p i x).bind fun p1 => storeu p1 (i + 1) v

/-- Lane-wise 64 bit subtraction `_mm256_sub_epi64`. -/
def sub_epi64 (a b : List Int) : List Int := List.zipWith (fun x y => x - y) a b

/-- Body of the vector loop of `FillDurationsAVX2`. -/
def durationStepAVX2 (offs : List Int) (i : Nat) (durs : List Int) : Option (List Int) :=
  (loadu4 offs i).bind fun a =>
  (loadu4 offs (subSize i 1)).bind fun b =>
  storeu durs (subSize i 1) (sub_epi64 a b)

/-- Embeds `Filter::FillDurationsAVX2`. -/
def FillDurationsAVX2 (wfm : SparseWaveformBase) : Option SparseWaveformBase :=
  let len := wfm.size
  let durs := resize 0 wfm.m_durations len
  let stop := len - (len % 4)
  (forLoop stop 4 (durationStepAVX2 wfm.m_offsets) len 1 durs).bind fun durs1 =>
  (forLoop len 1 (durationStep wfm.m_offsets) len stop durs1).bind fun durs2 =>
  (wr durs2 (subSize len 1) 1).map fun durs3 =>
  { wfm with m_durations := durs3 }

/-! ### Waveforms -/

/-- Fields of `UniformDigitalWaveform` used by the edge finders. -/
structure UniformDigitalWaveform where
  m_timescale : Int
  m_triggerPhase : Int
  m_samples : List Bool
deriving DecidableEq, Repr

/-- Fields of `SparseDigitalWaveform` used by the edge finders. -/
structure SparseDigitalWaveform where
  m_timescale : Int
  m_triggerPhase : Int
  m_offsets : List Int
  m_durations : List Int
  m_samples : List Bool
deriving DecidableEq, Repr

/-- Fields of `UniformAnalogWaveform`; `α` is the carrier of `float`. -/
structure UniformAnalogWaveform (α : Type) where
  m_timescale : Int
  m_triggerPhase : Int
  m_samples : List α
deriving DecidableEq, Repr

/-- Fields of `SparseAnalogWaveform`; `α` is the carrier of `float`. -/
structure SparseAnalogWaveform (α : Type) where
  m_timescale : Int
  m_triggerPhase : Int
  m_offsets : List Int
  m_durations : List Int
  m_samples : List α
deriving DecidableEq, Repr

/-! ### Zero crossing detection -/

/-- Local variables of the edge finding loops. -/
structure EdgeScan where
  first : Bool
  last : Bool
  edges : List Int
deriving DecidableEq, Repr

/-- Body of the loop shared by every `FindZeroCrossings` overload.  `value i` is the
boolean the overload reads at index `i` and `stamp i` the timestamp it pushes there:
```
bool value = ...;
if(first) { last = value; first = false; continue; }
if(last == value) continue;
edges.push_back(...);
last = value;
``` -/
def zeroCrossingStep (value : Nat → Option Bool) (stamp : Nat → Option Int)
    (i : Nat) (st : EdgeScan) : Option EdgeScan :=
  (value i).bind fun v =>
  if st.first then some { first := false, last := v, edges := st.edges }
  else if st.last == v then some st
  else (stamp i).map fun t => { first := false, last := v, edges := st.edges ++ [t] }

/-- Embeds `Filter::FindZeroCrossings(UniformDigitalWaveform*, vector<int64_t>&)`. -/
def FindZeroCrossings_UniformDigital (data : UniformDigitalWaveform) (edges : List Int) :
    Option (List Int) :=
  (rd data.m_samples 0).bind fun s0 =>
  let phoff := Int.tdiv data.m_timescale 2 + data.m_triggerPhase
  let len := data.m_samples.length
  (forLoop len 1
    (zeroCrossingStep (rd data.m_samples) (fun i => some (phoff + data.m_timescale * (i : Int))))
    len 1 { first := true, last := s0, edges := edges }).map fun st => st.edges

/-- The scanning part of `Filter::FindZeroCrossings(SparseDigitalWaveform*, vector<int64_t>&)`,
run on a cache miss. -/
def scanZeroCrossings_SparseDigital (data : SparseDigitalWaveform) (edges : List Int) :
    Option (List Int) :=
  (rd data.m_samples 0).bind fun s0 =>
  let phoff := Int.tdiv data.m_timescale 2 + data.m_triggerPhase
  let len := data.m_samples.length
  (forLoop len 1
    (zeroCrossingStep (rd data.m_samples)
      (fun i => (rd data.m_offsets i).map fun o => phoff + data.m_timescale * o))
    len 1 { first := true, last := s0, edges := edges }).map fun st => st.edges

/-- Conversions between `float` and `int64_t` and the single-waveform overload of
`InterpolateTime` (declared in `Filter.h`), which the analog edge finders call. -/
structure FloatEnv (α : Type) where
  ofInt64 : Int → α
  toInt64 : α → Int
  InterpolateTime : List α → Nat → α → α

/-- The scanning part of `Filter::FindZeroCrossings(SparseAnalogWaveform*, float, ...)`. -/
def scanZeroCrossings_SparseAnalog {α : Type} [LT α] [DecidableRel (fun a b : α => a < b)]
    [Mul α] (env : FloatEnv α) (data : SparseAnalogWaveform α) (threshold : α)
    (edges : List Int) : Option (List Int) :=
  let phoff := data.m_triggerPhase
  let len := data.m_samples.length
  let fscale := env.ofInt64 data.m_timescale
  (forLoop len 1
    (zeroCrossingStep (fun i => (rd data.m_samples i).map fun v => decide (threshold < v))
      (fun i =>
        let tfrac := env.toInt64 (fscale * env.InterpolateTime data.m_samples (subSize i 1) threshold)
        (rd data.m_offsets (subSize i 1)).map fun o => phoff + data.m_timescale * o + tfrac))
    len 1 { first := true, last := false, edges := edges }).map fun st => st.edges

/-- The scanning part of `Filter::FindZeroCrossings(UniformAnalogWaveform*, float, ...)`. -/
def scanZeroCrossings_UniformAnalog {α : Type} [LT α] [DecidableRel (fun a b : α => a < b)]
    [Mul α] (env : FloatEnv α) (data : UniformAnalogWaveform α) (threshold : α)
    (edges : List Int) : Option (List Int) :=
  let phoff := data.m_triggerPhase
  let len := data.m_samples.length
  let fscale := env.ofInt64 data.m_timescale
  (forLoop len 1
    (zeroCrossingStep (fun i => (rd data.m_samples i).map fun v => decide (threshold < v))
      (fun i =>
        let tfrac := env.toInt64 (fscale * env.InterpolateTime data.m_samples (subSize i 1) threshold)
        some (phoff + data.m_timescale * ((subSize i 1 : Nat) : Int) + tfrac)))
    len 1 { first := true, last := false, edges := edges }).map fun st => st.edges

/-- The process-wide analysis state: `m_zeroCrossingCache`, a map from
(waveform address, threshold) to a crossing list, kept as an association list with
at most one entry per key, and an instrumentation counter of waveform scans. -/
structure AnalysisState (α : Type) where
  m_zeroCrossingCache : List ((Nat × α) × List Int)
  scans : Nat
deriving DecidableEq, Repr

/-- Lookup `m_zeroCrossingCache.find(cachekey)`. -/
def cacheFind {α : Type} [DecidableEq α] (cache : List ((Nat × α) × List Int))
    (key : Nat × α) : Option (List Int) :=
  (cache.find? fun e => decide (e.1 = key)).map fun e => e.2

/-- Assignment `m_zeroCrossingCache[cachekey] = edges`. -/
def cacheStore {α : Type} [DecidableEq α] (cache : List ((Nat × α) × List Int))
    (key : Nat × α) (edges : List Int) : List ((Nat × α) × List Int) :=
  (key, edges) :: cache.filter fun e => decide (e.1 ≠ key)

/-- Embeds `Filter::FindZeroCrossings(SparseAnalogWaveform*, float, vector<int64_t>&)`;
`ptr` is the address of the waveform and `data` its current contents. -/
def FindZeroCrossings_SparseAnalog {α : Type} [DecidableEq α] [LT α]
    [DecidableRel (fun a b : α => a < b)] [Mul α] (env : FloatEnv α)
    (st : AnalysisState α) (ptr : Nat) (data : SparseAnalogWaveform α) (threshold : α)
    (edges : List Int) : Option (List Int × AnalysisState α) :=
  match cacheFind st.m_zeroCrossingCache (ptr, threshold) with
  | some stored => some (stored, st)
  | none =>
    (scanZeroCrossings_SparseAnalog env data threshold edges).map fun e =>
      (e, { m_zeroCrossingCache := cacheStore st.m_zeroCrossingCache (ptr, threshold) e,
            scans := st.scans + 1 })

/-- Embeds `Filter::FindZeroCrossings(UniformAnalogWaveform*, float, vector<int64_t>&)`. -/
def FindZeroCrossings_UniformAnalog {α : Type} [DecidableEq α] [LT α]
    [DecidableRel (fun a b : α => a < b)] [Mul α] (env : FloatEnv α)
    (st : AnalysisState α) (ptr : Nat) (data : UniformAnalogWaveform α) (threshold : α)
    (edges : List Int) : Option (List Int × AnalysisState α) :=
  match cacheFind st.m_zeroCrossingCache (ptr, threshold) with
  | some stored => some (stored, st)
  | none =>
    (scanZeroCrossings_UniformAnalog env data threshold edges).map fun e =>
      (e, { m_zeroCrossingCache := cacheStore st.m_zeroCrossingCache (ptr, threshold) e,
            scans := st.scans + 1 })

/-- Embeds `Filter::FindZeroCrossings(SparseDigitalWaveform*, vector<int64_t>&)`, whose
cache key is `(data, 0)`. -/
def FindZeroCrossings_SparseDigital {α : Type} [DecidableEq α] [Zero α]
    (st : AnalysisState α) (ptr : Nat) (data : SparseDigitalWaveform)
    (edges : List Int) : Option (List Int × AnalysisState α) :=
  match cacheFind st.m_zeroCrossingCache (ptr, (0 : α)) with
  | some stored => some (stored, st)
  | none =>
    (scanZeroCrossings_SparseDigital data edges).map fun e =>
      (e, { m_zeroCrossingCache := cacheStore st.m_zeroCrossingCache (ptr, (0 : α)) e,
            scans := st.scans + 1 })

/-- Embeds `Filter::ClearAnalysisCache`. -/
def ClearAnalysisCache {α : Type} (st : AnalysisState α) : AnalysisState α :=
  { st with m_zeroCrossingCache := [] }

/-- Indices `i` with `lo ≤ i < lo + cnt` at which `samples[i] != samples[i-1]`,
in increasing order. -/
def transitionsFrom (samples : List Bool) (lo cnt : Nat) : List Nat :=
  (List.range' lo cnt).filter fun i => samples.getD i false != samples.getD (i - 1) false

/-- The crossing list a uniform digital waveform has when every index `i` in `1..n-1`
with `samples[i] != samples[i-1]` contributes `timescale*i + timescale/2 + triggerPhase`. -/
def allTransitionStamps_UniformDigital (data : UniformDigitalWaveform) : List Int :=
  (transitionsFrom data.m_samples 1 (data.m_samples.length - 1)).map fun (i : Nat) =>
    data.m_timescale * (i : Int) + Int.tdiv data.m_timescale 2 + data.m_triggerPhase

/-- One call of a memoized `FindZeroCrossings` overload: the address of the waveform
passed, the contents the waveform has at the time of the call, the threshold and the
contents of the caller's output vector. -/
inductive ZeroCrossingCall (α : Type) where
  | sparseAnalog (ptr : Nat) (data : SparseAnalogWaveform α) (threshold : α) (edges : List Int)
  | uniformAnalog (ptr : Nat) (data : UniformAnalogWaveform α) (threshold : α) (edges : List Int)
  | sparseDigital (ptr : Nat) (data : SparseDigitalWaveform) (edges : List Int)

/-- Cache key `(data, threshold)` a call looks up; the digital overload uses threshold 0. -/
def ZeroCrossingCall.key {α : Type} [Zero α] : ZeroCrossingCall α → Nat × α
  | .sparseAnalog ptr _ threshold _ => (ptr, threshold)
  | .uniformAnalog ptr _ threshold _ => (ptr, threshold)
  | .sparseDigital ptr _ _ => (ptr, 0)

/-- The scan a call performs on a cache miss, over the samples it was given. -/
def ZeroCrossingCall.scan {α : Type} [LT α] [DecidableRel (fun a b : α => a < b)] [Mul α]
    (env : FloatEnv α) : ZeroCrossingCall α → Option (List Int)
  | .sparseAnalog _ data threshold edges => scanZeroCrossings_SparseAnalog env data threshold edges
  | .uniformAnalog _ data threshold edges => scanZeroCrossings_UniformAnalog env data threshold edges
  | .sparseDigital _ data edges => scanZeroCrossings_SparseDigital data edges

/-- Executes a call: the returned vector and the analysis state afterwards. -/
def ZeroCrossingCall.run {α : Type} [DecidableEq α] [Zero α] [LT α]
    [DecidableRel (fun a b : α => a < b)] [Mul α] (env : FloatEnv α) (st : AnalysisState α) :
    ZeroCrossingCall α → Option (List Int × AnalysisState α)
  | .sparseAnalog ptr data threshold edges =>
    FindZeroCrossings_SparseAnalog env st ptr data threshold edges
  | .uniformAnalog ptr data threshold edges =>
    FindZeroCrossings_UniformAnalog env st ptr data threshold edges
  | .sparseDigital ptr data edges => FindZeroCrossings_SparseDigital st ptr data edges

/-- Executes a sequence of `FindZeroCrossings` calls, none of them `ClearAnalysisCache`,
discarding the returned vectors. -/
def runCalls {α : Type} [DecidableEq α] [Zero α] [LT α]
    [DecidableRel (fun a b : α => a < b)] [Mul α] (env : FloatEnv α) :
    AnalysisState α → List (ZeroCrossingCall α) → Option (AnalysisState α)
  | st, [] => some st
  | st, c :: cs => (c.run env st).bind fun r => runCalls env r.2 cs

/-- Modelled from the spec: the single-waveform overload of `Filter::InterpolateTime` is
declared in `Filter.h`, which is not among the sources.  It finds the fractional tick at
which the line through samples `a` and `a+1` crosses the threshold, returning 0 if the
threshold is not bracketed. -/
def InterpolateTime_single (samples : List ℚ) (a : Nat) (voltage : ℚ) : ℚ :=
  let fa := samples.getD a 0
  let fb := samples.getD (a + 1) 0
  if decide (fa > voltage) = decide (fb > voltage) then 0 else (voltage - fa) / (fb - fa)

/-- An exact-arithmetic instance of the `float` environment over `ℚ`: conversion from
`int64_t` is the inclusion, conversion to `int64_t` truncates toward zero. -/
def exactEnv : FloatEnv ℚ where
  ofInt64 := fun n => (n : ℚ)
  toInt64 := fun q => Int.tdiv q.num (q.den : Int)
  InterpolateTime := InterpolateTime_single

/-- Shape conditions under which the scan of a call stays inside its arrays: fewer than
`2 ^ 64` samples, an offset for every sample of a sparse waveform, and at least one
sample for the digital overload (which reads `m_samples[0]`). -/
def ZeroCrossingCall.wellFormed {α : Type} : ZeroCrossingCall α → Bool
  | .sparseAnalog _ data _ _ =>
    decide (data.m_samples.length < SIZE_MOD ∧ data.m_samples.length ≤ data.m_offsets.length)
  | .uniformAnalog _ data _ _ => decide (data.m_samples.length < SIZE_MOD)
  | .sparseDigital _ data _ =>
    decide (1 ≤ data.m_samples.length ∧ data.m_samples.length ≤ data.m_offsets.length)

/-! ### Example data -/

/-- A five sample sparse digital waveform with transitions at indices 1, 2 and 4. -/
def exampleSparseDigital : SparseDigitalWaveform :=
  { m_timescale := 2, m_triggerPhase := 1, m_offsets := [0, 3, 7, 9, 12],
    m_durations := [], m_samples := [false, true, false, false, true] }

/-- The waveform of `exampleSparseDigital` after its samples were overwritten in place. -/
def exampleSparseDigitalMutated : SparseDigitalWaveform :=
  { m_timescale := 2, m_triggerPhase := 1, m_offsets := [0, 3, 7, 9, 12],
    m_durations := [], m_samples := [true, true, false, true, false] }

/-- A second, three sample sparse digital waveform. -/
def exampleSparseDigitalOther : SparseDigitalWaveform :=
  { m_timescale := 1, m_triggerPhase := 0, m_offsets := [0, 1, 2],
    m_durations := [], m_samples := [true, true, false] }

/-! ### Interpolation helpers -/

/-- Wrapping `size_t` addition `a + b`. -/
def addSize (a b : Nat) : Nat := (a + b) % SIZE_MOD

/-- Embeds `Filter::InterpolateValue(UniformAnalogWaveform*, size_t, float)`:
```
if(index+1 > cap->size())
	return cap->m_samples[index];
float v1 = cap->m_samples[index];
float v2 = cap->m_samples[index+1];
return v1 + (v2-v1)*frac_ticks;
```
The carrier `α` of `float` brings its own (rounded) operations. -/
def InterpolateValue_Uniform {α : Type} [Add α] [Sub α] [Mul α] (cap : UniformAnalogWaveform α)
    (index : Nat) (frac_ticks : α) : Option α :=
  if addSize index 1 > cap.m_samples.length then rd cap.m_samples index
  else
    (rd cap.m_samples index).bind fun v1 =>
    (rd cap.m_samples (addSize index 1)).map fun v2 =>
    v1 + (v2 - v1) * frac_ticks

/-- Embeds `Filter::InterpolateValue(SparseAnalogWaveform*, size_t, float)`:
```
if(index+1 > cap->size())
	return cap->m_samples[index];
float frac = frac_ticks / (cap->m_offsets[index+1] - cap->m_offsets[index]);
float v1 = cap->m_samples[index];
float v2 = cap->m_samples[index+1];
return v1 + (v2-v1)*frac;
```
The difference of the two offsets is an `int64_t`, converted to `float` by `ofInt64` for
the division. -/
def InterpolateValue_Sparse {α : Type} [Add α] [Sub α] [Mul α] [Div α] (ofInt64 : Int → α)
    (cap : SparseAnalogWaveform α) (index : Nat) (frac_ticks : α) : Option α :=
  if addSize index 1 > cap.m_samples.length then rd cap.m_samples index
  else
    (rd cap.m_offsets (addSize index 1)).bind fun o2 =>
    (rd cap.m_offsets index).bind fun o1 =>
    let frac := frac_ticks / ofInt64 (o2 - o1)
    (rd cap.m_samples index).bind fun v1 =>
    (rd cap.m_samples (addSize index 1)).map fun v2 =>
    v1 + (v2 - v1) * frac

/-! ### Example data for interpolation -/

/-- Positive leg of a differential pair, uniformly sampled. -/
def exampleUniformP : UniformAnalogWaveform ℚ :=
  { m_timescale := 1, m_triggerPhase := 0, m_samples := [1, 5, 6] }

/-- Positive leg of a differential pair, sparsely sampled two ticks apart. -/
def exampleSparseP : SparseAnalogWaveform ℚ :=
  { m_timescale := 1, m_triggerPhase := 0, m_offsets := [0, 2, 4], m_durations := [2, 2, 1],
    m_samples := [0, 2, 6] }

/-- One tap of the scalar kernel: `v += din->m_samples[i + j] * m_coefficients[j]`. -/
def firTap {α : Type} [Add α] [Mul α] (coeffs din : List α) (i j : Nat) (v : α) : Option α :=
  (rd din (i + j)).bind fun x =>
  (rd coeffs j).map fun c => v + x * c

/-- Body of the outer scalar loop: accumulate all taps from `v = 0`, then
`cap->m_samples[i] = v`. -/
def firOutput {α : Type} [Zero α] [Add α] [Mul α] (coeffs din : List α) (i : Nat)
    (cap : List α) : Option (List α) :=
  (forLoop coeffs.length 1 (firTap coeffs din i) coeffs.length 0 (0 : α)).bind fun v =>
  wr cap i v

/-- Embeds `FIRFilter::DoFilterKernelGeneric`: `coeffs` is `m_coefficients`, `din` the input
samples and `cap` the output samples, whose new contents are returned. -/
def DoFilterKernelGeneric {α : Type} [Zero α] [Add α] [Mul α] (coeffs din cap : List α) :
    Option (List α) :=
  let len := din.length
  let filterlen := coeffs.length
  let stop := subSize len filterlen
  forLoop stop 1 (firOutput coeffs din) stop 0 cap

/-- The value the convolution assigns to output `i`: the products `din[i+j] * coeffs[j]`
added to 0 one after another for `j = 0, 1, ..., L-1`. -/
def firSum {α : Type} [Zero α] [Add α] [Mul α] (coeffs din : List α) (i : Nat) : α :=
  (List.range coeffs.length).foldl (fun v j => v + din.getD (i + j) 0 * coeffs.getD j 0) 0

/-- The loop `for(; i < stop; i += step) body` started at `i`, returning also the value
of `i` at which it exits (the variable is declared outside the loop). -/
def forLoopExit {σ : Type} (stop step : Nat) (body : Nat → σ → Option σ) :
    Nat → Nat → σ → Option (Nat × σ)
  | 0, i, s => if i < stop then none else some (i, s)
  | fuel + 1, i, s =>
    if i < stop then (body i s).bind (forLoopExit stop step body fuel (i + step))
    else some (i, s)

/-- Unaligned vector load `_mm256_loadu_ps` / `_mm512_loadu_ps` of `lanes` floats at `p[i]`. -/
def loadu_ps {α : Type} (p : List α) (i : Nat) : Nat → Option (List α)
  | 0 => some []
  | lanes + 1 => (rd p i).bind fun x => (loadu_ps p (i + 1) lanes).map fun xs => x :: xs

/-- Vector store `_mm256_store_ps` / `_mm512_store_ps` of the lanes `v` at `p[i]`. -/
def store_ps {α : Type} (p : List α) (i : Nat) : List α → Option (List α)
  | [] => some p
  | x :: v => (wr p i x).bind fun p1 => store_ps p1 (i + 1) v

/-- Broadcast `_mm256_set1_ps` / `_mm512_set1_ps`. -/
def set1_ps {α : Type} (lanes : Nat) (x : α) : List α := List.replicate lanes x

/-- Lane-wise product `_mm256_mul_ps`. -/
def mul_ps {α : Type} [Mul α] (a b : List α) : List α := List.zipWith (fun x y => x * y) a b

/-- Lane-wise sum `_mm256_add_ps`. -/
def add_ps {α : Type} [Add α] (a b : List α) : List α := List.zipWith (fun x y => x + y) a b

/-- Lane-wise fused multiply-add `_mm512_fmadd_ps(a, b, c)`, `a*b + c` rounded once;
`fma` is the fused operation of the carrier. -/
def fmadd_ps {α : Type} (fma : α → α → α → α) (a b c : List α) : List α :=
  List.zipWith3 fma a b c

/-- The unrolled loads `vin_a = loadu(base + off_a)`, `vin_b = loadu(base + off_b)`, ...,
one register per entry of `offs`. -/
def loadRegs {α : Type} (lanes : Nat) (p : List α) (base : Nat) : List Nat → Option (List (List α))
  | [] => some []
  | o :: offs =>
    (loadu_ps p (base + o) lanes).bind fun v =>
    (loadRegs lanes p base offs).map fun vs => v :: vs

/-- The unrolled stores `store(pout + i + off_a, v_a)`, `store(pout + i + off_b, v_b)`, ... -/
def storeRegs {α : Type} (p : List α) (i : Nat) : List Nat → List (List α) → Option (List α)
  | o :: offs, v :: vs => (store_ps p (i + o) v).bind fun p1 => storeRegs p1 i offs vs
  | _, _ => some p

/-- Register offsets of the AVX2 kernel: eight 8-lane accumulators `v_a .. v_h`. -/
def offsetsAVX2 : List Nat := [0, 8, 16, 24, 32, 40, 48, 56]

/-- Register offsets of the AVX512F kernel: four 16-lane accumulators `v_a .. v_d`. -/
def offsetsAVX512F : List Nat := [0, 16, 32, 48]

/-- Body of the tap loop of the AVX2 kernel (`j ≥ 1`):
`prod_x = mul(coeff, vin_x); v_x = add(prod_x, v_x)` for every register. -/
def tapAVX2 {α : Type} [Add α] [Mul α] (coeffs din : List α) (base j : Nat)
    (v : List (List α)) : Option (List (List α)) :=
  (rd coeffs j).bind fun c =>
  (loadRegs 8 din (base + j) offsetsAVX2).map fun vin =>
  List.zipWith (fun x acc => add_ps (mul_ps (set1_ps 8 c) x) acc) vin v

/-- Body of the vectorized outer loop of the AVX2 kernel: 64 outputs starting at `i`. -/
def blockAVX2 {α : Type} [Add α] [Mul α] (coeffs din : List α) (i : Nat) (cap : List α) :
    Option (List α) :=
  (rd coeffs 0).bind fun c0 =>
  (loadRegs 8 din i offsetsAVX2).bind fun vin =>
  let v := vin.map fun x => mul_ps (set1_ps 8 c0) x
  (forLoop coeffs.length 1 (tapAVX2 coeffs din i) coeffs.length 1 v).bind fun v1 =>
  storeRegs cap i offsetsAVX2 v1

/-- Embeds `FIRFilter::DoFilterKernelAVX2`. -/
def DoFilterKernelAVX2 {α : Type} [Zero α] [Add α] [Mul α] (coeffs din cap : List α) :
    Option (List α) :=
  let len := din.length
  let filterlen := coeffs.length
  let stop := subSize len filterlen
  let end_rounded := stop - (stop % 64)
  (forLoopExit end_rounded 64 (blockAVX2 coeffs din) end_rounded 0 cap).bind fun r =>
  forLoop end_rounded 1 (firOutput coeffs din) end_rounded r.1 r.2

/-- Body of the tap loop of the AVX512F kernel (`j ≥ 1`): `v_x = fmadd(coeff, vin_x, v_x)`. -/
def tapAVX512F {α : Type} (fma : α → α → α → α) (coeffs din : List α) (base j : Nat)
    (v : List (List α)) : Option (List (List α)) :=
  (rd coeffs j).bind fun c =>
  (loadRegs 16 din (base + j) offsetsAVX512F).map fun vin =>
  List.zipWith (fun x acc => fmadd_ps fma (set1_ps 16 c) x acc) vin v

/-- Body of the vectorized outer loop of the AVX512F kernel. -/
def blockAVX512F {α : Type} [Mul α] (fma : α → α → α → α) (coeffs din : List α) (i : Nat)
    (cap : List α) : Option (List α) :=
  (rd coeffs 0).bind fun c0 =>
  (loadRegs 16 din i offsetsAVX512F).bind fun vin =>
  let v := vin.map fun x => mul_ps (set1_ps 16 c0) x
  (forLoop coeffs.length 1 (tapAVX512F fma coeffs din i) coeffs.length 1 v).bind fun v1 =>
  storeRegs cap i offsetsAVX512F v1

/-- Embeds `FIRFilter::DoFilterKernelAVX512F`. -/
def DoFilterKernelAVX512F {α : Type} [Zero α] [Add α] [Mul α] (fma : α → α → α → α)
    (coeffs din cap : List α) : Option (List α) :=
  let len := din.length
  let filterlen := coeffs.length
  let stop := subSize len filterlen
  let end_rounded := stop - (stop % 64)
  (forLoopExit end_rounded 64 (blockAVX512F fma coeffs din) end_rounded 0 cap).bind fun r =>
  forLoop end_rounded 1 (firOutput coeffs din) end_rounded r.1 r.2

/-- Exact fused multiply-add on the integers, used to run the kernels on examples. -/
def fmaInt (a b c : Int) : Int := a * b + c

/-- An input of 68 samples `1, 2, ..., 68`. -/
def exampleInput68 : List Int := (List.range 68).map fun (k : Nat) => (k : Int) + 1

/-! ### FIR coefficient design (`FIRFilter.cpp`) -/

/-- The enumeration `FIRFilter::FilterType`. -/
inductive FilterType where
  | FILTER_TYPE_LOWPASS
  | FILTER_TYPE_HIGHPASS
  | FILTER_TYPE_BANDPASS
  | FILTER_TYPE_NOTCH
deriving DecidableEq, Repr

/-- Library functions and conversions the coefficient design uses on the carrier of
`float`/`double`: `sin`, `sqrt`, `pow`, the constant `M_PI`, the conversion of a `size_t`
to floating point, the value of a decimal literal, and the conversion of a floating point
value to `size_t`. -/
structure MathEnv (α : Type) where
  sin : α → α
  sqrt : α → α
  pow : α → α → α
  pi : α
  ofNat : Nat → α
  lit : ℚ → α
  toSize : α → Nat

/-- The filter length `FIRFilter::Refresh` works with: the configured length converted
to `size_t`, replaced when it is 0 by the length derived from the attenuation and the
transition band, then `filterlen |= 1`. -/
def FIRFilter_filterLength {α : Type} [Sub α] [Mul α] [Div α] (env : MathEnv α)
    (requested : Int) (atten sample_hz flo fhi : α) : Nat :=
  let filterlen := (requested % (SIZE_MOD : Int)).toNat
  let filterlen := if filterlen = 0
    then env.toSize ((atten / env.lit 22) * (sample_hz / (fhi - flo))) % SIZE_MOD
    else filterlen
  filterlen ||| 1

/-- The loop of `FIRFilter::Bessel`, `while(ds > s*1e-6) { d += 2; ds *= (x*x)/(d*d);
s += ds; }`, with a bound on the number of iterations. -/
def BesselLoop {α : Type} [Add α] [Mul α] [Div α] [LT α] [DecidableRel (fun a b : α => a < b)]
    (env : MathEnv α) (x : α) : Nat → α → α → α → Option α
  | 0, _, ds, s => if ds > s * env.lit (1 / 1000000) then none else some s
  | fuel + 1, d, ds, s =>
    if ds > s * env.lit (1 / 1000000) then
      let d1 := d + env.lit 2
      let ds1 := ds * ((x * x) / (d1 * d1))
      BesselLoop env x fuel d1 ds1 (s + ds1)
    else some s

/-- Embeds `FIRFilter::Bessel`, run for at most `fuel` iterations. -/
def Bessel {α : Type} [Add α] [Mul α] [Div α] [LT α] [DecidableRel (fun a b : α => a < b)]
    (env : MathEnv α) (fuel : Nat) (x : α) : Option α :=
  BesselLoop env x fuel (env.lit 0) (env.lit 1) (env.lit 1)

/-- The impulse response vector built at the start of `CalculateFilterCoefficients`:
`fb - fa` followed by `(sin(j*M_PI*fb) - sin(j*M_PI*fa)) / (j*M_PI)` for `j = 1 .. np`. -/
def firImpulse {α : Type} [Sub α] [Mul α] [Div α] (env : MathEnv α) (fa fb : α) (np : Nat) :
    List α :=
  (fb - fa) :: (List.range' 1 np).map fun (j : Nat) =>
    (env.sin (env.ofNat j * env.pi * fb) - env.sin (env.ofNat j * env.pi * fa)) /
      (env.ofNat j * env.pi)

/-- The Kaiser window parameter chosen from the stop-band attenuation. -/
def kaiserAlpha {α : Type} [Add α] [Sub α] [Mul α] [LT α] [DecidableRel (fun a b : α => a < b)]
    (env : MathEnv α) (stopbandAtten : α) : α :=
  if stopbandAtten < env.lit 21 then env.lit 0
  else if stopbandAtten > env.lit 50 then
    env.lit (1102 / 10000) * (stopbandAtten - env.lit (87 / 10))
  else
    env.lit (5842 / 10000) * env.pow (stopbandAtten - env.lit 21) (env.lit (4 / 10)) +
      env.lit (7886 / 100000) * (stopbandAtten - env.lit 21)

/-- Argument of the window's Bessel function at tap `j`:
`alpha * sqrt(1 - ((j*j*1.0)/(np*np)))`. -/
def windowArg {α : Type} [Sub α] [Mul α] [Div α] (env : MathEnv α) (alpha : α) (np j : Nat) : α :=
  alpha * env.sqrt (env.lit 1 -
    (env.ofNat ((j * j) % SIZE_MOD) * env.lit 1) / env.ofNat ((np * np) % SIZE_MOD))

/-- Body of the windowing loop: `m_coefficients[np+j] = ±impulse[j] * Bessel(...) / ia`,
with the minus sign for the notch class. -/
def windowStep {α : Type} [Add α] [Sub α] [Mul α] [Div α] [Neg α] [LT α]
    [DecidableRel (fun a b : α => a < b)] (env : MathEnv α) (fuel : Nat) (notch : Bool)
    (impulse : List α) (alpha ia : α) (np j : Nat) (coeffs : List α) : Option (List α) :=
  (rd impulse j).bind fun imp =>
  (Bessel env fuel (windowArg env alpha np j)).bind fun b =>
  wr coeffs (np + j) ((if notch then -imp else imp) * b / ia)

/-- Body of the final loop: `m_coefficients[j] = m_coefficients[len-1-j]`. -/
def mirrorStep {α : Type} (len j : Nat) (coeffs : List α) : Option (List α) :=
  (rd coeffs (subSize (subSize len 1) j)).bind fun x => wr coeffs j x

/-- Embeds `FIRFilter::CalculateFilterCoefficients`; `coeffs` is `m_coefficients` as
resized by the caller, the new contents are returned.  `fuel` bounds the iterations of
each `Bessel` evaluation. -/
def CalculateFilterCoefficients {α : Type} [Add α] [Sub α] [Mul α] [Div α] [Neg α] [LT α]
    [DecidableRel (fun a b : α => a < b)] (env : MathEnv α) (fuel : Nat) (coeffs : List α)
    (fa fb stopbandAtten : α) (type : FilterType) : Option (List α) :=
  let len := coeffs.length
  let np := subSize len 1 / 2
  let impulse := firImpulse env fa fb np
  let alpha := kaiserAlpha env stopbandAtten
  (Bessel env fuel alpha).bind fun ia =>
  (if type = FilterType.FILTER_TYPE_NOTCH then
    (forLoop (np + 1) 1 (windowStep env fuel true impulse alpha ia np) (np + 1) 0 coeffs).bind
      fun c1 => (rd c1 np).bind fun x => wr c1 np (x + env.lit 1)
   else
    forLoop (np + 1) 1 (windowStep env fuel false impulse alpha ia np) (np + 1) 0 coeffs).bind
  fun c2 => forLoop (np + 1) 1 (mirrorStep len) (np + 1) 0 c2

/-- Rational stand-ins for the library functions, used to run the design on examples:
`sin x` is replaced by `x - x^3/6`, `sqrt` and `pow` by their first argument, `M_PI` by
`22/7`; conversions are exact or truncating. -/
def exampleMath : MathEnv ℚ where
  sin := fun x => x - x * x * x / 6
  sqrt := fun x => x
  pow := fun x _ => x
  pi := 22 / 7
  ofNat := fun n => (n : ℚ)
  lit := fun q => q
  toSize := fun q => (Int.tdiv q.num (q.den : Int)).toNat

/-! ### Waveform objects, streams and the output set-up helpers (`Filter.cpp`) -/

/-- Concrete class of a waveform object, as tested by `dynamic_cast`. -/
inductive WaveformKind where
  | UniformAnalog
  | SparseAnalog
  | UniformDigital
  | SparseDigital
deriving DecidableEq, Repr

/-- A waveform object on the heap: its concrete class, the `WaveformBase` metadata, the
timebase arrays (used by the sparse classes) and the sample array (`m_analog` holds
`m_samples` of an analog waveform, `m_digital` those of a digital one). -/
structure Waveform (α : Type) where
  kind : WaveformKind
  m_timescale : Int
  m_startTimestamp : Int
  m_startFemtoseconds : Int
  m_triggerPhase : Int
  m_revision : Nat
  m_offsets : List Int
  m_durations : List Int
  m_analog : List α
  m_digital : List Bool
deriving DecidableEq, Repr

/-- Tells whether a class is one of the two sparse ones. -/
def WaveformKind.isSparse : WaveformKind → Bool
  | .SparseAnalog => true
  | .SparseDigital => true
  | _ => false

/-- Tells whether a class is one of the two analog ones. -/
def WaveformKind.isAnalog : WaveformKind → Bool
  | .UniformAnalog => true
  | .SparseAnalog => true
  | _ => false

/-- Modelled from the spec: `size()` is declared in `Waveform.h`; it is the sample count,
the length of `m_samples`. -/
def Waveform.size {α : Type} (w : Waveform α) : Nat :=
  if w.kind.isAnalog then w.m_analog.length else w.m_digital.length

/-- Modelled from the spec: `clear()` is declared in `Waveform.h`, which is not among the
sources; it clears the sample payload, that is the samples and, with them, the offsets
and durations. -/
def Waveform.clear {α : Type} (w : Waveform α) : Waveform α :=
  { w with m_offsets := [], m_durations := [], m_analog := [], m_digital := [] }

/-- Modelled from the spec: `Resize(size)` is declared in `Waveform.h`; it resizes the
sample array and, for a sparse waveform, the offsets and durations, keeping the leading
elements.  New elements are unspecified; the model pads with `pad`, `0` and `false`. -/
def Waveform.Resize {α : Type} (pad : α) (w : Waveform α) (n : Nat) : Waveform α :=
  { w with
    m_offsets := if w.kind.isSparse then resize 0 w.m_offsets n else w.m_offsets
    m_durations := if w.kind.isSparse then resize 0 w.m_durations n else w.m_durations
    m_analog := if w.kind.isAnalog then resize pad w.m_analog n else w.m_analog
    m_digital := if w.kind.isAnalog then w.m_digital else resize false w.m_digital n }

/-- An input binding of a filter (`StreamDescriptor`): the upstream channel, `none` for
`NULL`, and the address of the waveform that upstream stream currently holds, `none`
for `NULL` (what `GetData()` returns). -/
structure InputBinding where
  m_channel : Option Nat
  m_waveform : Option Nat
deriving DecidableEq, Repr

/-- The part of the program state a filter's evaluation works on: the heap of waveform
objects by address, the waveform pointer of each of the filter's output streams
(`m_streams[i].m_waveform`), its input bindings, and the address the next `new` returns. -/
structure FilterState (α : Type) where
  heap : Nat → Option (Waveform α)
  m_streams : List (Option Nat)
  m_inputs : List InputBinding
  fresh : Nat

/-- Embeds `OscilloscopeChannel::GetData` (`OscilloscopeChannel.h`). -/
def GetData {α : Type} (st : FilterState α) (stream : Nat) : Option Nat :=
  if stream ≥ st.m_streams.length then none else (st.m_streams.getD stream none)

/-- Modelled from the spec: `OscilloscopeChannel::SetData` is only declared in the sources
("Set new data, overwriting the old data as appropriate").  It binds `pNew` to the stream
and discards the waveform the stream held before, unless that is `pNew` itself.  An index
outside `m_streams` is an out of bounds access. -/
def SetData {α : Type} (st : FilterState α) (pNew : Option Nat) (stream : Nat) :
    Option (FilterState α) :=
  (rd st.m_streams stream).bind fun old =>
  if old = pNew then some st
  else
    some { st with
      heap := match old with
        | some p => fun q => if q = p then none else st.heap q
        | none => st.heap
      m_streams := st.m_streams.set stream pNew }

/-- Modelled from the spec: the waveform constructors are declared in `Waveform.h`.  The
state of an object right after `new`, for each class: no samples; `blank` gives the
metadata the constructor leaves. -/
def newWaveform {α : Type} (blank : Waveform α) (kind : WaveformKind) : Waveform α :=
  { blank with kind := kind, m_offsets := [], m_durations := [], m_analog := [], m_digital := [] }

/-- The pointer `dynamic_cast<K*>(p)`: `p` when it points to an object of class `kind`,
`NULL` when `p` is `NULL` or points to another class; a dangling `p` is an error. -/
def dynamicCast {α : Type} (st : FilterState α) (kind : WaveformKind) :
    Option Nat → Option (Option Nat)
  | none => some none
  | some p => (st.heap p).map fun w => if w.kind = kind then some p else none

/-- The opening every output set-up helper repeats, for the class `kind`:
`cap = dynamic_cast<K*>(GetData(stream)); if(cap == NULL) { cap = new K; SetData(cap, stream); }`.
Returns the pointer `cap` and the new state. -/
def acquireOutputWaveform {α : Type} (blank : Waveform α) (kind : WaveformKind)
    (st : FilterState α) (stream : Nat) : Option (Nat × FilterState α) :=
  (dynamicCast st kind (GetData st stream)).bind fun existing =>
  match existing with
  | some cap => some (cap, st)
  | none =>
    (SetData { st with
        heap := fun q => if q = st.fresh then some (newWaveform blank kind) else st.heap q
        fresh := st.fresh + 1 } (some st.fresh) stream).map fun st1 => (st.fresh, st1)

/-- The code the four `SetupEmpty...OutputWaveform` helpers share, for the class `kind`:
reuse the stream's waveform when it has that class, else allocate one and bind it; copy
the metadata of `din`; bump the revision; clear when asked.  Returns the pointer `cap`
and the new state. -/
def setupEmptyOutputWaveform {α : Type} (blank : Waveform α) (kind : WaveformKind)
    (st : FilterState α) (din : Nat) (stream : Nat) (clear : Bool) :
    Option (Nat × FilterState α) :=
  (acquireOutputWaveform blank kind st stream).bind fun r =>
  (r.2.heap din).bind fun d =>
  (r.2.heap r.1).bind fun w =>
  let w1 := { w with
    m_startTimestamp := d.m_startTimestamp
    m_startFemtoseconds := d.m_startFemtoseconds
    m_triggerPhase := d.m_triggerPhase
    m_timescale := d.m_timescale }
  let w2 := { w1 with m_revision := w1.m_revision + 1 }
  let w3 := if clear then w2.clear else w2
  some (r.1, { r.2 with heap := fun q => if q = r.1 then some w3 else r.2.heap q })

/-- Embeds `Filter::SetupEmptyUniformAnalogOutputWaveform`. -/
def SetupEmptyUniformAnalogOutputWaveform {α : Type} (blank : Waveform α)
    (st : FilterState α) (din : Nat) (stream : Nat) (clear : Bool) :
    Option (Nat × FilterState α) :=
  setupEmptyOutputWaveform blank WaveformKind.UniformAnalog st din stream clear

/-- Embeds `Filter::SetupEmptySparseAnalogOutputWaveform`. -/
def SetupEmptySparseAnalogOutputWaveform {α : Type} (blank : Waveform α)
    (st : FilterState α) (din : Nat) (stream : Nat) (clear : Bool) :
    Option (Nat × FilterState α) :=
  setupEmptyOutputWaveform blank WaveformKind.SparseAnalog st din stream clear

/-- Embeds `Filter::SetupEmptyUniformDigitalOutputWaveform`, which always clears. -/
def SetupEmptyUniformDigitalOutputWaveform {α : Type} (blank : Waveform α)
    (st : FilterState α) (din : Nat) (stream : Nat) : Option (Nat × FilterState α) :=
  setupEmptyOutputWaveform blank WaveformKind.UniformDigital st din stream true

/-- Embeds `Filter::SetupEmptySparseDigitalOutputWaveform`, which always clears. -/
def SetupEmptySparseDigitalOutputWaveform {α : Type} (blank : Waveform α)
    (st : FilterState α) (din : Nat) (stream : Nat) : Option (Nat × FilterState α) :=
  setupEmptyOutputWaveform blank WaveformKind.SparseDigital st din stream true

/-- Copy `memcpy(&dst[0], &src[start], n*sizeof(int64_t))` of `n` elements; both ranges
must lie inside their arrays. -/
def memcpyInt64 (dst src : List Int) (start n : Nat) : Option (List Int) :=
  if start + n ≤ src.length ∧ n ≤ dst.length
  then some ((src.drop start).take n ++ dst.drop n) else none

/-- The tail both timebase-copying helpers share once `cap` is known: copy the metadata
of `din`, resize `cap` to `len`, copy `len` offsets and durations of `din` from index
`skipstart` on. -/
def copyTimebase {α : Type} (pad : α) (st : FilterState α) (cap din : Nat) (len skipstart : Nat) :
    Option (FilterState α) :=
  (st.heap din).bind fun d =>
  (st.heap cap).bind fun w =>
  let w1 := { w with
    m_timescale := d.m_timescale
    m_startTimestamp := d.m_startTimestamp
    m_startFemtoseconds := d.m_startFemtoseconds
    m_triggerPhase := d.m_triggerPhase }
  let w2 := w1.Resize pad len
  let st1 : FilterState α := { st with heap := fun q => if q = cap then some w2 else st.heap q }
  (st1.heap din).bind fun d1 =>
  (memcpyInt64 w2.m_offsets d1.m_offsets skipstart len).bind fun offs =>
  let w3 := { w2 with m_offsets := offs }
  let st2 : FilterState α := { st1 with heap := fun q => if q = cap then some w3 else st1.heap q }
  (st2.heap din).bind fun d2 =>
  (memcpyInt64 w3.m_durations d2.m_durations skipstart len).map fun durs =>
  { st2 with heap := fun q => if q = cap then some { w3 with m_durations := durs } else st2.heap q }

/-- Embeds `Filter::SetupSparseOutputWaveform`; `din` must point to a sparse waveform. -/
def SetupSparseOutputWaveform {α : Type} (blank : Waveform α) (pad : α) (st : FilterState α)
    (din : Nat) (stream skipstart skipend : Nat) : Option (Nat × FilterState α) :=
  (SetupEmptySparseAnalogOutputWaveform blank st din stream false).bind fun r =>
  (r.2.heap din).bind fun d =>
  let len := subSize d.size (addSize skipstart skipend)
  (copyTimebase pad r.2 r.1 din len skipstart).map fun st1 => (r.1, st1)

/-- Embeds `Filter::SetupSparseDigitalOutputWaveform`; `din` must point to a sparse
waveform. -/
def SetupSparseDigitalOutputWaveform {α : Type} (blank : Waveform α) (pad : α)
    (st : FilterState α) (din : Nat) (stream skipstart skipend : Nat) :
    Option (Nat × FilterState α) :=
  (acquireOutputWaveform blank WaveformKind.SparseDigital st stream).bind fun r =>
  (r.2.heap din).bind fun d =>
  let len := subSize d.m_offsets.length (addSize skipstart skipend)
  (copyTimebase pad r.2 r.1 din len skipstart).map fun st1 => (r.1, st1)

/-- The four `SetupEmpty...OutputWaveform` helpers, selected by the class they return;
the digital helpers take no `clear` argument. -/
def SetupEmptyOutputWaveform {α : Type} (blank : Waveform α) (kind : WaveformKind)
    (st : FilterState α) (din : Nat) (stream : Nat) (clear : Bool) :
    Option (Nat × FilterState α) :=
  match kind with
  | .UniformAnalog => SetupEmptyUniformAnalogOutputWaveform blank st din stream clear
  | .SparseAnalog => SetupEmptySparseAnalogOutputWaveform blank st din stream clear
  | .UniformDigital => SetupEmptyUniformDigitalOutputWaveform blank st din stream
  | .SparseDigital => SetupEmptySparseDigitalOutputWaveform blank st din stream

/-- A blank waveform object: the fields a constructor zero-initialises. -/
def blankWaveform (α : Type) : Waveform α :=
  { kind := WaveformKind.UniformAnalog, m_timescale := 0, m_startTimestamp := 0,
    m_startFemtoseconds := 0, m_triggerPhase := 0, m_revision := 0, m_offsets := [],
    m_durations := [], m_analog := [], m_digital := [] }

/-- An input capture: a sparse digital waveform of four samples, revision 3. -/
def exampleInputWaveform : Waveform Int :=
  { kind := WaveformKind.SparseDigital, m_timescale := 100, m_startTimestamp := 1700000000,
    m_startFemtoseconds := 25, m_triggerPhase := 7, m_revision := 3,
    m_offsets := [0, 10, 25, 40], m_durations := [10, 15, 15, 1], m_analog := [],
    m_digital := [false, true, true, false] }

/-- An output waveform left by an earlier evaluation: sparse digital, two samples,
revision 5. -/
def exampleOldOutput : Waveform Int :=
  { kind := WaveformKind.SparseDigital, m_timescale := 50, m_startTimestamp := 1600000000,
    m_startFemtoseconds := 0, m_triggerPhase := 0, m_revision := 5,
    m_offsets := [0, 1], m_durations := [1, 1], m_analog := [],
    m_digital := [true, false] }

/-- A filter whose stream 0 holds `exampleOldOutput` at address 2 and whose input is the
waveform `exampleInputWaveform` at address 1. -/
def exampleFilterState : FilterState Int :=
  { heap := fun q => if q = 1 then some exampleInputWaveform
      else if q = 2 then some exampleOldOutput else none
    m_streams := [some 2]
    m_inputs := [{ m_channel := some 0, m_waveform := some 1 }]
    fresh := 3 }

/-- What the set-up helpers promise about the waveform `w` they return, given the input
`d`, the state `before` of that same object before the call (the blank object when it was
just allocated) and whether the payload is cleared: class, the four metadata fields of
the input, the revision bumped by one, and the payload empty or untouched. -/
def OutputReady {α : Type} (kind : WaveformKind) (clear : Bool) (d before w : Waveform α) :
    Prop :=
  w.kind = kind ∧
  w.m_startTimestamp = d.m_startTimestamp ∧
  w.m_startFemtoseconds = d.m_startFemtoseconds ∧
  w.m_triggerPhase = d.m_triggerPhase ∧
  w.m_timescale = d.m_timescale ∧
  w.m_revision = before.m_revision + 1 ∧
  (clear = true →
    w.m_offsets = [] ∧ w.m_durations = [] ∧ w.m_analog = [] ∧ w.m_digital = []) ∧
  (clear = false →
    w.m_offsets = before.m_offsets ∧ w.m_durations = before.m_durations ∧
    w.m_analog = before.m_analog ∧ w.m_digital = before.m_digital)

/-- The output `w` carries `len` samples whose offsets and durations are those of the
input `d` from index `skipstart` on. -/
def TimebaseCopied {α : Type} (skipstart len : Nat) (d w : Waveform α) : Prop :=
  w.size = len ∧ w.m_offsets.length = len ∧ w.m_durations.length = len ∧
  ∀ i, i < len →
    w.m_offsets[i]? = d.m_offsets[skipstart + i]? ∧
    w.m_durations[i]? = d.m_durations[skipstart + i]?

/-! ### `FIRFilter::Refresh` (`FIRFilter.cpp`) -/

/-- The constant `FS_PER_SECOND` of `ScopehalUtils.h`. -/
def FS_PER_SECOND : ℚ := 1000000000000000

/-- The loop of `Filter::VerifyAllInputsOKAndUniformAnalog` over the inputs: `false` at the
first input without a channel, without a waveform, with an empty waveform, or with a
waveform that is not uniform analog.  A dangling waveform pointer is an error. -/
def verifyUniformAnalogInputs {α : Type} (heap : Nat → Option (Waveform α)) :
    List InputBinding → Option Bool
  | [] => some true
  | p :: ps =>
    match p.m_channel with
    | none => some false
    | some _ =>
      match p.m_waveform with
      | none => some false
      | some a =>
        (heap a).bind fun data =>
        if data.size = 0 then some false
        else if data.kind ≠ WaveformKind.UniformAnalog then some false
        else verifyUniformAnalogInputs heap ps

/-- Embeds `Filter::VerifyAllInputsOKAndUniformAnalog`. -/
def VerifyAllInputsOKAndUniformAnalog {α : Type} (st : FilterState α) : Option Bool :=
  verifyUniformAnalogInputs st.heap st.m_inputs

/-- Modelled from the spec: `GetInputWaveform(i)` is declared outside the sources; it
returns the waveform currently held by the stream bound to input `i`.  An index outside
`m_inputs` is an out of bounds access. -/
def GetInputWaveform {α : Type} (st : FilterState α) (i : Nat) : Option (Option Nat) :=
  (rd st.m_inputs i).map fun p => p.m_waveform

/-- The state of a `FIRFilter`: the filter base, the coefficient buffer and the
parameters `Refresh` reads. -/
structure FIRFilterState (α : Type) where
  base : FilterState α
  m_coefficients : List α
  m_filterType : FilterType
  m_filterLength : Int
  m_stopbandAtten : α
  m_freqLow : α
  m_freqHigh : α

/-- The globals selecting the kernel in `FIRFilter::DoFilterKernel`, the compute shader
run on the GPU path (not part of the sources) and the fused multiply-add of the carrier. -/
structure FIRPlatform (α : Type) where
  g_gpuFilterEnabled : Bool
  g_hasAvx512F : Bool
  g_hasAvx2 : Bool
  gpuKernel : List α → List α → List α → Option (List α)
  fma : α → α → α → α

/-- Embeds `FIRFilter::DoFilterKernel` on the sample arrays: `coeffs` is `m_coefficients`,
`din` the input samples, `cap` the output samples. -/
def DoFilterKernel {α : Type} [Zero α] [Add α] [Mul α] (plat : FIRPlatform α)
    (coeffs din cap : List α) : Option (List α) :=
  if plat.g_gpuFilterEnabled then plat.gpuKernel coeffs din cap
  else if plat.g_hasAvx512F then DoFilterKernelAVX512F plat.fma coeffs din cap
  else if plat.g_hasAvx2 then DoFilterKernelAVX2 coeffs din cap
  else DoFilterKernelGeneric coeffs din cap

/-- The band edges `(flo, fhi)` `FIRFilter::Refresh` works with: the class adjustment
(`flo = 0` for a low pass, `fhi = nyquist` for a high pass, else swapped when
`fhi < flo`) followed by `flo = max(flo, 0.0f); fhi = min(fhi, nyquist)`. -/
def FIRFilter_bandEdges {α : Type} [LT α] [DecidableRel (fun a b : α => a < b)]
    (env : MathEnv α) (type : FilterType) (flo fhi nyquist : α) : α × α :=
  let p : α × α :=
    if type = FilterType.FILTER_TYPE_LOWPASS then (env.lit 0, fhi)
    else if type = FilterType.FILTER_TYPE_HIGHPASS then (flo, nyquist)
    else if fhi < flo then (fhi, flo)
    else (flo, fhi)
  (if p.1 < env.lit 0 then env.lit 0 else p.1, if nyquist < p.2 then nyquist else p.2)

/-- The part of `FIRFilter::Refresh` after the configuration checks: design the
coefficients, set up and resize the output, run the kernel, shift the trigger phase. -/
def FIRFilter_run {α : Type} [Zero α] [Add α] [Sub α] [Mul α] [Div α] [Neg α] [LT α]
    [DecidableRel (fun a b : α => a < b)] (env : MathEnv α) (plat : FIRPlatform α)
    (fuel : Nat) (blank : Waveform α) (pad : α) (clear : Bool) (st : FIRFilterState α)
    (din : Nat) (fs_per_sample : Int) (flo fhi nyquist atten : α) (filterlen : Nat) :
    Option (FIRFilterState α) :=
  (CalculateFilterCoefficients env fuel (resize pad st.m_coefficients filterlen)
    (flo / nyquist) (fhi / nyquist) atten st.m_filterType).bind fun coeffs =>
  let radius := subSize filterlen 1 / 2
  (SetupEmptyUniformAnalogOutputWaveform blank st.base din 0 clear).bind fun r =>
  (r.2.heap r.1).bind fun w =>
  (r.2.heap din).bind fun d1 =>
  let w1 := w.Resize pad (subSize d1.size filterlen)
  let b1 : FilterState α :=
    { r.2 with heap := fun q => if q = r.1 then some w1 else r.2.heap q }
  (b1.heap din).bind fun d2 =>
  (DoFilterKernel plat coeffs d2.m_analog w1.m_analog).bind fun out =>
  let w2 := { w1 with m_analog := out }
  let b2 : FilterState α :=
    { b1 with heap := fun q => if q = r.1 then some w2 else b1.heap q }
  (b2.heap din).map fun d3 =>
  let w3 := { w2 with m_triggerPhase := (radius : Int) * fs_per_sample + d3.m_triggerPhase }
  { st with
    base := { b2 with heap := fun q => if q = r.1 then some w3 else b2.heap q }
    m_coefficients := coeffs }

/-- Embeds `FIRFilter::Refresh`.  `clear` is the default argument of
`SetupEmptyUniformAnalogOutputWaveform`, declared outside the sources; `fuel` bounds the
Bessel loops of the coefficient design. -/
def FIRFilter_Refresh {α : Type} [Zero α] [Add α] [Sub α] [Mul α] [Div α] [Neg α] [LT α]
    [DecidableRel (fun a b : α => a < b)] [DecidableEq α] (env : MathEnv α)
    (plat : FIRPlatform α) (fuel : Nat) (blank : Waveform α) (pad : α) (clear : Bool)
    (st : FIRFilterState α) : Option (FIRFilterState α) :=
  (VerifyAllInputsOKAndUniformAnalog st.base).bind fun ok =>
  if ok = false then (SetData st.base none 0).map fun b => { st with base := b }
  else
    (GetInputWaveform st.base 0).bind fun p =>
    (dynamicCast st.base WaveformKind.UniformAnalog p).bind fun cast =>
    cast.bind fun din =>
    (st.base.heap din).bind fun d =>
    let fs_per_sample := d.m_timescale
    let sample_hz := env.lit FS_PER_SECOND / env.lit (fs_per_sample : ℚ)
    let nyquist := sample_hz / env.lit 2
    let edges := FIRFilter_bandEdges env st.m_filterType st.m_freqLow st.m_freqHigh nyquist
    let flo := edges.1
    let fhi := edges.2
    let atten := st.m_stopbandAtten
    let filterlen := FIRFilter_filterLength env st.m_filterLength atten sample_hz flo fhi
    if flo = fhi then (SetData st.base none 0).map fun b => { st with base := b }
    else if filterlen > 4096 then (SetData st.base none 0).map fun b => { st with base := b }
    else FIRFilter_run env plat fuel blank pad clear st din fs_per_sample flo fhi nyquist atten
      filterlen

/-- A uniform analog capture of five samples at 1000 fs per sample. -/
def exampleAnalogInput : Waveform ℚ :=
  { kind := WaveformKind.UniformAnalog, m_timescale := 1000, m_startTimestamp := 1700000000,
    m_startFemtoseconds := 25, m_triggerPhase := 5, m_revision := 3,
    m_offsets := [], m_durations := [], m_analog := [1, 2, 3, 4, 5], m_digital := [] }

/-- A filter base with one input bound to the waveform `w` at address 1 and one output
stream holding no waveform. -/
def exampleBase (w : Waveform ℚ) : FilterState ℚ :=
  { heap := fun q => if q = 1 then some w else none
    m_streams := [none]
    m_inputs := [{ m_channel := some 0, m_waveform := some 1 }]
    fresh := 2 }

/-- A low pass FIR filter of requested length `len`, cut-off `fhi` and 10 dB stop-band
attenuation on the input `w`. -/
def exampleFIR (w : Waveform ℚ) (len : Int) (fhi : ℚ) : FIRFilterState ℚ :=
  { base := exampleBase w, m_coefficients := [], m_filterType := FilterType.FILTER_TYPE_LOWPASS,
    m_filterLength := len, m_stopbandAtten := 10, m_freqLow := 0, m_freqHigh := fhi }

/-- A machine without GPU filtering, AVX2 or AVX512F: the scalar kernel runs. -/
def examplePlatform : FIRPlatform ℚ :=
  { g_gpuFilterEnabled := false, g_hasAvx512F := false, g_hasAvx2 := false,
    gpuKernel := fun _ _ _ => none, fma := fun a b c => a * b + c }

/-- A uniform analog capture of a single sample. -/
def exampleShortInput : Waveform ℚ :=
  { kind := WaveformKind.UniformAnalog, m_timescale := 1000, m_startTimestamp := 1700000000,
    m_startFemtoseconds := 25, m_triggerPhase := 5, m_revision := 3,
    m_offsets := [], m_durations := [], m_analog := [1], m_digital := [] }

/-! ### `ClockRecoveryFilter::Refresh` (`ClockRecoveryFilter.cpp`) -/

/-- Embeds `Filter::VerifyInputOK(i, allowEmpty)`. -/
def VerifyInputOK {α : Type} (st : FilterState α) (i : Nat) (allowEmpty : Bool) : Option Bool :=
  (rd st.m_inputs i).bind fun p =>
  match p.m_channel with
  | none => some false
  | some _ =>
    match p.m_waveform with
    | none => some false
    | some a =>
      if allowEmpty then some true
      else (st.heap a).map fun data => decide (data.size ≠ 0)

/-- The waveform seen through a `UniformAnalogWaveform*`. -/
def Waveform.toUniformAnalog {α : Type} (w : Waveform α) : UniformAnalogWaveform α :=
  { m_timescale := w.m_timescale, m_triggerPhase := w.m_triggerPhase, m_samples := w.m_analog }

/-- The waveform seen through a `SparseAnalogWaveform*`. -/
def Waveform.toSparseAnalog {α : Type} (w : Waveform α) : SparseAnalogWaveform α :=
  { m_timescale := w.m_timescale, m_triggerPhase := w.m_triggerPhase, m_offsets := w.m_offsets,
    m_durations := w.m_durations, m_samples := w.m_analog }

/-- The waveform seen through a `UniformDigitalWaveform*`. -/
def Waveform.toUniformDigital {α : Type} (w : Waveform α) : UniformDigitalWaveform :=
  { m_timescale := w.m_timescale, m_triggerPhase := w.m_triggerPhase, m_samples := w.m_digital }

/-- The waveform seen through a `SparseDigitalWaveform*`. -/
def Waveform.toSparseDigital {α : Type} (w : Waveform α) : SparseDigitalWaveform :=
  { m_timescale := w.m_timescale, m_triggerPhase := w.m_triggerPhase, m_offsets := w.m_offsets,
    m_durations := w.m_durations, m_samples := w.m_digital }

/-- What `ClockRecoveryFilter::Refresh` uses of the floating point carrier and of helpers
declared outside the sources: the conversions and `InterpolateTime` of `FloatEnv`, the
value of a literal, `round`, and `GetOffsetScaled(sparse, uniform, i)` on the input
waveform (a failed lookup is an out of bounds access). -/
structure CDREnv (α : Type) where
  flt : FloatEnv α
  lit : ℚ → α
  round : α → α
  GetOffsetScaled : Waveform α → Nat → Option Int

/-- The state of a `ClockRecoveryFilter`: the filter base, the analysis cache the
memoized edge finders use, and the two parameters. -/
structure ClockRecoveryState (α : Type) where
  base : FilterState α
  analysis : AnalysisState α
  m_baud : α
  m_threshold : α

/-- The edge extraction of `ClockRecoveryFilter::Refresh`: the `FindZeroCrossings`
overload of the class of the input `d` at address `din`, called on an empty vector. -/
def ClockRecoveryFilter_findEdges {α : Type} [DecidableEq α] [Zero α] [LT α]
    [DecidableRel (fun a b : α => a < b)] [Mul α] (env : CDREnv α)
    (st : ClockRecoveryState α) (din : Nat) (d : Waveform α) :
    Option (List Int × AnalysisState α) :=
  match d.kind with
  | .UniformAnalog =>
    FindZeroCrossings_UniformAnalog env.flt st.analysis din d.toUniformAnalog st.m_threshold []
  | .SparseAnalog =>
    FindZeroCrossings_SparseAnalog env.flt st.analysis din d.toSparseAnalog st.m_threshold []
  | .UniformDigital =>
    (FindZeroCrossings_UniformDigital d.toUniformDigital []).map fun e => (e, st.analysis)
  | .SparseDigital => FindZeroCrossings_SparseDigital st.analysis din d.toSparseDigital []

/-- Local variables of the PLL loop of `ClockRecoveryFilter::Refresh` together with the
three arrays of the output waveform `cap`.  `deltas` is a ghost log of the phase error
`delta` computed at each processed edge, oldest first.  The local `total_error`, which is
only written to the trace log, is left out. -/
structure PLLState where
  edgepos : Int
  period : Int
  nedge : Nat
  igate : Nat
  gating : Bool
  value : Bool
  m_offsets : List Int
  m_durations : List Int
  m_samples : List Bool
  deltas : List Int
deriving DecidableEq, Repr

/-- What the pointer `gate` refers to when it is not `NULL`: the output waveform `cap`
itself, or another live sparse digital waveform. -/
inductive GateSource where
  | output
  | waveform (w : SparseDigitalWaveform)
deriving DecidableEq, Repr

/-- The gate waveform as the loop sees it in state `s`. -/
def GateSource.view (g : GateSource) (s : PLLState) : SparseDigitalWaveform :=
  match g with
  | .output =>
    { m_timescale := 1, m_triggerPhase := 0, m_offsets := s.m_offsets,
      m_durations := s.m_durations, m_samples := s.m_samples }
  | .waveform w => w

/-- The gate scan `while(igate < edges.size()-1) { ... }`; returns `igate` and `gating`. -/
def gateScanLoop (gate : SparseDigitalWaveform) (bound : Nat) (edgepos : Int) :
    Nat → Nat → Bool → Option (Nat × Bool)
  | 0, igate, gating =>
    if igate < bound then
      (rd gate.m_offsets igate).bind fun a =>
      (rd gate.m_durations igate).bind fun du =>
      if edgepos < a * gate.m_timescale then some (igate, gating)
      else if edgepos > (a + du) * gate.m_timescale then none
      else (rd gate.m_samples igate).map fun smp => (igate, !smp)
    else some (igate, gating)
  | fuel + 1, igate, gating =>
    if igate < bound then
      (rd gate.m_offsets igate).bind fun a =>
      (rd gate.m_durations igate).bind fun du =>
      if edgepos < a * gate.m_timescale then some (igate, gating)
      else if edgepos > (a + du) * gate.m_timescale then
        gateScanLoop gate bound edgepos fuel (igate + 1) gating
      else (rd gate.m_samples igate).map fun smp => (igate, !smp)
    else some (igate, gating)

/-- The feedback applied for one edge at `tnext`: log `delta = (edgepos - tnext) - period`,
then either re-sync (`edgepos = tnext + period`, when the gate has just opened) or shift
`period` by `cperiod / 40000` and `edgepos` by `cperiod / 400`, down when `delta > 0` and
up otherwise. -/
def feedbackStep (resync : Bool) (tnext : Int) (s : PLLState) : PLLState :=
  let delta := (s.edgepos - tnext) - s.period
  let s1 := { s with deltas := s.deltas ++ [delta] }
  if resync then { s1 with edgepos := tnext + s.period }
  else
    let cperiod := s.period
    if delta > 0 then
      { s1 with period := s.period - Int.tdiv cperiod 40000,
                edgepos := s.edgepos - Int.tdiv cperiod 400 }
    else
      { s1 with period := s.period + Int.tdiv cperiod 40000,
                edgepos := s.edgepos + Int.tdiv cperiod 400 }

/-- The loop `while((tnext + center < edgepos) && (nedge+1 < edges.size())) { ... }`;
the comparison is made in floating point. -/
def feedbackLoop {α : Type} [Add α] [LT α] [DecidableRel (fun a b : α => a < b)]
    (env : CDREnv α) (edges : List Int) (fnyquist : Int) (center : α) (resync : Bool) :
    Nat → Int → PLLState → Option PLLState
  | 0, tnext, s =>
    if env.flt.ofInt64 tnext + center < env.flt.ofInt64 s.edgepos ∧
        s.nedge + 1 < edges.length then none
    else some s
  | fuel + 1, tnext, s =>
    if env.flt.ofInt64 tnext + center < env.flt.ofInt64 s.edgepos ∧
        s.nedge + 1 < edges.length then
      let s1 := feedbackStep resync tnext s
      (rd edges (s.nedge + 1)).bind fun tnext1 =>
      let s2 := { s1 with nedge := s.nedge + 1 }
      if s2.period < fnyquist then some { s2 with nedge := edges.length }
      else feedbackLoop env edges fnyquist center resync fuel tnext1 s2
    else some s

/-- The final step of a cycle: `if(!gating) { value = !value; push_back(...) }`. -/
def emitSample (s : PLLState) : PLLState :=
  if s.gating then s
  else
    { s with value := !s.value,
             m_offsets := s.m_offsets ++ [s.edgepos + Int.tdiv s.period 2],
             m_durations := s.m_durations ++ [s.period],
             m_samples := s.m_samples ++ [!s.value] }

/-- One cycle of the PLL loop (the body of the `for`, without `edgepos += period`). -/
def pllCycle {α : Type} [Add α] [LT α] [DecidableRel (fun a b : α => a < b)]
    (env : CDREnv α) (edges : List Int) (fnyquist : Int) (gate : Option GateSource)
    (s : PLLState) : Option PLLState :=
  let center := env.flt.ofInt64 (Int.tdiv s.period 2)
  let was_gating := s.gating
  (match gate with
    | none => some (s.igate, s.gating)
    | some g =>
      gateScanLoop (g.view s) (subSize edges.length 1) s.edgepos edges.length s.igate
        s.gating).bind fun ig =>
  let s1 := { s with igate := ig.1, gating := ig.2 }
  (rd edges s1.nedge).bind fun tnext =>
  (feedbackLoop env edges fnyquist center (was_gating && !s1.gating) edges.length tnext
    s1).map emitSample

/-- The PLL loop `for(; (edgepos < tend) && (nedge < edges.size()-1); edgepos += period)`,
run for at most `fuel` cycles. -/
def pllLoop {α : Type} [Add α] [LT α] [DecidableRel (fun a b : α => a < b)]
    (env : CDREnv α) (edges : List Int) (fnyquist : Int) (gate : Option GateSource)
    (tend : Int) : Nat → PLLState → Option PLLState
  | 0, s =>
    if s.edgepos < tend ∧ s.nedge < subSize edges.length 1 then none else some s
  | fuel + 1, s =>
    if s.edgepos < tend ∧ s.nedge < subSize edges.length 1 then
      (pllCycle env edges fnyquist gate s).bind fun s1 =>
      pllLoop env edges fnyquist gate tend fuel { s1 with edgepos := s1.edgepos + s1.period }
    else some s

/-- The initial values of the PLL loop variables: `nedge = 1`, `edgepos = edges[0]`,
`value = false`, `igate = 0`, `gating = false`, and the (cleared) arrays of `cap`. -/
def pllInit (e0 period : Int) (cap : SparseDigitalWaveform) : PLLState :=
  { edgepos := e0, period := period, nedge := 1, igate := 0, gating := false, value := false,
    m_offsets := cap.m_offsets, m_durations := cap.m_durations, m_samples := cap.m_samples,
    deltas := [] }

/-- The part of `ClockRecoveryFilter::Refresh` after the checks: set up the output, run the
PLL loop on `edges` from the seed `period`, publish the output on stream 0. -/
def ClockRecoveryFilter_run {α : Type} [Add α] [LT α] [DecidableRel (fun a b : α => a < b)]
    (env : CDREnv α) (blank : Waveform α) (fuel : Nat) (st : ClockRecoveryState α)
    (din : Nat) (gate : Option Nat) (edges : List Int) (period fnyquist : Int) :
    Option (ClockRecoveryState α) :=
  (SetupEmptySparseDigitalOutputWaveform blank st.base din 0).bind fun r =>
  (r.2.heap r.1).bind fun w =>
  let w1 := { w with m_triggerPhase := 0, m_timescale := 1 }
  let b1 : FilterState α :=
    { r.2 with heap := fun q => if q = r.1 then some w1 else r.2.heap q }
  (b1.heap din).bind fun d1 =>
  (env.GetOffsetScaled d1 (subSize d1.size 1)).bind fun tend =>
  (rd edges 0).bind fun e0 =>
  (match gate with
    | none => some none
    | some g =>
      if g = r.1 then some (some GateSource.output)
      else (b1.heap g).map fun (gw : Waveform α) =>
        some (GateSource.waveform gw.toSparseDigital)).bind
  fun gs =>
  (pllLoop env edges fnyquist gs tend fuel (pllInit e0 period w1.toSparseDigital)).bind fun s =>
  let w2 := { w1 with m_offsets := s.m_offsets, m_durations := s.m_durations,
                      m_digital := s.m_samples }
  (SetData { b1 with heap := fun q => if q = r.1 then some w2 else b1.heap q }
    (some r.1) 0).map fun b2 => { st with base := b2 }

/-- Embeds `ClockRecoveryFilter::Refresh`.  `allowEmpty` is the default argument of
`VerifyInputOK`, declared outside the sources; `fuel` bounds the cycles of the PLL loop. -/
def ClockRecoveryFilter_Refresh {α : Type} [DecidableEq α] [Zero α] [Add α] [Mul α] [Div α]
    [LT α] [DecidableRel (fun a b : α => a < b)] (env : CDREnv α) (allowEmpty : Bool)
    (blank : Waveform α) (fuel : Nat) (st : ClockRecoveryState α) :
    Option (ClockRecoveryState α) :=
  (VerifyInputOK st.base 0 allowEmpty).bind fun ok =>
  if ok = false then (SetData st.base none 0).map fun b => { st with base := b }
  else
    (GetInputWaveform st.base 0).bind fun p =>
    p.bind fun din =>
    (st.base.heap din).bind fun d =>
    (GetInputWaveform st.base 1).bind fun g =>
    (dynamicCast st.base WaveformKind.SparseDigital g).bind fun gate =>
    (ClockRecoveryFilter_findEdges env st din d).bind fun found =>
    let edges := found.1
    let st1 := { st with analysis := found.2 }
    if edges = [] then (SetData st1.base none 0).map fun b => { st1 with base := b }
    else
      let period := env.flt.toInt64 (env.round (env.lit FS_PER_SECOND / st.m_baud))
      let fnyquist := 2 * d.m_timescale
      if period < fnyquist then (SetData st1.base none 0).map fun b => { st1 with base := b }
      else ClockRecoveryFilter_run env blank fuel st1 din gate edges period fnyquist

/-- The waveform a filter state publishes on stream 0, `none` when the stream is `NULL`
(or the evaluation did not return). -/
def publishedWaveform {α : Type} (b : Option (FilterState α)) : Option (Waveform α) :=
  b.bind fun s => (GetData s 0).bind s.heap

/-- An exact integer carrier for examples with digital inputs: conversions are the
identity, `round` too, a literal is truncated, and `GetOffsetScaled` of a uniform waveform
is `i * timescale + triggerPhase`. -/
def exampleCDREnv : CDREnv Int where
  flt := { ofInt64 := fun x => x, toInt64 := fun x => x, InterpolateTime := fun _ _ _ => 0 }
  lit := fun q => Int.tdiv q.num (q.den : Int)
  round := fun x => x
  GetOffsetScaled := fun w i =>
    if w.kind.isSparse then (rd w.m_offsets i).map fun o => o * w.m_timescale + w.m_triggerPhase
    else some ((i : Int) * w.m_timescale + w.m_triggerPhase)

/-- A uniform digital capture at 10000 fs per sample with `reps` half periods of four
samples each, starting low. -/
def exampleSquareWave (reps : Nat) : Waveform Int :=
  { kind := WaveformKind.UniformDigital, m_timescale := 10000, m_startTimestamp := 1700000000,
    m_startFemtoseconds := 0, m_triggerPhase := 0, m_revision := 1, m_offsets := [],
    m_durations := [], m_analog := [],
    m_digital := (List.range (4 * reps)).map fun (i : Nat) => decide ((i / 4) % 2 = 1) }

/-- A clock recovery filter on the input `w` at address 1, with no gate waveform, an
empty analysis cache and the symbol rate `baud`. -/
def exampleCDR (w : Waveform Int) (baud : Int) : ClockRecoveryState Int :=
  { base :=
      { heap := fun q => if q = 1 then some w else none
        m_streams := [none]
        m_inputs := [{ m_channel := some 0, m_waveform := some 1 },
                     { m_channel := none, m_waveform := none }]
        fresh := 2 }
    analysis := { m_zeroCrossingCache := [], scans := 0 }
    m_baud := baud
    m_threshold := 0 }

/-- The shape of a recovered clock: as many offsets and durations as samples, levels that
alternate starting with `true`, and `value` equal to the level appended last (`false`
before the first). -/
def ClockShaped (s : PLLState) : Prop :=
  s.m_offsets.length = s.m_samples.length ∧ s.m_durations.length = s.m_samples.length ∧
  (∀ i, i < s.m_samples.length → s.m_samples[i]? = some (decide (i % 2 = 0))) ∧
  s.value = decide (s.m_samples.length % 2 = 1)

/-- The recovered clock `ClockRecoveryFilter::Refresh` publishes for the seven edges of
`exampleSquareWave 8` at a symbol period of 40000 fs. -/
def exampleRecoveredClock : Waveform Int :=
  { kind := WaveformKind.SparseDigital, m_timescale := 1, m_startTimestamp := 1700000000,
    m_startFemtoseconds := 0, m_triggerPhase := 0, m_revision := 1,
    m_offsets := [65000, 105000, 145100, 185001, 224900, 264998, 305096],
    m_durations := [40000, 40000, 40001, 40000, 39999, 39999, 39999],
    m_analog := [], m_digital := [true, false, true, false, true, false, true] }

/-- The tolerance within which the PLL keeps `period` around a symbol period `P`:
`3 * ⌊(P + 4⌊P/40000⌋ + 200) / 40000⌋ + 100`, at most `4⌊P/40000⌋ + 104`. -/
def pllTolerance (P : Int) : Int := 3 * ((P + 4 * (P / 40000) + 200) / 40000) + 100

/-- The bound on the phase error `delta` for a symbol period `P`:
`⌊(P + pllTolerance P) / 400⌋ + pllTolerance P`, at most `3⌊P/400⌋`. -/
def pllPhaseBound (P : Int) : Int := (P + pllTolerance P) / 400 + pllTolerance P

/-- Lock invariant of the PLL for symbol periods below 80000 fs, on the phase error `d`
an edge is about to be processed with and the current `period` `p`: `p` is within 3 of
`P`, `d` within `⌊(P+3)/400⌋ + 3` of 0, and near the ends of the range of `p` the sign of
`d` (now, and after one more step) is the one that moves `p` back inside. -/
def pllLockedNear (P d p : Int) : Prop :=
  -3 ≤ p - P ∧ p - P ≤ 3 ∧ -((P + 3) / 400 + 3) ≤ d ∧ d ≤ (P + 3) / 400 + 3 ∧
  (3 < p - P + p / 40000 → 0 < d) ∧
  (3 < p - P + p / 40000 + (p + p / 40000) / 40000 → 0 < d + (p - P) + p / 400) ∧
  (p - P - p / 40000 < -3 → d ≤ 0) ∧
  (p - P - p / 40000 - (p - p / 40000) / 40000 < -3 → d + (p - P) - p / 400 ≤ 0)

/-- Lock invariant of the PLL for symbol periods of at least 80000 fs: `p` within
`pllTolerance P` of `P`, `d` within `pllPhaseBound P` of 0, and `d - 100 (p - P)` within
`100 (pllTolerance P - β)` of 0, where `β = ⌊(P + 4⌊P/40000⌋ + 200) / 40000⌋` bounds the
step `⌊p/40000⌋`. -/
def pllLockedFar (P d p : Int) : Prop :=
  -pllTolerance P ≤ p - P ∧ p - P ≤ pllTolerance P ∧
  -pllPhaseBound P ≤ d ∧ d ≤ pllPhaseBound P ∧
  -(100 * (pllTolerance P - (P + 4 * (P / 40000) + 200) / 40000)) ≤ d - 100 * (p - P) ∧
  d - 100 * (p - P) ≤ 100 * (pllTolerance P - (P + 4 * (P / 40000) + 200) / 40000)

/-- The lock invariant of the PLL for the symbol period `P`. -/
def pllLocked (P d p : Int) : Prop :=
  (P < 80000 → pllLockedNear P d p) ∧ (80000 ≤ P → pllLockedFar P d p)

/-- The state of the PLL loop at the head of a cycle, for edges `e0, e0 + P, e0 + 2P, ...`
and no gate, with at most `m` cycles still to run: never gating, every logged period and
phase error within its bound, and the loop in one of four phases: the two start-up cycles
(no edge is due yet), tracking (the phase error the next edge will be processed with and
the period satisfy the lock invariant), or stopped by the Nyquist guard. -/
def PLLPhase (edges : List Int) (e0 P : Int) (s : PLLState) (m : Nat) : Prop :=
  s.gating = false ∧
  (∀ q ∈ s.m_durations, -pllTolerance P ≤ q - P ∧ q - P ≤ pllTolerance P) ∧
  (∀ x ∈ s.deltas, -pllPhaseBound P ≤ x ∧ x ≤ pllPhaseBound P) ∧
  ((s.nedge = 1 ∧ s.period = P ∧ s.edgepos = e0 ∧ edges.length ≤ m) ∨
   (s.nedge = 1 ∧ s.period = P ∧ s.edgepos = e0 + P ∧ edges.length ≤ m + 1) ∨
   (1 ≤ s.nedge ∧ s.nedge < edges.length ∧ edges.length ≤ m + s.nedge + 1 ∧
      pllLocked P (s.edgepos - (e0 + (s.nedge : Int) * P) - s.period) s.period) ∨
   (edges.length ≤ s.nedge ∧ -pllTolerance P ≤ s.period - P ∧
      s.period - P ≤ pllTolerance P))

/-- The seven edges of `exampleSquareWave 8`, 40000 fs apart. -/
def exampleEdges : List Int := [45000, 85000, 125000, 165000, 205000, 245000, 285000]

/-- The cleared output waveform the PLL loop starts on. -/
def clearedClock : SparseDigitalWaveform :=
  { m_timescale := 1, m_triggerPhase := 0, m_offsets := [], m_durations := [], m_samples := [] }


/-! ### Input verification helpers (`Filter.cpp`) -/

/-- The loop of `Filter::VerifyAllInputsOK`:
`for(size_t i=0; i<m_inputs.size(); i++) { if(!VerifyInputOK(i, allowEmpty)) return false; }
return true;`.  The first argument bounds the trip count. -/
def verifyInputsLoop {α : Type} (st : FilterState α) (allowEmpty : Bool) : Nat → Nat → Option Bool
  | 0, i => if i < st.m_inputs.length then none else some true
  | fuel + 1, i =>
    if i < st.m_inputs.length then
      (VerifyInputOK st i allowEmpty).bind fun ok =>
      if ok = false then some false else verifyInputsLoop st allowEmpty fuel (i + 1)
    else some true

/-- Embeds `Filter::VerifyAllInputsOK(allowEmpty)`.  Like `VerifyInputOK` it only reads the
bindings and the waveforms, so it returns a boolean and no new state. -/
def VerifyAllInputsOK {α : Type} (st : FilterState α) (allowEmpty : Bool) : Option Bool :=
  verifyInputsLoop st allowEmpty st.m_inputs.length 0

/-- Every non-null waveform pointer of an input binding points to a live object. -/
def InputsLive {α : Type} (st : FilterState α) : Prop :=
  ∀ p ∈ st.m_inputs, ∀ a, p.m_waveform = some a → ∃ w, st.heap a = some w

/-- What the claim calls a good input `i`: the binding has a channel, the stream holds a
waveform, and the waveform has a sample unless empty waveforms are allowed. -/
def InputOK {α : Type} (st : FilterState α) (i : Nat) (allowEmpty : Bool) : Prop :=
  ∃ p c a w, rd st.m_inputs i = some p ∧ p.m_channel = some c ∧ p.m_waveform = some a ∧
    st.heap a = some w ∧ (allowEmpty = true ∨ 1 ≤ w.size)

/-- A filter with three inputs: a two sample capture, an empty capture and an unbound
input. -/
def exampleThreeInputs : FilterState Int :=
  { heap := fun q =>
      if q = 1 then some exampleInputWaveform
      else if q = 2 then some (blankWaveform Int) else none
    m_streams := [none]
    m_inputs := [{ m_channel := some 0, m_waveform := some 1 },
                 { m_channel := some 1, m_waveform := some 2 },
                 { m_channel := none, m_waveform := none }]
    fresh := 3 }

/-! ### Compute dispatch helper (`ScopehalVulkanUtils.cpp`) -/

/-- Modulus of `uint32_t` arithmetic. -/
def UINT32_MOD : Nat := 2 ^ 32

/-- Embeds `GetComputeBlockCount(size_t numGlobal, size_t blockSize)`:
`uint32_t ret = numGlobal / blockSize; if(numGlobal % blockSize) ret ++; return ret;`.
The quotient is converted to `uint32_t` and the increment wraps; a zero `blockSize` is a
division by zero. -/
def GetComputeBlockCount (numGlobal blockSize : Nat) : Option Nat :=
  if blockSize = 0 then none
  else
    let ret := (numGlobal / blockSize) % UINT32_MOD
    if numGlobal % blockSize ≠ 0 then some ((ret + 1) % UINT32_MOD) else some ret

/-! ### `PeriodMeasurement::Refresh` (`PeriodMeasurement.cpp`) -/

/-- What `PeriodMeasurement::Refresh` uses of the floating point carrier and of helpers
declared outside the sources: the conversions of `FloatEnv` and
`GetAvgVoltage(sdin, udin)` on the input waveform. -/
structure MeasurementEnv (α : Type) where
  flt : FloatEnv α
  GetAvgVoltage : Waveform α → α

/-- The state of a `PeriodMeasurement`: the filter base and the analysis cache the
memoized edge finders use. -/
structure MeasurementState (α : Type) where
  base : FilterState α
  analysis : AnalysisState α

/-- Modelled from the spec: the overload `FindZeroCrossings(sdata, udata, threshold, edges)`
is declared in `Filter.h`, which is not among the sources.  It is the edge finder of
whichever of the two analog shapes the waveform has: the sparse overload when `sdata` is
not `NULL`, else the uniform one, which dereferences `udata`. -/
def FindZeroCrossings_Analog {α : Type} [DecidableEq α] [LT α]
    [DecidableRel (fun a b : α => a < b)] [Mul α] (env : FloatEnv α)
    (st : AnalysisState α) (d : Waveform α) (sdata udata : Option Nat) (threshold : α)
    (edges : List Int) : Option (List Int × AnalysisState α) :=
  match sdata with
  | some p => FindZeroCrossings_SparseAnalog env st p d.toSparseAnalog threshold edges
  | none =>
    match udata with
    | some p => FindZeroCrossings_UniformAnalog env st p d.toUniformAnalog threshold edges
    | none => none

/-- Body of the measurement loop of `PeriodMeasurement::Refresh`, on the three arrays of
`cap`:
```
int64_t start = edges[i];
int64_t end = edges[i+2];
int64_t delta = end - start;
cap->m_offsets.push_back(start);
cap->m_durations.push_back(delta);
cap->m_samples.push_back(delta);
``` -/
def periodStep {α : Type} (env : MeasurementEnv α) (edges : List Int) (i : Nat)
    (cap : List Int × List Int × List α) : Option (List Int × List Int × List α) :=
  (rd edges i).bind fun start =>
  (rd edges (addSize i 2)).bind fun stop =>
  let delta := stop - start
  some (cap.1 ++ [start], cap.2.1 ++ [delta], cap.2.2 ++ [env.flt.ofInt64 delta])

/-- The edge extraction of `PeriodMeasurement::Refresh` on the input `d` at address `din`:
```
auto sdin = dynamic_cast<SparseAnalogWaveform*>(din);
auto udin = dynamic_cast<UniformAnalogWaveform*>(din);
float midpoint = GetAvgVoltage(sdin, udin);
vector<int64_t> edges;
FindZeroCrossings(sdin, udin, midpoint, edges);
``` -/
def PeriodMeasurement_findEdges {α : Type} [DecidableEq α] [LT α]
    [DecidableRel (fun a b : α => a < b)] [Mul α] (env : MeasurementEnv α)
    (st : MeasurementState α) (din : Nat) (d : Waveform α) :
    Option (List Int × AnalysisState α) :=
  (dynamicCast st.base WaveformKind.SparseAnalog (some din)).bind fun sdin =>
  (dynamicCast st.base WaveformKind.UniformAnalog (some din)).bind fun udin =>
  let midpoint := env.GetAvgVoltage d
  FindZeroCrossings_Analog env.flt st.analysis d sdin udin midpoint []

/-- Embeds `PeriodMeasurement::Refresh`.  `allowEmpty` is the default argument of
`VerifyAllInputsOK`, declared outside the sources; `fuel` bounds the trip count of the
measurement loop `for(size_t i=0; i < (edges.size()-2); i+= 2)`. -/
def PeriodMeasurement_Refresh {α : Type} [DecidableEq α] [LT α]
    [DecidableRel (fun a b : α => a < b)] [Mul α] (env : MeasurementEnv α) (allowEmpty : Bool)
    (blank : Waveform α) (fuel : Nat) (st : MeasurementState α) : Option (MeasurementState α) :=
  (VerifyAllInputsOK st.base allowEmpty).bind fun ok =>
  if ok = false then (SetData st.base none 0).map fun b => { st with base := b }
  else
    (GetInputWaveform st.base 0).bind fun p =>
    p.bind fun din =>
    (st.base.heap din).bind fun d =>
    (PeriodMeasurement_findEdges env st din d).bind fun found =>
    let edges := found.1
    let st1 := { st with analysis := found.2 }
    if edges.length < 2 then (SetData st1.base none 0).map fun b => { st1 with base := b }
    else
      (SetupEmptySparseAnalogOutputWaveform blank st1.base din 0 true).bind fun r =>
      (r.2.heap r.1).bind fun w =>
      let w1 := { w with m_timescale := 1 }
      (forLoop (subSize edges.length 2) 2 (periodStep env edges) fuel 0
        (w1.m_offsets, w1.m_durations, w1.m_analog)).bind fun arrays =>
      let w2 := { w1 with m_offsets := arrays.1, m_durations := arrays.2.1,
                          m_analog := arrays.2.2 }
      (SetData { r.2 with heap := fun q => if q = r.1 then some w2 else r.2.heap q }
        (some r.1) 0).map fun b => { st1 with base := b }

/-- An exact integer carrier for the measurement examples: conversions are the identity,
`InterpolateTime` is 0 and the average voltage is taken to be 0. -/
def exampleMeasurementEnv : MeasurementEnv Int where
  flt := { ofInt64 := fun t => t, toInt64 := fun x => x, InterpolateTime := fun _ _ _ => 0 }
  GetAvgVoltage := fun _ => 0

/-- A uniform analog capture of a square wave around 0: `reps` repetitions of
`[-1, -1, 1, 1]` with a 10 tick sample interval. -/
def exampleAnalogSquare (reps : Nat) : Waveform Int :=
  { kind := WaveformKind.UniformAnalog, m_timescale := 10, m_startTimestamp := 1700000000,
    m_startFemtoseconds := 25, m_triggerPhase := 0, m_revision := 1,
    m_offsets := [], m_durations := [],
    m_analog := (List.replicate reps [-1, -1, 1, 1]).flatten, m_digital := [] }

/-- A `PeriodMeasurement` whose only input holds `w` at address 1 and whose output stream
is still `NULL`; the cache is empty. -/
def exampleMeasurement (w : Waveform Int) : MeasurementState Int :=
  { base := { heap := fun q => if q = 1 then some w else none
              m_streams := [none]
              m_inputs := [{ m_channel := some 0, m_waveform := some 1 }]
              fresh := 2 }
    analysis := { m_zeroCrossingCache := [], scans := 0 } }

/-! ### `CRC32` (`ScopehalUtils.cpp`) -/

/-- Bitwise complement `~x` of a `uint32_t`. -/
def not32 (x : Nat) : Nat := UINT32_MOD - 1 - x % UINT32_MOD

/-- One pass of the inner loop of `CRC32`, for bit `i` of the byte `d`:
`bool b = ( crc ^ (d >> i) ) & 1; crc >>= 1; if(b) crc ^= poly;`. -/
def crc32Bit (d : Nat) (crc : Nat) (i : Nat) : Nat :=
  let b := (crc ^^^ (d >>> i)) &&& 1
  let crc1 := crc >>> 1
  if b ≠ 0 then crc1 ^^^ 0xedb88320 else crc1

/-- The inner loop `for(int i=0; i<8; i++)` of `CRC32` for the byte `d`. -/
def crc32Byte (crc : Nat) (d : Nat) : Nat :=
  (List.range 8).foldl (crc32Bit d) crc

/-- The outer loop `for(size_t n=start; n <= end; n++)` of `CRC32`; the first argument
bounds the trip count. -/
def crc32Loop (bytes : List (Fin 256)) (stop : Nat) : Nat → Nat → Nat → Option Nat
  | 0, n, crc => if n ≤ stop then none else some crc
  | fuel + 1, n, crc =>
    if n ≤ stop then
      (rd bytes n).bind fun d => crc32Loop bytes stop fuel (addSize n 1) (crc32Byte crc d.val)
    else some crc

/-- Embeds `CRC32(const uint8_t* bytes, size_t start, size_t end)` on the array `bytes`.
The loop reads at most every element once before it leaves the array, so the length of
the array bounds its trip count. -/
def CRC32 (bytes : List (Fin 256)) (start stop : Nat) : Option Nat :=
  (crc32Loop bytes stop (bytes.length + 1) start 0xffffffff).map fun crc =>
    not32 ((((crc &&& 0x000000ff) <<< 24) % UINT32_MOD) |||
           (((crc &&& 0x0000ff00) <<< 8) % UINT32_MOD) |||
           ((crc &&& 0x00ff0000) >>> 8) |||
           (crc >>> 24))

/-- One bit of the standard reflected CRC-32: shift right and, when the bit shifted out is
set, add the polynomial `0xEDB88320`. -/
def crc32StandardBit (crc : Nat) : Nat :=
  if crc % 2 = 1 then (crc / 2) ^^^ 0xEDB88320 else crc / 2

/-- One byte of the standard CRC-32: add the byte to the low bits, then eight bit steps. -/
def crc32StandardByte (crc : Nat) (b : Fin 256) : Nat :=
  Nat.iterate crc32StandardBit 8 (crc ^^^ b.val)

/-- The standard Ethernet (IEEE 802.3) CRC-32 of a byte string, as the claim words it:
reflected polynomial `0xEDB88320`, initial value `0xFFFFFFFF`, final complement. -/
def crc32Standard (data : List (Fin 256)) : Nat :=
  not32 (data.foldl crc32StandardByte 0xFFFFFFFF)

/-- The 32 bit word whose four bytes are those of `x` in reversed order. -/
def byteSwap32 (x : Nat) : Nat :=
  x % 256 * 2 ^ 24 + x / 2 ^ 8 % 256 * 2 ^ 16 + x / 2 ^ 16 % 256 * 2 ^ 8 + x / 2 ^ 24 % 256

/-- The ASCII bytes of `123456789`. -/
def exampleDigits : List (Fin 256) := [49, 50, 51, 52, 53, 54, 55, 56, 57]

/-! ### Integer helpers (`ScopehalUtils.cpp`) -/

/-- Modulus of `uint64_t` arithmetic. -/
def UINT64_MOD : Nat := 2 ^ 64

/-- Number of consecutive zero bits of `x` counted downwards from bit `n - 1`. -/
def clzFrom (x : Nat) : Nat → Nat
  | 0 => 0
  | n + 1 => if x.testBit n then 0 else clzFrom x n + 1

/-- The compiler builtin `__builtin_clzl(x)` on a 64 bit `unsigned long`: the number of
leading zero bits of `x`; the result is undefined for `x = 0`. -/
def builtin_clzl (x : Nat) : Option Nat :=
  if x = 0 then none else some (clzFrom x 64)

/-- The expression `1 << n` as `next_pow2` writes it: a shift of the `int` constant 1,
converted to the `uint64_t` the function returns.  It is `2^n` for `n < 31`; for `n = 31`
the `int` result is `INT_MIN`, which converts to `2^64 - 2^31`; a shift of a 32 bit `int` by
32 or more is undefined. -/
def shiftLeftInt1 (n : Nat) : Option Nat :=
  if n < 31 then some (2 ^ n)
  else if n = 31 then some (UINT64_MOD - 2 ^ 31)
  else none

/-- The branch of `next_pow2` compiled when `__GNUC__` is not defined:
`v--; v |= v >> 1; v |= v >> 2; v |= v >> 4; v |= v >> 8; v |= v >> 16; v |= v >> 32; v++;`
in `uint64_t` arithmetic. -/
def next_pow2_portable (v : Nat) : Nat :=
  let v0 := (v + UINT64_MOD - 1) % UINT64_MOD
  let v1 := v0 ||| (v0 >>> 1)
  let v2 := v1 ||| (v1 >>> 2)
  let v3 := v2 ||| (v2 >>> 4)
  let v4 := v3 ||| (v3 >>> 8)
  let v5 := v4 ||| (v4 >>> 16)
  let v6 := v5 ||| (v5 >>> 32)
  (v6 + 1) % UINT64_MOD

/-- Embeds `next_pow2(uint64_t v)`.  `gnuc` tells which branch of `#ifdef __GNUC__` is
compiled: with it, `if(v == 1) return 1; else return 1 << (64 - __builtin_clzl(v-1));`. -/
def next_pow2 (gnuc : Bool) (v : Nat) : Option Nat :=
  if gnuc then
    if v = 1 then some 1
    else
      (builtin_clzl ((v + UINT64_MOD - 1) % UINT64_MOD)).bind fun z => shiftLeftInt1 (64 - z)
  else some (next_pow2_portable v)

/-! ### `str_replace` (`ScopehalUtils.cpp`) -/

/-- The terminator of a C string. -/
def NUL : Char := Char.ofNat 0

/-- The test `0 == strncmp(a, b, n)`, written `strncmpEq n a b`, on two buffers given with
their terminator: at most `n`
characters are compared, and the comparison stops at the first difference or at a
terminator found in both.  Reading past the end of a buffer is an error. -/
def strncmpEq : Nat → List Char → List Char → Option Bool
  | 0, _, _ => some true
  | _ + 1, [], _ => none
  | _ + 1, _ :: _, [] => none
  | n + 1, x :: a, y :: b =>
    if x ≠ y then some false
    else if x = NUL then some true
    else strncmpEq n a b

/-- The loop of `str_replace`, from index `i` with `ret` built so far:
```
for(size_t i=0; i<subject.length(); i++)
{
	if(0 == strncmp(&subject[i], &search[0], search.length()))
	{
		ret += replace;
		i += search.length() - 1;
	}
	else
		ret += subject[i];
}
```
The buffers of `subject` and `search` end with a terminator; the first argument bounds the
trip count. -/
def strReplaceLoop (search replace subject : List Char) :
    Nat → Nat → List Char → Option (List Char)
  | 0, i, ret => if i < subject.length then none else some ret
  | fuel + 1, i, ret =>
    if i < subject.length then
      (strncmpEq search.length ((subject ++ [NUL]).drop i) (search ++ [NUL])).bind fun m =>
      if m then
        strReplaceLoop search replace subject fuel
          (addSize (addSize i (subSize search.length 1)) 1) (ret ++ replace)
      else
        (rd subject i).bind fun c =>
        strReplaceLoop search replace subject fuel (addSize i 1) (ret ++ [c])
    else some ret

/-- Embeds `str_replace(search, replace, subject)`.  With a non-empty `search` every pass
advances `i`, so the length of `subject` bounds the trip count; with an empty `search` the
index never advances and the loop does not end. -/
def str_replace (search replace subject : List Char) : Option (List Char) :=
  strReplaceLoop search replace subject subject.length 0 []

/-- The claim's reading of the result, scanning `s` from the left: where `search` starts,
emit `replace` and go on after the occurrence; elsewhere keep the character.  The first
argument bounds the number of steps and is to be at least the length of `s`. -/
def replaceOccurrences (search replace : List Char) : Nat → List Char → List Char
  | 0, s => s
  | _ + 1, [] => []
  | fuel + 1, c :: cs =>
    if search.isPrefixOf (c :: cs) then
      replace ++ replaceOccurrences search replace fuel ((c :: cs).drop search.length)
    else c :: replaceOccurrences search replace fuel cs

/-- A high pass FIR filter of three taps on `exampleAnalogInput` (Nyquist limit
`5 * 10^11` Hz) whose corner frequency is set to `10^12` Hz, twice the Nyquist limit. -/
def exampleHighPass : FIRFilterState ℚ :=
  { base := exampleBase exampleAnalogInput, m_coefficients := [],
    m_filterType := FilterType.FILTER_TYPE_HIGHPASS, m_filterLength := 3,
    m_stopbandAtten := 10, m_freqLow := 1000000000000, m_freqHigh := 400000000000 }

/-! ### Notch and band-pass designs -/

/-- Relation between the coefficient arrays of the notch run (`cN`) and of the band-pass
run (`cB`) of the windowing loop before its pass `j`: the taps `np .. np+j-1` written so
far are opposite, every other slot is equal. -/
def WindowOpposite {α : Type} [Neg α] (np j : Nat) (cN cB : List α) : Prop :=
  cN.length = cB.length ∧
  ∀ m, (np ≤ m ∧ m < np + j → ∃ x, cB[m]? = some x ∧ cN[m]? = some (-x)) ∧
    (¬ (np ≤ m ∧ m < np + j) → cN[m]? = cB[m]?)

/-! ### Example data: a gated clock recovery -/

/-- A sparse digital gate waveform with a single sample, `true` over `[0, 10000]` fs. -/
def exampleShortGate : Waveform Int :=
  { kind := WaveformKind.SparseDigital, m_timescale := 1, m_startTimestamp := 1700000000,
    m_startFemtoseconds := 0, m_triggerPhase := 0, m_revision := 1, m_offsets := [0],
    m_durations := [10000], m_analog := [], m_digital := [true] }

/-- A clock recovery filter on the input `w` at address 1 with the gate waveform `g` at
address 2, an empty analysis cache and the symbol rate `baud`. -/
def exampleGatedCDR (w g : Waveform Int) (baud : Int) : ClockRecoveryState Int :=
  { base :=
      { heap := fun q => if q = 1 then some w else if q = 2 then some g else none
        m_streams := [none]
        m_inputs := [{ m_channel := some 0, m_waveform := some 1 },
                     { m_channel := some 1, m_waveform := some 2 }]
        fresh := 3 }
    analysis := { m_zeroCrossingCache := [], scans := 0 }
    m_baud := baud
    m_threshold := 0 }

/-! ### Termination of the PLL loop -/

/-- The gate pointers for which every read `gate->m_offsets[igate]`,
`gate->m_durations[igate]`, `gate->m_samples[igate]` the gate scan can make
(`igate < n`, with `n = edges.size()-1`) is inside the gate waveform: no gate at all, or a
separate gate waveform whose three arrays hold at least `n` entries. -/
def gateCovers (gate : Option GateSource) (n : Nat) : Bool :=
  match gate with
  | none => true
  | some GateSource.output => false
  | some (GateSource.waveform w) =>
    decide (n ≤ w.m_offsets.length ∧ n ≤ w.m_durations.length ∧ n ≤ w.m_samples.length)

/-! ### The PLL loop with gate reads that cannot fail -/

/-- The gate scan `while(igate < edges.size()-1) { ... }` with reads of the gate arrays that
cannot fail: a read inside an array yields its element, a read past the end (undefined in
C++) yields the component of `junk igate`, a value the model leaves unspecified. -/
def gateScanLoopUnchecked (gate : SparseDigitalWaveform) (junk : Nat → Int × Int × Bool)
    (bound : Nat) (edgepos : Int) : Nat → Nat → Bool → Option (Nat × Bool)
  | 0, igate, gating =>
    if igate < bound then
      let a := (rd gate.m_offsets igate).getD (junk igate).1
      let du := (rd gate.m_durations igate).getD (junk igate).2.1
      if edgepos < a * gate.m_timescale then some (igate, gating)
      else if edgepos > (a + du) * gate.m_timescale then none
      else some (igate, !((rd gate.m_samples igate).getD (junk igate).2.2))
    else some (igate, gating)
  | fuel + 1, igate, gating =>
    if igate < bound then
      let a := (rd gate.m_offsets igate).getD (junk igate).1
      let du := (rd gate.m_durations igate).getD (junk igate).2.1
      if edgepos < a * gate.m_timescale then some (igate, gating)
      else if edgepos > (a + du) * gate.m_timescale then
        gateScanLoopUnchecked gate junk bound edgepos fuel (igate + 1) gating
      else some (igate, !((rd gate.m_samples igate).getD (junk igate).2.2))
    else some (igate, gating)

/-- The gate scan of a cycle as `pllCycle` makes it (bounds checked reads), as a function
of the state at the top of the cycle; `n` is `edges.size()`. -/
def checkedGateScan (gate : Option GateSource) (n : Nat) (s : PLLState) : Option (Nat × Bool) :=
  match gate with
  | none => some (s.igate, s.gating)
  | some g => gateScanLoop (g.view s) (subSize n 1) s.edgepos n s.igate s.gating

/-- The gate scan of a cycle with reads that cannot fail; what a read past the end of the
gate arrays yields may depend on the state of the cycle and on the index. -/
def uncheckedGateScan (gate : Option GateSource) (junk : PLLState → Nat → Int × Int × Bool)
    (n : Nat) (s : PLLState) : Option (Nat × Bool) :=
  match gate with
  | none => some (s.igate, s.gating)
  | some g =>
    gateScanLoopUnchecked (g.view s) (junk s) (subSize n 1) s.edgepos n s.igate s.gating

/-- One cycle of the PLL loop with the gate scan given as a function `scan` of the state:
`pllCycle` is the case `scan = checkedGateScan gate edges.size()`. -/
def pllCycleWith {α : Type} [Add α] [LT α] [DecidableRel (fun a b : α => a < b)]
    (env : CDREnv α) (edges : List Int) (fnyquist : Int)
    (scan : PLLState → Option (Nat × Bool)) (s : PLLState) : Option PLLState :=
  let center := env.flt.ofInt64 (Int.tdiv s.period 2)
  let was_gating := s.gating
  (scan s).bind fun ig =>
  let s1 := { s with igate := ig.1, gating := ig.2 }
  (rd edges s1.nedge).bind fun tnext =>
  (feedbackLoop env edges fnyquist center (was_gating && !s1.gating) edges.length tnext
    s1).map emitSample

/-- The PLL loop with the gate scan given as a function of the state, run for at most
`fuel` cycles: `pllLoop` is the case `scan = checkedGateScan gate edges.size()`. -/
def pllLoopWith {α : Type} [Add α] [LT α] [DecidableRel (fun a b : α => a < b)]
    (env : CDREnv α) (edges : List Int) (fnyquist : Int)
    (scan : PLLState → Option (Nat × Bool)) (tend : Int) : Nat → PLLState → Option PLLState
  | 0, s =>
    if s.edgepos < tend ∧ s.nedge < subSize edges.length 1 then none else some s
  | fuel + 1, s =>
    if s.edgepos < tend ∧ s.nedge < subSize edges.length 1 then
      (pllCycleWith env edges fnyquist scan s).bind fun s1 =>
      pllLoopWith env edges fnyquist scan tend fuel { s1 with edgepos := s1.edgepos + s1.period }
    else some s

/-! ### Advancing to a timestamp (`Filter.cpp`) -/

/-- Embeds `Filter::AdvanceToTimestamp(SparseWaveformBase*, size_t&, size_t, int64_t)`,
returning the final `i`:
```
while( ((i+1) < len) && (wfm->m_offsets[i+1] <= timestamp) )
	i ++;
```
The first argument bounds the trip count. -/
def AdvanceToTimestamp_Sparse (m_offsets : List Int) (len : Nat) (timestamp : Int) :
    Nat → Nat → Option Nat
  | 0, i =>
    if addSize i 1 < len then
      (rd m_offsets (addSize i 1)).bind fun o => if o ≤ timestamp then none else some i
    else some i
  | fuel + 1, i =>
    if addSize i 1 < len then
      (rd m_offsets (addSize i 1)).bind fun o =>
      if o ≤ timestamp then AdvanceToTimestamp_Sparse m_offsets len timestamp fuel (addSize i 1)
      else some i
    else some i

/-- Embeds `Filter::AdvanceToTimestamp(UniformWaveformBase*, size_t&, size_t, int64_t)`,
whose body is the single assignment `i = timestamp + 1;` (the waveform and `len` are
unused); the `int64_t` sum is converted to `size_t`. -/
def AdvanceToTimestamp_Uniform (_i _len : Nat) (timestamp : Int) : Nat :=
  ((timestamp + 1) % (SIZE_MOD : Int)).toNat

/-- Embeds `Filter::AdvanceToTimestampScaled(UniformWaveformBase*, size_t&, size_t, int64_t)`,
returning the final `i`:
```
timestamp -= wfm->m_triggerPhase;
while( ((i+1) < len) && ( ( static_cast<int64_t>(i+1) * wfm->m_timescale) <= timestamp) )
	i ++;
```
The first argument bounds the trip count. -/
def AdvanceToTimestampScaled_Uniform (m_timescale m_triggerPhase : Int) (len : Nat)
    (timestamp : Int) : Nat → Nat → Option Nat
  | 0, i =>
    if addSize i 1 < len ∧
        ((addSize i 1 : Nat) : Int) * m_timescale ≤ timestamp - m_triggerPhase then none
    else some i
  | fuel + 1, i =>
    if addSize i 1 < len ∧
        ((addSize i 1 : Nat) : Int) * m_timescale ≤ timestamp - m_triggerPhase then
      AdvanceToTimestampScaled_Uniform m_timescale m_triggerPhase len timestamp fuel
        (addSize i 1)
    else some i

/-- The offsets of a sparse waveform of `len` samples with `offsets[k] = k`. -/
def identityOffsets (len : Nat) : List Int := (List.range len).map fun (k : Nat) => (k : Int)

/-! ### Rising and falling edges (`Filter.cpp`) -/

/-- Modelled from the spec: the stream types of `Stream::StreamType` that the sources name
(the enumeration is declared in `Stream.h`, outside the sources). -/
inductive StreamType where
  | STREAM_TYPE_ANALOG
  | STREAM_TYPE_DIGITAL
  | STREAM_TYPE_DIGITAL_BUS
  | STREAM_TYPE_EYE
  | STREAM_TYPE_TRIGGER
  | STREAM_TYPE_PROTOCOL
  | STREAM_TYPE_UNDEFINED
deriving DecidableEq, Repr

/-- Modelled from the spec: what `ValidateChannel` uses of a `StreamDescriptor`: the
channel pointer `m_channel` (`none` is `NULL`) and the result of `GetType()`. -/
structure StreamDescriptor where
  m_channel : Option Nat
  type : StreamType
deriving DecidableEq, Repr

/-- Embeds `EthernetGMIIDecoder::ValidateChannel`:
```
if(chan == NULL) return false;
switch(i)
{
	case 0:
		if(stream.GetType() != Stream::STREAM_TYPE_DIGITAL_BUS) return false;
		break;
	case 1: case 2: case 3:
		if(stream.GetType() != Stream::STREAM_TYPE_DIGITAL) return false;
		break;
}
return false;
``` -/
def EthernetGMIIDecoder_ValidateChannel (i : Nat) (stream : StreamDescriptor) : Bool :=
  if stream.m_channel = none then false
  else if i = 0 ∧ stream.type ≠ StreamType.STREAM_TYPE_DIGITAL_BUS then false
  else if (i = 1 ∨ i = 2 ∨ i = 3) ∧ stream.type ≠ StreamType.STREAM_TYPE_DIGITAL then false
  else false

/-- Embeds `EthernetRGMIIDecoder::ValidateChannel`:
```
if(chan == NULL) return false;
switch(i)
{
	case 0:
		if(stream.GetType() != Stream::STREAM_TYPE_DIGITAL_BUS) return true;
		break;
	case 1: case 2:
		if(stream.GetType() != Stream::STREAM_TYPE_DIGITAL) return true;
		break;
}
return false;
``` -/
def EthernetRGMIIDecoder_ValidateChannel (i : Nat) (stream : StreamDescriptor) : Bool :=
  if stream.m_channel = none then false
  else if i = 0 ∧ stream.type ≠ StreamType.STREAM_TYPE_DIGITAL_BUS then true
  else if (i = 1 ∨ i = 2) ∧ stream.type ≠ StreamType.STREAM_TYPE_DIGITAL then true
  else false

/-- The claim's reading of `ValidateChannel` for a decoder with inputs `0..n-1`: a
non-null channel, an input index below `n`, a digital bus on input 0 and a single digital
stream on every other input. -/
def validChannelSpec (n i : Nat) (stream : StreamDescriptor) : Bool :=
  decide (stream.m_channel ≠ none ∧ i < n ∧
    stream.type = (if i = 0 then StreamType.STREAM_TYPE_DIGITAL_BUS
      else StreamType.STREAM_TYPE_DIGITAL))

/-! ### 8b/10b decoding (`IBM8b10bDecoder.cpp`) -/

/-- A decoded symbol, `IBM8b10bSymbol(b, e, d, disp)`. -/
structure IBM8b10bSymbol where
  m_control : Bool
  m_error : Bool
  m_data : Nat
  m_disparity : Int
deriving DecidableEq, Repr

/-- The table `code5_table[64]`. -/
def code5_table : List Nat :=
  [ 0,  0,  0,  0,  0, 23,  8,  7,
    0, 27,  4, 20, 24, 12, 28, 28,
    0, 29,  2, 18, 31, 10, 26, 15,
    0,  6, 22, 16, 14,  1, 30,  0,
    0, 30,  1, 17, 16,  9, 25,  0,
   15,  5, 21, 31, 13,  2, 29,  0,
   28,  3, 19, 24, 11,  4, 27,  0,
    7,  8, 23,  0,  0,  0,  0,  0]

/-- The table `disp5_table[64]`. -/
def disp5_table : List Int :=
  [ 0,  0,  0, 0,  0, -2, -2, 0,
    0, -2, -2, 0, -2,  0,  0, 2,
    0, -2, -2, 0, -2,  0,  0, 2,
   -2,  0,  0, 2,  0,  2,  2, 0,
    0, -2, -2, 0, -2,  0,  0, 2,
   -2,  0,  0, 2,  0,  2,  2, 0,
   -2,  0,  0, 2,  0,  2,  2, 0,
    0,  2,  2, 0,  0,  0,  0, 0]

/-- The table `err5_table[64]`. -/
def err5_table : List Bool :=
  [ true,  true,  true,  true,  true, false, false, false,
    true, false, false, false, false, false, false, false,
    true, false, false, false, false, false, false, false,
   false, false, false, false, false, false, false,  true,
    true, false, false, false, false, false, false, false,
   false, false, false, false, false, false, false,  true,
   false, false, false, false, false, false, false,  true,
   false, false, false,  true,  true,  true,  true,  true]

/-- The table `ctl5_table[64]`: true at `0x0f` and `0x30` only. -/
def ctl5_table : List Bool :=
  (List.range 64).map fun (k : Nat) => decide (k = 15 ∨ k = 48)

/-- The table `err3_ctl_table[16]`. -/
def err3_ctl_table : List Bool :=
  [ true,  true, false, false, false, false, false, false,
   false, false, false, false, false, false,  true,  true]

/-- The table `code3_pos_ctl_table[16]`. -/
def code3_pos_ctl_table : List Nat := [0, 0, 4, 3, 0, 2, 6, 7, 7, 1, 5, 0, 3, 4, 0, 0]

/-- The table `code3_neg_ctl_table[16]`. -/
def code3_neg_ctl_table : List Nat := [0, 0, 4, 3, 0, 5, 1, 7, 7, 6, 2, 0, 3, 4, 0, 0]

/-- The table `err3_table[16]`. -/
def err3_table : List Bool :=
  [ true, false, false, false, false, false, false, false,
   false, false, false, false, false, false, false,  true]

/-- The table `code3_table[16]`. -/
def code3_table : List Nat := [0, 7, 4, 3, 0, 2, 6, 7, 7, 1, 5, 0, 3, 4, 7, 0]

/-- The table `disp3_table[16]`. -/
def disp3_table : List Int := [0, -2, -2, 0, -2, 0, 0, 2, -2, 0, 0, 2, 0, 2, 2, 0]

/-- The table `alt3_table[16]`: true for `Dx.A7` only. -/
def alt3_table : List Bool :=
  [false, false, false, false, false, false, false, true,
   true, false, false, false, false, false, false, false]

/-- The term `data.m_samples[k] ? w : 0`. -/
def bitWeight (samples : List Bool) (k w : Nat) : Option Nat :=
  (rd samples k).map fun b => if b then w else 0

/-- The inner loop of the comma test, over the values `js` of `j`:
```
for(int j=3; j<=6; j++)
	if(data.m_samples[i+offset+j] != data.m_samples[i+offset+2]) { comma = false; break; }
``` -/
def commaRun (samples : List Bool) (base : Nat) : List Nat → Option Bool
  | [] => some true
  | j :: js =>
    (rd samples (base + j)).bind fun x =>
    (rd samples (base + 2)).bind fun y =>
    if x != y then some false else commaRun samples base js

/-- The count `nones` of one bits among `cnt` samples from `base`. -/
def countOnes (samples : List Bool) (base : Nat) : Nat → Option Nat
  | 0 => some 0
  | cnt + 1 =>
    (countOnes samples base cnt).bind fun n =>
    (rd samples (base + cnt)).map fun b => n + (if b then 1 else 0)

/-- One candidate symbol of the alignment search at `i + offset`; the state is
`(num_commas, num_errors)`. -/
def alignmentStep (samples : List Bool) (offset i : Nat) (st : Nat × Nat) :
    Option (Nat × Nat) :=
  (commaRun samples (i + offset) [3, 4, 5, 6]).bind fun c0 =>
  (rd samples (i + offset + 1)).bind fun s1 =>
  (rd samples (i + offset + 2)).bind fun s2 =>
  (rd samples (i + offset + 7)).bind fun s7 =>
  let comma := c0 && !(s1 == s2) && !(s7 == s2)
  (countOnes samples (i + offset) 10).map fun nones =>
  (if comma then st.1 + 1 else st.1,
   if nones ≠ 4 ∧ nones ≠ 5 ∧ nones ≠ 6 then st.2 + 1 else st.2)

/-- The alignment search of `IBM8b10bDecoder::Refresh`: for each `offset` in `0..9` count
commas and malformed symbols over the first `min(size - 20, 100000)` samples and keep the
offset with the most commas among those with no more errors than commas.  Returns
`max_offset`. -/
def findAlignment (samples : List Bool) : Option Nat :=
  let dlen := min (subSize samples.length 20) 100000
  (forLoop 10 1
    (fun offset (mx : Nat × Nat) =>
      (forLoop dlen 10 (alignmentStep samples offset) dlen 0 (0, 0)).map fun r =>
        if r.2 > r.1 then mx
        else if r.1 > mx.1 then (r.1, offset)
        else mx)
    10 0 (0, 0)).map fun mx => mx.2

/-- Local variables of the decoding loop and the three arrays of the output `cap`. -/
structure Decode8b10bState where
  first : Bool
  last_disp : Int
  m_offsets : List Int
  m_durations : List Int
  m_samples : List IBM8b10bSymbol
deriving DecidableEq, Repr

/-- The disparity tracking of the decoding loop, from `total_disp = disp3 + disp5`; returns
`disperr` and the new `last_disp`:
```
if(first) { if(total_disp < 0) last_disp = 1; else last_disp = -1; first = false; }
if(total_disp > 0 && last_disp > 0) { disperr = true; last_disp = 1; }
else if(total_disp < 0 && last_disp < 0) { disperr = true; last_disp = -1; }
else last_disp += total_disp;
``` -/
def trackDisparity (first : Bool) (last_disp total_disp : Int) : Bool × Int :=
  let last0 := if first then (if total_disp < 0 then 1 else -1) else last_disp
  if total_disp > 0 ∧ last0 > 0 then (true, 1)
  else if total_disp < 0 ∧ last0 < 0 then (true, -1)
  else (false, last0 + total_disp)

/-- The 6-bit group of the symbol at `i`:
```
uint8_t code6 =
	(data.m_samples[i+0] ? 32 : 0) | (data.m_samples[i+1] ? 16 : 0) |
	(data.m_samples[i+2] ? 8 : 0) | (data.m_samples[i+3] ? 4 : 0) |
	(data.m_samples[i+4] ? 2 : 0) | (data.m_samples[i+5] ? 1 : 0);
``` -/
def code6At (samples : List Bool) (i : Nat) : Option Nat :=
  (bitWeight samples (i + 0) 32).bind fun (b0 : Nat) =>
  (bitWeight samples (i + 1) 16).bind fun (b1 : Nat) =>
  (bitWeight samples (i + 2) 8).bind fun (b2 : Nat) =>
  (bitWeight samples (i + 3) 4).bind fun (b3 : Nat) =>
  (bitWeight samples (i + 4) 2).bind fun (b4 : Nat) =>
  (bitWeight samples (i + 5) 1).map fun (b5 : Nat) =>
  Nat.lor (Nat.lor (Nat.lor (Nat.lor (Nat.lor b0 b1) b2) b3) b4) b5

/-- The 4-bit group of the symbol at `i`:
```
uint8_t code4 =
	(data.m_samples[i+6] ? 8 : 0) | (data.m_samples[i+7] ? 4 : 0) |
	(data.m_samples[i+8] ? 2 : 0) | (data.m_samples[i+9] ? 1 : 0);
``` -/
def code4At (samples : List Bool) (i : Nat) : Option Nat :=
  (bitWeight samples (i + 6) 8).bind fun (c0 : Nat) =>
  (bitWeight samples (i + 7) 4).bind fun (c1 : Nat) =>
  (bitWeight samples (i + 8) 2).bind fun (c2 : Nat) =>
  (bitWeight samples (i + 9) 1).map fun (c3 : Nat) =>
  Nat.lor (Nat.lor (Nat.lor c0 c1) c2) c3

/-- The 3b/4b lookups, returning `code3` and `err3`:
```
if(ctl5)
{
	if(disp5 >= 0) code3 = code3_pos_ctl_table[code4];
	else code3 = code3_neg_ctl_table[code4];
	err3 = err3_ctl_table[code4];
}
else
{
	code3 = code3_table[code4];
	err3 = err3_table[code4];
}
``` -/
def decode3b4b (ctl5 : Bool) (disp5 : Int) (code4 : Nat) : Option (Nat × Bool) :=
  if ctl5 = true then
    (if disp5 ≥ 0 then rd code3_pos_ctl_table code4 else rd code3_neg_ctl_table code4).bind
      fun (code3 : Nat) => (rd err3_ctl_table code4).map fun (err3 : Bool) => (code3, err3)
  else
    (rd code3_table code4).bind fun (code3 : Nat) =>
      (rd err3_table code4).map fun (err3 : Bool) => (code3, err3)

/-- The symbol the decoding loop pushes: `IBM8b10bSymbol(ctl5, err5 || err3 || disperr,
(code3 << 5) | code5, last_disp)`, where `ctl5` has been set for the `.A7` control codes
(`alt` and `code5` one of 23, 27, 29, 30). -/
def makeSymbol (ctl5 err5 err3 disperr alt : Bool) (code3 code5 : Nat) (last_disp : Int) :
    IBM8b10bSymbol :=
  { m_control := ctl5 || (alt && (code5 == 23 || code5 == 27 || code5 == 29 || code5 == 30))
    m_error := err5 || err3 || disperr
    m_data := (Nat.lor (code3 <<< 5) code5) % 256
    m_disparity := last_disp }

/-- The 5b/6b lookups `code5_table[code6]`, `disp5_table[code6]`, `err5_table[code6]` and
`ctl5_table[code6]`. -/
def decode5b6b (code6 : Nat) : Option (Nat × Int × Bool × Bool) :=
  (rd code5_table code6).bind fun (code5 : Nat) =>
  (rd disp5_table code6).bind fun (disp5 : Int) =>
  (rd err5_table code6).bind fun (err5 : Bool) =>
  (rd ctl5_table code6).map fun (ctl5 : Bool) => (code5, disp5, err5, ctl5)

/-- The pushes that end the body of the decoding loop:
```
cap->m_offsets.push_back(data.m_offsets[i] - data.m_durations[i]/2);
cap->m_durations.push_back(data.m_offsets[i+10] - data.m_offsets[i]);
cap->m_samples.push_back(IBM8b10bSymbol(...));
``` -/
def pushSymbol (data : SparseDigitalWaveform) (i : Nat) (last_disp : Int)
    (sym : IBM8b10bSymbol) (st : Decode8b10bState) : Option Decode8b10bState :=
  (rd data.m_offsets i).bind fun (o : Int) =>
  (rd data.m_durations i).bind fun (du : Int) =>
  (rd data.m_offsets (i + 10)).map fun (o10 : Int) =>
  Decode8b10bState.mk false last_disp (st.m_offsets ++ [o - Int.tdiv du 2])
    (st.m_durations ++ [o10 - o]) (st.m_samples ++ [sym])

/-- The body of the decoding loop at sample index `i`: 5b/6b and 3b/4b table lookups,
disparity tracking with `total_disp = disp3 + disp5`, and the symbol pushed to `cap`. -/
def decode8b10bStep (data : SparseDigitalWaveform) (i : Nat) (st : Decode8b10bState) :
    Option Decode8b10bState :=
  (code6At data.m_samples i).bind fun (code6 : Nat) =>
  (decode5b6b code6).bind fun (c5 : Nat × Int × Bool × Bool) =>
  (code4At data.m_samples i).bind fun (code4 : Nat) =>
  (decode3b4b c5.2.2.2 c5.2.1 code4).bind fun (ce : Nat × Bool) =>
  (rd disp3_table code4).bind fun (disp3 : Int) =>
  (rd alt3_table code4).bind fun (alt : Bool) =>
  let tracked := trackDisparity st.first st.last_disp (disp3 + c5.2.1)
  pushSymbol data i tracked.2
    (makeSymbol c5.2.2.2 c5.2.2.1 ce.2 tracked.1 alt ce.1 c5.1 tracked.2) st

/-- The decoding part of `IBM8b10bDecoder::Refresh` on the sampled data stream `data`:
the alignment search, then
`for(size_t i=max_offset; i<dlen; i+= 10)` with `dlen = data.m_samples.size() - 11`,
starting from `first = true`, `last_disp = -1` and the empty arrays of the new capture. -/
def IBM8b10bDecoder_decode (data : SparseDigitalWaveform) : Option Decode8b10bState :=
  (findAlignment data.m_samples).bind fun max_offset =>
  let dlen := subSize data.m_samples.length 11
  forLoop dlen 10 (decode8b10bStep data) dlen max_offset
    { first := true, last_disp := -1, m_offsets := [], m_durations := [], m_samples := [] }

/-- Thirty sampled bits, one per 100 fs: the ten bits `0001010001` three times. -/
def exampleUnbalancedBits : SparseDigitalWaveform :=
  { m_timescale := 1, m_triggerPhase := 0,
    m_offsets := (List.range 30).map fun (k : Nat) => (k : Int) * 100,
    m_durations := List.replicate 30 100,
    m_samples := (List.range 30).map fun (k : Nat) => decide (k % 10 = 3 ∨ k % 10 = 5 ∨ k % 10 = 9) }

/-! ### A model of binary32 arithmetic

`float` in the sources is IEEE 754 binary32 with round to nearest, ties to even.  The model
below is the carrier on which examples that depend on rounding are evaluated. -/

/-- Number of binary digits of `n`; the first argument bounds the digit count. -/
def bitLength : Nat → Nat → Nat
  | 0, _ => 0
  | fuel + 1, n => if n = 0 then 0 else bitLength fuel (n / 2) + 1

/-- A binary32 value: `finite m e` is the number `m * 2^e`, kept with `m` odd (or
`m = 0`, `e = 0`); `nonFinite` stands for the infinities and NaN, which the model does not
tell apart. -/
inductive Binary32 where
  | finite (m : Int) (e : Int)
  | nonFinite
deriving DecidableEq, Repr

/-- Removal of trailing zero digits of the significand: `m * 2^e` with `m` odd.  The first
argument bounds the number of digits removed. -/
def Binary32.normalize : Nat → Int → Int → Binary32
  | 0, m, e => Binary32.finite m e
  | fuel + 1, m, e =>
    if m = 0 then Binary32.finite 0 0
    else if m % 2 = 0 then Binary32.normalize fuel (m / 2) (e + 1)
    else Binary32.finite m e

/-- Rounding of the exact value `(m + s) * 2^e` to binary32, where `s` is a fraction in
`(0, 1)` of the sign of `m` when `sticky` holds and 0 otherwise: keep 24 significant
digits, and no digit below `2^-149`, rounding to nearest with ties to even; a result of
magnitude `2^128` or more is not finite. -/
def Binary32.round (m e : Int) (sticky : Bool) : Binary32 :=
  let n := m.natAbs
  let k := max ((bitLength 2048 n : Int) - 24) (-149 - e)
  if k ≤ 0 then
    if (bitLength 2048 n : Int) + e > 128 then Binary32.nonFinite
    else Binary32.normalize 2048 m e
  else
    let d := 2 ^ k.toNat
    let q := n / d
    let r := n % d
    let up := decide (2 * r > d) || (decide (2 * r = d) && (sticky || decide (q % 2 = 1)))
    let q1 := if up = true then q + 1 else q
    if (bitLength 2048 q1 : Int) + (e + k) > 128 then Binary32.nonFinite
    else Binary32.normalize 2048 (if m < 0 then -(q1 : Int) else (q1 : Int)) (e + k)

/-- Conversion of an `int64_t` to `float`. -/
def Binary32.ofInt64 (x : Int) : Binary32 := Binary32.round x 0 false

/-- The sum of two binary32 values, rounded. -/
def Binary32.add : Binary32 → Binary32 → Binary32
  | Binary32.finite m1 e1, Binary32.finite m2 e2 =>
    let e := min e1 e2
    Binary32.round (m1 * 2 ^ (e1 - e).toNat + m2 * 2 ^ (e2 - e).toNat) e false
  | _, _ => Binary32.nonFinite

/-- The difference of two binary32 values, rounded. -/
def Binary32.sub : Binary32 → Binary32 → Binary32
  | Binary32.finite m1 e1, Binary32.finite m2 e2 =>
    let e := min e1 e2
    Binary32.round (m1 * 2 ^ (e1 - e).toNat - m2 * 2 ^ (e2 - e).toNat) e false
  | _, _ => Binary32.nonFinite

/-- The product of two binary32 values, rounded. -/
def Binary32.mul : Binary32 → Binary32 → Binary32
  | Binary32.finite m1 e1, Binary32.finite m2 e2 => Binary32.round (m1 * m2) (e1 + e2) false
  | _, _ => Binary32.nonFinite

/-- The quotient of two binary32 values, rounded: the integer quotient is taken with at
least 26 significant digits and a non-zero remainder is passed on as the sticky flag.  A
zero divisor gives a value that is not finite. -/
def Binary32.div : Binary32 → Binary32 → Binary32
  | Binary32.finite m1 e1, Binary32.finite m2 e2 =>
    if m2 = 0 then Binary32.nonFinite
    else
      let s := bitLength 2048 m2.natAbs + 26
      let num := m1.natAbs * 2 ^ s
      let q := num / m2.natAbs
      let neg := decide (m1 < 0) != decide (m2 < 0)
      Binary32.round (if neg = true then -(q : Int) else (q : Int)) (e1 - e2 - (s : Int))
        (decide (num % m2.natAbs ≠ 0))
  | _, _ => Binary32.nonFinite

/-- The comparison `a < b`; false when an operand is not finite. -/
def Binary32.lt : Binary32 → Binary32 → Bool
  | Binary32.finite m1 e1, Binary32.finite m2 e2 =>
    let e := min e1 e2
    decide (m1 * 2 ^ (e1 - e).toNat < m2 * 2 ^ (e2 - e).toNat)
  | _, _ => false

/-- Conversion of a `float` to `int64_t`, truncating toward zero (0 for a value that is
not finite, where C++ leaves the result undefined). -/
def Binary32.toInt64 : Binary32 → Int
  | Binary32.finite m e => if 0 ≤ e then m * 2 ^ e.toNat else Int.tdiv m (2 ^ (-e).toNat)
  | Binary32.nonFinite => 0

instance : Zero Binary32 := ⟨Binary32.finite 0 0⟩
instance : One Binary32 := ⟨Binary32.finite 1 0⟩
instance : Add Binary32 := ⟨Binary32.add⟩
instance : Sub Binary32 := ⟨Binary32.sub⟩
instance : Mul Binary32 := ⟨Binary32.mul⟩
instance : Div Binary32 := ⟨Binary32.div⟩
instance : LT Binary32 := ⟨fun a b => Binary32.lt a b = true⟩
instance : DecidableRel (fun a b : Binary32 => a < b) :=
  fun a b => inferInstanceAs (Decidable (Binary32.lt a b = true))

/-- Two binary32 samples `2^25` and `1`, uniformly sampled. -/
def exampleUniformB32 : UniformAnalogWaveform Binary32 :=
  { m_timescale := 1, m_triggerPhase := 0,
    m_samples := [Binary32.ofInt64 33554432, Binary32.ofInt64 1] }

/-- Two finite binary32 samples `-3 * 2^126` and `3 * 2^126`, whose difference exceeds the
largest finite binary32 value. -/
def exampleWideB32 : UniformAnalogWaveform Binary32 :=
  { m_timescale := 1, m_triggerPhase := 0,
    m_samples := [Binary32.finite (-3) 126, Binary32.finite 3 126] }

/-- Three binary32 samples 0, 2 and 6, sparsely sampled two ticks apart. -/
def exampleSparseB32 : SparseAnalogWaveform Binary32 :=
  { m_timescale := 1, m_triggerPhase := 0, m_offsets := [0, 2, 4], m_durations := [2, 2, 1],
    m_samples := [Binary32.ofInt64 0, Binary32.ofInt64 2, Binary32.ofInt64 6] }


/-! ### Clock recovery in binary32 -/

/-- The function `roundf`: the nearest integer, halves away from zero. -/
def Binary32.roundf : Binary32 → Binary32
  | Binary32.finite m e =>
    if 0 ≤ e then Binary32.finite m e
    else
      let d := 2 ^ (-e).toNat
      let q := m.natAbs / d
      let q1 := if 2 * (m.natAbs % d) ≥ d then q + 1 else q
      Binary32.ofInt64 (if m < 0 then -(q1 : Int) else (q1 : Int))
  | Binary32.nonFinite => Binary32.nonFinite

/-- The binary32 carrier for `ClockRecoveryFilter::Refresh`: conversions, sums and
comparisons are those of binary32; a literal is the rounded quotient of its rounded
numerator and denominator; `InterpolateTime` (unused on digital inputs) is a stand-in and
`GetOffsetScaled` is the one of `exampleCDREnv`. -/
def binary32CDREnv : CDREnv Binary32 where
  flt := { ofInt64 := Binary32.ofInt64, toInt64 := Binary32.toInt64,
           InterpolateTime := fun _ _ _ => 0 }
  lit := fun q => Binary32.ofInt64 q.num / Binary32.ofInt64 (q.den : Int)
  round := Binary32.roundf
  GetOffsetScaled := fun w i =>
    if w.kind.isSparse then (rd w.m_offsets i).map fun o => o * w.m_timescale + w.m_triggerPhase
    else some ((i : Int) * w.m_timescale + w.m_triggerPhase)

/-- The capture of `exampleSquareWave 13` taken with trigger phase `2^38` fs (about 275 µs):
a uniform digital waveform at 10000 fs per sample whose twelve reported edges are 40000 fs
apart, the first at `2^38 + 45000` fs. -/
def lateSquareWave : Waveform Binary32 :=
  { kind := WaveformKind.UniformDigital, m_timescale := 10000, m_startTimestamp := 1700000000,
    m_startFemtoseconds := 0, m_triggerPhase := 2 ^ 38, m_revision := 1, m_offsets := [],
    m_durations := [], m_analog := [],
    m_digital := (List.range 52).map fun (i : Nat) => decide ((i / 4) % 2 = 1) }

/-- The edges of `lateSquareWave`: `2^38 + 45000 + 40000 k` for `k < 12`. -/
def lateEdges : List Int :=
  (List.range 12).map fun (k : Nat) => 2 ^ 38 + 45000 + 40000 * (k : Int)

/-- A clock recovery filter on `lateSquareWave` at address 1, with no gate waveform, an
empty analysis cache and the symbol rate 25 GHz. -/
def lateCDR : ClockRecoveryState Binary32 :=
  { base :=
      { heap := fun q => if q = 1 then some lateSquareWave else none
        m_streams := [none]
        m_inputs := [{ m_channel := some 0, m_waveform := some 1 },
                     { m_channel := none, m_waveform := none }]
        fresh := 2 }
    analysis := { m_zeroCrossingCache := [], scans := 0 }
    m_baud := Binary32.ofInt64 25000000000
    m_threshold := 0 }

/-! ### A dense capture far from the start -/

/-- The 407 edge timestamps `2^40 + 247679 + 10 k` fs, `k < 407`: one edge every 10 fs,
the first about 1.1 ms after the start of the capture. -/
def denseEdges : List Int :=
  (List.range 407).map fun (k : Nat) => 2 ^ 40 + 247679 + 10 * (k : Int)

/-- A sparse digital capture at 10 fs per tick with trigger phase 0 that is quiet until
tick 109951187543 (about 1.1 ms): 409 samples on consecutive ticks that toggle every tick,
and a last sample 20000 ticks later that repeats the level before it. -/
def denseCapture : Waveform Binary32 :=
  { kind := WaveformKind.SparseDigital, m_timescale := 10, m_startTimestamp := 1700000000,
    m_startFemtoseconds := 0, m_triggerPhase := 0, m_revision := 1,
    m_offsets := (List.range 409).map (fun (i : Nat) => 109951187543 + (i : Int)) ++
      [109951207543],
    m_durations := List.replicate 408 1 ++ [19592, 1], m_analog := [],
    m_digital := (List.range 409).map (fun (i : Nat) => decide (i % 2 = 1)) ++ [false] }

/-- A clock recovery filter on `denseCapture` at address 1, with no gate waveform, an empty
analysis cache and the symbol rate 25 GHz. -/
def denseCDR : ClockRecoveryState Binary32 :=
  { base :=
      { heap := fun q => if q = 1 then some denseCapture else none
        m_streams := [none]
        m_inputs := [{ m_channel := some 0, m_waveform := some 1 },
                     { m_channel := none, m_waveform := none }]
        fresh := 2 }
    analysis := { m_zeroCrossingCache := [], scans := 0 }
    m_baud := Binary32.ofInt64 25000000000
    m_threshold := 0 }

/-- The state of the PLL loop on `denseEdges` after `k` cycles without feedback. -/
def denseState (k : Nat) : PLLState :=
  { edgepos := 2 ^ 40 + 247679 + 40000 * (k : Int), period := 40000, nedge := 1, igate := 0,
    gating := false, value := decide (k % 2 = 1),
    m_offsets := (List.range k).map fun (i : Nat) => 2 ^ 40 + 267679 + 40000 * (i : Int),
    m_durations := List.replicate k 40000,
    m_samples := (List.range k).map fun (i : Nat) => decide (i % 2 = 0), deltas := [] }

/-- The state after the first feedback step of the fourth cycle on `denseEdges`. -/
def denseState4 : PLLState :=
  { denseState 3 with edgepos := 2 ^ 40 + 367579, period := 39999, nedge := 2,
                      deltas := [79990] }
/-! ## Part 2: theorems -/

/-! ### Helper lemmas: `size_t` arithmetic and loops -/

theorem subSize_one {i : Nat} (h1 : 1 ≤ i) (h2 : i < SIZE_MOD) : subSize i 1 = i - 1 := by
  unfold subSize SIZE_MOD at *
  omega

theorem forLoop_step {σ : Type} (stop : Nat) (body : Nat → σ → Option σ) (fuel i : Nat) (s : σ)
    (hi : i < stop) (hf : stop - i ≤ fuel) :
    forLoop stop 1 body fuel i s = (body i s).bind (forLoop stop 1 body (fuel - 1) (i + 1)) := by
  cases fuel with
  | zero => omega
  | succ f => simp [forLoop, hi]

theorem forLoop_done {σ : Type} (stop step : Nat) (body : Nat → σ → Option σ) (fuel i : Nat) (s : σ)
    (hi : stop ≤ i) : forLoop stop step body fuel i s = some s := by
  cases fuel with
  | zero => simp [forLoop, Nat.not_lt.mpr hi]
  | succ f => simp [forLoop, Nat.not_lt.mpr hi]

/-! ### Duration fill -/

theorem durationStep_eq (offs durs : List Int) (i : Nat) (h1 : 1 ≤ i) (h2 : i < offs.length)
    (h3 : offs.length < SIZE_MOD) (h4 : durs.length = offs.length) :
    durationStep offs i durs = some (durs.set (i - 1) (offs.getD i 0 - offs.getD (i - 1) 0)) := by
  have hs : subSize i 1 = i - 1 := subSize_one h1 (by omega)
  have hlt : i - 1 < offs.length := by omega
  simp [durationStep, rd, wr, hs, List.getElem?_eq_getElem h2, List.getElem?_eq_getElem hlt,
    List.getD_eq_getElem?_getD, h4, hlt]

/-- The scalar loop from index `i` on: every slot `j` with `i - 1 ≤ j < n - 1` receives
the difference of its two neighbouring offsets, the other slots are kept. -/
theorem durationLoop_spec (offs : List Int) (h3 : offs.length < SIZE_MOD) :
    ∀ (k i fuel : Nat) (durs : List Int), 1 ≤ i → i + k = offs.length → k ≤ fuel →
      durs.length = offs.length →
      ∃ d, forLoop offs.length 1 (durationStep offs) fuel i durs = some d ∧
        d.length = offs.length ∧
        ∀ j, d[j]? = if i - 1 ≤ j ∧ j + 1 < offs.length
          then some (offs.getD (j + 1) 0 - offs.getD j 0) else durs[j]? := by
  intro k
  induction k with
  | zero =>
    intro i fuel durs h1 hik _ hd
    refine ⟨durs, forLoop_done _ _ _ _ _ _ (by omega), hd, ?_⟩
    intro j
    have : ¬ (i - 1 ≤ j ∧ j + 1 < offs.length) := by omega
    rw [if_neg this]
  | succ k ih =>
    intro i fuel durs h1 hik hf hd
    have hi : i < offs.length := by omega
    rw [forLoop_step _ _ _ _ _ hi (by omega), durationStep_eq offs durs i h1 hi h3 hd]
    obtain ⟨d, hd1, hd2, hd3⟩ := ih (i + 1) (fuel - 1)
      (durs.set (i - 1) (offs.getD i 0 - offs.getD (i - 1) 0)) (by omega) (by omega) (by omega)
      (by simp [hd])
    refine ⟨d, by simpa using hd1, hd2, ?_⟩
    intro j
    rw [hd3 j, List.getElem?_set]
    by_cases hj : i - 1 = j
    · subst hj
      have e1 : i - 1 + 1 = i := by omega
      have c1 : ¬ (i + 1 - 1 ≤ i - 1 ∧ i - 1 + 1 < offs.length) := by omega
      have c2 : (i - 1 ≤ i - 1 ∧ i - 1 + 1 < offs.length) := by omega
      have c3 : i - 1 < durs.length := by omega
      rw [if_neg c1, if_pos c2, if_pos rfl, if_pos c3, e1]
    · rw [if_neg hj]
      by_cases hc : i + 1 - 1 ≤ j ∧ j + 1 < offs.length
      · have c2 : (i - 1 ≤ j ∧ j + 1 < offs.length) := by omega
        rw [if_pos hc, if_pos c2]
      · have c2 : ¬ (i - 1 ≤ j ∧ j + 1 < offs.length) := by omega
        rw [if_neg hc, if_neg c2]

theorem resize_length {α : Type} (pad : α) (xs : List α) (n : Nat) :
    (resize pad xs n).length = n := by
  simp [resize]
  omega

/-- Closed form of the scalar duration fill. -/
theorem FillDurationsGeneric_eq (wfm : SparseWaveformBase) (h1 : 1 ≤ wfm.m_offsets.length)
    (h2 : wfm.m_offsets.length < SIZE_MOD) :
    ∃ d, FillDurationsGeneric wfm = some { m_offsets := wfm.m_offsets, m_durations := d } ∧
      d.length = wfm.m_offsets.length ∧
      (∀ j, j + 1 < wfm.m_offsets.length →
        d[j]? = some (wfm.m_offsets.getD (j + 1) 0 - wfm.m_offsets.getD j 0)) ∧
      d[wfm.m_offsets.length - 1]? = some 1 := by
  obtain ⟨d, hd1, hd2, hd3⟩ := durationLoop_spec wfm.m_offsets h2 (wfm.m_offsets.length - 1) 1
    wfm.m_offsets.length (resize 0 wfm.m_durations wfm.m_offsets.length) (by omega) (by omega)
    (by omega) (resize_length _ _ _)
  have hs : subSize wfm.m_offsets.length 1 = wfm.m_offsets.length - 1 := subSize_one h1 h2
  have hlt : wfm.m_offsets.length - 1 < d.length := by omega
  refine ⟨d.set (wfm.m_offsets.length - 1) 1, ?_, by simp [hd2], ?_, ?_⟩
  · simp [FillDurationsGeneric, SparseWaveformBase.size, hd1, hs, wr, hlt]
  · intro j hj
    rw [List.getElem?_set, if_neg (by omega), hd3 j, if_pos (by omega)]
  · rw [List.getElem?_set, if_pos rfl, if_pos hlt]

/-- C4. For a sparse waveform with `n ≥ 1` samples `FillDurationsGeneric` returns, leaves the
offsets unchanged, and leaves a durations array of length `n` with
`durations[i] = offsets[i+1] - offsets[i]` for `i < n - 1` and `durations[n-1] = 1`;
offsets `[0,10,25,40]` give durations `[10,15,15,1]`. -/
theorem FillDurationsGeneric_spec (wfm : SparseWaveformBase) (h1 : 1 ≤ wfm.size)
    (h2 : wfm.size < SIZE_MOD) :
    (∃ d, FillDurationsGeneric wfm = some { m_offsets := wfm.m_offsets, m_durations := d } ∧
      d.length = wfm.size ∧
      (∀ i a b, i + 1 < wfm.size → wfm.m_offsets[i]? = some a → wfm.m_offsets[i + 1]? = some b →
        d[i]? = some (b - a)) ∧
      d[wfm.size - 1]? = some 1) ∧
    FillDurationsGeneric { m_offsets := [0, 10, 25, 40], m_durations := [] } =
      some { m_offsets := [0, 10, 25, 40], m_durations := [10, 15, 15, 1] } := by
  refine ⟨?_, by decide⟩
  obtain ⟨d, hd1, hd2, hd3, hd4⟩ := FillDurationsGeneric_eq wfm h1 h2
  refine ⟨d, hd1, hd2, ?_, hd4⟩
  intro i a b hi ha hb
  rw [hd3 i hi]
  simp [List.getD_eq_getElem?_getD, ha, hb]

theorem FillDurationsGeneric_spec_witness :
    1 ≤ SparseWaveformBase.size { m_offsets := [3, 5, 9], m_durations := [7] } ∧
    ∃ d, FillDurationsGeneric { m_offsets := [3, 5, 9], m_durations := [7] } =
        some { m_offsets := [3, 5, 9], m_durations := d } ∧
      d.length = 3 ∧
      (∀ i a b, i + 1 < 3 → [(3 : Int), 5, 9][i]? = some a → [(3 : Int), 5, 9][i + 1]? = some b →
        d[i]? = some (b - a)) ∧
      d[3 - 1]? = some 1 :=
  ⟨by decide, (FillDurationsGeneric_spec { m_offsets := [3, 5, 9], m_durations := [7] }
    (by decide) (by decide)).1⟩

/-- C3 (defect). On a one-sample waveform the tail loop of `FillDurationsAVX2` starts at
`i = end = 0` and indexes `m_durations[i-1]` and `m_offsets[i-1]` out of bounds, and on a
four-sample waveform the last vector load reads `m_offsets[4]`; `FillDurationsGeneric`
stays in bounds on both inputs. -/
theorem FillDurationsAVX2_out_of_bounds :
    FillDurationsAVX2 { m_offsets := [0], m_durations := [] } = none ∧
    FillDurationsGeneric { m_offsets := [0], m_durations := [] } =
      some { m_offsets := [0], m_durations := [1] } ∧
    FillDurationsAVX2 { m_offsets := [0, 10, 25, 40], m_durations := [] } = none ∧
    FillDurationsGeneric { m_offsets := [0, 10, 25, 40], m_durations := [] } =
      some { m_offsets := [0, 10, 25, 40], m_durations := [10, 15, 15, 1] } := by
  decide

/-! ### Digital zero crossings -/

theorem transitionsFrom_succ (s : List Bool) (i k : Nat) :
    transitionsFrom s i (k + 1) =
      (if s.getD i false != s.getD (i - 1) false then [i] else []) ++
        transitionsFrom s (i + 1) k := by
  unfold transitionsFrom
  rw [List.range'_succ, List.filter_cons]
  split <;> simp

theorem rd_getD (s : List Bool) (i : Nat) (hi : i < s.length) :
    rd s i = some (s.getD i false) := by
  simp [rd, List.getD_eq_getElem?_getD, List.getElem?_eq_getElem hi]

theorem zeroCrossingStep_first (value : Nat → Option Bool) (stamp : Nat → Option Int) (i : Nat)
    (v l : Bool) (e : List Int) (hv : value i = some v) :
    zeroCrossingStep value stamp i { first := true, last := l, edges := e } =
      some { first := false, last := v, edges := e } := by
  simp [zeroCrossingStep, hv]

theorem zeroCrossingStep_same (value : Nat → Option Bool) (stamp : Nat → Option Int) (i : Nat)
    (v : Bool) (e : List Int) (hv : value i = some v) :
    zeroCrossingStep value stamp i { first := false, last := v, edges := e } =
      some { first := false, last := v, edges := e } := by
  simp [zeroCrossingStep, hv]

theorem zeroCrossingStep_toggle (value : Nat → Option Bool) (stamp : Nat → Option Int) (i : Nat)
    (v l : Bool) (t : Int) (e : List Int) (hv : value i = some v) (ht : stamp i = some t)
    (hl : l ≠ v) :
    zeroCrossingStep value stamp i { first := false, last := l, edges := e } =
      some { first := false, last := v, edges := e ++ [t] } := by
  simp [zeroCrossingStep, hv, ht, hl]

/-- Once `first` is cleared and `last` holds the previous sample, the loop appends the
stamp of every later index whose sample differs from its predecessor. -/
theorem zeroCrossingLoop_spec (s : List Bool) (stamp : Nat → Option Int) (f : Nat → Int)
    (hst : ∀ j, j < s.length → stamp j = some (f j)) :
    ∀ (k i fuel : Nat) (e : List Int), 1 ≤ i → i + k = s.length → k ≤ fuel →
      forLoop s.length 1 (zeroCrossingStep (rd s) stamp) fuel i
          { first := false, last := s.getD (i - 1) false, edges := e } =
        some { first := false, last := s.getD (s.length - 1) false,
               edges := e ++ (transitionsFrom s i k).map f } := by
  intro k
  induction k with
  | zero =>
    intro i fuel e h1 hik _
    rw [forLoop_done _ _ _ _ _ _ (by omega)]
    have : i - 1 = s.length - 1 := by omega
    simp [transitionsFrom, this]
  | succ k ih =>
    intro i fuel e h1 hik hf
    have hi : i < s.length := by omega
    have hv := rd_getD s i hi
    have hnext := fun e' => ih (i + 1) (fuel - 1) e' (by omega) (by omega) (by omega)
    rw [Nat.add_sub_cancel] at hnext
    rw [forLoop_step _ _ _ _ _ hi (by omega), transitionsFrom_succ]
    by_cases hc : s.getD (i - 1) false = s.getD i false
    · rw [hc, zeroCrossingStep_same _ _ _ _ _ hv, Option.some_bind, hnext]
      simp
    · rw [zeroCrossingStep_toggle _ _ _ _ _ _ _ hv (hst i hi) hc, Option.some_bind, hnext]
      have hne : (s.getD i false != s.getD (i - 1) false) = true := by
        simp only [bne_iff_ne, ne_eq]
        exact fun h => hc h.symm
      rw [if_pos hne]
      simp

/-- The whole digital scan: sample 0 is read, the iteration `i = 1` only records
`samples[1]`, and transitions are reported from index 2 on. -/
theorem zeroCrossingScan_digital (s : List Bool) (stamp : Nat → Option Int) (f : Nat → Int)
    (hst : ∀ j, j < s.length → stamp j = some (f j)) (s0 : Bool) (e : List Int) :
    (forLoop s.length 1 (zeroCrossingStep (rd s) stamp) s.length 1
        { first := true, last := s0, edges := e }).map (fun st => st.edges) =
      some (e ++ (transitionsFrom s 2 (s.length - 2)).map f) := by
  by_cases h1 : 1 < s.length
  · rw [forLoop_step _ _ _ _ _ h1 (by omega),
      zeroCrossingStep_first _ _ _ _ _ _ (rd_getD s 1 h1), Option.some_bind]
    have h := zeroCrossingLoop_spec s stamp f hst (s.length - 2) 2 (s.length - 1) e (by omega)
      (by omega) (by omega)
    rw [show (2 : Nat) - 1 = 1 from rfl] at h
    rw [h]
    rfl
  · rw [forLoop_done _ _ _ _ _ _ (by omega)]
    have : s.length - 2 = 0 := by omega
    simp [transitionsFrom, this]

/-- Closed form of the uniform digital overload on a non-empty waveform. -/
theorem FindZeroCrossings_UniformDigital_eq (data : UniformDigitalWaveform) (edges : List Int)
    (h : 1 ≤ data.m_samples.length) :
    FindZeroCrossings_UniformDigital data edges =
      some (edges ++ (transitionsFrom data.m_samples 2 (data.m_samples.length - 2)).map
        fun (i : Nat) => Int.tdiv data.m_timescale 2 + data.m_triggerPhase + data.m_timescale * (i : Int)) := by
  have h0 : rd data.m_samples 0 = some (data.m_samples.getD 0 false) := rd_getD _ 0 (by omega)
  unfold FindZeroCrossings_UniformDigital
  rw [h0, Option.some_bind]
  exact zeroCrossingScan_digital data.m_samples _ _ (fun j _ => rfl) _ edges

/-- Closed form of the sparse digital scan on a non-empty waveform with an offset for
every sample. -/
theorem scanZeroCrossings_SparseDigital_eq (data : SparseDigitalWaveform) (edges : List Int)
    (h : 1 ≤ data.m_samples.length) (ho : data.m_samples.length ≤ data.m_offsets.length) :
    scanZeroCrossings_SparseDigital data edges =
      some (edges ++ (transitionsFrom data.m_samples 2 (data.m_samples.length - 2)).map
        fun (i : Nat) => Int.tdiv data.m_timescale 2 + data.m_triggerPhase +
          data.m_timescale * data.m_offsets.getD i 0) := by
  have h0 : rd data.m_samples 0 = some (data.m_samples.getD 0 false) := rd_getD _ 0 (by omega)
  unfold scanZeroCrossings_SparseDigital
  rw [h0, Option.some_bind]
  refine zeroCrossingScan_digital data.m_samples _ _ (fun j hj => ?_) _ edges
  have hj2 : j < data.m_offsets.length := by omega
  simp [rd, List.getD_eq_getElem?_getD, List.getElem?_eq_getElem hj2]

/-- C5 (as stated, refuted). On the samples `[false, true]` with timescale 2 the uniform
digital overload reports no crossing, although index 1 differs from index 0 and the stated
list is `[2*1 + 2/2 + 0] = [3]`. -/
theorem FindZeroCrossings_UniformDigital_skips_index_one :
    FindZeroCrossings_UniformDigital
        { m_timescale := 2, m_triggerPhase := 0, m_samples := [false, true] } [] = some [] ∧
    allTransitionStamps_UniformDigital
        { m_timescale := 2, m_triggerPhase := 0, m_samples := [false, true] } = [3] ∧
    FindZeroCrossings_UniformDigital
        { m_timescale := 2, m_triggerPhase := 0, m_samples := [false, true] } [] ≠
      some (allTransitionStamps_UniformDigital
        { m_timescale := 2, m_triggerPhase := 0, m_samples := [false, true] }) := by
  decide

/-- C5 (amended). For a uniform digital waveform with `n ≥ 1` samples and an empty output
vector, `FindZeroCrossings` returns exactly one timestamp for each index `i` in `2..n-1`
with `samples[i] != samples[i-1]`, in increasing `i`, each equal to
`timescale*i + timescale/2 + triggerPhase`; the sparse digital overload does the same on a
cache miss with `timescale*offsets[i]` in place of `timescale*i`. -/
theorem FindZeroCrossings_digital_spec {α : Type} [DecidableEq α] [Zero α]
    (ud : UniformDigitalWaveform) (sd : SparseDigitalWaveform) (st : AnalysisState α)
    (ptr : Nat) (hu : 1 ≤ ud.m_samples.length) (hs : 1 ≤ sd.m_samples.length)
    (ho : sd.m_offsets.length = sd.m_samples.length)
    (hmiss : cacheFind st.m_zeroCrossingCache (ptr, (0 : α)) = none) :
    FindZeroCrossings_UniformDigital ud [] =
      some ((transitionsFrom ud.m_samples 2 (ud.m_samples.length - 2)).map fun (i : Nat) =>
        ud.m_timescale * (i : Int) + Int.tdiv ud.m_timescale 2 + ud.m_triggerPhase) ∧
    (FindZeroCrossings_SparseDigital st ptr sd []).map Prod.fst =
      some ((transitionsFrom sd.m_samples 2 (sd.m_samples.length - 2)).map fun (i : Nat) =>
        sd.m_timescale * sd.m_offsets.getD i 0 + Int.tdiv sd.m_timescale 2 + sd.m_triggerPhase) := by
  constructor
  · rw [FindZeroCrossings_UniformDigital_eq ud [] hu, List.nil_append]
    congr 2
    funext i
    ring
  · unfold FindZeroCrossings_SparseDigital
    rw [hmiss]
    simp only [Option.map_map]
    rw [scanZeroCrossings_SparseDigital_eq sd [] hs (by omega), List.nil_append]
    simp only [Option.map_some', Function.comp]
    congr 2
    funext i
    ring

theorem FindZeroCrossings_digital_spec_witness :
    (1 ≤ [false, true, false, false, true].length ∧
      cacheFind (AnalysisState.mk ([] : List ((Nat × Int) × List Int)) 0).m_zeroCrossingCache
        (7, (0 : Int)) = none) ∧
    FindZeroCrossings_UniformDigital
        { m_timescale := 2, m_triggerPhase := 1, m_samples := [false, true, false, false, true] }
        [] = some [6, 10] ∧
    (FindZeroCrossings_SparseDigital (AnalysisState.mk ([] : List ((Nat × Int) × List Int)) 0) 7
        { m_timescale := 2, m_triggerPhase := 1, m_offsets := [0, 3, 7, 9, 12],
          m_durations := [], m_samples := [false, true, false, false, true] } []).map Prod.fst =
      some [16, 26] :=
  ⟨⟨by decide, by decide⟩,
   FindZeroCrossings_digital_spec
    { m_timescale := 2, m_triggerPhase := 1, m_samples := [false, true, false, false, true] }
    { m_timescale := 2, m_triggerPhase := 1, m_offsets := [0, 3, 7, 9, 12],
      m_durations := [], m_samples := [false, true, false, false, true] }
    (AnalysisState.mk ([] : List ((Nat × Int) × List Int)) 0) 7
    (by decide) (by decide) (by decide) (by decide)⟩
/-! ### The zero crossing cache -/

section Cache

variable {α : Type} [DecidableEq α]

theorem cacheFind_store_same (cache : List ((Nat × α) × List Int)) (key : Nat × α)
    (edges : List Int) : cacheFind (cacheStore cache key edges) key = some edges := by
  simp [cacheFind, cacheStore]

theorem cacheFind_store_other (cache : List ((Nat × α) × List Int)) (key key2 : Nat × α)
    (edges : List Int) (h : key2 ≠ key) :
    cacheFind (cacheStore cache key edges) key2 = cacheFind cache key2 := by
  unfold cacheFind cacheStore
  rw [List.find?_cons_of_neg _ (by simpa using fun hk => h hk.symm)]
  congr 1
  induction cache with
  | nil => rfl
  | cons e rest ih =>
    by_cases he : e.1 = key
    · have hne : e.1 ≠ key2 := by rw [he]; exact fun hk => h hk.symm
      rw [List.filter_cons_of_neg (by simpa using he), List.find?_cons_of_neg _ (by simpa using hne)]
      exact ih
    · rw [List.filter_cons_of_pos (by simpa using he)]
      by_cases he2 : e.1 = key2
      · rw [List.find?_cons_of_pos _ (by simpa using he2), List.find?_cons_of_pos _ (by simpa using he2)]
      · rw [List.find?_cons_of_neg _ (by simpa using he2), List.find?_cons_of_neg _ (by simpa using he2)]
        exact ih

variable [Zero α] [LT α] [DecidableRel (fun a b : α => a < b)] [Mul α]

/-- Every memoized overload is a lookup followed, on a miss, by a scan and a store. -/
theorem ZeroCrossingCall.run_eq (env : FloatEnv α) (st : AnalysisState α)
    (c : ZeroCrossingCall α) :
    c.run env st =
      match cacheFind st.m_zeroCrossingCache c.key with
      | some stored => some (stored, st)
      | none => (c.scan env).map fun e =>
          (e, { m_zeroCrossingCache := cacheStore st.m_zeroCrossingCache c.key e,
                scans := st.scans + 1 }) := by
  cases c <;> rfl

/-- A completed call leaves its result under its key. -/
theorem ZeroCrossingCall.run_stores (env : FloatEnv α) (st st1 : AnalysisState α)
    (c : ZeroCrossingCall α) (r : List Int) (h : c.run env st = some (r, st1)) :
    cacheFind st1.m_zeroCrossingCache c.key = some r := by
  rw [ZeroCrossingCall.run_eq] at h
  cases hf : cacheFind st.m_zeroCrossingCache c.key with
  | some stored =>
    rw [hf] at h
    simp only [Option.some.injEq, Prod.mk.injEq] at h
    rw [← h.2, ← h.1, hf]
  | none =>
    rw [hf] at h
    cases hs : c.scan env with
    | none => rw [hs] at h; simp at h
    | some e =>
      rw [hs] at h
      simp only [Option.map_some', Option.some.injEq, Prod.mk.injEq] at h
      rw [← h.2, ← h.1]
      exact cacheFind_store_same _ _ _

/-- A completed call keeps every entry the cache already had. -/
theorem ZeroCrossingCall.run_keeps (env : FloatEnv α) (st st1 : AnalysisState α)
    (c : ZeroCrossingCall α) (x : List Int) (key : Nat × α) (r : List Int)
    (hk : cacheFind st.m_zeroCrossingCache key = some r) (h : c.run env st = some (x, st1)) :
    cacheFind st1.m_zeroCrossingCache key = some r := by
  rw [ZeroCrossingCall.run_eq] at h
  cases hf : cacheFind st.m_zeroCrossingCache c.key with
  | some stored =>
    rw [hf] at h
    simp only [Option.some.injEq, Prod.mk.injEq] at h
    rw [← h.2, hk]
  | none =>
    rw [hf] at h
    cases hs : c.scan env with
    | none => rw [hs] at h; simp at h
    | some e =>
      rw [hs] at h
      simp only [Option.map_some', Option.some.injEq, Prod.mk.injEq] at h
      rw [← h.2]
      have hne : key ≠ c.key := by
        intro heq
        rw [heq, hf] at hk
        exact Option.noConfusion hk
      rw [cacheFind_store_other _ _ _ _ hne, hk]

theorem runCalls_keeps (env : FloatEnv α) (key : Nat × α) (r : List Int) :
    ∀ (calls : List (ZeroCrossingCall α)) (st st2 : AnalysisState α),
      cacheFind st.m_zeroCrossingCache key = some r → runCalls env st calls = some st2 →
      cacheFind st2.m_zeroCrossingCache key = some r := by
  intro calls
  induction calls with
  | nil =>
    intro st st2 hk h
    simp only [runCalls, Option.some.injEq] at h
    rw [← h, hk]
  | cons c cs ih =>
    intro st st2 hk h
    simp only [runCalls] at h
    cases hr : c.run env st with
    | none => rw [hr] at h; simp at h
    | some p =>
      rw [hr, Option.some_bind] at h
      exact ih p.2 st2 (ZeroCrossingCall.run_keeps env st p.2 c p.1 key r hk hr) h

end Cache
theorem zeroCrossingStep_total (value : Nat → Option Bool) (stamp : Nat → Option Int) (i : Nat)
    (st : EdgeScan) (hv : (value i).isSome) (hs : (stamp i).isSome) :
    ∃ st1, zeroCrossingStep value stamp i st = some st1 := by
  obtain ⟨v, hv⟩ := Option.isSome_iff_exists.mp hv
  obtain ⟨t, ht⟩ := Option.isSome_iff_exists.mp hs
  unfold zeroCrossingStep
  rw [hv, ht, Option.some_bind]
  split
  · exact ⟨_, rfl⟩
  · split
    · exact ⟨_, rfl⟩
    · exact ⟨_, rfl⟩

/-- A zero crossing loop whose reads stay in bounds runs to completion. -/
theorem zeroCrossingLoop_total (value : Nat → Option Bool) (stamp : Nat → Option Int) (n : Nat)
    (hv : ∀ i, 1 ≤ i → i < n → (value i).isSome) (hs : ∀ i, 1 ≤ i → i < n → (stamp i).isSome) :
    ∀ (k i fuel : Nat) (st : EdgeScan), 1 ≤ i → n ≤ i + k → k ≤ fuel →
      ∃ st1, forLoop n 1 (zeroCrossingStep value stamp) fuel i st = some st1 := by
  intro k
  induction k with
  | zero =>
    intro i fuel st _ hik _
    exact ⟨st, forLoop_done _ _ _ _ _ _ (by omega)⟩
  | succ k ih =>
    intro i fuel st h1 hik hf
    by_cases hi : i < n
    · rw [forLoop_step _ _ _ _ _ hi (by omega)]
      obtain ⟨st1, h⟩ := zeroCrossingStep_total value stamp i st (hv i h1 hi) (hs i h1 hi)
      rw [h, Option.some_bind]
      exact ih (i + 1) (fuel - 1) st1 (by omega) (by omega) (by omega)
    · exact ⟨st, forLoop_done _ _ _ _ _ _ (by omega)⟩

/-- On a well formed call the scan returns a crossing list. -/
theorem ZeroCrossingCall.scan_total {α : Type} [LT α] [DecidableRel (fun a b : α => a < b)]
    [Mul α] (env : FloatEnv α) (c : ZeroCrossingCall α)
    (hw : c.wellFormed = true) : ∃ e, c.scan env = some e := by
  cases c with
  | sparseAnalog ptr data threshold edges =>
    simp only [ZeroCrossingCall.wellFormed, decide_eq_true_eq] at hw
    obtain ⟨st1, h⟩ := zeroCrossingLoop_total
      (fun i => (rd data.m_samples i).map fun v => decide (threshold < v))
      (fun i =>
        let tfrac := env.toInt64
          (env.ofInt64 data.m_timescale * env.InterpolateTime data.m_samples (subSize i 1) threshold)
        (rd data.m_offsets (subSize i 1)).map fun o =>
          data.m_triggerPhase + data.m_timescale * o + tfrac)
      data.m_samples.length
      (fun i _ hi => by simp [rd, List.getElem?_eq_getElem hi])
      (fun i h1 hi => by
        have hlt : i - 1 < data.m_offsets.length := by omega
        simp [rd, subSize_one h1 (show i < SIZE_MOD by omega), List.getElem?_eq_getElem hlt])
      data.m_samples.length 1 data.m_samples.length
      { first := true, last := false, edges := edges } (by omega) (by omega) (by omega)
    exact ⟨st1.edges, by
      simp only [ZeroCrossingCall.scan, scanZeroCrossings_SparseAnalog]
      rw [h]
      rfl⟩
  | uniformAnalog ptr data threshold edges =>
    obtain ⟨st1, h⟩ := zeroCrossingLoop_total
      (fun i => (rd data.m_samples i).map fun v => decide (threshold < v))
      (fun i =>
        let tfrac := env.toInt64
          (env.ofInt64 data.m_timescale * env.InterpolateTime data.m_samples (subSize i 1) threshold)
        some (data.m_triggerPhase + data.m_timescale * ((subSize i 1 : Nat) : Int) + tfrac))
      data.m_samples.length
      (fun i _ hi => by simp [rd, List.getElem?_eq_getElem hi])
      (fun i _ _ => rfl)
      data.m_samples.length 1 data.m_samples.length
      { first := true, last := false, edges := edges } (by omega) (by omega) (by omega)
    exact ⟨st1.edges, by
      simp only [ZeroCrossingCall.scan, scanZeroCrossings_UniformAnalog]
      rw [h]
      rfl⟩
  | sparseDigital ptr data edges =>
    simp only [ZeroCrossingCall.wellFormed, decide_eq_true_eq] at hw
    exact ⟨_, scanZeroCrossings_SparseDigital_eq data edges hw.1 hw.2⟩

/-- C1. Once a memoized `FindZeroCrossings` call with key `(w, t)` has completed with
result `r`, then after any further `FindZeroCrossings` calls (and no `ClearAnalysisCache`)
every call with the same key, of any memoized overload and whatever samples the waveform
then holds, returns `r` and leaves the cache and the scan counter untouched. -/
theorem FindZeroCrossings_cache_hit {α : Type} [DecidableEq α] [Zero α] [LT α]
    [DecidableRel (fun a b : α => a < b)] [Mul α] (env : FloatEnv α) (st st1 st2 : AnalysisState α)
    (c1 c2 : ZeroCrossingCall α) (calls : List (ZeroCrossingCall α)) (r : List Int)
    (h1 : c1.run env st = some (r, st1)) (h2 : runCalls env st1 calls = some st2)
    (hk : c2.key = c1.key) :
    c2.run env st2 = some (r, st2) := by
  have hs := ZeroCrossingCall.run_stores env st st1 c1 r h1
  have hk2 := runCalls_keeps env c1.key r calls st1 st2 hs h2
  rw [ZeroCrossingCall.run_eq, hk, hk2]

/-- C2. After `ClearAnalysisCache` the cache has no entry for any key, and the next
`FindZeroCrossings` call (on a well formed waveform) scans the samples it is given:
it returns the list the scan produces, counts one more scan, and leaves that list as the
only cache entry, whatever the cache held before the clear. -/
theorem ClearAnalysisCache_forces_scan {α : Type} [DecidableEq α] [Zero α] [LT α]
    [DecidableRel (fun a b : α => a < b)] [Mul α] (env : FloatEnv α) (st : AnalysisState α)
    (c : ZeroCrossingCall α) (hw : c.wellFormed = true) :
    (∀ key, cacheFind (ClearAnalysisCache st).m_zeroCrossingCache key = none) ∧
    ∃ e, c.scan env = some e ∧
      c.run env (ClearAnalysisCache st) =
        some (e, { m_zeroCrossingCache := [(c.key, e)], scans := st.scans + 1 }) := by
  refine ⟨fun key => rfl, ?_⟩
  obtain ⟨e, he⟩ := ZeroCrossingCall.scan_total env c hw
  refine ⟨e, he, ?_⟩
  rw [ZeroCrossingCall.run_eq, he]
  rfl
theorem FindZeroCrossings_cache_hit_witness :
    (ZeroCrossingCall.sparseDigital 7 exampleSparseDigital []).run exactEnv
        { m_zeroCrossingCache := [], scans := 0 } =
      some ([16, 26], { m_zeroCrossingCache := [((7, 0), [16, 26])], scans := 1 }) ∧
    runCalls exactEnv { m_zeroCrossingCache := [((7, 0), [16, 26])], scans := 1 }
        [ZeroCrossingCall.sparseDigital 9 exampleSparseDigitalOther []] =
      some { m_zeroCrossingCache := [((9, 0), [2]), ((7, 0), [16, 26])], scans := 2 } ∧
    (ZeroCrossingCall.sparseDigital 7 exampleSparseDigitalMutated [5]).run exactEnv
        { m_zeroCrossingCache := [((9, 0), [2]), ((7, 0), [16, 26])], scans := 2 } =
      some ([16, 26], { m_zeroCrossingCache := [((9, 0), [2]), ((7, 0), [16, 26])], scans := 2 }) :=
  ⟨by decide, by decide,
   FindZeroCrossings_cache_hit exactEnv { m_zeroCrossingCache := [], scans := 0 }
    { m_zeroCrossingCache := [((7, 0), [16, 26])], scans := 1 }
    { m_zeroCrossingCache := [((9, 0), [2]), ((7, 0), [16, 26])], scans := 2 }
    (ZeroCrossingCall.sparseDigital 7 exampleSparseDigital [])
    (ZeroCrossingCall.sparseDigital 7 exampleSparseDigitalMutated [5])
    [ZeroCrossingCall.sparseDigital 9 exampleSparseDigitalOther []]
    [16, 26] (by decide) (by decide) (by decide)⟩

theorem ClearAnalysisCache_forces_scan_witness :
    (ZeroCrossingCall.sparseDigital 7 exampleSparseDigitalMutated [] :
      ZeroCrossingCall ℚ).wellFormed = true ∧
    ((∀ key, cacheFind (ClearAnalysisCache
        { m_zeroCrossingCache := [((7, (0 : ℚ)), [16, 26])], scans := 1 }).m_zeroCrossingCache key
          = none) ∧
      ∃ e, (ZeroCrossingCall.sparseDigital 7 exampleSparseDigitalMutated []).scan exactEnv
          = some e ∧
        (ZeroCrossingCall.sparseDigital 7 exampleSparseDigitalMutated []).run exactEnv
          (ClearAnalysisCache { m_zeroCrossingCache := [((7, 0), [16, 26])], scans := 1 }) =
        some (e, { m_zeroCrossingCache := [((7, 0), e)], scans := 1 + 1 })) :=
  ⟨by decide,
   ClearAnalysisCache_forces_scan exactEnv { m_zeroCrossingCache := [((7, 0), [16, 26])], scans := 1 }
    (ZeroCrossingCall.sparseDigital 7 exampleSparseDigitalMutated []) (by decide)⟩

/-! ### Interpolation -/

theorem addSize_one {i : Nat} (h : i + 1 < SIZE_MOD) : addSize i 1 = i + 1 := by
  unfold addSize
  exact Nat.mod_eq_of_lt h

theorem rd_getD_gen {α : Type} (s : List α) (i : Nat) (d : α) (hi : i < s.length) :
    rd s i = some (s.getD i d) := by
  simp [rd, List.getD_eq_getElem?_getD, List.getElem?_eq_getElem hi]

/-- C6 (as stated, refuted), in binary32.  Sparse samples two ticks apart (offsets 0 and 2,
values 0 and 2): `InterpolateValue(cap, 0, 1)` is 1, halfway, not `samples[1] = 2`.
Uniform samples `2^25` and `1`: the difference `1 - 2^25` rounds to `-2^25`, so
`InterpolateValue(cap, 0, 1)` is 0, not `samples[1] = 1`.  Uniform samples `-3 * 2^126` and
`3 * 2^126`: the difference is not finite, so `InterpolateValue(cap, 0, 0)` is not
`samples[0]`. -/
theorem InterpolateValue_fraction_not_endpoint :
    InterpolateValue_Sparse Binary32.ofInt64 exampleSparseB32 0 1 = some (Binary32.ofInt64 1) ∧
    rd exampleSparseB32.m_samples (0 + 1) = some (Binary32.ofInt64 2) ∧
    Binary32.ofInt64 1 - Binary32.ofInt64 33554432 = Binary32.finite (-1) 25 ∧
    InterpolateValue_Uniform exampleUniformB32 0 1 = some 0 ∧
    rd exampleUniformB32.m_samples (0 + 1) = some (Binary32.ofInt64 1) ∧
    Binary32.finite 3 126 - Binary32.finite (-3) 126 = Binary32.nonFinite ∧
    InterpolateValue_Uniform exampleWideB32 0 0 = some Binary32.nonFinite ∧
    rd exampleWideB32.m_samples 0 = some (Binary32.finite (-3) 126) := by
  refine ⟨by decide, by decide, by decide, by decide, by decide, by decide, by decide,
    by decide⟩

/-- C6 (amended). On any carrier of `float`, for an index with `index + 1 < size`, write
`u1, u2` (uniform) and `s1, s2` (sparse) for `samples[index]`, `samples[index+1]` and
`d` for the `float` value of `offsets[index+1] - offsets[index]`.  When the product of the
difference with 0 is 0 (the difference is finite) and adding 0 changes nothing,
`InterpolateValue` returns `samples[index]` at fraction 0, for the sparse overload provided
`0 / d = 0` (the offsets differ).  When the product with 1 is exact, the uniform overload
returns the rounded sum `u1 + (u2 - u1)` at fraction 1, which is `samples[index+1]` when
that sum is exact; the sparse overload, whose fraction is in ticks, returns `s1 + (s2 - s1)`
at fraction `d`, provided `d / d = 1`. -/
theorem InterpolateValue_endpoints {α : Type} [Zero α] [One α] [Add α] [Sub α] [Mul α]
    [Div α] (ofInt64 : Int → α) (cu : UniformAnalogWaveform α) (cs : SparseAnalogWaveform α)
    (index : Nat) (u1 u2 s1 s2 : α) (o1 o2 : Int) (hs : index + 1 < SIZE_MOD)
    (hu1 : rd cu.m_samples index = some u1) (hu2 : rd cu.m_samples (index + 1) = some u2)
    (hs1 : rd cs.m_samples index = some s1) (hs2 : rd cs.m_samples (index + 1) = some s2)
    (ho1 : rd cs.m_offsets index = some o1) (ho2 : rd cs.m_offsets (index + 1) = some o2)
    (hu0 : (u2 - u1) * 0 = 0) (hua : u1 + 0 = u1) (hum : (u2 - u1) * 1 = u2 - u1)
    (hs0 : (s2 - s1) * 0 = 0) (hsa : s1 + 0 = s1) (hsm : (s2 - s1) * 1 = s2 - s1)
    (hd0 : 0 / ofInt64 (o2 - o1) = 0)
    (hdd : ofInt64 (o2 - o1) / ofInt64 (o2 - o1) = 1) :
    InterpolateValue_Uniform cu index 0 = some u1 ∧
    InterpolateValue_Uniform cu index 1 = some (u1 + (u2 - u1)) ∧
    (u1 + (u2 - u1) = u2 → InterpolateValue_Uniform cu index 1 = some u2) ∧
    InterpolateValue_Sparse ofInt64 cs index 0 = some s1 ∧
    InterpolateValue_Sparse ofInt64 cs index (ofInt64 (o2 - o1)) = some (s1 + (s2 - s1)) ∧
    (s1 + (s2 - s1) = s2 →
      InterpolateValue_Sparse ofInt64 cs index (ofInt64 (o2 - o1)) = some s2) := by
  have hlu : index + 1 < cu.m_samples.length := by
    have h := hu2
    simp only [rd] at h
    exact (List.getElem?_eq_some.mp h).1
  have hls : index + 1 < cs.m_samples.length := by
    have h := hs2
    simp only [rd] at h
    exact (List.getElem?_eq_some.mp h).1
  have hgu : ¬ index + 1 > cu.m_samples.length := by omega
  have hgs : ¬ index + 1 > cs.m_samples.length := by omega
  have e1 : InterpolateValue_Uniform cu index 0 = some u1 := by
    unfold InterpolateValue_Uniform
    rw [addSize_one hs, if_neg hgu, hu1, hu2]
    simp only [Option.some_bind, Option.map_some', hu0, hua]
  have e2 : InterpolateValue_Uniform cu index 1 = some (u1 + (u2 - u1)) := by
    unfold InterpolateValue_Uniform
    rw [addSize_one hs, if_neg hgu, hu1, hu2]
    simp only [Option.some_bind, Option.map_some', hum]
  have e3 : InterpolateValue_Sparse ofInt64 cs index 0 = some s1 := by
    unfold InterpolateValue_Sparse
    rw [addSize_one hs, if_neg hgs, hs1, hs2, ho1, ho2]
    simp only [Option.some_bind, Option.map_some', hd0, hs0, hsa]
  have e4 : InterpolateValue_Sparse ofInt64 cs index (ofInt64 (o2 - o1)) =
      some (s1 + (s2 - s1)) := by
    unfold InterpolateValue_Sparse
    rw [addSize_one hs, if_neg hgs, hs1, hs2, ho1, ho2]
    simp only [Option.some_bind, Option.map_some', hdd, hsm]
  exact ⟨e1, e2, fun h => by rw [e2, h], e3, e4, fun h => by rw [e4, h]⟩

theorem InterpolateValue_endpoints_witness :
    InterpolateValue_Uniform exampleUniformB32 0 0 = some (Binary32.ofInt64 33554432) ∧
    InterpolateValue_Uniform exampleUniformB32 0 1 =
      some (Binary32.ofInt64 33554432 + (Binary32.ofInt64 1 - Binary32.ofInt64 33554432)) ∧
    InterpolateValue_Sparse Binary32.ofInt64 exampleSparseB32 0 0 = some (Binary32.ofInt64 0) ∧
    InterpolateValue_Sparse Binary32.ofInt64 exampleSparseB32 0 (Binary32.ofInt64 (2 - 0)) =
      some (Binary32.ofInt64 2) :=
  have h := InterpolateValue_endpoints Binary32.ofInt64 exampleUniformB32 exampleSparseB32 0
    (Binary32.ofInt64 33554432) (Binary32.ofInt64 1) (Binary32.ofInt64 0) (Binary32.ofInt64 2)
    0 2 (by decide) (by decide) (by decide) (by decide) (by decide) (by decide) (by decide)
    (by decide) (by decide) (by decide) (by decide) (by decide) (by decide) (by decide)
    (by decide)
  ⟨h.1, h.2.1, h.2.2.2.1, h.2.2.2.2.2 (by decide)⟩
/-! ### FIR kernels -/

/-- Running the loop over a range appended with one more index. -/
theorem forLoop_eq_foldl {σ : Type} (stop : Nat) (body : Nat → σ → Option σ) (g : σ → Nat → σ)
    (hb : ∀ i s, i < stop → body i s = some (g s i)) :
    ∀ (k i fuel : Nat) (s : σ), i + k = stop → k ≤ fuel →
      forLoop stop 1 body fuel i s = some ((List.range' i k).foldl g s) := by
  intro k
  induction k with
  | zero =>
    intro i fuel s hik _
    rw [forLoop_done _ _ _ _ _ _ (by omega)]
    rfl
  | succ k ih =>
    intro i fuel s hik hf
    have hi : i < stop := by omega
    rw [forLoop_step _ _ _ _ _ hi (by omega), hb i s hi, Option.some_bind,
      ih (i + 1) (fuel - 1) (g s i) (by omega) (by omega), List.range'_succ, List.foldl_cons]

theorem firTaps_eq {α : Type} [Zero α] [Add α] [Mul α] (coeffs din : List α) (i : Nat)
    (h : i + coeffs.length ≤ din.length) :
    forLoop coeffs.length 1 (firTap coeffs din i) coeffs.length 0 (0 : α) =
      some (firSum coeffs din i) := by
  rw [forLoop_eq_foldl coeffs.length (firTap coeffs din i)
    (fun v j => v + din.getD (i + j) 0 * coeffs.getD j 0) ?_ coeffs.length 0 coeffs.length 0
    (by omega) (by omega)]
  · rw [firSum, List.range_eq_range']
  · intro j v hj
    unfold firTap
    rw [rd_getD_gen din (i + j) 0 (by omega), rd_getD_gen coeffs j 0 hj]
    rfl

/-- The outer scalar loop from index `i` on: outputs `i .. stop-1` receive their sums,
every other slot of `cap` is kept. -/
theorem firLoop_spec {α : Type} [Zero α] [Add α] [Mul α] (coeffs din : List α) (stop : Nat)
    (h : stop + coeffs.length ≤ din.length) :
    ∀ (k i fuel : Nat) (cap : List α), i + k = stop → k ≤ fuel → stop ≤ cap.length →
      ∃ out, forLoop stop 1 (firOutput coeffs din) fuel i cap = some out ∧
        out.length = cap.length ∧
        ∀ j, out[j]? = if i ≤ j ∧ j < stop then some (firSum coeffs din j) else cap[j]? := by
  intro k
  induction k with
  | zero =>
    intro i fuel cap hik _ _
    refine ⟨cap, forLoop_done _ _ _ _ _ _ (by omega), rfl, fun j => ?_⟩
    rw [if_neg (by omega)]
  | succ k ih =>
    intro i fuel cap hik hf hc
    have hi : i < stop := by omega
    have hic : i < cap.length := by omega
    have hbody : firOutput coeffs din i cap = some (cap.set i (firSum coeffs din i)) := by
      unfold firOutput
      rw [firTaps_eq coeffs din i (by omega), Option.some_bind, wr, if_pos hic]
    obtain ⟨out, ho1, ho2, ho3⟩ := ih (i + 1) (fuel - 1) (cap.set i (firSum coeffs din i))
      (by omega) (by omega) (by simpa using hc)
    refine ⟨out, ?_, by simpa using ho2, fun j => ?_⟩
    · rw [forLoop_step _ _ _ _ _ hi (by omega), hbody, Option.some_bind, ho1]
    · rw [ho3 j, List.getElem?_set]
      by_cases hj : i = j
      · subst hj
        rw [if_neg (by omega), if_pos rfl, if_pos hic, if_pos ⟨le_refl _, hi⟩]
      · rw [if_neg hj]
        by_cases hc2 : i + 1 ≤ j ∧ j < stop
        · rw [if_pos hc2, if_pos (by omega)]
        · rw [if_neg hc2, if_neg (by omega)]

theorem subSize_le {a b : Nat} (h1 : b ≤ a) (h2 : a < SIZE_MOD) : subSize a b = a - b := by
  unfold subSize SIZE_MOD at *
  omega

/-- C9. For `len` input samples and `L ≤ len` coefficients `DoFilterKernelGeneric` returns
without reading outside its arrays (an out of bounds read makes the model return `none`),
writes `output[i] = Σ_j input[i+j]*coeff[j]`, accumulated in increasing `j` from 0, for every
`i < len - L`, and leaves every other output element as it was. -/
theorem DoFilterKernelGeneric_spec {α : Type} [Zero α] [Add α] [Mul α]
    (coeffs din cap : List α) (hL : coeffs.length ≤ din.length) (hs : din.length < SIZE_MOD)
    (hcap : din.length - coeffs.length ≤ cap.length) :
    ∃ out, DoFilterKernelGeneric coeffs din cap = some out ∧ out.length = cap.length ∧
      (∀ i, i < din.length - coeffs.length → out[i]? = some (firSum coeffs din i)) ∧
      (∀ i, din.length - coeffs.length ≤ i → out[i]? = cap[i]?) := by
  obtain ⟨out, ho1, ho2, ho3⟩ := firLoop_spec coeffs din (din.length - coeffs.length) (by omega)
    (din.length - coeffs.length) 0 (din.length - coeffs.length) cap (by omega) (by omega) hcap
  refine ⟨out, ?_, ho2, fun i hi => ?_, fun i hi => ?_⟩
  · unfold DoFilterKernelGeneric
    simp only [subSize_le hL hs]
    exact ho1
  · rw [ho3 i, if_pos ⟨Nat.zero_le _, hi⟩]
  · rw [ho3 i, if_neg (by omega)]

theorem DoFilterKernelGeneric_spec_witness :
    ([2, 3] : List Int).length ≤ ([1, 10, 100, 1000] : List Int).length ∧
    ∃ out, DoFilterKernelGeneric ([2, 3] : List Int) [1, 10, 100, 1000] [7, 7, 7] = some out ∧
      out.length = ([7, 7, 7] : List Int).length ∧
      (∀ i, i < ([1, 10, 100, 1000] : List Int).length - ([2, 3] : List Int).length →
        out[i]? = some (firSum ([2, 3] : List Int) [1, 10, 100, 1000] i)) ∧
      (∀ i, ([1, 10, 100, 1000] : List Int).length - ([2, 3] : List Int).length ≤ i →
        out[i]? = ([7, 7, 7] : List Int)[i]?) :=
  ⟨by decide, DoFilterKernelGeneric_spec ([2, 3] : List Int) [1, 10, 100, 1000] [7, 7, 7]
    (by decide) (by decide) (by decide)⟩

/-- With fewer than 64 outputs `end_rounded` is 0 and neither loop of the AVX2 kernel
runs: the output buffer is returned as it was. -/
theorem DoFilterKernelAVX2_short {α : Type} [Zero α] [Add α] [Mul α] (coeffs din cap : List α)
    (hL : coeffs.length ≤ din.length) (hs : din.length < SIZE_MOD)
    (h64 : din.length - coeffs.length < 64) : DoFilterKernelAVX2 coeffs din cap = some cap := by
  have h0 : din.length - coeffs.length - (din.length - coeffs.length) % 64 = 0 := by omega
  unfold DoFilterKernelAVX2
  simp only [subSize_le hL hs, h0]
  rfl

/-- With fewer than 64 outputs the AVX512F kernel returns the output buffer as it was. -/
theorem DoFilterKernelAVX512F_short {α : Type} [Zero α] [Add α] [Mul α]
    (fma : α → α → α → α) (coeffs din cap : List α)
    (hL : coeffs.length ≤ din.length) (hs : din.length < SIZE_MOD)
    (h64 : din.length - coeffs.length < 64) :
    DoFilterKernelAVX512F fma coeffs din cap = some cap := by
  have h0 : din.length - coeffs.length - (din.length - coeffs.length) % 64 = 0 := by omega
  unfold DoFilterKernelAVX512F
  simp only [subSize_le hL hs, h0]
  rfl

/-- C8 (defect). The loop that should catch the stragglers of the vector kernels runs
`while i < end_rounded`, which is already false when the vector loop exits, so outputs
`end_rounded .. end-1` are never written.  With one output (`len = 2`, `L = 1`) the scalar
kernel writes `output[0] = 5` and both vector kernels leave the output untouched; with 65
outputs (`len = 68`, `L = 3`) they write the first 64 and leave `output[64]`. -/
theorem DoFilterKernelAVX_stragglers_unwritten :
    DoFilterKernelGeneric ([1] : List Int) [5, 5] [0] = some [5] ∧
    DoFilterKernelAVX2 ([1] : List Int) [5, 5] [0] = some [0] ∧
    DoFilterKernelAVX512F fmaInt ([1] : List Int) [5, 5] [0] = some [0] ∧
    (DoFilterKernelGeneric ([2, 3, 4] : List Int) exampleInput68 (List.replicate 65 0)).map
        (fun out => (out.take 2, out.drop 63)) = some ([20, 29], [587, 596]) ∧
    (DoFilterKernelAVX2 ([2, 3, 4] : List Int) exampleInput68 (List.replicate 65 0)).map
        (fun out => (out.take 2, out.drop 63)) = some ([20, 29], [587, 0]) ∧
    (DoFilterKernelAVX512F fmaInt ([2, 3, 4] : List Int) exampleInput68 (List.replicate 65 0)).map
        (fun out => (out.take 2, out.drop 63)) = some ([20, 29], [587, 0]) := by
  refine ⟨by decide, by decide, by decide, ?_, ?_, ?_⟩ <;> decide

/-! ### FIR coefficient design -/

/-- A property kept by every successful loop body is kept by the loop. -/
theorem forLoop_preserves {σ : Type} (stop step : Nat) (body : Nat → σ → Option σ)
    (P : σ → Prop) (hb : ∀ i s s1, P s → body i s = some s1 → P s1) :
    ∀ (fuel i : Nat) (s s1 : σ), P s → forLoop stop step body fuel i s = some s1 → P s1 := by
  intro fuel
  induction fuel with
  | zero =>
    intro i s s1 hp h
    unfold forLoop at h
    split at h
    · exact Option.noConfusion h
    · simp only [Option.some.injEq] at h
      exact h ▸ hp
  | succ f ih =>
    intro i s s1 hp h
    unfold forLoop at h
    split at h
    · cases hbs : body i s with
      | none => rw [hbs] at h; exact Option.noConfusion h
      | some s2 =>
        rw [hbs, Option.some_bind] at h
        exact ih (i + step) s2 s1 (hb i s s2 hp hbs) h
    · simp only [Option.some.injEq] at h
      exact h ▸ hp

/-- A unit-step loop whose body succeeds on every state satisfying an invariant returns. -/
theorem forLoop_total {σ : Type} (stop : Nat) (body : Nat → σ → Option σ) (P : σ → Prop)
    (hb : ∀ i s, i < stop → P s → ∃ s1, body i s = some s1 ∧ P s1) :
    ∀ (k i fuel : Nat) (s : σ), stop ≤ i + k → k ≤ fuel → P s →
      ∃ s1, forLoop stop 1 body fuel i s = some s1 ∧ P s1 := by
  intro k
  induction k with
  | zero =>
    intro i fuel s hik _ hp
    exact ⟨s, forLoop_done _ _ _ _ _ _ (by omega), hp⟩
  | succ k ih =>
    intro i fuel s hik hf hp
    by_cases hi : i < stop
    · obtain ⟨s1, h1, hp1⟩ := hb i s hi hp
      rw [forLoop_step _ _ _ _ _ hi (by omega), h1, Option.some_bind]
      exact ih (i + 1) (fuel - 1) s1 (by omega) (by omega) hp1
    · exact ⟨s, forLoop_done _ _ _ _ _ _ (by omega), hp⟩

theorem wr_length {α : Type} (buf out : List α) (i : Nat) (v : α) (h : wr buf i v = some out) :
    out.length = buf.length := by
  unfold wr at h
  split at h
  · simp only [Option.some.injEq] at h
    rw [← h, List.length_set]
  · exact Option.noConfusion h

theorem FIRFilter_filterLength_odd {α : Type} [Sub α] [Mul α] [Div α] (env : MathEnv α)
    (requested : Int) (atten sample_hz flo fhi : α) :
    FIRFilter_filterLength env requested atten sample_hz flo fhi % 2 = 1 := by
  unfold FIRFilter_filterLength
  simp

/-- The mirror loop from index `j` on copies `cf[len-1-m]` into `cf[m]` for `j ≤ m ≤ np`
and keeps every other slot. -/
theorem mirrorLoop_spec {α : Type} (len : Nat) (h1 : 1 ≤ len) (h2 : len < SIZE_MOD) :
    ∀ (k j fuel : Nat) (cf : List α), j + k = (len - 1) / 2 + 1 → k ≤ fuel → cf.length = len →
      ∃ out, forLoop ((len - 1) / 2 + 1) 1 (mirrorStep len) fuel j cf = some out ∧
        out.length = len ∧
        ∀ m, out[m]? = if j ≤ m ∧ m ≤ (len - 1) / 2 then cf[len - 1 - m]? else cf[m]? := by
  intro k
  induction k with
  | zero =>
    intro j fuel cf hjk _ hc
    refine ⟨cf, forLoop_done _ _ _ _ _ _ (by omega), hc, fun m => ?_⟩
    rw [if_neg (by omega)]
  | succ k ih =>
    intro j fuel cf hjk hf hc
    have hj : j < (len - 1) / 2 + 1 := by omega
    have hidx : subSize (subSize len 1) j = len - 1 - j := by
      rw [subSize_one h1 h2, subSize_le (by omega) (by omega)]
    have hr : len - 1 - j < cf.length := by omega
    have hjc : j < cf.length := by omega
    have hbody : mirrorStep len j cf = some (cf.set j (cf[len - 1 - j])) := by
      unfold mirrorStep
      rw [hidx, rd, List.getElem?_eq_getElem hr, Option.some_bind, wr, if_pos hjc]
    obtain ⟨out, ho1, ho2, ho3⟩ := ih (j + 1) (fuel - 1) (cf.set j (cf[len - 1 - j])) (by omega)
      (by omega) (by simpa using hc)
    refine ⟨out, ?_, ho2, fun m => ?_⟩
    · rw [forLoop_step _ _ _ _ _ hj (by omega), hbody, Option.some_bind, ho1]
    · rw [ho3 m]
      by_cases hm : j + 1 ≤ m ∧ m ≤ (len - 1) / 2
      · rw [if_pos hm, if_pos (by omega), List.getElem?_set, if_neg (by omega)]
      · rw [if_neg hm, List.getElem?_set]
        by_cases hjm : j = m
        · subst hjm
          rw [if_pos rfl, if_pos hjc, if_pos (by omega), List.getElem?_eq_getElem hr]
        · rw [if_neg hjm, if_neg (by omega)]

/-- After the mirror loop the array reads the same in both directions. -/
theorem mirrorLoop_palindrome {α : Type} (cf out : List α) (h1 : 1 ≤ cf.length)
    (h2 : cf.length < SIZE_MOD)
    (h : forLoop ((cf.length - 1) / 2 + 1) 1 (mirrorStep cf.length) ((cf.length - 1) / 2 + 1) 0 cf
      = some out) :
    out.length = cf.length ∧ ∀ i, i < out.length → out[i]? = out[out.length - 1 - i]? := by
  obtain ⟨out1, ho1, ho2, ho3⟩ := mirrorLoop_spec cf.length h1 h2 ((cf.length - 1) / 2 + 1) 0
    ((cf.length - 1) / 2 + 1) cf (by omega) (by omega) rfl
  rw [h] at ho1
  simp only [Option.some.injEq] at ho1
  subst ho1
  refine ⟨ho2, fun i hi => ?_⟩
  rw [ho2] at hi ⊢
  rw [ho3 i, ho3 (cf.length - 1 - i)]
  by_cases hc : i ≤ (cf.length - 1) / 2
  · rw [if_pos ⟨Nat.zero_le _, hc⟩]
    by_cases hc2 : cf.length - 1 - i ≤ (cf.length - 1) / 2
    · rw [if_pos ⟨Nat.zero_le _, hc2⟩]
      have : cf.length - 1 - (cf.length - 1 - i) = cf.length - 1 - i := by omega
      rw [this]
    · rw [if_neg (by omega)]
  · rw [if_neg (by omega), if_pos ⟨Nat.zero_le _, by omega⟩]
    have : cf.length - 1 - (cf.length - 1 - i) = i := by omega
    rw [this]

theorem firImpulse_length {α : Type} [Sub α] [Mul α] [Div α] (env : MathEnv α) (fa fb : α)
    (np : Nat) : (firImpulse env fa fb np).length = np + 1 := by
  simp [firImpulse]

theorem windowStep_length {α : Type} [Add α] [Sub α] [Mul α] [Div α] [Neg α] [LT α]
    [DecidableRel (fun a b : α => a < b)] (env : MathEnv α) (fuel : Nat) (notch : Bool)
    (impulse : List α) (alpha ia : α) (np j : Nat) (cf out : List α)
    (h : windowStep env fuel notch impulse alpha ia np j cf = some out) :
    out.length = cf.length := by
  unfold windowStep at h
  cases h1 : rd impulse j with
  | none => rw [h1] at h; exact Option.noConfusion h
  | some imp =>
    rw [h1, Option.some_bind] at h
    cases h2 : Bessel env fuel (windowArg env alpha np j) with
    | none => rw [h2] at h; exact Option.noConfusion h
    | some b =>
      rw [h2, Option.some_bind] at h
      exact wr_length _ _ _ _ h

/-- The windowing part of the design (with the centre tap adjustment of the notch class)
keeps the length of the coefficient array. -/
theorem windowing_length {α : Type} [Add α] [Sub α] [Mul α] [Div α] [Neg α] [LT α]
    [DecidableRel (fun a b : α => a < b)] (env : MathEnv α) (fuel : Nat)
    (impulse : List α) (alpha ia : α) (np : Nat) (type : FilterType) (cf out : List α)
    (h : (if type = FilterType.FILTER_TYPE_NOTCH then
        (forLoop (np + 1) 1 (windowStep env fuel true impulse alpha ia np) (np + 1) 0 cf).bind
          fun c1 => (rd c1 np).bind fun x => wr c1 np (x + env.lit 1)
       else
        forLoop (np + 1) 1 (windowStep env fuel false impulse alpha ia np) (np + 1) 0 cf)
      = some out) :
    out.length = cf.length := by
  split at h
  · cases h1 : forLoop (np + 1) 1 (windowStep env fuel true impulse alpha ia np) (np + 1) 0 cf with
    | none => rw [h1] at h; exact Option.noConfusion h
    | some c1 =>
      rw [h1, Option.some_bind] at h
      have hl : c1.length = cf.length :=
        forLoop_preserves _ _ _ (fun s => s.length = cf.length)
          (fun i s s1 hp hs => (windowStep_length env fuel true impulse alpha ia np i s s1 hs).trans hp)
          _ _ _ _ rfl h1
      cases h2 : rd c1 np with
      | none => rw [h2] at h; exact Option.noConfusion h
      | some x =>
        rw [h2, Option.some_bind] at h
        exact (wr_length _ _ _ _ h).trans hl
  · exact forLoop_preserves _ _ _ (fun s => s.length = cf.length)
      (fun i s s1 hp hs => (windowStep_length env fuel false impulse alpha ia np i s s1 hs).trans hp)
      _ _ _ _ rfl h

/-- The windowing loop returns when every Bessel evaluation it makes does. -/
theorem windowLoop_total {α : Type} [Add α] [Sub α] [Mul α] [Div α] [Neg α] [LT α]
    [DecidableRel (fun a b : α => a < b)] (env : MathEnv α) (fuel : Nat) (notch : Bool)
    (fa fb alpha ia : α) (np : Nat) (cf : List α) (hlen : 2 * np < cf.length)
    (hb : ∀ j, j ≤ np → (Bessel env fuel (windowArg env alpha np j)).isSome) :
    ∃ c1, forLoop (np + 1) 1 (windowStep env fuel notch (firImpulse env fa fb np) alpha ia np)
        (np + 1) 0 cf = some c1 ∧ c1.length = cf.length := by
  refine forLoop_total (np + 1) _ (fun s => s.length = cf.length) ?_ (np + 1) 0 (np + 1) cf
    (by omega) (by omega) rfl
  intro j s hj hs
  obtain ⟨b, hb1⟩ := Option.isSome_iff_exists.mp (hb j (by omega))
  have hi : j < (firImpulse env fa fb np).length := by rw [firImpulse_length]; exact hj
  have hw : np + j < s.length := by omega
  refine ⟨s.set (np + j) ((if notch then -(firImpulse env fa fb np)[j] else
    (firImpulse env fa fb np)[j]) * b / ia), ?_, by simpa using hs⟩
  unfold windowStep
  rw [rd, List.getElem?_eq_getElem hi, Option.some_bind, hb1, Option.some_bind, wr, if_pos hw]

/-- Every array `CalculateFilterCoefficients` returns, for an array of `n ≥ 1`
coefficients, has length `n` and reads the same in both directions. -/
theorem CalculateFilterCoefficients_mirror {α : Type} [Add α] [Sub α] [Mul α] [Div α] [Neg α]
    [LT α] [DecidableRel (fun a b : α => a < b)] (env : MathEnv α) (fuel : Nat)
    (coeffs : List α) (fa fb stopbandAtten : α) (type : FilterType) (out : List α)
    (h1 : 1 ≤ coeffs.length) (h2 : coeffs.length < SIZE_MOD)
    (h : CalculateFilterCoefficients env fuel coeffs fa fb stopbandAtten type = some out) :
    out.length = coeffs.length ∧ ∀ i, i < out.length → out[i]? = out[out.length - 1 - i]? := by
  unfold CalculateFilterCoefficients at h
  simp only [subSize_one h1 h2] at h
  cases hia : Bessel env fuel (kaiserAlpha env stopbandAtten) with
  | none => rw [hia] at h; exact Option.noConfusion h
  | some ia =>
    rw [hia, Option.some_bind] at h
    obtain ⟨c2, hc2, hm⟩ := Option.bind_eq_some.mp h
    have hl : c2.length = coeffs.length := windowing_length env fuel _ _ ia _ type coeffs c2 hc2
    rw [← hl] at hm h1 h2 ⊢
    exact mirrorLoop_palindrome c2 out h1 h2 hm

/-- With `n ≥ 1` coefficients `CalculateFilterCoefficients` returns as soon as each of its
Bessel evaluations does: no index leaves the arrays. -/
theorem CalculateFilterCoefficients_total {α : Type} [Add α] [Sub α] [Mul α] [Div α] [Neg α]
    [LT α] [DecidableRel (fun a b : α => a < b)] (env : MathEnv α) (fuel : Nat)
    (coeffs : List α) (fa fb stopbandAtten : α) (type : FilterType)
    (h1 : 1 ≤ coeffs.length) (h2 : coeffs.length < SIZE_MOD)
    (hb0 : (Bessel env fuel (kaiserAlpha env stopbandAtten)).isSome)
    (hb : ∀ j, j ≤ (coeffs.length - 1) / 2 →
      (Bessel env fuel (windowArg env (kaiserAlpha env stopbandAtten)
        ((coeffs.length - 1) / 2) j)).isSome) :
    ∃ out, CalculateFilterCoefficients env fuel coeffs fa fb stopbandAtten type = some out := by
  obtain ⟨ia, hia⟩ := Option.isSome_iff_exists.mp hb0
  have hlen : 2 * ((coeffs.length - 1) / 2) < coeffs.length := by omega
  have hw : ∃ c2, (if type = FilterType.FILTER_TYPE_NOTCH then
        (forLoop ((coeffs.length - 1) / 2 + 1) 1
          (windowStep env fuel true (firImpulse env fa fb ((coeffs.length - 1) / 2))
            (kaiserAlpha env stopbandAtten) ia ((coeffs.length - 1) / 2))
          ((coeffs.length - 1) / 2 + 1) 0 coeffs).bind
          fun c1 => (rd c1 ((coeffs.length - 1) / 2)).bind fun x =>
            wr c1 ((coeffs.length - 1) / 2) (x + env.lit 1)
       else
        forLoop ((coeffs.length - 1) / 2 + 1) 1
          (windowStep env fuel false (firImpulse env fa fb ((coeffs.length - 1) / 2))
            (kaiserAlpha env stopbandAtten) ia ((coeffs.length - 1) / 2))
          ((coeffs.length - 1) / 2 + 1) 0 coeffs) = some c2 ∧ c2.length = coeffs.length := by
    split
    · obtain ⟨c1, hc1, hl1⟩ := windowLoop_total env fuel true fa fb
        (kaiserAlpha env stopbandAtten) ia ((coeffs.length - 1) / 2) coeffs hlen hb
      have hnp : (coeffs.length - 1) / 2 < c1.length := by omega
      refine ⟨c1.set ((coeffs.length - 1) / 2) (c1[(coeffs.length - 1) / 2] + env.lit 1), ?_,
        by simpa using hl1⟩
      rw [hc1, Option.some_bind, rd, List.getElem?_eq_getElem hnp, Option.some_bind, wr,
        if_pos hnp]
    · exact windowLoop_total env fuel false fa fb (kaiserAlpha env stopbandAtten) ia
        ((coeffs.length - 1) / 2) coeffs hlen hb
  obtain ⟨c2, hc2, hl2⟩ := hw
  obtain ⟨out, ho, _⟩ := @mirrorLoop_spec α coeffs.length h1 h2 ((coeffs.length - 1) / 2 + 1) 0
    ((coeffs.length - 1) / 2 + 1) c2 (by omega) (by omega) hl2
  refine ⟨out, ?_⟩
  unfold CalculateFilterCoefficients
  simp only [subSize_one h1 h2]
  rw [hia, Option.some_bind, hc2, Option.some_bind]
  exact ho

/-! ### The AVX2 duration fill in the bounds checked model -/

theorem forLoop_unroll {σ : Type} (stop step : Nat) (body : Nat → σ → Option σ) (fuel i : Nat)
    (s : σ) (hi : i < stop) (hf : 1 ≤ fuel) :
    forLoop stop step body fuel i s =
      (body i s).bind (forLoop stop step body (fuel - 1) (i + step)) := by
  cases fuel with
  | zero => omega
  | succ f => simp [forLoop, hi]

/-- With fewer than four samples the tail loop of `FillDurationsAVX2` starts at index 0 and
leaves the arrays at once. -/
theorem FillDurationsAVX2_small (wfm : SparseWaveformBase) (h1 : 1 ≤ wfm.m_offsets.length)
    (h2 : wfm.m_offsets.length < 4) : FillDurationsAVX2 wfm = none := by
  have hstop : wfm.m_offsets.length - wfm.m_offsets.length % 4 = 0 := by omega
  have hrd : rd wfm.m_offsets (subSize 0 1) = none := by
    have : wfm.m_offsets.length ≤ subSize 0 1 := by
      have : subSize 0 1 = 18446744073709551615 := by decide
      omega
    simp [rd, this]
  have hstep : ∀ d, durationStep wfm.m_offsets 0 d = none := by
    intro d
    unfold durationStep
    rw [hrd]
    cases rd wfm.m_offsets 0 <;> rfl
  unfold FillDurationsAVX2
  simp only [SparseWaveformBase.size, hstop]
  rw [forLoop_done _ _ _ _ _ _ (by omega), Option.some_bind,
    forLoop_unroll _ _ _ _ _ _ (by omega) (by omega), hstep]
  rfl

/-- One vector iteration in bounds writes the four slots `i-1 .. i+2`. -/
theorem durationStepAVX2_spec (offs durs : List Int) (i : Nat) (h1 : 1 ≤ i)
    (h2 : i + 3 < offs.length) (h3 : offs.length < SIZE_MOD) (h4 : durs.length = offs.length) :
    ∃ d, durationStepAVX2 offs i durs = some d ∧ d.length = offs.length ∧
      ∀ j, d[j]? = if i - 1 ≤ j ∧ j ≤ i + 2
        then some (offs.getD (j + 1) 0 - offs.getD j 0) else durs[j]? := by
  have hs : subSize i 1 = i - 1 := subSize_one h1 (by omega)
  have e1 : i - 1 + 1 = i := by omega
  have e2 : i - 1 + 2 = i + 1 := by omega
  have e3 : i - 1 + 3 = i + 2 := by omega
  have ha : loadu4 offs i = some [offs.getD i 0, offs.getD (i + 1) 0, offs.getD (i + 2) 0,
      offs.getD (i + 3) 0] := by
    unfold loadu4
    rw [rd_getD_gen offs i 0 (by omega), rd_getD_gen offs (i + 1) 0 (by omega),
      rd_getD_gen offs (i + 2) 0 (by omega), rd_getD_gen offs (i + 3) 0 (by omega)]
    rfl
  have hb : loadu4 offs (i - 1) = some [offs.getD (i - 1) 0, offs.getD i 0,
      offs.getD (i + 1) 0, offs.getD (i + 2) 0] := by
    unfold loadu4
    rw [e1, e2, e3, rd_getD_gen offs (i - 1) 0 (by omega), rd_getD_gen offs i 0 (by omega),
      rd_getD_gen offs (i + 1) 0 (by omega), rd_getD_gen offs (i + 2) 0 (by omega)]
    rfl
  refine ⟨(((durs.set (i - 1) (offs.getD i 0 - offs.getD (i - 1) 0)).set i
      (offs.getD (i + 1) 0 - offs.getD i 0)).set (i + 1)
      (offs.getD (i + 2) 0 - offs.getD (i + 1) 0)).set (i + 2)
      (offs.getD (i + 3) 0 - offs.getD (i + 2) 0), ?_, by simp [h4], ?_⟩
  · unfold durationStepAVX2
    rw [hs, ha, hb]
    simp only [Option.some_bind, sub_epi64, List.zipWith_cons_cons, List.zipWith_nil_left,
      storeu, wr, List.length_set, e1, e2, e3]
    rw [if_pos (by omega), Option.some_bind, if_pos (by simp only [List.length_set]; omega),
      Option.some_bind, if_pos (by simp only [List.length_set]; omega), Option.some_bind,
      if_pos (by simp only [List.length_set]; omega), Option.some_bind]
  · intro j
    simp only [List.getElem?_set, List.length_set]
    by_cases c0 : i - 1 = j
    · subst c0
      rw [if_neg (by omega), if_neg (by omega), if_neg (by omega), if_pos rfl, if_pos (by omega),
        if_pos (by omega), e1]
    · by_cases c1 : i = j
      · subst c1
        rw [if_neg (by omega), if_neg (by omega), if_pos rfl, if_pos (by omega),
          if_pos (by omega)]
      · by_cases c2 : i + 1 = j
        · subst c2
          rw [if_neg (by omega), if_pos rfl, if_pos (by omega), if_pos (by omega)]
        · by_cases c3 : i + 2 = j
          · subst c3
            rw [if_pos rfl, if_pos (by omega), if_pos (by omega)]
          · rw [if_neg c3, if_neg c2, if_neg c1, if_neg c0, if_neg (by omega)]

/-- The vector loop from index `i` on, when the last load stays in bounds: the slots
`i-1 .. stop-1` receive their differences. -/
theorem durationLoopAVX2_spec (offs : List Int) (stop : Nat) (h3 : offs.length < SIZE_MOD)
    (hstop : stop < offs.length) :
    ∀ (k i fuel : Nat) (durs : List Int), 1 ≤ i → i + 4 * k = stop + 1 → k ≤ fuel →
      durs.length = offs.length →
      ∃ d, forLoop stop 4 (durationStepAVX2 offs) fuel i durs = some d ∧
        d.length = offs.length ∧
        ∀ j, d[j]? = if i - 1 ≤ j ∧ j < stop
          then some (offs.getD (j + 1) 0 - offs.getD j 0) else durs[j]? := by
  intro k
  induction k with
  | zero =>
    intro i fuel durs h1 hik _ hd
    refine ⟨durs, forLoop_done _ _ _ _ _ _ (by omega), hd, fun j => ?_⟩
    rw [if_neg (by omega)]
  | succ k ih =>
    intro i fuel durs h1 hik hf hd
    have hi : i < stop := by omega
    obtain ⟨d1, hb1, hb2, hb3⟩ := durationStepAVX2_spec offs durs i h1 (by omega) h3 hd
    obtain ⟨d, hd1, hd2, hd3⟩ := ih (i + 4) (fuel - 1) d1 (by omega) (by omega) (by omega) hb2
    refine ⟨d, ?_, hd2, fun j => ?_⟩
    · rw [forLoop_unroll _ _ _ _ _ _ hi (by omega), hb1, Option.some_bind, hd1]
    · rw [hd3 j, hb3 j]
      by_cases c1 : i + 4 - 1 ≤ j ∧ j < stop
      · rw [if_pos c1, if_pos (by omega)]
      · rw [if_neg c1]
        by_cases c2 : i - 1 ≤ j ∧ j ≤ i + 2
        · rw [if_pos c2, if_pos (by omega)]
        · rw [if_neg c2, if_neg (by omega)]

/-- In the bounds checked model `FillDurationsAVX2` agrees with `FillDurationsGeneric`
on every waveform whose length is at least 5 and not a multiple of 4. -/
theorem FillDurationsAVX2_eq_generic (wfm : SparseWaveformBase) (h1 : 5 ≤ wfm.m_offsets.length)
    (h2 : wfm.m_offsets.length % 4 ≠ 0) (h3 : wfm.m_offsets.length < SIZE_MOD) :
    FillDurationsAVX2 wfm = FillDurationsGeneric wfm := by
  obtain ⟨dg, hg1, hg2, hg3, hg4⟩ := FillDurationsGeneric_eq wfm (by omega) h3
  obtain ⟨d1, ha1, ha2, ha3⟩ := durationLoopAVX2_spec wfm.m_offsets
    (wfm.m_offsets.length - wfm.m_offsets.length % 4) h3 (by omega)
    (wfm.m_offsets.length / 4) 1 wfm.m_offsets.length
    (resize 0 wfm.m_durations wfm.m_offsets.length) (by omega) (by omega) (by omega)
    (resize_length _ _ _)
  obtain ⟨d2, hb1, hb2, hb3⟩ := durationLoop_spec wfm.m_offsets h3 (wfm.m_offsets.length % 4)
    (wfm.m_offsets.length - wfm.m_offsets.length % 4) wfm.m_offsets.length d1 (by omega)
    (by omega) (by omega) ha2
  have hs : subSize wfm.m_offsets.length 1 = wfm.m_offsets.length - 1 :=
    subSize_one (by omega) h3
  have hlt : wfm.m_offsets.length - 1 < d2.length := by omega
  have hav : FillDurationsAVX2 wfm =
      some { m_offsets := wfm.m_offsets, m_durations := d2.set (wfm.m_offsets.length - 1) 1 } := by
    unfold FillDurationsAVX2
    simp only [SparseWaveformBase.size]
    rw [ha1, Option.some_bind, hb1, Option.some_bind, hs, wr, if_pos hlt]
    rfl
  rw [hav, hg1]
  refine congrArg some (congrArg (SparseWaveformBase.mk wfm.m_offsets) ?_)
  apply List.ext_getElem?
  intro j
  rw [List.getElem?_set]
  by_cases c1 : j + 1 < wfm.m_offsets.length
  · rw [if_neg (by omega), hg3 j c1, hb3 j]
    by_cases c2 : wfm.m_offsets.length - wfm.m_offsets.length % 4 - 1 ≤ j ∧
        j + 1 < wfm.m_offsets.length
    · rw [if_pos c2]
    · rw [if_neg c2, ha3 j, if_pos (by omega)]
  · by_cases c3 : wfm.m_offsets.length - 1 = j
    · rw [if_pos c3, if_pos hlt, ← c3, hg4]
    · rw [if_neg c3, List.getElem?_eq_none (by omega), List.getElem?_eq_none (by omega)]

/-- When the length is a multiple of 4 the last vector load reads `m_offsets[len]`. -/
theorem durationLoopAVX2_overrun (offs : List Int) (h3 : offs.length < SIZE_MOD) :
    ∀ (k i fuel : Nat) (durs : List Int), 1 ≤ i → i + 4 * k + 3 = offs.length → k + 1 ≤ fuel →
      durs.length = offs.length →
      forLoop offs.length 4 (durationStepAVX2 offs) fuel i durs = none := by
  intro k
  induction k with
  | zero =>
    intro i fuel durs h1 hik hf _
    have hrd : rd offs (i + 3) = none := by
      simp only [rd]
      exact List.getElem?_eq_none (by omega)
    have hload : loadu4 offs i = none := by
      unfold loadu4
      rw [hrd]
      cases rd offs i <;> cases rd offs (i + 1) <;> cases rd offs (i + 2) <;> rfl
    rw [forLoop_unroll _ _ _ _ _ _ (by omega) (by omega)]
    unfold durationStepAVX2
    rw [hload]
    rfl
  | succ k ih =>
    intro i fuel durs h1 hik hf hd
    obtain ⟨d1, hb1, hb2, _⟩ := durationStepAVX2_spec offs durs i h1 (by omega) h3 hd
    rw [forLoop_unroll _ _ _ _ _ _ (by omega) (by omega), hb1, Option.some_bind]
    exact ih (i + 4) (fuel - 1) d1 (by omega) (by omega) (by omega) hb2

/-- In the bounds checked model `FillDurationsAVX2` leaves its arrays whenever the length
is a positive multiple of 4. -/
theorem FillDurationsAVX2_multiple_of_four (wfm : SparseWaveformBase)
    (h1 : 4 ≤ wfm.m_offsets.length) (h2 : wfm.m_offsets.length % 4 = 0)
    (h3 : wfm.m_offsets.length < SIZE_MOD) : FillDurationsAVX2 wfm = none := by
  have hstop : wfm.m_offsets.length - wfm.m_offsets.length % 4 = wfm.m_offsets.length := by omega
  unfold FillDurationsAVX2
  simp only [SparseWaveformBase.size, hstop]
  rw [durationLoopAVX2_overrun wfm.m_offsets h3 (wfm.m_offsets.length / 4 - 1) 1
    wfm.m_offsets.length _ (by omega) (by omega) (by omega) (resize_length _ _ _)]
  rfl

/-! ### Termination of the Bessel series in exact arithmetic -/

theorem BesselLoop_fuel_succ (env : MathEnv ℚ) (x : ℚ) :
    ∀ (fuel : Nat) (d ds s r : ℚ), BesselLoop env x fuel d ds s = some r →
      BesselLoop env x (fuel + 1) d ds s = some r := by
  intro fuel
  induction fuel with
  | zero =>
    intro d ds s r h
    unfold BesselLoop at h ⊢
    split at h
    · exact Option.noConfusion h
    · rename_i hc
      rw [if_neg hc]
      exact h
  | succ f ih =>
    intro d ds s r h
    rw [BesselLoop] at h ⊢
    split at h
    · rename_i hc
      rw [if_pos hc]
      exact ih _ _ _ _ h
    · rename_i hc
      rw [if_neg hc]
      exact h

theorem BesselLoop_fuel_mono (env : MathEnv ℚ) (x : ℚ) (fuel : Nat) (d ds s r : ℚ)
    (h : BesselLoop env x fuel d ds s = some r) :
    ∀ k, BesselLoop env x (fuel + k) d ds s = some r := by
  intro k
  induction k with
  | zero => exact h
  | succ k ih => exact BesselLoop_fuel_succ env x (fuel + k) d ds s r ih

/-- Once `(d+2)^2 ≥ 2 x^2` every iteration at least halves `ds`, and `m` iterations
suffice when `ds ≤ 2^m * 1e-6`. -/
theorem BesselLoop_halving (env : MathEnv ℚ) (hlit : ∀ q, env.lit q = q) (x : ℚ) :
    ∀ (m : Nat) (d ds s : ℚ), 0 ≤ ds → 1 ≤ s → 0 ≤ d → 2 * (x * x) ≤ (d + 2) * (d + 2) →
      ds ≤ 2 ^ m * (1 / 1000000) → ∃ r, BesselLoop env x m d ds s = some r := by
  intro m
  induction m with
  | zero =>
    intro d ds s _ hs _ _ hm
    refine ⟨s, ?_⟩
    unfold BesselLoop
    rw [hlit, if_neg]
    rw [gt_iff_lt, not_lt]
    calc ds ≤ 2 ^ 0 * (1 / 1000000) := hm
      _ ≤ s * (1 / 1000000) := by nlinarith
  | succ m ih =>
    intro d ds s hds hs hd hc hm
    rw [BesselLoop]
    split
    · rw [hlit]
      have hd1 : 0 < (d + 2) * (d + 2) := by positivity
      have hx : 0 ≤ x * x := mul_self_nonneg x
      have hq0 : 0 ≤ x * x / ((d + 2) * (d + 2)) := div_nonneg hx (le_of_lt hd1)
      have hq : x * x / ((d + 2) * (d + 2)) ≤ 1 / 2 := by
        rw [div_le_iff₀ hd1]
        linarith
      have hds1 : 0 ≤ ds * (x * x / ((d + 2) * (d + 2))) := mul_nonneg hds hq0
      apply ih
      · exact hds1
      · linarith
      · linarith
      · nlinarith
      · have h1 : ds * (x * x / ((d + 2) * (d + 2))) ≤ ds * (1 / 2) :=
          mul_le_mul_of_nonneg_left hq hds
        have h2 : (2 : ℚ) ^ (m + 1) = 2 * 2 ^ m := by ring
        rw [h2] at hm
        linarith
    · exact ⟨s, rfl⟩

/-- From any state with `ds ≥ 0` and `s ≥ 1` the Bessel loop stops within some number of
iterations. -/
theorem BesselLoop_terminates (env : MathEnv ℚ) (hlit : ∀ q, env.lit q = q) (x : ℚ) :
    ∀ (n : Nat) (d ds s : ℚ), 0 ≤ ds → 1 ≤ s → 0 ≤ d →
      2 * (x * x) ≤ (d + 2 + 2 * n) * (d + 2 + 2 * n) →
      ∃ fuel r, BesselLoop env x fuel d ds s = some r := by
  intro n
  induction n with
  | zero =>
    intro d ds s hds hs hd hc
    obtain ⟨m, hm⟩ := pow_unbounded_of_one_lt (ds * 1000000) (by norm_num : (1 : ℚ) < 2)
    have hc2 : 2 * (x * x) ≤ (d + 2) * (d + 2) := by simpa using hc
    obtain ⟨r, hr⟩ := BesselLoop_halving env hlit x m d ds s hds hs hd hc2 (by linarith)
    exact ⟨m, r, hr⟩
  | succ n ih =>
    intro d ds s hds hs hd hc
    by_cases hcond : ds > s * env.lit (1 / 1000000)
    · have hd1 : 0 < (d + 2) * (d + 2) := by positivity
      have hx : 0 ≤ x * x := mul_self_nonneg x
      have hds1 : 0 ≤ ds * (x * x / ((d + 2) * (d + 2))) :=
        mul_nonneg hds (div_nonneg hx (le_of_lt hd1))
      obtain ⟨fuel, r, hr⟩ := ih (d + 2) (ds * (x * x / ((d + 2) * (d + 2))))
        (s + ds * (x * x / ((d + 2) * (d + 2)))) hds1 (by linarith) (by linarith)
        (by push_cast at hc; nlinarith)
      refine ⟨fuel + 1, r, ?_⟩
      rw [BesselLoop, if_pos hcond, hlit]
      exact hr
    · refine ⟨0, s, ?_⟩
      unfold BesselLoop
      rw [if_neg hcond]

/-- In exact arithmetic `FIRFilter::Bessel` returns for every argument, given enough fuel. -/
theorem Bessel_terminates (env : MathEnv ℚ) (hlit : ∀ q, env.lit q = q) (x : ℚ) :
    ∃ fuel, ∀ fuel1, fuel ≤ fuel1 → (Bessel env fuel1 x).isSome := by
  obtain ⟨n, hn⟩ := exists_nat_ge (x * x)
  have hx : 0 ≤ x * x := mul_self_nonneg x
  obtain ⟨fuel, r, hr⟩ := BesselLoop_terminates env hlit x n 0 1 1 (by norm_num) (by norm_num)
    (by norm_num) (by nlinarith)
  refine ⟨fuel, fun fuel1 hf => ?_⟩
  obtain ⟨k, rfl⟩ := Nat.exists_eq_add_of_le hf
  unfold Bessel
  rw [hlit, hlit, BesselLoop_fuel_mono env x fuel 0 1 1 r hr k]
  rfl

theorem Bessel_terminates_finitely_many (env : MathEnv ℚ) (hlit : ∀ q, env.lit q = q)
    (f : Nat → ℚ) :
    ∀ n : Nat, ∃ fuel, ∀ fuel1, fuel ≤ fuel1 → ∀ j, j ≤ n → (Bessel env fuel1 (f j)).isSome := by
  intro n
  induction n with
  | zero =>
    obtain ⟨fuel, h⟩ := Bessel_terminates env hlit (f 0)
    refine ⟨fuel, fun fuel1 hf j hj => ?_⟩
    have : j = 0 := by omega
    subst this
    exact h fuel1 hf
  | succ n ih =>
    obtain ⟨fuelA, hA⟩ := ih
    obtain ⟨fuelB, hB⟩ := Bessel_terminates env hlit (f (n + 1))
    refine ⟨max fuelA fuelB, fun fuel1 hf j hj => ?_⟩
    by_cases hjn : j ≤ n
    · exact hA fuel1 (le_trans (le_max_left _ _) hf) j hjn
    · have : j = n + 1 := by omega
      subst this
      exact hB fuel1 (le_trans (le_max_right _ _) hf)

/-- In exact arithmetic, with `n ≥ 1` coefficients, `CalculateFilterCoefficients` returns
once the fuel of its Bessel evaluations is large enough. -/
theorem CalculateFilterCoefficients_returns_exact (env : MathEnv ℚ) (hlit : ∀ q, env.lit q = q)
    (coeffs : List ℚ) (fa fb stopbandAtten : ℚ) (type : FilterType)
    (h1 : 1 ≤ coeffs.length) (h2 : coeffs.length < SIZE_MOD) :
    ∃ fuel, ∀ fuel1, fuel ≤ fuel1 →
      ∃ out, CalculateFilterCoefficients env fuel1 coeffs fa fb stopbandAtten type = some out := by
  obtain ⟨fuelA, hA⟩ := Bessel_terminates env hlit (kaiserAlpha env stopbandAtten)
  obtain ⟨fuelB, hB⟩ := Bessel_terminates_finitely_many env hlit
    (fun j => windowArg env (kaiserAlpha env stopbandAtten) ((coeffs.length - 1) / 2) j)
    ((coeffs.length - 1) / 2)
  refine ⟨max fuelA fuelB, fun fuel1 hf => ?_⟩
  exact CalculateFilterCoefficients_total env fuel1 coeffs fa fb stopbandAtten type h1 h2
    (hA fuel1 (le_trans (le_max_left _ _) hf))
    (fun j hj => hB fuel1 (le_trans (le_max_right _ _) hf) j hj)

/-- C10. The filter length `FIRFilter::Refresh` works with is odd whatever length was
requested or derived.  For an odd number `n` of coefficients and every filter class:
whatever the arithmetic of the carrier, `CalculateFilterCoefficients` returns whenever its
Bessel evaluations do, and every array it returns has length `n` and satisfies
`c[i] = c[n-1-i]` for every `i < n`; in exact arithmetic it returns such an array as soon
as the fuel of the Bessel loops is large enough. -/
theorem CalculateFilterCoefficients_odd_palindromic {α : Type} [Add α] [Sub α] [Mul α] [Div α]
    [Neg α] [LT α] [DecidableRel (fun a b : α => a < b)] (env : MathEnv α) (fuel : Nat)
    (coeffs : List α) (fa fb stopbandAtten : α) (type : FilterType)
    (requested : Int) (sample_hz flo fhi : α)
    (envQ : MathEnv ℚ) (coeffsQ : List ℚ) (faQ fbQ stopbandAttenQ : ℚ)
    (hodd : coeffs.length % 2 = 1) (hsize : coeffs.length < SIZE_MOD)
    (hoddQ : coeffsQ.length % 2 = 1) (hsizeQ : coeffsQ.length < SIZE_MOD)
    (hlit : ∀ q, envQ.lit q = q) :
    FIRFilter_filterLength env requested stopbandAtten sample_hz flo fhi % 2 = 1 ∧
    ((Bessel env fuel (kaiserAlpha env stopbandAtten)).isSome →
      (∀ j, j ≤ (coeffs.length - 1) / 2 →
        (Bessel env fuel (windowArg env (kaiserAlpha env stopbandAtten)
          ((coeffs.length - 1) / 2) j)).isSome) →
      ∃ out, CalculateFilterCoefficients env fuel coeffs fa fb stopbandAtten type = some out) ∧
    (∀ out, CalculateFilterCoefficients env fuel coeffs fa fb stopbandAtten type = some out →
      out.length = coeffs.length ∧
      ∀ i, i < out.length → out[i]? = out[out.length - 1 - i]?) ∧
    (∃ fuel0, ∀ fuel1, fuel0 ≤ fuel1 →
      ∃ out, CalculateFilterCoefficients envQ fuel1 coeffsQ faQ fbQ stopbandAttenQ type = some out ∧
        out.length = coeffsQ.length ∧
        ∀ i, i < out.length → out[i]? = out[out.length - 1 - i]?) := by
  refine ⟨FIRFilter_filterLength_odd env requested stopbandAtten sample_hz flo fhi,
    fun hb0 hb => CalculateFilterCoefficients_total env fuel coeffs fa fb stopbandAtten type
      (by omega) hsize hb0 hb,
    fun out h => CalculateFilterCoefficients_mirror env fuel coeffs fa fb stopbandAtten type out
      (by omega) hsize h, ?_⟩
  obtain ⟨fuel0, h0⟩ := CalculateFilterCoefficients_returns_exact envQ hlit coeffsQ faQ fbQ
    stopbandAttenQ type (by omega) hsizeQ
  refine ⟨fuel0, fun fuel1 hf => ?_⟩
  obtain ⟨out, hout⟩ := h0 fuel1 hf
  exact ⟨out, hout, CalculateFilterCoefficients_mirror envQ fuel1 coeffsQ faQ fbQ stopbandAttenQ
    type out (by omega) hsizeQ hout⟩

theorem CalculateFilterCoefficients_odd_palindromic_witness :
    (([9, 9, 9] : List ℚ).length % 2 = 1 ∧ ∀ q, exampleMath.lit q = q) ∧
    FIRFilter_filterLength exampleMath 0 10 1000000 0 100000 % 2 = 1 ∧
    CalculateFilterCoefficients exampleMath 5 [9, 9, 9] 0 (1 / 2) 10
      FilterType.FILTER_TYPE_LOWPASS = some [173 / 588, 1 / 2, 173 / 588] ∧
    (([173 / 588, 1 / 2, 173 / 588] : List ℚ).length = ([9, 9, 9] : List ℚ).length ∧
      ∀ i, i < ([173 / 588, 1 / 2, 173 / 588] : List ℚ).length →
        ([173 / 588, 1 / 2, 173 / 588] : List ℚ)[i]? =
          ([173 / 588, 1 / 2, 173 / 588] : List ℚ)[
            ([173 / 588, 1 / 2, 173 / 588] : List ℚ).length - 1 - i]?) := by
  have heval : CalculateFilterCoefficients exampleMath 5 [9, 9, 9] 0 (1 / 2) 10
      FilterType.FILTER_TYPE_LOWPASS = some [173 / 588, 1 / 2, 173 / 588] := by
    norm_num +decide [CalculateFilterCoefficients, exampleMath, subSize, SIZE_MOD, firImpulse,
      kaiserAlpha, Bessel, BesselLoop, forLoop, windowStep, windowArg, mirrorStep, rd, wr]
  have hthm := CalculateFilterCoefficients_odd_palindromic exampleMath 5 [9, 9, 9] 0 (1 / 2) 10
    FilterType.FILTER_TYPE_LOWPASS 0 1000000 0 100000 exampleMath [9, 9, 9] 0 (1 / 2) 10
    (by decide) (by decide) (by decide) (by decide) (fun _ => rfl)
  exact ⟨⟨by decide, fun _ => rfl⟩, hthm.1, heval, hthm.2.2.1 _ heval⟩

/-! ### Output set-up helpers -/

theorem GetData_eq {α : Type} (st : FilterState α) (stream : Nat)
    (hs : stream < st.m_streams.length) :
    GetData st stream = st.m_streams.getD stream none := by
  unfold GetData
  rw [if_neg (by omega)]

/-- Reuse: the stream already holds a waveform of the wanted class. -/
theorem setupEmptyOutputWaveform_reuse {α : Type} (blank : Waveform α) (kind : WaveformKind)
    (st : FilterState α) (din stream : Nat) (clear : Bool) (d w0 : Waveform α) (p : Nat)
    (hs : stream < st.m_streams.length) (hd : st.heap din = some d)
    (hp : st.m_streams.getD stream none = some p) (hw : st.heap p = some w0)
    (hk : w0.kind = kind) :
    ∃ st1, setupEmptyOutputWaveform blank kind st din stream clear = some (p, st1) ∧
      GetData st1 stream = some p ∧
      st1.m_streams = st.m_streams ∧ st1.fresh = st.fresh ∧
      (∀ q, q ≠ p → st1.heap q = st.heap q) ∧
      ∃ w, st1.heap p = some w ∧ OutputReady kind clear d w0 w := by
  have hcast : dynamicCast st kind (GetData st stream) = some (some p) := by
    rw [GetData_eq st stream hs, hp]
    simp [dynamicCast, hw, hk]
  unfold setupEmptyOutputWaveform acquireOutputWaveform
  rw [hcast]
  simp only [Option.some_bind, hd, hw]
  refine ⟨_, rfl, ?_, rfl, rfl, ?_, ⟨_, if_pos rfl, ?_⟩⟩
  · exact (GetData_eq _ stream hs).trans hp
  · intro q hq
    simp [hq]
  · cases clear
    · simp [OutputReady, hk]
    · simp [OutputReady, hk, Waveform.clear]

theorem rd_of_lt_getD {β : Type} (l : List β) (i : Nat) (dflt : β) (h : i < l.length) :
    rd l i = some (l.getD i dflt) := by
  unfold rd
  rw [List.getD_eq_getElem?_getD, List.getElem?_eq_getElem h]
  rfl

/-- Allocate: the stream is empty or holds a waveform of another class (not `din`). -/
theorem setupEmptyOutputWaveform_new {α : Type} (blank : Waveform α) (kind : WaveformKind)
    (st : FilterState α) (din stream : Nat) (clear : Bool) (d : Waveform α)
    (hs : stream < st.m_streams.length) (hd : st.heap din = some d)
    (hfresh : st.heap st.fresh = none)
    (hold : st.m_streams.getD stream none = none ∨
      ∃ p w0, st.m_streams.getD stream none = some p ∧ st.heap p = some w0 ∧
        w0.kind ≠ kind ∧ p ≠ din) :
    ∃ st1, setupEmptyOutputWaveform blank kind st din stream clear = some (st.fresh, st1) ∧
      GetData st1 stream = some st.fresh ∧
      st1.m_streams = st.m_streams.set stream (some st.fresh) ∧
      st1.heap din = some d ∧
      (∀ p, st.m_streams.getD stream none = some p → st1.heap p = none) ∧
      ∃ w, st1.heap st.fresh = some w ∧
        OutputReady kind clear d (newWaveform blank kind) w := by
  have hdf : din ≠ st.fresh := by
    intro h
    rw [h, hfresh] at hd
    cases hd
  have hcast : dynamicCast st kind (GetData st stream) = some none := by
    rw [GetData_eq st stream hs]
    rcases hold with h | ⟨p, w0, h, hw, hk, _⟩
    · rw [h]
      rfl
    · rw [h]
      simp [dynamicCast, hw, hk]
  have hne : st.m_streams.getD stream none ≠ some st.fresh := by
    rcases hold with h | ⟨p, w0, h, hw, _, _⟩
    · rw [h]
      simp
    · rw [h]
      intro h2
      injection h2 with h2
      rw [h2, hfresh] at hw
      cases hw
  have hget : ∀ l : List (Option Nat), stream < l.length →
      GetData (⟨fun _ => none, l.set stream (some st.fresh), [], 0⟩ : FilterState α) stream =
        some st.fresh := by
    intro l hl
    unfold GetData
    rw [if_neg (by simp only [List.length_set]; omega)]
    simp [List.getD_eq_getElem?_getD, hl]
  unfold setupEmptyOutputWaveform acquireOutputWaveform
  rw [hcast]
  simp only [Option.some_bind, SetData]
  rw [rd_of_lt_getD _ _ none hs]
  simp only [Option.some_bind]
  rw [if_neg hne]
  simp only [Option.map_some', Option.some_bind]
  rcases hold with h | ⟨p, w0, h, hw, hk, hpd⟩
  · simp only [h, if_neg hdf, hd, Option.some_bind, if_pos]
    refine ⟨_, rfl, ?_, rfl, ?_, ?_, ⟨_, if_pos rfl, ?_⟩⟩
    · exact hget _ hs
    · simp [hdf, hd]
    · intro p hp
      cases hp
    · cases clear
      · simp [OutputReady, newWaveform]
      · simp [OutputReady, newWaveform, Waveform.clear]
  · have hpf : p ≠ st.fresh := by
      intro h2
      rw [h2, hfresh] at hw
      cases hw
    simp only [h, if_neg hdf, if_neg hpd.symm, if_neg (Ne.symm hpf), hd, Option.some_bind,
      if_pos]
    refine ⟨_, rfl, ?_, rfl, ?_, ?_, ⟨_, if_pos rfl, ?_⟩⟩
    · exact hget _ hs
    · simp [hdf, hd, hpd.symm]
    · intro q hq
      injection hq with hq
      subst hq
      simp [hpf]
    · cases clear
      · simp [OutputReady, newWaveform]
      · simp [OutputReady, newWaveform, Waveform.clear]

theorem SetupEmptyOutputWaveform_eq {α : Type} (blank : Waveform α) (kind : WaveformKind)
    (st : FilterState α) (din stream : Nat) (clear : Bool) :
    SetupEmptyOutputWaveform blank kind st din stream clear =
      setupEmptyOutputWaveform blank kind st din stream (clear || !kind.isAnalog) := by
  cases kind <;> cases clear <;> rfl

/-- C18: each of the four `SetupEmpty...OutputWaveform` helpers (selected by `kind`), called
on a valid stream with a live input `d`, returns the waveform that is bound to the stream
afterwards: the existing one when it already has the class `kind`, a newly allocated one
otherwise (the old one is then discarded).  The returned waveform has the input's
startTimestamp, startFemtoseconds, triggerPhase and timescale, a revision one above the
revision that object had before the call, and a payload that is empty when `clear` is
asked (always for the digital helpers) and untouched otherwise. -/
theorem SetupEmptyOutputWaveform_spec {α : Type} (blank : Waveform α) (kind : WaveformKind)
    (st : FilterState α) (din stream : Nat) (clear : Bool) (d : Waveform α)
    (hs : stream < st.m_streams.length) (hd : st.heap din = some d)
    (hfresh : st.heap st.fresh = none) :
    (∀ p w0, GetData st stream = some p → st.heap p = some w0 → w0.kind = kind →
      ∃ st1 w, SetupEmptyOutputWaveform blank kind st din stream clear = some (p, st1) ∧
        GetData st1 stream = some p ∧ st1.heap p = some w ∧
        OutputReady kind (clear || !kind.isAnalog) d w0 w) ∧
    ((GetData st stream = none ∨
        ∃ p w0, GetData st stream = some p ∧ st.heap p = some w0 ∧ w0.kind ≠ kind ∧ p ≠ din) →
      ∃ st1 w, SetupEmptyOutputWaveform blank kind st din stream clear =
          some (st.fresh, st1) ∧
        GetData st1 stream = some st.fresh ∧ st1.heap st.fresh = some w ∧
        OutputReady kind (clear || !kind.isAnalog) d (newWaveform blank kind) w ∧
        ∀ p, GetData st stream = some p → st1.heap p = none) := by
  rw [SetupEmptyOutputWaveform_eq, GetData_eq st stream hs]
  constructor
  · intro p w0 hp hw hk
    obtain ⟨st1, h1, h2, _, _, _, w, h3, h4⟩ :=
      setupEmptyOutputWaveform_reuse blank kind st din stream (clear || !kind.isAnalog) d w0 p
        hs hd hp hw hk
    exact ⟨st1, w, h1, h2, h3, h4⟩
  · intro hold
    obtain ⟨st1, h1, h2, _, _, h5, w, h3, h4⟩ :=
      setupEmptyOutputWaveform_new blank kind st din stream (clear || !kind.isAnalog) d
        hs hd hfresh hold
    exact ⟨st1, w, h1, h2, h3, h4, h5⟩

/-- Witness for C18 on `exampleFilterState`: asking for a sparse digital output reuses the
waveform at address 2, asking for a sparse analog output allocates address 3. -/
theorem SetupEmptyOutputWaveform_spec_witness :
    (∃ st1 w, SetupEmptyOutputWaveform (blankWaveform Int) WaveformKind.SparseDigital
        exampleFilterState 1 0 false = some (2, st1) ∧
      GetData st1 0 = some 2 ∧ st1.heap 2 = some w ∧
      OutputReady WaveformKind.SparseDigital true exampleInputWaveform exampleOldOutput w) ∧
    (∃ st1 w, SetupEmptyOutputWaveform (blankWaveform Int) WaveformKind.SparseAnalog
        exampleFilterState 1 0 false = some (3, st1) ∧
      GetData st1 0 = some 3 ∧ st1.heap 3 = some w ∧
      OutputReady WaveformKind.SparseAnalog false exampleInputWaveform
        (newWaveform (blankWaveform Int) WaveformKind.SparseAnalog) w ∧
      ∀ p, GetData exampleFilterState 0 = some p → st1.heap p = none) :=
  ⟨(SetupEmptyOutputWaveform_spec (blankWaveform Int) WaveformKind.SparseDigital
      exampleFilterState 1 0 false exampleInputWaveform (by decide) rfl rfl).1
      2 exampleOldOutput rfl rfl rfl,
   (SetupEmptyOutputWaveform_spec (blankWaveform Int) WaveformKind.SparseAnalog
      exampleFilterState 1 0 false exampleInputWaveform (by decide) rfl rfl).2
      (Or.inr ⟨2, exampleOldOutput, rfl, rfl, by decide, by decide⟩)⟩

/-- C19: on `exampleFilterState`, whose stream 0 holds a sparse digital waveform of
revision 5, `SetupSparseDigitalOutputWaveform` returns that waveform with its revision
still 5, while `SetupEmptySparseDigitalOutputWaveform` on the same state returns it with
revision 6 (and `SetupSparseOutputWaveform` bumps the revision of the object it returns
from 0 to 1). -/
theorem SetupSparseDigitalOutputWaveform_keeps_revision :
    ((SetupSparseDigitalOutputWaveform (blankWaveform Int) 0 exampleFilterState 1 0 1 1).bind
        fun r => (r.2.heap r.1).map fun w => (r.1, w.m_revision)) = some (2, 5) ∧
    exampleOldOutput.m_revision = 5 ∧
    ((SetupEmptySparseDigitalOutputWaveform (blankWaveform Int) exampleFilterState 1 0).bind
        fun r => (r.2.heap r.1).map fun w => (r.1, w.m_revision)) = some (2, 6) ∧
    ((SetupSparseOutputWaveform (blankWaveform Int) 0 exampleFilterState 1 0 1 1).bind
        fun r => (r.2.heap r.1).map fun w => (r.1, w.m_revision)) = some (3, 1) ∧
    (newWaveform (blankWaveform Int) WaveformKind.SparseAnalog).m_revision = 0 := by
  refine ⟨by decide, rfl, by decide, by decide, rfl⟩

/-! ### Timebase-copying helpers -/

theorem memcpyInt64_eq (dst src : List Int) (start n : Nat)
    (h1 : start + n ≤ src.length) (h2 : dst.length = n) :
    memcpyInt64 dst src start n = some ((src.drop start).take n) := by
  unfold memcpyInt64
  have h3 : dst.drop n = [] := List.drop_of_length_le (by omega)
  rw [if_pos ⟨h1, by omega⟩, h3, List.append_nil]

/-- The shared tail of the timebase-copying helpers, when `cap` and `din` are distinct
live objects, `cap` is sparse and the copied range lies inside the arrays of `din`. -/
theorem copyTimebase_spec {α : Type} (pad : α) (st : FilterState α) (cap din len skipstart : Nat)
    (d w : Waveform α) (hd : st.heap din = some d) (hw : st.heap cap = some w)
    (hne : cap ≠ din) (hsp : w.kind.isSparse = true)
    (ho : skipstart + len ≤ d.m_offsets.length) (hu : skipstart + len ≤ d.m_durations.length) :
    ∃ st1, copyTimebase pad st cap din len skipstart = some st1 ∧
      st1.m_streams = st.m_streams ∧
      (∀ q, q ≠ cap → st1.heap q = st.heap q) ∧
      ∃ w1, st1.heap cap = some w1 ∧ w1.kind = w.kind ∧ w1.m_revision = w.m_revision ∧
        w1.m_offsets = (d.m_offsets.drop skipstart).take len ∧
        w1.m_durations = (d.m_durations.drop skipstart).take len ∧
        w1.m_analog = (if w.kind.isAnalog then resize pad w.m_analog len else w.m_analog) ∧
        w1.m_digital = (if w.kind.isAnalog then w.m_digital else resize false w.m_digital len) := by
  unfold copyTimebase
  simp only [hd, hw, Option.some_bind, if_neg hne.symm, Waveform.Resize, hsp, if_true]
  rw [memcpyInt64_eq _ _ _ _ ho (resize_length _ _ _)]
  simp only [Option.some_bind]
  rw [memcpyInt64_eq _ _ _ _ hu (resize_length _ _ _)]
  simp only [Option.map_some']
  refine ⟨_, rfl, rfl, ?_, ⟨_, if_pos rfl, rfl, rfl, rfl, rfl, rfl, rfl⟩⟩
  intro q hq
  simp [hq]

/-- The opening of the set-up helpers on a valid stream whose pointer is `NULL` or points
to a live object other than `din`: the returned `cap` is bound to the stream, is live, has
the class `kind`, is not `din`, and `din` is untouched. -/
theorem acquireOutputWaveform_spec {α : Type} (blank : Waveform α) (kind : WaveformKind)
    (st : FilterState α) (din stream : Nat) (d : Waveform α)
    (hs : stream < st.m_streams.length) (hd : st.heap din = some d)
    (hfresh : st.heap st.fresh = none)
    (hold : st.m_streams.getD stream none = none ∨
      ∃ p w0, st.m_streams.getD stream none = some p ∧ st.heap p = some w0 ∧ p ≠ din) :
    ∃ cap st1 w, acquireOutputWaveform blank kind st stream = some (cap, st1) ∧
      GetData st1 stream = some cap ∧ st1.heap cap = some w ∧ w.kind = kind ∧
      cap ≠ din ∧ st1.heap din = some d ∧
      (w.m_offsets = [] ∧ w.m_durations = [] ∧ w.m_analog = [] ∧ w.m_digital = [] ∨
        st.heap cap = some w) := by
  have hdf : din ≠ st.fresh := by
    intro h
    rw [h, hfresh] at hd
    cases hd
  have hget : ∀ l : List (Option Nat), stream < l.length →
      GetData (⟨fun _ => none, l.set stream (some st.fresh), [], 0⟩ : FilterState α) stream =
        some st.fresh := by
    intro l hl
    unfold GetData
    rw [if_neg (by simp only [List.length_set]; omega)]
    simp [List.getD_eq_getElem?_getD, hl]
  unfold acquireOutputWaveform
  rw [GetData_eq st stream hs]
  rcases hold with h | ⟨p, w0, h, hw, hpd⟩
  · rw [h]
    simp only [dynamicCast, Option.some_bind, SetData]
    rw [rd_of_lt_getD _ _ none hs, h]
    simp only [Option.some_bind]
    rw [if_neg (by simp)]
    simp only [Option.map_some']
    refine ⟨st.fresh, _, newWaveform blank kind, rfl, hget _ hs, if_pos rfl, rfl, hdf.symm, ?_,
      Or.inl ⟨rfl, rfl, rfl, rfl⟩⟩
    simp [hdf, hd]
  · have hpf : p ≠ st.fresh := by
      intro h2
      rw [h2, hfresh] at hw
      cases hw
    rw [h]
    by_cases hk : w0.kind = kind
    · simp only [dynamicCast, hw, Option.map_some', if_pos hk, Option.some_bind]
      exact ⟨p, st, w0, rfl, (GetData_eq st stream hs).trans h, hw, hk, hpd, hd, Or.inr hw⟩
    · simp only [dynamicCast, hw, Option.map_some', if_neg hk, Option.some_bind, SetData]
      rw [rd_of_lt_getD _ _ none hs, h]
      simp only [Option.some_bind]
      rw [if_neg (by simpa using hpf)]
      simp only [Option.map_some']
      refine ⟨st.fresh, _, newWaveform blank kind, rfl, hget _ hs, ?_, rfl, hdf.symm, ?_,
        Or.inl ⟨rfl, rfl, rfl, rfl⟩⟩
      · simp [hpf.symm]
      · simp [hdf, hd, hpd.symm]

theorem setupEmptyOutputWaveform_of_acquire {α : Type} (blank : Waveform α)
    (kind : WaveformKind) (st st1 : FilterState α) (din stream cap : Nat) (clear : Bool)
    (d w : Waveform α) (ha : acquireOutputWaveform blank kind st stream = some (cap, st1))
    (hd : st1.heap din = some d) (hw : st1.heap cap = some w) :
    ∃ st2 w2, setupEmptyOutputWaveform blank kind st din stream clear = some (cap, st2) ∧
      st2.m_streams = st1.m_streams ∧ st2.heap cap = some w2 ∧ w2.kind = w.kind ∧
      (∀ q, q ≠ cap → st2.heap q = st1.heap q) := by
  unfold setupEmptyOutputWaveform
  rw [ha]
  simp only [Option.some_bind, hd, hw]
  refine ⟨_, _, rfl, rfl, if_pos rfl, ?_, ?_⟩
  · cases clear <;> rfl
  · intro q hq
    simp [hq]

theorem take_drop_getElem? {β : Type} (l : List β) (s n i : Nat) (h : i < n) :
    ((l.drop s).take n)[i]? = l[s + i]? := by
  rw [List.getElem?_take_of_lt h, List.getElem?_drop]

theorem TimebaseCopied_of_arrays {α : Type} (skipstart len : Nat) (d w : Waveform α)
    (hsz : w.size = len) (ho : skipstart + len ≤ d.m_offsets.length)
    (hu : skipstart + len ≤ d.m_durations.length)
    (h1 : w.m_offsets = (d.m_offsets.drop skipstart).take len)
    (h2 : w.m_durations = (d.m_durations.drop skipstart).take len) :
    TimebaseCopied skipstart len d w := by
  refine ⟨hsz, ?_, ?_, ?_⟩
  · rw [h1, List.length_take, List.length_drop]
    omega
  · rw [h2, List.length_take, List.length_drop]
    omega
  · intro i hi
    rw [h1, h2]
    exact ⟨take_drop_getElem? _ _ _ _ hi, take_drop_getElem? _ _ _ _ hi⟩

theorem skipLength_eq (n skipstart skipend : Nat) (h1 : skipstart + skipend ≤ n)
    (h2 : n < SIZE_MOD) :
    subSize n (addSize skipstart skipend) = n - skipstart - skipend := by
  unfold addSize
  rw [Nat.mod_eq_of_lt (by omega), subSize_le h1 h2]
  omega

/-- C20: both timebase-copying helpers, called on a valid stream whose pointer is `NULL` or
a live waveform other than the input, with a live sparse input `d` of `n` samples (offsets
and durations of length `n`, `n` below `2^64`) and `skipstart + skipend ≤ n`, return a
waveform bound to the stream that has exactly `n - skipstart - skipend` samples, whose
offsets and durations at every index `i` below that length are the input's at
`skipstart + i`; the input object is unchanged. -/
theorem SetupSparseOutputWaveform_copies_timebase {α : Type} (blank : Waveform α) (pad : α)
    (st : FilterState α) (din stream skipstart skipend n : Nat) (d : Waveform α)
    (hs : stream < st.m_streams.length) (hd : st.heap din = some d)
    (hfresh : st.heap st.fresh = none)
    (hold : GetData st stream = none ∨
      ∃ p w0, GetData st stream = some p ∧ st.heap p = some w0 ∧ p ≠ din)
    (hn : d.size = n) (hno : d.m_offsets.length = n) (hnd : d.m_durations.length = n)
    (hskip : skipstart + skipend ≤ n) (hmax : n < SIZE_MOD) :
    (∃ cap st1 w, SetupSparseOutputWaveform blank pad st din stream skipstart skipend =
        some (cap, st1) ∧
      GetData st1 stream = some cap ∧ st1.heap cap = some w ∧
      TimebaseCopied skipstart (n - skipstart - skipend) d w ∧ st1.heap din = some d) ∧
    (∃ cap st1 w, SetupSparseDigitalOutputWaveform blank pad st din stream skipstart skipend =
        some (cap, st1) ∧
      GetData st1 stream = some cap ∧ st1.heap cap = some w ∧
      TimebaseCopied skipstart (n - skipstart - skipend) d w ∧ st1.heap din = some d) := by
  rw [GetData_eq st stream hs] at hold
  constructor
  · obtain ⟨cap, st1, w, ha, hg, hw, hk, hne, hd1, _⟩ :=
      acquireOutputWaveform_spec blank WaveformKind.SparseAnalog st din stream d hs hd hfresh hold
    obtain ⟨st2, w2, hb, hstr, hw2, hk2, hq⟩ :=
      setupEmptyOutputWaveform_of_acquire blank WaveformKind.SparseAnalog st st1 din stream cap
        false d w ha hd1 hw
    have hd2 : st2.heap din = some d := by rw [hq din hne.symm, hd1]
    have hsp : w2.kind = WaveformKind.SparseAnalog := hk2.trans hk
    obtain ⟨st3, hc, hstr3, hq3, w3, hw3, hk3, _, ho3, hu3, han, _⟩ :=
      copyTimebase_spec pad st2 cap din (n - skipstart - skipend) skipstart d w2 hd2 hw2 hne
        (by rw [hsp]; rfl) (by omega) (by omega)
    refine ⟨cap, st3, w3, ?_, ?_, hw3, ?_, ?_⟩
    · unfold SetupSparseOutputWaveform SetupEmptySparseAnalogOutputWaveform
      rw [hb]
      simp only [Option.some_bind, hd2, hn, skipLength_eq n skipstart skipend hskip hmax, hc,
        Option.map_some']
    · unfold GetData at hg ⊢
      rw [hstr3, hstr]
      exact hg
    · refine TimebaseCopied_of_arrays _ _ _ _ ?_ (by omega) (by omega) ho3 hu3
      unfold Waveform.size
      rw [hsp] at han
      rw [hk3, hsp, if_pos (by decide : WaveformKind.SparseAnalog.isAnalog = true), han,
        if_pos (by decide : WaveformKind.SparseAnalog.isAnalog = true), resize_length]
    · rw [hq3 din hne.symm, hd2]
  · obtain ⟨cap, st1, w, ha, hg, hw, hk, hne, hd1, _⟩ :=
      acquireOutputWaveform_spec blank WaveformKind.SparseDigital st din stream d hs hd hfresh
        hold
    obtain ⟨st3, hc, hstr3, hq3, w3, hw3, hk3, _, ho3, hu3, _, hdg⟩ :=
      copyTimebase_spec pad st1 cap din (n - skipstart - skipend) skipstart d w hd1 hw hne
        (by rw [hk]; rfl) (by omega) (by omega)
    refine ⟨cap, st3, w3, ?_, ?_, hw3, ?_, ?_⟩
    · unfold SetupSparseDigitalOutputWaveform
      rw [ha]
      simp only [Option.some_bind, hd1, hno, skipLength_eq n skipstart skipend hskip hmax, hc,
        Option.map_some']
    · unfold GetData at hg ⊢
      rw [hstr3]
      exact hg
    · refine TimebaseCopied_of_arrays _ _ _ _ ?_ (by omega) (by omega) ho3 hu3
      unfold Waveform.size
      rw [hk] at hdg
      rw [hk3, hk, if_neg (by decide : ¬ WaveformKind.SparseDigital.isAnalog = true), hdg,
        if_neg (by decide : ¬ WaveformKind.SparseDigital.isAnalog = true), resize_length]
    · rw [hq3 din hne.symm, hd1]

/-- Witness for C20 on `exampleFilterState`: four input samples, one skipped at each
end. -/
theorem SetupSparseOutputWaveform_copies_timebase_witness :
    (∃ cap st1 w, SetupSparseOutputWaveform (blankWaveform Int) 0 exampleFilterState 1 0 1 1 =
        some (cap, st1) ∧
      GetData st1 0 = some cap ∧ st1.heap cap = some w ∧
      TimebaseCopied 1 (4 - 1 - 1) exampleInputWaveform w ∧
      st1.heap 1 = some exampleInputWaveform) ∧
    (∃ cap st1 w, SetupSparseDigitalOutputWaveform (blankWaveform Int) 0 exampleFilterState
        1 0 1 1 = some (cap, st1) ∧
      GetData st1 0 = some cap ∧ st1.heap cap = some w ∧
      TimebaseCopied 1 (4 - 1 - 1) exampleInputWaveform w ∧
      st1.heap 1 = some exampleInputWaveform) :=
  SetupSparseOutputWaveform_copies_timebase (blankWaveform Int) 0 exampleFilterState 1 0 1 1 4
    exampleInputWaveform (by decide) rfl rfl
    (Or.inr ⟨2, exampleOldOutput, rfl, rfl, by decide⟩) rfl rfl rfl (by decide)
    (by unfold SIZE_MOD; omega)

/-! ### `FIRFilter::Refresh` -/

theorem SetData_null {α : Type} (st : FilterState α) (stream : Nat)
    (hs : stream < st.m_streams.length) :
    ∃ b, SetData st none stream = some b ∧ GetData b stream = none ∧
      b.m_inputs = st.m_inputs ∧ b.m_streams.length = st.m_streams.length := by
  unfold SetData
  rw [rd_of_lt_getD _ _ none hs]
  simp only [Option.some_bind]
  by_cases h : st.m_streams.getD stream none = none
  · rw [if_pos h]
    exact ⟨st, rfl, (GetData_eq st stream hs).trans h, rfl, rfl⟩
  · rw [if_neg h]
    refine ⟨_, rfl, ?_, rfl, by simp⟩
    unfold GetData
    rw [if_neg (by simp only [List.length_set]; omega)]
    simp [List.getD_eq_getElem?_getD, hs]

/-- C11: on a filter whose inputs pass the check and whose input 0 is the live uniform
analog waveform `d`, with `flo`, `fhi` the band edges after class adjustment and clamping
and `L` the requested or derived filter length after being forced odd: whenever
`flo = fhi` or `L > 4096`, `FIRFilter::Refresh` returns with stream 0 holding no waveform
and with `m_coefficients` exactly as before the call (no coefficient is computed and the
buffer is not even resized). -/
theorem FIRFilter_Refresh_rejects_configuration {α : Type} [Zero α] [Add α] [Sub α] [Mul α]
    [Div α] [Neg α] [LT α] [DecidableRel (fun a b : α => a < b)] [DecidableEq α]
    (env : MathEnv α) (plat : FIRPlatform α) (fuel : Nat) (blank : Waveform α) (pad : α)
    (clear : Bool) (st : FIRFilterState α) (din : Nat) (d : Waveform α)
    (sample_hz nyquist flo fhi : α) (L : Nat)
    (hs : 0 < st.base.m_streams.length)
    (hv : VerifyAllInputsOKAndUniformAnalog st.base = some true)
    (hi : GetInputWaveform st.base 0 = some (some din))
    (hd : st.base.heap din = some d) (hk : d.kind = WaveformKind.UniformAnalog)
    (hsr : sample_hz = env.lit FS_PER_SECOND / env.lit (d.m_timescale : ℚ))
    (hny : nyquist = sample_hz / env.lit 2)
    (hlo : flo = (FIRFilter_bandEdges env st.m_filterType st.m_freqLow st.m_freqHigh nyquist).1)
    (hhi : fhi = (FIRFilter_bandEdges env st.m_filterType st.m_freqLow st.m_freqHigh nyquist).2)
    (hL : L = FIRFilter_filterLength env st.m_filterLength st.m_stopbandAtten sample_hz flo fhi)
    (hbad : flo = fhi ∨ L > 4096) :
    ∃ st1, FIRFilter_Refresh env plat fuel blank pad clear st = some st1 ∧
      GetData st1.base 0 = none ∧ st1.m_coefficients = st.m_coefficients ∧
      some st1.base = SetData st.base none 0 := by
  obtain ⟨b, hb, hg, _, _⟩ := SetData_null st.base 0 hs
  refine ⟨{ st with base := b }, ?_, hg, rfl, hb.symm⟩
  unfold FIRFilter_Refresh
  rw [hv, hi]
  simp only [Option.some_bind, dynamicCast, hd, Option.map_some', if_pos hk, hb]
  subst hsr hny
  rw [← hlo, ← hhi, ← hL]
  rcases hbad with h | h
  · simp [h]
  · by_cases h2 : flo = fhi
    · simp [h2]
    · simp [h2, h]

/-- Witness for C11: a zero-width band (`fhi = 0` on a low pass) and a requested length of
4097 taps on `exampleAnalogInput`. -/
theorem FIRFilter_Refresh_rejects_configuration_witness :
    (∃ st1, FIRFilter_Refresh exampleMath examplePlatform 5 (blankWaveform ℚ) 0 true
        (exampleFIR exampleAnalogInput 3 0) = some st1 ∧
      GetData st1.base 0 = none ∧
      st1.m_coefficients = (exampleFIR exampleAnalogInput 3 0).m_coefficients ∧
      some st1.base = SetData (exampleFIR exampleAnalogInput 3 0).base none 0) ∧
    (∃ st1, FIRFilter_Refresh exampleMath examplePlatform 5 (blankWaveform ℚ) 0 true
        (exampleFIR exampleAnalogInput 4097 250000000000) = some st1 ∧
      GetData st1.base 0 = none ∧
      st1.m_coefficients = (exampleFIR exampleAnalogInput 4097 250000000000).m_coefficients ∧
      some st1.base = SetData (exampleFIR exampleAnalogInput 4097 250000000000).base none 0) :=
  ⟨FIRFilter_Refresh_rejects_configuration exampleMath examplePlatform 5 (blankWaveform ℚ) 0
      true (exampleFIR exampleAnalogInput 3 0) 1 exampleAnalogInput _ _ _ _ _
      (by decide) (by decide) rfl rfl rfl rfl rfl rfl rfl rfl
      (Or.inl (by norm_num [FIRFilter_bandEdges, exampleFIR, exampleMath, FS_PER_SECOND,
        exampleAnalogInput])),
   FIRFilter_Refresh_rejects_configuration exampleMath examplePlatform 5 (blankWaveform ℚ) 0
      true (exampleFIR exampleAnalogInput 4097 250000000000) 1 exampleAnalogInput _ _ _ _ _
      (by decide) (by decide) rfl rfl rfl rfl rfl rfl rfl rfl
      (Or.inr (by norm_num +decide [FIRFilter_filterLength, exampleFIR, SIZE_MOD]))⟩

theorem forLoopExit_preserves {σ : Type} (stop step : Nat) (body : Nat → σ → Option σ)
    (P : σ → Prop) (hb : ∀ i s s1, P s → body i s = some s1 → P s1) :
    ∀ (fuel i : Nat) (s : σ) (r : Nat × σ), P s →
      forLoopExit stop step body fuel i s = some r → P r.2 := by
  intro fuel
  induction fuel with
  | zero =>
    intro i s r hp h
    unfold forLoopExit at h
    split at h
    · exact Option.noConfusion h
    · simp only [Option.some.injEq] at h
      exact h ▸ hp
  | succ f ih =>
    intro i s r hp h
    unfold forLoopExit at h
    split at h
    · cases hbody : body i s with
      | none =>
        rw [hbody] at h
        exact Option.noConfusion h
      | some s1 =>
        rw [hbody] at h
        exact ih _ _ _ (hb i s s1 hp hbody) h
    · simp only [Option.some.injEq] at h
      exact h ▸ hp

theorem firOutput_length {α : Type} [Zero α] [Add α] [Mul α] (coeffs din : List α) (i : Nat)
    (cap out : List α) (h : firOutput coeffs din i cap = some out) : out.length = cap.length := by
  unfold firOutput at h
  cases hv : forLoop coeffs.length 1 (firTap coeffs din i) coeffs.length 0 (0 : α) with
  | none =>
    rw [hv] at h
    exact Option.noConfusion h
  | some v =>
    rw [hv] at h
    exact wr_length _ _ _ _ h

theorem store_ps_length {α : Type} : ∀ (v p : List α) (i : Nat) (out : List α),
    store_ps p i v = some out → out.length = p.length := by
  intro v
  induction v with
  | nil =>
    intro p i out h
    simp only [store_ps, Option.some.injEq] at h
    rw [← h]
  | cons x v ih =>
    intro p i out h
    unfold store_ps at h
    cases hw : wr p i x with
    | none =>
      rw [hw] at h
      exact Option.noConfusion h
    | some p1 =>
      rw [hw] at h
      rw [ih p1 (i + 1) out h, wr_length _ _ _ _ hw]

theorem storeRegs_length {α : Type} : ∀ (offs : List Nat) (vs : List (List α)) (p : List α)
    (i : Nat) (out : List α), storeRegs p i offs vs = some out → out.length = p.length := by
  intro offs
  induction offs with
  | nil =>
    intro vs p i out h
    simp only [storeRegs, Option.some.injEq] at h
    rw [← h]
  | cons o offs ih =>
    intro vs p i out h
    cases vs with
    | nil =>
      simp only [storeRegs, Option.some.injEq] at h
      rw [← h]
    | cons v vs =>
      simp only [storeRegs] at h
      cases hs : store_ps p (i + o) v with
      | none =>
        rw [hs] at h
        exact Option.noConfusion h
      | some p1 =>
        rw [hs] at h
        rw [ih vs p1 i out h, store_ps_length _ _ _ _ hs]

theorem blockAVX2_length {α : Type} [Add α] [Mul α] (coeffs din : List α) (i : Nat)
    (cap out : List α) (h : blockAVX2 coeffs din i cap = some out) : out.length = cap.length := by
  unfold blockAVX2 at h
  simp only [Option.bind_eq_some] at h
  obtain ⟨_, _, _, _, _, _, h⟩ := h
  exact storeRegs_length _ _ _ _ _ h

theorem blockAVX512F_length {α : Type} [Mul α] (fma : α → α → α → α) (coeffs din : List α)
    (i : Nat) (cap out : List α) (h : blockAVX512F fma coeffs din i cap = some out) :
    out.length = cap.length := by
  unfold blockAVX512F at h
  simp only [Option.bind_eq_some] at h
  obtain ⟨_, _, _, _, _, _, h⟩ := h
  exact storeRegs_length _ _ _ _ _ h

/-- Every kernel `DoFilterKernel` may select returns an output array of the length it was
given, provided the GPU kernel does. -/
theorem DoFilterKernel_length {α : Type} [Zero α] [Add α] [Mul α] (plat : FIRPlatform α)
    (hgpu : ∀ c i o r, plat.gpuKernel c i o = some r → r.length = o.length)
    (coeffs din cap out : List α) (h : DoFilterKernel plat coeffs din cap = some out) :
    out.length = cap.length := by
  unfold DoFilterKernel at h
  split at h
  · exact hgpu _ _ _ _ h
  · split at h
    · unfold DoFilterKernelAVX512F at h
      simp only [Option.bind_eq_some] at h
      obtain ⟨r, h1, h2⟩ := h
      have hr := forLoopExit_preserves _ 64 _ (fun s => s.length = cap.length)
        (fun i s s1 hp hb => (blockAVX512F_length _ _ _ _ _ _ hb).trans hp) _ _ _ _ rfl h1
      exact forLoop_preserves _ 1 _ (fun s => s.length = cap.length)
        (fun i s s1 hp hb => (firOutput_length _ _ _ _ _ hb).trans hp) _ _ _ _ hr h2
    · split at h
      · unfold DoFilterKernelAVX2 at h
        simp only [Option.bind_eq_some] at h
        obtain ⟨r, h1, h2⟩ := h
        have hr := forLoopExit_preserves _ 64 _ (fun s => s.length = cap.length)
          (fun i s s1 hp hb => (blockAVX2_length _ _ _ _ _ hb).trans hp) _ _ _ _ rfl h1
        exact forLoop_preserves _ 1 _ (fun s => s.length = cap.length)
          (fun i s s1 hp hb => (firOutput_length _ _ _ _ _ hb).trans hp) _ _ _ _ hr h2
      · unfold DoFilterKernelGeneric at h
        exact forLoop_preserves _ 1 _ (fun s => s.length = cap.length)
          (fun i s s1 hp hb => (firOutput_length _ _ _ _ _ hb).trans hp) _ _ _ _ rfl h

/-- The set-up helper on a valid stream whose pointer is `NULL` or a live object other
than the live input `din`: it returns a live `cap`, bound to the stream, of class `kind`,
distinct from `din`, carrying the timescale and trigger phase of `din`; `din` is
untouched. -/
theorem setupEmptyOutputWaveform_fresh_or_reused {α : Type} (blank : Waveform α)
    (kind : WaveformKind) (st : FilterState α) (din stream : Nat) (clear : Bool)
    (d : Waveform α) (hs : stream < st.m_streams.length) (hd : st.heap din = some d)
    (hfresh : st.heap st.fresh = none)
    (hold : st.m_streams.getD stream none = none ∨
      ∃ p w0, st.m_streams.getD stream none = some p ∧ st.heap p = some w0 ∧ p ≠ din) :
    ∃ cap st2 w2, setupEmptyOutputWaveform blank kind st din stream clear = some (cap, st2) ∧
      GetData st2 stream = some cap ∧ st2.heap cap = some w2 ∧ cap ≠ din ∧
      st2.heap din = some d ∧ w2.kind = kind ∧ w2.m_timescale = d.m_timescale ∧
      w2.m_triggerPhase = d.m_triggerPhase := by
  obtain ⟨cap, st1, w, ha, hg, hw, hk, hne, hd1, _⟩ :=
    acquireOutputWaveform_spec blank kind st din stream d hs hd hfresh hold
  unfold setupEmptyOutputWaveform
  rw [ha]
  simp only [Option.some_bind, hd1, hw]
  refine ⟨cap, _, _, rfl, ?_, if_pos rfl, hne, ?_, ?_, ?_, ?_⟩
  · unfold GetData at hg ⊢
    exact hg
  · simp [hne.symm, hd1]
  · cases clear <;> exact hk
  · cases clear <;> rfl
  · cases clear <;> rfl

theorem Waveform.size_uniformAnalog {α : Type} (w : Waveform α)
    (h : w.kind = WaveformKind.UniformAnalog) : w.size = w.m_analog.length := by
  unfold Waveform.size
  rw [h, if_pos (by decide : WaveformKind.UniformAnalog.isAnalog = true)]

/-- What `FIRFilter::Refresh` leaves behind once its configuration checks have passed,
whenever it returns. -/
theorem FIRFilter_run_shape {α : Type} [Zero α] [Add α] [Sub α] [Mul α] [Div α] [Neg α]
    [LT α] [DecidableRel (fun a b : α => a < b)] (env : MathEnv α) (plat : FIRPlatform α)
    (fuel : Nat) (blank : Waveform α) (pad : α) (clear : Bool) (st st1 : FIRFilterState α)
    (din : Nat) (d : Waveform α) (fs_per_sample : Int) (flo fhi nyquist atten : α) (L : Nat)
    (hgpu : ∀ c i o r, plat.gpuKernel c i o = some r → r.length = o.length)
    (hs : 0 < st.base.m_streams.length) (hd : st.base.heap din = some d)
    (hfresh : st.base.heap st.base.fresh = none)
    (hold : st.base.m_streams.getD 0 none = none ∨
      ∃ p w0, st.base.m_streams.getD 0 none = some p ∧ st.base.heap p = some w0 ∧ p ≠ din)
    (hret : FIRFilter_run env plat fuel blank pad clear st din fs_per_sample flo fhi nyquist
      atten L = some st1) :
    ∃ cap w, GetData st1.base 0 = some cap ∧ st1.base.heap cap = some w ∧
      w.kind = WaveformKind.UniformAnalog ∧ w.size = subSize d.size L ∧
      w.m_timescale = d.m_timescale ∧
      w.m_triggerPhase = ((subSize L 1 / 2 : Nat) : Int) * fs_per_sample + d.m_triggerPhase ∧
      st1.base.heap din = some d := by
  obtain ⟨cap, st2, w2, hsetup, hg, hw2, hne, hd2, hk2, hts, _⟩ :=
    setupEmptyOutputWaveform_fresh_or_reused blank WaveformKind.UniformAnalog st.base din 0
      clear d hs hd hfresh hold
  unfold FIRFilter_run at hret
  unfold SetupEmptyUniformAnalogOutputWaveform at hret
  simp only [Option.bind_eq_some] at hret
  obtain ⟨cf, _, r, hr, hret⟩ := hret
  rw [hsetup] at hr
  cases hr
  simp only [hw2, hd2, Option.some_bind, if_neg hne.symm, Option.bind_eq_some,
    Option.map_some', Option.some.injEq, exists_eq_left'] at hret
  obtain ⟨out, hkern, hret⟩ := hret
  have hlen := DoFilterKernel_length plat hgpu _ _ _ _ hkern
  subst hret
  refine ⟨cap, _, ?_, if_pos rfl, ?_, ?_, ?_, rfl, ?_⟩
  · unfold GetData at hg ⊢
    exact hg
  · exact hk2
  · refine (Waveform.size_uniformAnalog _ (by exact hk2)).trans ?_
    simp only [Waveform.Resize, hk2] at hlen
    rw [if_pos (by decide : WaveformKind.UniformAnalog.isAnalog = true)] at hlen
    exact hlen.trans (resize_length _ _ _)
  · exact hts
  · simp [hne.symm, hd2]

/-- Past the input check, `FIRFilter::Refresh` either publishes a null waveform (rejected
configuration) or runs the filter. -/
theorem FIRFilter_Refresh_eq {α : Type} [Zero α] [Add α] [Sub α] [Mul α]
    [Div α] [Neg α] [LT α] [DecidableRel (fun a b : α => a < b)] [DecidableEq α]
    (env : MathEnv α) (plat : FIRPlatform α) (fuel : Nat) (blank : Waveform α) (pad : α)
    (clear : Bool) (st : FIRFilterState α) (din : Nat) (d : Waveform α)
    (sample_hz nyquist flo fhi : α) (L : Nat)
    (hv : VerifyAllInputsOKAndUniformAnalog st.base = some true)
    (hi : GetInputWaveform st.base 0 = some (some din))
    (hd : st.base.heap din = some d) (hk : d.kind = WaveformKind.UniformAnalog)
    (hsr : sample_hz = env.lit FS_PER_SECOND / env.lit (d.m_timescale : ℚ))
    (hny : nyquist = sample_hz / env.lit 2)
    (hlo : flo = (FIRFilter_bandEdges env st.m_filterType st.m_freqLow st.m_freqHigh nyquist).1)
    (hhi : fhi = (FIRFilter_bandEdges env st.m_filterType st.m_freqLow st.m_freqHigh nyquist).2)
    (hL : L = FIRFilter_filterLength env st.m_filterLength st.m_stopbandAtten sample_hz flo fhi) :
    FIRFilter_Refresh env plat fuel blank pad clear st =
      if flo = fhi ∨ L > 4096 then (SetData st.base none 0).map fun b => { st with base := b }
      else FIRFilter_run env plat fuel blank pad clear st din d.m_timescale flo fhi nyquist
        st.m_stopbandAtten L := by
  unfold FIRFilter_Refresh
  rw [hv, hi]
  simp only [Option.some_bind, dynamicCast, hd, Option.map_some', if_pos hk]
  subst hsr hny
  rw [← hlo, ← hhi, ← hL]
  by_cases h1 : flo = fhi
  · simp [h1]
  · by_cases h2 : L > 4096
    · simp [h1, h2]
    · simp [h1, h2]

/-- The scalar kernel returns when the input has at least as many samples as there are
coefficients and the output buffer holds the `len - L` outputs. -/
theorem DoFilterKernelGeneric_returns {α : Type} [Zero α] [Add α] [Mul α]
    (coeffs din cap : List α) (hL : coeffs.length ≤ din.length) (hs : din.length < SIZE_MOD)
    (hcap : din.length - coeffs.length ≤ cap.length) :
    ∃ out, DoFilterKernelGeneric coeffs din cap = some out := by
  obtain ⟨out, ho1, _, _⟩ := firLoop_spec coeffs din (din.length - coeffs.length) (by omega)
    (din.length - coeffs.length) 0 (din.length - coeffs.length) cap (by omega) (by omega) hcap
  refine ⟨out, ?_⟩
  unfold DoFilterKernelGeneric
  simp only [subSize_le hL hs]
  exact ho1

/-- Once the configuration checks have passed, the coefficient design returns and the
kernel returns on the resized output, `FIRFilter::Refresh` returns. -/
theorem FIRFilter_run_returns {α : Type} [Zero α] [Add α] [Sub α] [Mul α] [Div α] [Neg α]
    [LT α] [DecidableRel (fun a b : α => a < b)] (env : MathEnv α) (plat : FIRPlatform α)
    (fuel : Nat) (blank : Waveform α) (pad : α) (clear : Bool) (st : FIRFilterState α)
    (din : Nat) (d : Waveform α) (fs_per_sample : Int) (flo fhi nyquist atten : α) (L : Nat)
    (cf : List α)
    (hs : 0 < st.base.m_streams.length) (hd : st.base.heap din = some d)
    (hfresh : st.base.heap st.base.fresh = none)
    (hold : st.base.m_streams.getD 0 none = none ∨
      ∃ p w0, st.base.m_streams.getD 0 none = some p ∧ st.base.heap p = some w0 ∧ p ≠ din)
    (hcf : CalculateFilterCoefficients env fuel (resize pad st.m_coefficients L)
      (flo / nyquist) (fhi / nyquist) atten st.m_filterType = some cf)
    (hkern : ∀ capS : List α, capS.length = subSize d.size L →
      ∃ out, DoFilterKernel plat cf d.m_analog capS = some out) :
    ∃ st1, FIRFilter_run env plat fuel blank pad clear st din fs_per_sample flo fhi nyquist
      atten L = some st1 := by
  obtain ⟨cap, st2, w2, hsetup, hg, hw2, hne, hd2, hk2, hts, _⟩ :=
    setupEmptyOutputWaveform_fresh_or_reused blank WaveformKind.UniformAnalog st.base din 0
      clear d hs hd hfresh hold
  obtain ⟨out, hout⟩ := hkern (w2.Resize pad (subSize d.size L)).m_analog (by
    simp only [Waveform.Resize, hk2]
    rw [if_pos (by decide : WaveformKind.UniformAnalog.isAnalog = true), resize_length])
  unfold FIRFilter_run SetupEmptyUniformAnalogOutputWaveform
  rw [hcf, hsetup]
  simp only [Option.some_bind, hw2, hd2, if_neg hne.symm, hout, Option.map_some']
  exact ⟨_, rfl⟩

/-- C12: on a filter whose inputs pass the check, whose input 0 is the live uniform analog
waveform `d` of `len = d.size` samples and whose stream 0 is `NULL` or a live waveform
other than `d`, with `L` the filter length in use: whenever `FIRFilter::Refresh` returns
with a waveform on stream 0, that waveform has `len - L` samples (computed in `size_t`,
which is the natural number `len - L` when `L ≤ len`), the timescale of the input, and the
trigger phase of the input plus `((L-1)/2) * timescale`. -/
theorem FIRFilter_Refresh_output_shape {α : Type} [Zero α] [Add α] [Sub α] [Mul α]
    [Div α] [Neg α] [LT α] [DecidableRel (fun a b : α => a < b)] [DecidableEq α]
    (env : MathEnv α) (plat : FIRPlatform α) (fuel : Nat) (blank : Waveform α) (pad : α)
    (clear : Bool) (st st1 : FIRFilterState α) (din cap : Nat) (d : Waveform α)
    (sample_hz nyquist flo fhi : α) (L : Nat)
    (hgpu : ∀ c i o r, plat.gpuKernel c i o = some r → r.length = o.length)
    (hs : 0 < st.base.m_streams.length)
    (hv : VerifyAllInputsOKAndUniformAnalog st.base = some true)
    (hi : GetInputWaveform st.base 0 = some (some din))
    (hd : st.base.heap din = some d) (hk : d.kind = WaveformKind.UniformAnalog)
    (hsize : d.size < SIZE_MOD)
    (hfresh : st.base.heap st.base.fresh = none)
    (hold : GetData st.base 0 = none ∨
      ∃ p w0, GetData st.base 0 = some p ∧ st.base.heap p = some w0 ∧ p ≠ din)
    (hsr : sample_hz = env.lit FS_PER_SECOND / env.lit (d.m_timescale : ℚ))
    (hny : nyquist = sample_hz / env.lit 2)
    (hlo : flo = (FIRFilter_bandEdges env st.m_filterType st.m_freqLow st.m_freqHigh nyquist).1)
    (hhi : fhi = (FIRFilter_bandEdges env st.m_filterType st.m_freqLow st.m_freqHigh nyquist).2)
    (hL : L = FIRFilter_filterLength env st.m_filterLength st.m_stopbandAtten sample_hz flo fhi)
    (hret : FIRFilter_Refresh env plat fuel blank pad clear st = some st1)
    (hout : GetData st1.base 0 = some cap) :
    ∃ w, st1.base.heap cap = some w ∧ w.size = subSize d.size L ∧
      (L ≤ d.size → w.size = d.size - L) ∧
      w.m_timescale = d.m_timescale ∧
      w.m_triggerPhase = d.m_triggerPhase + (((L - 1) / 2 : Nat) : Int) * d.m_timescale := by
  rw [GetData_eq st.base 0 hs] at hold
  rw [FIRFilter_Refresh_eq env plat fuel blank pad clear st din d sample_hz nyquist flo fhi L
    hv hi hd hk hsr hny hlo hhi hL] at hret
  by_cases hbad : flo = fhi ∨ L > 4096
  · rw [if_pos hbad] at hret
    obtain ⟨b, hb, hg, _, _⟩ := SetData_null st.base 0 hs
    rw [hb] at hret
    simp only [Option.map_some', Option.some.injEq] at hret
    subst hret
    rw [hg] at hout
    cases hout
  · rw [if_neg hbad] at hret
    obtain ⟨cap1, w, hg, hw, _, hsz, hts, htp, _⟩ :=
      FIRFilter_run_shape env plat fuel blank pad clear st st1 din d d.m_timescale flo fhi
        nyquist st.m_stopbandAtten L hgpu hs hd hfresh hold hret
    rw [hg] at hout
    cases hout
    have hodd : L % 2 = 1 := by
      rw [hL]
      exact FIRFilter_filterLength_odd env _ _ _ _ _
    have hL1 : subSize L 1 = L - 1 :=
      subSize_le (by omega) (by unfold SIZE_MOD; omega)
    refine ⟨w, hw, hsz, fun h => ?_, hts, ?_⟩
    · rw [hsz, subSize_le h hsize]
    · rw [htp, hL1]
      ring

/-- Witness for C12: the three-tap low pass on the five samples of `exampleAnalogInput`
returns a two-sample output with trigger phase `5 + 1 * 1000`. -/
theorem FIRFilter_Refresh_output_shape_witness :
    ∃ st1 cap w, FIRFilter_Refresh exampleMath examplePlatform 5 (blankWaveform ℚ) 0 true
        (exampleFIR exampleAnalogInput 3 250000000000) = some st1 ∧
      GetData st1.base 0 = some cap ∧ st1.base.heap cap = some w ∧
      w.size = subSize exampleAnalogInput.size 3 ∧
      ((3 : Nat) ≤ exampleAnalogInput.size → w.size = exampleAnalogInput.size - 3) ∧
      w.m_timescale = exampleAnalogInput.m_timescale ∧
      w.m_triggerPhase =
        exampleAnalogInput.m_triggerPhase + (((3 - 1) / 2 : Nat) : Int) *
          exampleAnalogInput.m_timescale := by
  have hL : (3 : Nat) = FIRFilter_filterLength exampleMath
      (exampleFIR exampleAnalogInput 3 250000000000).m_filterLength
      (exampleFIR exampleAnalogInput 3 250000000000).m_stopbandAtten
      (exampleMath.lit FS_PER_SECOND / exampleMath.lit (exampleAnalogInput.m_timescale : ℚ))
      (FIRFilter_bandEdges exampleMath FilterType.FILTER_TYPE_LOWPASS 0 250000000000
        (exampleMath.lit FS_PER_SECOND / exampleMath.lit (exampleAnalogInput.m_timescale : ℚ) /
          exampleMath.lit 2)).1
      (FIRFilter_bandEdges exampleMath FilterType.FILTER_TYPE_LOWPASS 0 250000000000
        (exampleMath.lit FS_PER_SECOND / exampleMath.lit (exampleAnalogInput.m_timescale : ℚ) /
          exampleMath.lit 2)).2 := by
    norm_num +decide [FIRFilter_filterLength, exampleFIR, SIZE_MOD]
  have heq := FIRFilter_Refresh_eq exampleMath examplePlatform 5 (blankWaveform ℚ) 0 true
    (exampleFIR exampleAnalogInput 3 250000000000) 1 exampleAnalogInput _ _ _ _ 3
    (by decide) (by decide) rfl rfl rfl rfl rfl rfl hL
  have hgood : ¬ ((FIRFilter_bandEdges exampleMath FilterType.FILTER_TYPE_LOWPASS 0 250000000000
        (exampleMath.lit FS_PER_SECOND / exampleMath.lit (exampleAnalogInput.m_timescale : ℚ) /
          exampleMath.lit 2)).1 =
      (FIRFilter_bandEdges exampleMath FilterType.FILTER_TYPE_LOWPASS 0 250000000000
        (exampleMath.lit FS_PER_SECOND / exampleMath.lit (exampleAnalogInput.m_timescale : ℚ) /
          exampleMath.lit 2)).2 ∨ 3 > 4096) := by
    norm_num [FIRFilter_bandEdges, exampleMath, FS_PER_SECOND, exampleAnalogInput]
  have hcf : CalculateFilterCoefficients exampleMath 5 [0, 0, 0] 0 (1 / 2) 10
      FilterType.FILTER_TYPE_LOWPASS = some [173 / 588, 1 / 2, 173 / 588] := by
    norm_num +decide [CalculateFilterCoefficients, exampleMath, subSize, SIZE_MOD, firImpulse,
      kaiserAlpha, Bessel, BesselLoop, forLoop, windowStep, windowArg, mirrorStep, rd, wr]
  have hnyq : exampleMath.lit FS_PER_SECOND / exampleMath.lit (exampleAnalogInput.m_timescale : ℚ) /
      exampleMath.lit 2 = 500000000000 := by
    norm_num [exampleMath, FS_PER_SECOND, exampleAnalogInput]
  have hedges : FIRFilter_bandEdges exampleMath FilterType.FILTER_TYPE_LOWPASS 0 250000000000
      (500000000000 : ℚ) = (0, 250000000000) := by
    norm_num [FIRFilter_bandEdges, exampleMath]
  have hrun : ∃ st1, FIRFilter_run exampleMath examplePlatform 5 (blankWaveform ℚ) 0 true
      (exampleFIR exampleAnalogInput 3 250000000000) 1 exampleAnalogInput.m_timescale
      (FIRFilter_bandEdges exampleMath FilterType.FILTER_TYPE_LOWPASS 0 250000000000
        (exampleMath.lit FS_PER_SECOND / exampleMath.lit (exampleAnalogInput.m_timescale : ℚ) /
          exampleMath.lit 2)).1
      (FIRFilter_bandEdges exampleMath FilterType.FILTER_TYPE_LOWPASS 0 250000000000
        (exampleMath.lit FS_PER_SECOND / exampleMath.lit (exampleAnalogInput.m_timescale : ℚ) /
          exampleMath.lit 2)).2
      (exampleMath.lit FS_PER_SECOND / exampleMath.lit (exampleAnalogInput.m_timescale : ℚ) /
          exampleMath.lit 2)
      (exampleFIR exampleAnalogInput 3 250000000000).m_stopbandAtten 3 = some st1 := by
    refine FIRFilter_run_returns exampleMath examplePlatform 5 (blankWaveform ℚ) 0
      true (exampleFIR exampleAnalogInput 3 250000000000) 1 exampleAnalogInput _ _ _ _ _ 3
      [173 / 588, 1 / 2, 173 / 588] (by decide) rfl rfl (Or.inl rfl) ?_
      (fun capS hlen => DoFilterKernelGeneric_returns _ _ _ (by decide) (by decide) (by
        rw [hlen]
        decide))
    rw [hnyq, hedges]
    have h1 : resize (0 : ℚ) (exampleFIR exampleAnalogInput 3 250000000000).m_coefficients 3 =
        [0, 0, 0] := by
      simp [resize, exampleFIR]
    have h2 : (250000000000 : ℚ) / 500000000000 = 1 / 2 := by norm_num
    have h3 : (0 : ℚ) / 500000000000 = 0 := by norm_num
    rw [h1]
    simp only [h2, h3]
    exact hcf
  obtain ⟨st1, hst1⟩ := hrun
  have hret : FIRFilter_Refresh exampleMath examplePlatform 5 (blankWaveform ℚ) 0 true
      (exampleFIR exampleAnalogInput 3 250000000000) = some st1 := by
    rw [heq]
    exact (if_neg (by exact hgood)).trans hst1
  obtain ⟨cap, _, hg, _⟩ := FIRFilter_run_shape exampleMath examplePlatform 5 (blankWaveform ℚ) 0
    true (exampleFIR exampleAnalogInput 3 250000000000) st1 1 exampleAnalogInput _ _ _ _ _ 3
    (fun _ _ _ _ h => Option.noConfusion h) (by decide) rfl rfl (Or.inl rfl) hst1
  obtain ⟨w, hw⟩ := FIRFilter_Refresh_output_shape exampleMath examplePlatform 5
    (blankWaveform ℚ) 0 true (exampleFIR exampleAnalogInput 3 250000000000) st1 1 cap
    exampleAnalogInput _ _ _ _ 3 (fun _ _ _ _ h => Option.noConfusion h) (by decide) (by decide)
    rfl rfl rfl (by decide) rfl (Or.inl rfl) rfl rfl rfl rfl hL hret hg
  exact ⟨st1, cap, w, hret, hg, hw⟩

theorem forLoop_body_fails {σ : Type} (stop : Nat) (body : Nat → σ → Option σ) (j : Nat)
    (hj : j < stop) (hb : ∀ s, body j s = none) :
    ∀ (fuel i : Nat) (s : σ), i ≤ j → forLoop stop 1 body fuel i s = none := by
  intro fuel
  induction fuel with
  | zero =>
    intro i s hi
    unfold forLoop
    rw [if_pos (by omega)]
  | succ f ih =>
    intro i s hi
    unfold forLoop
    rw [if_pos (by omega)]
    cases hbody : body i s with
    | none => rfl
    | some s1 =>
      have hne : i ≠ j := by
        intro h
        rw [h, hb s] at hbody
        cases hbody
      exact ih (i + 1) s1 (by omega)

/-- With fewer input samples than coefficients the scalar kernel reads `din[len]`, outside
the input, while computing output 0. -/
theorem DoFilterKernelGeneric_short_input {α : Type} [Zero α] [Add α] [Mul α]
    (coeffs din cap : List α) (h : din.length < coeffs.length)
    (hs : coeffs.length < SIZE_MOD) : DoFilterKernelGeneric coeffs din cap = none := by
  have hstop : 0 < subSize din.length coeffs.length := by
    unfold subSize SIZE_MOD at *
    omega
  unfold DoFilterKernelGeneric
  refine forLoop_body_fails _ _ 0 hstop (fun s => ?_) _ 0 cap (le_refl 0)
  unfold firOutput
  rw [forLoop_body_fails coeffs.length (firTap coeffs din 0) din.length h (fun v => ?_)
    coeffs.length 0 (0 : α) (Nat.zero_le _)]
  · rfl
  · unfold firTap rd
    rw [List.getElem?_eq_none (by omega)]
    rfl

/-- Once the configuration checks have passed, on a machine running the scalar kernel, an
input with fewer samples than the filter length makes `FIRFilter::Refresh` read outside
the input instead of returning. -/
theorem FIRFilter_run_short_input {α : Type} [Zero α] [Add α] [Sub α] [Mul α] [Div α] [Neg α]
    [LT α] [DecidableRel (fun a b : α => a < b)] (env : MathEnv α) (plat : FIRPlatform α)
    (fuel : Nat) (blank : Waveform α) (pad : α) (clear : Bool) (st : FIRFilterState α)
    (din : Nat) (d : Waveform α) (fs_per_sample : Int) (flo fhi nyquist atten : α) (L : Nat)
    (hgpu : plat.g_gpuFilterEnabled = false) (h512 : plat.g_hasAvx512F = false)
    (h2 : plat.g_hasAvx2 = false)
    (hs : 0 < st.base.m_streams.length) (hd : st.base.heap din = some d)
    (hk : d.kind = WaveformKind.UniformAnalog)
    (hfresh : st.base.heap st.base.fresh = none)
    (hold : st.base.m_streams.getD 0 none = none ∨
      ∃ p w0, st.base.m_streams.getD 0 none = some p ∧ st.base.heap p = some w0 ∧ p ≠ din)
    (hL1 : 1 ≤ L) (hL2 : L < SIZE_MOD) (hshort : d.size < L) :
    FIRFilter_run env plat fuel blank pad clear st din fs_per_sample flo fhi nyquist atten L =
      none := by
  obtain ⟨cap, st2, w2, hsetup, hg, hw2, hne, hd2, hk2, hts, _⟩ :=
    setupEmptyOutputWaveform_fresh_or_reused blank WaveformKind.UniformAnalog st.base din 0
      clear d hs hd hfresh hold
  unfold FIRFilter_run SetupEmptyUniformAnalogOutputWaveform
  cases hcf : CalculateFilterCoefficients env fuel (resize pad st.m_coefficients L)
      (flo / nyquist) (fhi / nyquist) atten st.m_filterType with
  | none => rfl
  | some cf =>
    have hlen : cf.length = L := by
      have := (CalculateFilterCoefficients_mirror env fuel _ _ _ _ _ cf
        (by rw [resize_length]; exact hL1) (by rw [resize_length]; exact hL2) hcf).1
      rw [this, resize_length]
    rw [hsetup]
    simp only [Option.some_bind, hw2, hd2, if_neg hne.symm]
    have hkern : ∀ capS, DoFilterKernel plat cf d.m_analog capS = none := by
      intro capS
      unfold DoFilterKernel
      rw [hgpu, h512, h2]
      simp only [Bool.false_eq_true, if_false]
      refine DoFilterKernelGeneric_short_input _ _ _ ?_ (by rw [hlen]; exact hL2)
      rw [hlen, ← Waveform.size_uniformAnalog d hk]
      exact hshort
    rw [hkern]
    rfl

/-- C13 (defect): on the one-sample input `exampleShortInput` with a requested filter
length of 3 the configuration checks pass (`flo = 0 ≠ fhi`, `L = 3 ≤ 4096`), and
`FIRFilter::Refresh` does not publish a null waveform: it resizes the output to
`1 - 3 = 2^64 - 2` samples and the scalar kernel reads `din[1]`, outside the input. -/
theorem FIRFilter_Refresh_short_input_not_rejected :
    exampleShortInput.size = 1 ∧
    FIRFilter_filterLength exampleMath 3 10 1000000000000 0 250000000000 = 3 ∧
    subSize exampleShortInput.size 3 = 18446744073709551614 ∧
    (SetData (exampleFIR exampleShortInput 3 250000000000).base none 0).isSome = true ∧
    FIRFilter_Refresh exampleMath examplePlatform 5 (blankWaveform ℚ) 0 true
      (exampleFIR exampleShortInput 3 250000000000) = none := by
  have hL : (3 : Nat) = FIRFilter_filterLength exampleMath
      (exampleFIR exampleShortInput 3 250000000000).m_filterLength
      (exampleFIR exampleShortInput 3 250000000000).m_stopbandAtten
      (exampleMath.lit FS_PER_SECOND / exampleMath.lit (exampleShortInput.m_timescale : ℚ))
      (FIRFilter_bandEdges exampleMath FilterType.FILTER_TYPE_LOWPASS 0 250000000000
        (exampleMath.lit FS_PER_SECOND / exampleMath.lit (exampleShortInput.m_timescale : ℚ) /
          exampleMath.lit 2)).1
      (FIRFilter_bandEdges exampleMath FilterType.FILTER_TYPE_LOWPASS 0 250000000000
        (exampleMath.lit FS_PER_SECOND / exampleMath.lit (exampleShortInput.m_timescale : ℚ) /
          exampleMath.lit 2)).2 := by
    norm_num +decide [FIRFilter_filterLength, exampleFIR, SIZE_MOD]
  have heq := FIRFilter_Refresh_eq exampleMath examplePlatform 5 (blankWaveform ℚ) 0 true
    (exampleFIR exampleShortInput 3 250000000000) 1 exampleShortInput _ _ _ _ 3
    (by decide) (by decide) rfl rfl rfl rfl rfl rfl hL
  have hgood : ¬ ((FIRFilter_bandEdges exampleMath FilterType.FILTER_TYPE_LOWPASS 0 250000000000
        (exampleMath.lit FS_PER_SECOND / exampleMath.lit (exampleShortInput.m_timescale : ℚ) /
          exampleMath.lit 2)).1 =
      (FIRFilter_bandEdges exampleMath FilterType.FILTER_TYPE_LOWPASS 0 250000000000
        (exampleMath.lit FS_PER_SECOND / exampleMath.lit (exampleShortInput.m_timescale : ℚ) /
          exampleMath.lit 2)).2 ∨ 3 > 4096) := by
    norm_num [FIRFilter_bandEdges, exampleMath, FS_PER_SECOND, exampleShortInput]
  refine ⟨rfl, by norm_num +decide [FIRFilter_filterLength, SIZE_MOD], by decide, by decide, ?_⟩
  rw [heq]
  refine (if_neg (by exact hgood)).trans ?_
  exact FIRFilter_run_short_input exampleMath examplePlatform 5 (blankWaveform ℚ) 0 true
    (exampleFIR exampleShortInput 3 250000000000) 1 exampleShortInput _ _ _ _ _ 3 rfl rfl rfl
    (by decide) rfl rfl rfl (Or.inl rfl) (by decide) (by decide) (by decide)

/-! ### `ClockRecoveryFilter::Refresh` -/

theorem feedbackStep_frame (resync : Bool) (tnext : Int) (s : PLLState) :
    (feedbackStep resync tnext s).gating = s.gating ∧
    (feedbackStep resync tnext s).value = s.value ∧
    (feedbackStep resync tnext s).igate = s.igate ∧
    (feedbackStep resync tnext s).nedge = s.nedge ∧
    (feedbackStep resync tnext s).m_offsets = s.m_offsets ∧
    (feedbackStep resync tnext s).m_durations = s.m_durations ∧
    (feedbackStep resync tnext s).m_samples = s.m_samples := by
  unfold feedbackStep
  cases resync
  · by_cases h : (s.edgepos - tnext) - s.period > 0
    · simp [h]
    · simp [h]
  · simp

/-- The feedback loop only touches `edgepos`, `period`, `nedge` and the ghost log. -/
theorem feedbackLoop_frame {α : Type} [Add α] [LT α] [DecidableRel (fun a b : α => a < b)]
    (env : CDREnv α) (edges : List Int) (fnyquist : Int) (center : α) (resync : Bool) :
    ∀ (fuel : Nat) (tnext : Int) (s s1 : PLLState),
      feedbackLoop env edges fnyquist center resync fuel tnext s = some s1 →
      s1.gating = s.gating ∧ s1.value = s.value ∧ s1.igate = s.igate ∧
      s1.m_offsets = s.m_offsets ∧ s1.m_durations = s.m_durations ∧
      s1.m_samples = s.m_samples := by
  intro fuel
  induction fuel with
  | zero =>
    intro tnext s s1 h
    unfold feedbackLoop at h
    split at h
    · exact Option.noConfusion h
    · simp only [Option.some.injEq] at h
      subst h
      exact ⟨rfl, rfl, rfl, rfl, rfl, rfl⟩
  | succ f ih =>
    intro tnext s s1 h
    unfold feedbackLoop at h
    obtain ⟨g1, g2, g3, _, g5, g6, g7⟩ := feedbackStep_frame resync tnext s
    split at h
    · cases hrd : rd edges (s.nedge + 1) with
      | none =>
        rw [hrd] at h
        exact Option.noConfusion h
      | some t1 =>
        rw [hrd] at h
        simp only [Option.some_bind] at h
        split at h
        · simp only [Option.some.injEq] at h
          subst h
          exact ⟨g1, g2, g3, g5, g6, g7⟩
        · obtain ⟨k1, k2, k3, k5, k6, k7⟩ := ih _ _ _ h
          exact ⟨k1.trans g1, k2.trans g2, k3.trans g3, k5.trans g5, k6.trans g6, k7.trans g7⟩
    · simp only [Option.some.injEq] at h
      subst h
      exact ⟨rfl, rfl, rfl, rfl, rfl, rfl⟩

/-- What one cycle appends: exactly one sample when it ends ungated, nothing otherwise. -/
theorem pllCycle_emits {α : Type} [Add α] [LT α] [DecidableRel (fun a b : α => a < b)]
    (env : CDREnv α) (edges : List Int) (fnyquist : Int) (gate : Option GateSource)
    (s s1 : PLLState) (h : pllCycle env edges fnyquist gate s = some s1) :
    (s1.gating = false →
      s1.m_offsets = s.m_offsets ++ [s1.edgepos + Int.tdiv s1.period 2] ∧
      s1.m_durations = s.m_durations ++ [s1.period] ∧
      s1.m_samples = s.m_samples ++ [!s.value] ∧ s1.value = !s.value) ∧
    (s1.gating = true →
      s1.m_offsets = s.m_offsets ∧ s1.m_durations = s.m_durations ∧
      s1.m_samples = s.m_samples ∧ s1.value = s.value) := by
  unfold pllCycle at h
  simp only [Option.bind_eq_some, Option.map_eq_some'] at h
  obtain ⟨ig, _, tnext, _, s2, hfb, hemit⟩ := h
  obtain ⟨k1, k2, _, k5, k6, k7⟩ := feedbackLoop_frame env edges fnyquist _ _ _ _ _ _ hfb
  simp only at k1 k2 k5 k6 k7
  unfold emitSample at hemit
  by_cases hg : s2.gating = true
  · rw [if_pos hg] at hemit
    subst hemit
    refine ⟨fun h0 => ?_, fun _ => ⟨k5, k6, k7, k2⟩⟩
    rw [hg] at h0
    cases h0
  · rw [if_neg hg] at hemit
    subst hemit
    refine ⟨fun _ => ⟨?_, ?_, ?_, ?_⟩, fun h0 => absurd h0 hg⟩
    · simp only [k5]
    · simp only [k6]
    · simp only [k7, k2]
    · simp only [k2]

theorem pllLoop_preserves {α : Type} [Add α] [LT α] [DecidableRel (fun a b : α => a < b)]
    (env : CDREnv α) (edges : List Int) (fnyquist : Int) (gate : Option GateSource)
    (tend : Int) (Q : PLLState → Prop)
    (hcycle : ∀ s s1, Q s → s.edgepos < tend ∧ s.nedge < subSize edges.length 1 →
      pllCycle env edges fnyquist gate s = some s1 →
      Q { s1 with edgepos := s1.edgepos + s1.period }) :
    ∀ (fuel : Nat) (s s1 : PLLState), Q s →
      pllLoop env edges fnyquist gate tend fuel s = some s1 → Q s1 := by
  intro fuel
  induction fuel with
  | zero =>
    intro s s1 hq h
    unfold pllLoop at h
    split at h
    · exact Option.noConfusion h
    · simp only [Option.some.injEq] at h
      exact h ▸ hq
  | succ f ih =>
    intro s s1 hq h
    unfold pllLoop at h
    split at h
    · next hc =>
      cases hcy : pllCycle env edges fnyquist gate s with
      | none =>
        rw [hcy] at h
        exact Option.noConfusion h
      | some s2 =>
        rw [hcy] at h
        exact ih _ _ (hcycle s s2 hq hc hcy) h
    · simp only [Option.some.injEq] at h
      exact h ▸ hq

theorem ClockShaped_cycle {α : Type} [Add α] [LT α] [DecidableRel (fun a b : α => a < b)]
    (env : CDREnv α) (edges : List Int) (fnyquist : Int) (gate : Option GateSource)
    (s s1 : PLLState) (hs : ClockShaped s)
    (h : pllCycle env edges fnyquist gate s = some s1) :
    ClockShaped { s1 with edgepos := s1.edgepos + s1.period } := by
  obtain ⟨h1, h2, h3, h4⟩ := hs
  obtain ⟨he, hk⟩ := pllCycle_emits env edges fnyquist gate s s1 h
  unfold ClockShaped
  simp only
  cases hg : s1.gating with
  | true =>
    obtain ⟨k1, k2, k3, k4⟩ := hk hg
    rw [k1, k2, k3, k4]
    exact ⟨h1, h2, h3, h4⟩
  | false =>
    obtain ⟨k1, k2, k3, k4⟩ := he hg
    rw [k1, k2, k3, k4]
    refine ⟨by simp [h1], by simp [h2], ?_, ?_⟩
    · intro i hi
      simp only [List.length_append, List.length_singleton] at hi
      by_cases hlt : i < s.m_samples.length
      · rw [List.getElem?_append_left hlt]
        exact h3 i hlt
      · have hi2 : i = s.m_samples.length := by omega
        subst hi2
        rw [List.getElem?_append_right (le_refl _)]
        simp only [Nat.sub_self, List.getElem?_cons_zero, Option.some.injEq]
        rw [h4]
        by_cases hp : s.m_samples.length % 2 = 1
        · have : ¬ s.m_samples.length % 2 = 0 := by omega
          simp [hp, this]
        · have : s.m_samples.length % 2 = 0 := by omega
          simp [hp, this]
    · rw [h4]
      simp only [List.length_append, List.length_singleton]
      by_cases hp : s.m_samples.length % 2 = 1
      · have : ¬ (s.m_samples.length + 1) % 2 = 1 := by omega
        simp [hp, this]
      · have : (s.m_samples.length + 1) % 2 = 1 := by omega
        simp [hp, this]

theorem setupEmptyOutputWaveform_cleared {α : Type} (blank : Waveform α) (kind : WaveformKind)
    (st : FilterState α) (din stream : Nat) (r : Nat × FilterState α)
    (h : setupEmptyOutputWaveform blank kind st din stream true = some r) :
    ∃ w, r.2.heap r.1 = some w ∧ w.m_offsets = [] ∧ w.m_durations = [] ∧ w.m_analog = [] ∧
      w.m_digital = [] := by
  unfold setupEmptyOutputWaveform at h
  simp only [Option.bind_eq_some, Option.some.injEq] at h
  obtain ⟨r0, _, d, _, w, _, h⟩ := h
  subst h
  exact ⟨_, if_pos rfl, rfl, rfl, rfl, rfl⟩

theorem SetData_bind_live {α : Type} (st b : FilterState α) (p stream : Nat) (w : Waveform α)
    (hw : st.heap p = some w) (h : SetData st (some p) stream = some b) :
    GetData b stream = some p ∧ b.heap p = some w := by
  unfold SetData at h
  cases hrd : rd st.m_streams stream with
  | none =>
    rw [hrd] at h
    exact Option.noConfusion h
  | some old =>
    rw [hrd] at h
    simp only [Option.some_bind] at h
    have hlt : stream < st.m_streams.length := by
      unfold rd at hrd
      by_contra hc
      rw [List.getElem?_eq_none (by omega)] at hrd
      cases hrd
    have hget : st.m_streams.getD stream none = old := by
      have := rd_of_lt_getD st.m_streams stream none hlt
      rw [hrd] at this
      exact (Option.some.inj this).symm
    by_cases ho : old = some p
    · rw [if_pos ho] at h
      simp only [Option.some.injEq] at h
      subst h
      exact ⟨(GetData_eq st stream hlt).trans (hget.trans ho), hw⟩
    · rw [if_neg ho] at h
      simp only [Option.some.injEq] at h
      subst h
      constructor
      · unfold GetData
        simp only
        rw [if_neg (by simp only [List.length_set]; omega)]
        simp [List.getD_eq_getElem?_getD, hlt]
      · cases old with
        | none => exact hw
        | some q =>
          have hpq : p ≠ q := fun e => ho (by rw [e])
          simp only [if_neg hpq]
          exact hw

/-- Whenever the part of `ClockRecoveryFilter::Refresh` after the checks returns, stream 0
holds a waveform with timescale 1 and trigger phase 0 whose arrays are those the PLL loop
ends with, started on the cleared output. -/
theorem ClockRecoveryFilter_run_published {α : Type} [Add α] [LT α]
    [DecidableRel (fun a b : α => a < b)] (env : CDREnv α) (blank : Waveform α) (fuel : Nat)
    (st st1 : ClockRecoveryState α) (din : Nat) (gate : Option Nat) (edges : List Int)
    (period fnyquist : Int)
    (h : ClockRecoveryFilter_run env blank fuel st din gate edges period fnyquist = some st1) :
    ∃ s e0 tend gs w, rd edges 0 = some e0 ∧ (gate = none → gs = none) ∧
      pllLoop env edges fnyquist gs tend fuel
        (pllInit e0 period
          { m_timescale := 1, m_triggerPhase := 0, m_offsets := [], m_durations := [],
            m_samples := [] }) = some s ∧
      publishedWaveform (some st1.base) = some w ∧ w.m_timescale = 1 ∧ w.m_triggerPhase = 0 ∧
      w.m_offsets = s.m_offsets ∧ w.m_durations = s.m_durations ∧ w.m_digital = s.m_samples ∧
      st1.analysis = st.analysis := by
  unfold ClockRecoveryFilter_run SetupEmptySparseDigitalOutputWaveform at h
  simp only [Option.bind_eq_some, Option.map_eq_some'] at h
  obtain ⟨r, hsetup, w, hw, d1, _, tend, _, e0, he0, gs, hgs, s, hloop, b2, hset, hst1⟩ := h
  obtain ⟨w0, hw0, c1, c2, _, c4⟩ := setupEmptyOutputWaveform_cleared _ _ _ _ _ r hsetup
  rw [hw0] at hw
  cases hw
  have hinit : Waveform.toSparseDigital
      { w with m_triggerPhase := 0, m_timescale := 1 } =
      { m_timescale := 1, m_triggerPhase := 0, m_offsets := [], m_durations := [],
        m_samples := [] } := by
    simp [Waveform.toSparseDigital, c1, c2, c4]
  rw [hinit] at hloop
  obtain ⟨hg, hh⟩ := SetData_bind_live _ b2 r.1 0 _ (if_pos rfl) hset
  subst hst1
  refine ⟨s, e0, tend, gs,
    { w with m_triggerPhase := 0, m_timescale := 1, m_offsets := s.m_offsets,
             m_durations := s.m_durations, m_digital := s.m_samples },
    he0, ?_, hloop, ?_, rfl, rfl, rfl, rfl, rfl, rfl⟩
  · intro hgate
    subst hgate
    simp only [Option.some.injEq] at hgs
    exact hgs.symm
  · unfold publishedWaveform
    simp only [Option.some_bind, hg, hh]

theorem SetData_none_get {α : Type} (st b : FilterState α) (stream : Nat)
    (h : SetData st none stream = some b) : GetData b stream = none := by
  have hlt : stream < st.m_streams.length := by
    unfold SetData rd at h
    by_contra hc
    rw [List.getElem?_eq_none (by omega)] at h
    cases h
  obtain ⟨b1, hb1, hg, _, _⟩ := SetData_null st stream hlt
  rw [hb1] at h
  cases h
  exact hg

/-- The null publication `SetData(NULL, 0); return;` leaves nothing on stream 0. -/
theorem publishedWaveform_null {α β : Type} (st : FilterState α) (f : FilterState α → β)
    (g : β → FilterState α) (hg : ∀ b, g (f b) = b) :
    publishedWaveform (((SetData st none 0).map f).map g) = none := by
  cases h : SetData st none 0 with
  | none => rfl
  | some b =>
    simp only [Option.map_some', publishedWaveform, Option.some_bind, hg,
      SetData_none_get st b 0 h, Option.none_bind]

theorem publishedWaveform_null_state {α : Type} (b0 : FilterState α) (an : AnalysisState α)
    (bd th : α) :
    publishedWaveform (((SetData b0 none 0).map fun b =>
      ({ base := b, analysis := an, m_baud := bd, m_threshold := th } :
        ClockRecoveryState α)).map fun s => s.base) = none :=
  publishedWaveform_null b0 _ (fun (s : ClockRecoveryState α) => s.base) (fun _ => rfl)

/-- Every return of `ClockRecoveryFilter::Refresh` either leaves stream 0 null or comes
from the part after the checks, reached with a non-empty edge list and a seed period of at
least twice the timescale of the input. -/
theorem ClockRecoveryFilter_Refresh_cases {α : Type} [DecidableEq α] [Zero α] [Add α] [Mul α]
    [Div α] [LT α] [DecidableRel (fun a b : α => a < b)] (env : CDREnv α) (allowEmpty : Bool)
    (blank : Waveform α) (fuel : Nat) (st : ClockRecoveryState α) :
    publishedWaveform ((ClockRecoveryFilter_Refresh env allowEmpty blank fuel st).map
      fun s => s.base) = none ∨
    ∃ st0 din d gate edges,
      GetInputWaveform st.base 0 = some (some din) ∧
      st.base.heap din = some d ∧
      GetInputWaveform st.base 1 = some gate ∧
      ClockRecoveryFilter_findEdges env st din d = some (edges, st0.analysis) ∧
      st0.base = st.base ∧ edges ≠ [] ∧
      ¬ env.flt.toInt64 (env.round (env.lit FS_PER_SECOND / st.m_baud)) < 2 * d.m_timescale ∧
      ClockRecoveryFilter_Refresh env allowEmpty blank fuel st =
        ClockRecoveryFilter_run env blank fuel st0 din (gate.bind fun g =>
            if (st.base.heap g).map (fun w => w.kind) = some WaveformKind.SparseDigital
            then some g else none) edges
          (env.flt.toInt64 (env.round (env.lit FS_PER_SECOND / st.m_baud)))
          (2 * d.m_timescale) := by
  unfold ClockRecoveryFilter_Refresh
  cases hv : VerifyInputOK st.base 0 allowEmpty with
  | none => exact Or.inl rfl
  | some ok =>
    simp only [Option.some_bind]
    cases ok with
    | false =>
      left
      simp only [if_true]
      exact publishedWaveform_null_state st.base _ _ _
    | true =>
      simp only [Bool.true_eq_false, if_false]
      cases hi : GetInputWaveform st.base 0 with
      | none => exact Or.inl rfl
      | some p =>
        cases p with
        | none => exact Or.inl rfl
        | some din =>
          simp only [Option.some_bind]
          cases hd : st.base.heap din with
          | none => exact Or.inl rfl
          | some d =>
            simp only [Option.some_bind]
            cases hg : GetInputWaveform st.base 1 with
            | none => exact Or.inl rfl
            | some g =>
              simp only [Option.some_bind]
              cases hc : dynamicCast st.base WaveformKind.SparseDigital g with
              | none => exact Or.inl rfl
              | some gate =>
                simp only [Option.some_bind]
                cases hf : ClockRecoveryFilter_findEdges env st din d with
                | none => exact Or.inl rfl
                | some found =>
                  simp only [Option.some_bind]
                  by_cases he : found.1 = []
                  · left
                    rw [if_pos he]
                    exact publishedWaveform_null_state st.base _ _ _
                  · rw [if_neg he]
                    by_cases hp : env.flt.toInt64 (env.round (env.lit FS_PER_SECOND / st.m_baud)) <
                        2 * d.m_timescale
                    · left
                      rw [if_pos hp]
                      exact publishedWaveform_null_state st.base _ _ _
                    · right
                      rw [if_neg hp]
                      refine ⟨{ st with analysis := found.2 }, din, d, g, found.1, rfl, hd, rfl,
                        hf, rfl, he, hp, ?_⟩
                      congr 1
                      cases g with
                      | none =>
                        simp only [dynamicCast, Option.some.injEq] at hc
                        rw [← hc]
                        rfl
                      | some q =>
                        simp only [dynamicCast, Option.map_eq_some'] at hc
                        obtain ⟨gw, hgw, hgate⟩ := hc
                        simp only [Option.some_bind, hgw, Option.map_some', Option.some.injEq]
                        exact hgate.symm

theorem ClockShaped_init (e0 period : Int) :
    ClockShaped (pllInit e0 period
      { m_timescale := 1, m_triggerPhase := 0, m_offsets := [], m_durations := [],
        m_samples := [] }) :=
  ⟨rfl, rfl, fun i hi => absurd hi (Nat.not_lt_zero i), rfl⟩

/-- C17: whenever `ClockRecoveryFilter::Refresh` publishes a waveform `w` on stream 0, `w`
has timescale 1 and trigger phase 0, and its arrays are those the PLL loop ends with when
started on empty arrays: offsets, durations and samples have equal length and the levels
alternate starting with `true`.  Every cycle of the loop that ends ungated appends exactly
one sample, with offset `edgepos + period/2` and duration `period` (the values after that
cycle's feedback) and the negation of the previous level; a cycle that ends gated appends
nothing. -/
theorem ClockRecoveryFilter_Refresh_output {α : Type} [DecidableEq α] [Zero α] [Add α] [Mul α]
    [Div α] [LT α] [DecidableRel (fun a b : α => a < b)] (env : CDREnv α) (allowEmpty : Bool)
    (blank : Waveform α) (fuel : Nat) (st : ClockRecoveryState α) (w : Waveform α)
    (h : publishedWaveform ((ClockRecoveryFilter_Refresh env allowEmpty blank fuel st).map
      fun s => s.base) = some w) :
    w.m_timescale = 1 ∧ w.m_triggerPhase = 0 ∧
    w.m_offsets.length = w.m_digital.length ∧ w.m_durations.length = w.m_digital.length ∧
    (∀ i, i < w.m_digital.length → w.m_digital[i]? = some (decide (i % 2 = 0))) ∧
    (∃ edges fnyquist gate tend e0 period s,
      pllLoop env edges fnyquist gate tend fuel
        (pllInit e0 period
          { m_timescale := 1, m_triggerPhase := 0, m_offsets := [], m_durations := [],
            m_samples := [] }) = some s ∧
      w.m_offsets = s.m_offsets ∧ w.m_durations = s.m_durations ∧ w.m_digital = s.m_samples) ∧
    (∀ edges fnyquist gate s s1, pllCycle env edges fnyquist gate s = some s1 →
      (s1.gating = false →
        s1.m_offsets = s.m_offsets ++ [s1.edgepos + Int.tdiv s1.period 2] ∧
        s1.m_durations = s.m_durations ++ [s1.period] ∧
        s1.m_samples = s.m_samples ++ [!s.value] ∧ s1.value = !s.value) ∧
      (s1.gating = true →
        s1.m_offsets = s.m_offsets ∧ s1.m_durations = s.m_durations ∧
        s1.m_samples = s.m_samples ∧ s1.value = s.value)) := by
  rcases ClockRecoveryFilter_Refresh_cases env allowEmpty blank fuel st with hn | hr
  · rw [hn] at h
    cases h
  · obtain ⟨st0, din, d, gate, edges, _, _, _, _, _, _, _, heq⟩ := hr
    rw [heq] at h
    cases hrun : ClockRecoveryFilter_run env blank fuel st0 din (gate.bind fun g =>
        if (st.base.heap g).map (fun w => w.kind) = some WaveformKind.SparseDigital
        then some g else none) edges
        (env.flt.toInt64 (env.round (env.lit FS_PER_SECOND / st.m_baud)))
        (2 * d.m_timescale) with
    | none =>
      rw [hrun] at h
      cases h
    | some st1 =>
      rw [hrun] at h
      obtain ⟨s, e0, tend, gs, w1, _, _, hloop, hpub, ht, hp, ho, hdu, hsm, _⟩ :=
        ClockRecoveryFilter_run_published env blank fuel st0 st1 din _ edges _ _ hrun
      simp only [Option.map_some'] at h
      rw [hpub] at h
      cases h
      obtain ⟨c1, c2, c3, _⟩ := pllLoop_preserves env edges (2 * d.m_timescale) gs tend
        ClockShaped
        (fun s s1 hq _ hc => ClockShaped_cycle env edges (2 * d.m_timescale) gs s s1 hq hc)
        fuel _ s (ClockShaped_init e0 _) hloop
      refine ⟨ht, hp, ?_, ?_, ?_, ⟨edges, _, gs, tend, e0, _, s, hloop, ho, hdu, hsm⟩,
        fun edges1 fnyq1 gate1 s0 s2 hc => pllCycle_emits env edges1 fnyq1 gate1 s0 s2 hc⟩
      · rw [ho, hsm]
        exact c1
      · rw [hdu, hsm]
        exact c2
      · rw [hsm]
        exact c3

/-- Witness for C17: the recovered clock of `exampleSquareWave 8`. -/
theorem ClockRecoveryFilter_Refresh_output_witness :
    publishedWaveform ((ClockRecoveryFilter_Refresh exampleCDREnv false (blankWaveform Int) 20
      (exampleCDR (exampleSquareWave 8) 25000000000)).map fun s => s.base) =
      some exampleRecoveredClock ∧
    exampleRecoveredClock.m_timescale = 1 ∧ exampleRecoveredClock.m_triggerPhase = 0 ∧
    exampleRecoveredClock.m_offsets.length = exampleRecoveredClock.m_digital.length ∧
    exampleRecoveredClock.m_durations.length = exampleRecoveredClock.m_digital.length ∧
    (∀ i, i < exampleRecoveredClock.m_digital.length →
      exampleRecoveredClock.m_digital[i]? = some (decide (i % 2 = 0))) :=
  have h := ClockRecoveryFilter_Refresh_output exampleCDREnv false (blankWaveform Int) 20
    (exampleCDR (exampleSquareWave 8) 25000000000) exampleRecoveredClock (by decide)
  ⟨by decide, h.1, h.2.1, h.2.2.1, h.2.2.2.1, h.2.2.2.2.1⟩

/-- C15: on a filter with a valid stream 0 whose input 0 passes the check and is the live
waveform `d`, whose gate input can be read, and whose edge extraction returns (with any
edge list, empty or not): whenever the seed period `round(10^15 / symbolRate)` is below
`2 * d.m_timescale`, `ClockRecoveryFilter::Refresh` returns with stream 0 holding no
waveform. -/
theorem ClockRecoveryFilter_Refresh_rejects_sub_nyquist {α : Type} [DecidableEq α] [Zero α]
    [Add α] [Mul α] [Div α] [LT α] [DecidableRel (fun a b : α => a < b)] (env : CDREnv α)
    (allowEmpty : Bool) (blank : Waveform α) (fuel : Nat) (st : ClockRecoveryState α)
    (din : Nat) (d : Waveform α) (g gate : Option Nat) (found : List Int × AnalysisState α)
    (hs : 0 < st.base.m_streams.length)
    (hv : VerifyInputOK st.base 0 allowEmpty = some true)
    (hi : GetInputWaveform st.base 0 = some (some din))
    (hd : st.base.heap din = some d)
    (hg : GetInputWaveform st.base 1 = some g)
    (hc : dynamicCast st.base WaveformKind.SparseDigital g = some gate)
    (hf : ClockRecoveryFilter_findEdges env st din d = some found)
    (hper : env.flt.toInt64 (env.round (env.lit FS_PER_SECOND / st.m_baud)) <
      2 * d.m_timescale) :
    ∃ st1, ClockRecoveryFilter_Refresh env allowEmpty blank fuel st = some st1 ∧
      GetData st1.base 0 = none ∧ publishedWaveform (some st1.base) = none := by
  obtain ⟨b, hb, hgd, _, _⟩ := SetData_null st.base 0 hs
  refine ⟨{ st with base := b, analysis := found.2 }, ?_, hgd, ?_⟩
  · unfold ClockRecoveryFilter_Refresh
    rw [hv]
    simp only [Option.some_bind, Bool.true_eq_false, if_false, hi, hd, hg, hc, hf, hb,
      Option.map_some', if_pos hper]
    by_cases he : found.1 = []
    · rw [if_pos he]
    · rw [if_neg he]
  · unfold publishedWaveform
    simp only [Option.some_bind, hgd, Option.none_bind]

/-- Witness for C15: a symbol rate of 250 GHz (period 4000 fs) on a capture sampled every
10000 fs. -/
theorem ClockRecoveryFilter_Refresh_rejects_sub_nyquist_witness :
    exampleCDREnv.flt.toInt64 (exampleCDREnv.round
        (exampleCDREnv.lit FS_PER_SECOND / (exampleCDR (exampleSquareWave 8) 250000000000).m_baud)) <
      2 * (exampleSquareWave 8).m_timescale ∧
    ∃ st1, ClockRecoveryFilter_Refresh exampleCDREnv false (blankWaveform Int) 20
        (exampleCDR (exampleSquareWave 8) 250000000000) = some st1 ∧
      GetData st1.base 0 = none ∧ publishedWaveform (some st1.base) = none :=
  ⟨by decide,
   ClockRecoveryFilter_Refresh_rejects_sub_nyquist exampleCDREnv false (blankWaveform Int) 20
    (exampleCDR (exampleSquareWave 8) 250000000000) 1 (exampleSquareWave 8) none none
    ([45000, 85000, 125000, 165000, 205000, 245000, 285000], { m_zeroCrossingCache := [], scans := 0 })
    (by decide) (by decide) (by decide) rfl (by decide) rfl (by decide) (by decide)⟩

theorem pllLockedNear_down (P d p : Int) (hP : 40000 ≤ P) (hP2 : P < 80000)
    (h : pllLockedNear P d p) (hd : 0 < d) :
    pllLockedNear P (d + (p - P) - p / 400) (p - p / 40000) := by
  unfold pllLockedNear at *
  obtain ⟨h1, h2, h3, h4, h5, h6, h7, h8⟩ := h
  have hb : p / 40000 = 0 ∨ p / 40000 = 1 ∨ p / 40000 = 2 := by omega
  rcases hb with hb | hb | hb
  all_goals
    rw [hb] at h5 h6 h7 h8 ⊢
    refine ⟨?_, ?_, ?_, ?_, ?_, ?_, ?_, ?_⟩
  all_goals omega

theorem pllLockedNear_up (P d p : Int) (hP : 40000 ≤ P) (hP2 : P < 80000)
    (h : pllLockedNear P d p) (hd : d ≤ 0) :
    pllLockedNear P (d + (p - P) + p / 400) (p + p / 40000) := by
  unfold pllLockedNear at *
  obtain ⟨h1, h2, h3, h4, h5, h6, h7, h8⟩ := h
  have hb : p / 40000 = 0 ∨ p / 40000 = 1 ∨ p / 40000 = 2 := by omega
  rcases hb with hb | hb | hb
  all_goals
    rw [hb] at h5 h6 h7 h8 ⊢
    refine ⟨?_, ?_, ?_, ?_, ?_, ?_, ?_, ?_⟩
  all_goals omega

theorem pllLockedFar_down (P d p : Int) (hP : 80000 ≤ P) (h : pllLockedFar P d p)
    (hd : 0 < d) : pllLockedFar P (d + (p - P) - p / 400) (p - p / 40000) := by
  unfold pllLockedFar pllPhaseBound pllTolerance at *
  obtain ⟨h1, h2, h3, h4, h5, h6⟩ := h
  refine ⟨?_, ?_, ?_, ?_, ?_, ?_⟩ <;> omega

theorem pllLockedFar_up (P d p : Int) (hP : 80000 ≤ P) (h : pllLockedFar P d p)
    (hd : d ≤ 0) : pllLockedFar P (d + (p - P) + p / 400) (p + p / 40000) := by
  unfold pllLockedFar pllPhaseBound pllTolerance at *
  obtain ⟨h1, h2, h3, h4, h5, h6⟩ := h
  refine ⟨?_, ?_, ?_, ?_, ?_, ?_⟩ <;> omega

/-- The lock invariant is kept by the feedback for one edge, in either direction. -/
theorem pllLocked_step (P d p : Int) (hP : 40000 ≤ P) (h : pllLocked P d p) :
    (0 < d → pllLocked P (d + (p - P) - p / 400) (p - p / 40000)) ∧
    (d ≤ 0 → pllLocked P (d + (p - P) + p / 400) (p + p / 40000)) := by
  obtain ⟨hn, hf⟩ := h
  constructor
  · intro hd
    exact ⟨fun h2 => pllLockedNear_down P d p hP h2 (hn h2) hd,
      fun h2 => pllLockedFar_down P d p h2 (hf h2) hd⟩
  · intro hd
    exact ⟨fun h2 => pllLockedNear_up P d p hP h2 (hn h2) hd,
      fun h2 => pllLockedFar_up P d p h2 (hf h2) hd⟩

theorem pllLocked_init (P : Int) (hP : 40000 ≤ P) : pllLocked P 0 P := by
  constructor
  · intro h2
    unfold pllLockedNear
    refine ⟨?_, ?_, ?_, ?_, ?_, ?_, ?_, ?_⟩ <;> omega
  · intro h2
    unfold pllLockedFar pllPhaseBound pllTolerance
    refine ⟨?_, ?_, ?_, ?_, ?_, ?_⟩ <;> omega

/-- What the lock invariant gives: the bounds on `p` and `d`, and `d` strictly between
`-(p - p/2)` and `p/2`-ish margins used by the loop conditions. -/
theorem pllLocked_bounds (P d p : Int) (hP : 40000 ≤ P) (h : pllLocked P d p) :
    -pllTolerance P ≤ p - P ∧ p - P ≤ pllTolerance P ∧
    -pllPhaseBound P ≤ d ∧ d ≤ pllPhaseBound P ∧ 39000 ≤ p := by
  obtain ⟨hn, hf⟩ := h
  by_cases h2 : P < 80000
  · have := hn h2
    unfold pllLockedNear at this
    unfold pllPhaseBound pllTolerance
    omega
  · have := hf (by omega)
    unfold pllLockedFar pllPhaseBound pllTolerance at *
    omega

theorem pllTolerance_le (P : Int) (hP : 40000 ≤ P) :
    0 ≤ pllTolerance P ∧ pllTolerance P ≤ 4 * (P / 40000) + 104 ∧
    pllPhaseBound P ≤ 3 * (P / 400) ∧ 4 * pllPhaseBound P < P - pllTolerance P := by
  unfold pllPhaseBound pllTolerance
  omega

theorem feedbackLoop_skip {α : Type} [Add α] [LT α] [DecidableRel (fun a b : α => a < b)]
    (env : CDREnv α) (edges : List Int) (fnyquist : Int) (center : α) (resync : Bool)
    (fuel : Nat) (tnext : Int) (s : PLLState)
    (h : ¬ (env.flt.ofInt64 tnext + center < env.flt.ofInt64 s.edgepos ∧
      s.nedge + 1 < edges.length)) :
    feedbackLoop env edges fnyquist center resync fuel tnext s = some s := by
  cases fuel with
  | zero =>
    unfold feedbackLoop
    rw [if_neg h]
  | succ f =>
    unfold feedbackLoop
    rw [if_neg h]

theorem feedbackLoop_once {α : Type} [Add α] [LT α] [DecidableRel (fun a b : α => a < b)]
    (env : CDREnv α) (edges : List Int) (fnyquist : Int) (center : α) (resync : Bool)
    (fuel : Nat) (tnext t1 : Int) (s : PLLState) (hfuel : 0 < fuel)
    (h : env.flt.ofInt64 tnext + center < env.flt.ofInt64 s.edgepos ∧
      s.nedge + 1 < edges.length)
    (ht : rd edges (s.nedge + 1) = some t1) :
    feedbackLoop env edges fnyquist center resync fuel tnext s =
      if (feedbackStep resync tnext s).period < fnyquist then
        some { feedbackStep resync tnext s with nedge := edges.length }
      else
        feedbackLoop env edges fnyquist center resync (fuel - 1) t1
          { feedbackStep resync tnext s with nedge := s.nedge + 1 } := by
  cases fuel with
  | zero => omega
  | succ f =>
    rw [feedbackLoop]
    rw [if_pos h, ht]
    rfl

theorem feedbackStep_down (tnext : Int) (s : PLLState)
    (h : (s.edgepos - tnext) - s.period > 0) (hp : 0 ≤ s.period) :
    feedbackStep false tnext s =
      { s with deltas := s.deltas ++ [(s.edgepos - tnext) - s.period],
               period := s.period - s.period / 40000,
               edgepos := s.edgepos - s.period / 400 } := by
  unfold feedbackStep
  simp only [Bool.false_eq_true, if_false, if_pos h]
  rw [Int.tdiv_eq_ediv hp (by decide), Int.tdiv_eq_ediv hp (by decide)]

theorem feedbackStep_up (tnext : Int) (s : PLLState)
    (h : ¬ (s.edgepos - tnext) - s.period > 0) (hp : 0 ≤ s.period) :
    feedbackStep false tnext s =
      { s with deltas := s.deltas ++ [(s.edgepos - tnext) - s.period],
               period := s.period + s.period / 40000,
               edgepos := s.edgepos + s.period / 400 } := by
  unfold feedbackStep
  simp only [Bool.false_eq_true, if_false, if_neg h]
  rw [Int.tdiv_eq_ediv hp (by decide), Int.tdiv_eq_ediv hp (by decide)]

theorem pllCycle_no_gate {α : Type} [Add α] [LT α] [DecidableRel (fun a b : α => a < b)]
    (env : CDREnv α) (edges : List Int) (fnyquist : Int) (s : PLLState)
    (hg : s.gating = false) :
    pllCycle env edges fnyquist none s =
      (rd edges s.nedge).bind fun tnext =>
        (feedbackLoop env edges fnyquist (env.flt.ofInt64 (Int.tdiv s.period 2)) false edges.length
          tnext s).map emitSample := by
  unfold pllCycle
  cases s
  simp only at hg
  subst hg
  rfl

theorem emitSample_open (s : PLLState) (hg : s.gating = false) :
    emitSample s =
      { s with value := !s.value,
               m_offsets := s.m_offsets ++ [s.edgepos + Int.tdiv s.period 2],
               m_durations := s.m_durations ++ [s.period],
               m_samples := s.m_samples ++ [!s.value] } := by
  unfold emitSample
  rw [if_neg (by rw [hg]; decide)]

theorem mem_append_singleton_bound {P0 : Int → Prop} (l : List Int) (x : Int)
    (hl : ∀ q ∈ l, P0 q) (hx : P0 x) : ∀ q ∈ l ++ [x], P0 q := by
  intro q hq
  rcases List.mem_append.mp hq with h | h
  · exact hl q h
  · rw [List.mem_singleton.mp h]
    exact hx

theorem pll_edge_due (kp e0 ep p bound tol P : Int)
    (b3 : -bound ≤ ep - (e0 + kp) - p) (b4 : ep - (e0 + kp) - p ≤ bound)
    (ht3 : 4 * bound < P - tol) (b1 : -tol ≤ p - P) : e0 + kp + p / 2 < ep := by
  omega

theorem pll_edge_not_due (kp e0 ep1 p a bound tol P : Int)
    (c3 : -bound ≤ ep1 - (e0 + kp) - p + (p - P) - a)
    (c4 : ep1 - (e0 + kp) - p + (p - P) - a ≤ bound)
    (ht3 : 4 * bound < P - tol) (b1 : -tol ≤ p - P) :
    ¬ (e0 + (kp + P) + p / 2 < ep1 - a) := by
  omega

theorem pll_budget (m k n : Nat) (h3 : n ≤ m + k + 1) (hlen : k + 1 < n) :
    m = m - 1 + 1 ∧ 1 ≤ k + 1 ∧ n ≤ m - 1 + (k + 1) + 1 := by
  omega

/-- One cycle of the PLL loop on edges `e0 + k P` without gate, from a state in one of the
phases of `PLLPhase`: the cycle returns, and the state the next cycle starts from is again
in one of the phases, with one cycle less to run. -/
theorem pllCycle_locked {α : Type} [Add α] [LT α] [DecidableRel (fun a b : α => a < b)]
    (env : CDREnv α) (edges : List Int) (fnyquist e0 P : Int) (s : PLLState) (m : Nat)
    (hexact : ∀ t c e : Int,
      env.flt.ofInt64 t + env.flt.ofInt64 c < env.flt.ofInt64 e ↔ t + c < e)
    (hP : 40000 ≤ P) (hne : 1 ≤ edges.length) (hsz : edges.length < SIZE_MOD)
    (hE : ∀ k, k < edges.length → rd edges k = some (e0 + (k : Int) * P))
    (hq : PLLPhase edges e0 P s m) (hc : s.nedge < subSize edges.length 1) :
    ∃ s1 m1, pllCycle env edges fnyquist none s = some s1 ∧ m = m1 + 1 ∧
      PLLPhase edges e0 P { s1 with edgepos := s1.edgepos + s1.period } m1 := by
  obtain ⟨hg, hdur, hdel, hph⟩ := hq
  obtain ⟨ht0, ht1, ht2, ht3⟩ := pllTolerance_le P hP
  have hlen : s.nedge + 1 < edges.length := by
    rw [subSize_one hne hsz] at hc
    omega
  have hP2 : Int.tdiv P 2 = P / 2 := Int.tdiv_eq_ediv (by omega) (by decide)
  rw [pllCycle_no_gate env edges fnyquist s hg, hE s.nedge (by omega)]
  simp only [Option.some_bind]
  rcases hph with ⟨h1, h2, h3, h4⟩ | ⟨h1, h2, h3, h4⟩ | ⟨h1, h2, h3, h4⟩ | ⟨h1, _, _⟩
  · -- first start-up cycle
    have hskip : ¬ (env.flt.ofInt64 (e0 + (s.nedge : Int) * P) +
        env.flt.ofInt64 (Int.tdiv s.period 2) < env.flt.ofInt64 s.edgepos ∧
        s.nedge + 1 < edges.length) := by
      rw [hexact, h1, h2, h3, hP2]
      push_cast
      omega
    rw [feedbackLoop_skip env edges fnyquist _ false _ _ s hskip, Option.map_some',
      emitSample_open s hg]
    refine ⟨_, m - 1, rfl, by omega, ?_⟩
    unfold PLLPhase
    dsimp only
    refine ⟨hg, ?_, hdel, Or.inr (Or.inl ⟨h1, h2, ?_, by omega⟩)⟩
    · exact mem_append_singleton_bound _ _ hdur (by rw [h2]; omega)
    · rw [h2, h3]
  · -- second start-up cycle
    have hskip : ¬ (env.flt.ofInt64 (e0 + (s.nedge : Int) * P) +
        env.flt.ofInt64 (Int.tdiv s.period 2) < env.flt.ofInt64 s.edgepos ∧
        s.nedge + 1 < edges.length) := by
      rw [hexact, h1, h2, h3, hP2]
      push_cast
      omega
    rw [feedbackLoop_skip env edges fnyquist _ false _ _ s hskip, Option.map_some',
      emitSample_open s hg]
    refine ⟨_, m - 1, rfl, by omega, ?_⟩
    unfold PLLPhase
    dsimp only
    refine ⟨hg, ?_, hdel, Or.inr (Or.inr (Or.inl ⟨by omega, by omega, by omega, ?_⟩))⟩
    · exact mem_append_singleton_bound _ _ hdur (by rw [h2]; omega)
    · have : s.edgepos + s.period - (e0 + (s.nedge : Int) * P) - s.period = 0 := by
        rw [h1, h2, h3]
        push_cast
        ring
      rw [this, h2]
      exact pllLocked_init P hP
  · -- tracking
    obtain ⟨hm, hk1, hk3⟩ := pll_budget m s.nedge edges.length h3 hlen
    obtain ⟨b1, b2, b3, b4, b5⟩ := pllLocked_bounds P _ _ hP h4
    obtain ⟨hdown, hup⟩ := pllLocked_step P _ _ hP h4
    have hp0 : 0 ≤ s.period := le_trans (by decide) b5
    have hp2 : Int.tdiv s.period 2 = s.period / 2 := Int.tdiv_eq_ediv hp0 (by decide)
    have hcast : ((s.nedge + 1 : Nat) : Int) * P = (s.nedge : Int) * P + P := by
      push_cast
      ring
    have hcond : env.flt.ofInt64 (e0 + (s.nedge : Int) * P) +
        env.flt.ofInt64 (Int.tdiv s.period 2) < env.flt.ofInt64 s.edgepos ∧
        s.nedge + 1 < edges.length := by
      rw [hexact, hp2]
      exact ⟨pll_edge_due _ e0 _ _ _ _ P b3 b4 ht3 b1, hlen⟩
    rw [feedbackLoop_once env edges fnyquist _ false _ _ _ s (by omega) hcond
      (hE (s.nedge + 1) hlen)]
    by_cases hd : s.edgepos - (e0 + (s.nedge : Int) * P) - s.period > 0
    · rw [feedbackStep_down _ s hd hp0]
      have hl := hdown hd
      obtain ⟨c1, c2, c3, c4, c5⟩ := pllLocked_bounds P _ _ hP hl
      dsimp only
      by_cases hny : s.period - s.period / 40000 < fnyquist
      · rw [if_pos hny, Option.map_some', emitSample_open _ (by exact hg)]
        refine ⟨_, m - 1, rfl, hm, ?_⟩
        unfold PLLPhase
        dsimp only
        refine ⟨hg, ?_, ?_, Or.inr (Or.inr (Or.inr ⟨le_refl _, c1, c2⟩))⟩
        · exact mem_append_singleton_bound _ _ hdur ⟨c1, c2⟩
        · exact mem_append_singleton_bound _ _ hdel ⟨b3, b4⟩
      · rw [if_neg hny]
        have hskip : ¬ (env.flt.ofInt64 (e0 + ((s.nedge + 1 : Nat) : Int) * P) +
            env.flt.ofInt64 (Int.tdiv s.period 2) <
            env.flt.ofInt64 (s.edgepos - s.period / 400) ∧
            s.nedge + 1 + 1 < edges.length) := by
          rw [hexact, hp2, hcast]
          intro hh
          exact pll_edge_not_due _ e0 _ _ _ _ _ P c3 c4 ht3 b1 hh.1
        rw [feedbackLoop_skip env edges fnyquist _ false _ _ _ hskip, Option.map_some',
          emitSample_open _ (by exact hg)]
        refine ⟨_, m - 1, rfl, hm, ?_⟩
        unfold PLLPhase
        dsimp only
        refine ⟨hg, ?_, ?_, Or.inr (Or.inr (Or.inl ⟨hk1, hlen, hk3, ?_⟩))⟩
        · exact mem_append_singleton_bound _ _ hdur ⟨c1, c2⟩
        · exact mem_append_singleton_bound _ _ hdel ⟨b3, b4⟩
        · have : s.edgepos - s.period / 400 + (s.period - s.period / 40000) -
              (e0 + ((s.nedge + 1 : Nat) : Int) * P) - (s.period - s.period / 40000) =
              s.edgepos - (e0 + (s.nedge : Int) * P) - s.period + (s.period - P) -
                s.period / 400 := by
            rw [hcast]
            ring
          rw [this]
          exact hl
    · rw [feedbackStep_up _ s hd hp0]
      have hl := hup (not_lt.mp hd)
      obtain ⟨c1, c2, c3, c4, c5⟩ := pllLocked_bounds P _ _ hP hl
      dsimp only
      by_cases hny : s.period + s.period / 40000 < fnyquist
      · rw [if_pos hny, Option.map_some', emitSample_open _ (by exact hg)]
        refine ⟨_, m - 1, rfl, hm, ?_⟩
        unfold PLLPhase
        dsimp only
        refine ⟨hg, ?_, ?_, Or.inr (Or.inr (Or.inr ⟨le_refl _, c1, c2⟩))⟩
        · exact mem_append_singleton_bound _ _ hdur ⟨c1, c2⟩
        · exact mem_append_singleton_bound _ _ hdel ⟨b3, b4⟩
      · rw [if_neg hny]
        have hskip : ¬ (env.flt.ofInt64 (e0 + ((s.nedge + 1 : Nat) : Int) * P) +
            env.flt.ofInt64 (Int.tdiv s.period 2) <
            env.flt.ofInt64 (s.edgepos + s.period / 400) ∧
            s.nedge + 1 + 1 < edges.length) := by
          rw [hexact, hp2, hcast]
          intro hh
          have hh1 := hh.1
          have c3n : -pllPhaseBound P ≤ s.edgepos - (e0 + (s.nedge : Int) * P) - s.period +
              (s.period - P) - (-(s.period / 400)) := by
            rw [sub_neg_eq_add]
            exact c3
          have c4n : s.edgepos - (e0 + (s.nedge : Int) * P) - s.period +
              (s.period - P) - (-(s.period / 400)) ≤ pllPhaseBound P := by
            rw [sub_neg_eq_add]
            exact c4
          rw [← sub_neg_eq_add s.edgepos] at hh1
          exact pll_edge_not_due _ e0 _ _ _ _ _ P c3n c4n ht3 b1 hh1
        rw [feedbackLoop_skip env edges fnyquist _ false _ _ _ hskip, Option.map_some',
          emitSample_open _ (by exact hg)]
        refine ⟨_, m - 1, rfl, hm, ?_⟩
        unfold PLLPhase
        dsimp only
        refine ⟨hg, ?_, ?_, Or.inr (Or.inr (Or.inl ⟨hk1, hlen, hk3, ?_⟩))⟩
        · exact mem_append_singleton_bound _ _ hdur ⟨c1, c2⟩
        · exact mem_append_singleton_bound _ _ hdel ⟨b3, b4⟩
        · have : s.edgepos + s.period / 400 + (s.period + s.period / 40000) -
              (e0 + ((s.nedge + 1 : Nat) : Int) * P) - (s.period + s.period / 40000) =
              s.edgepos - (e0 + (s.nedge : Int) * P) - s.period + (s.period - P) +
                s.period / 400 := by
            rw [hcast]
            ring
          rw [this]
          exact hl
  · -- stopped by the Nyquist guard: the loop condition is false
    omega

/-- The PLL loop on edges `e0 + k P` without gate, from a state in one of the phases of
`PLLPhase` with `m` cycles to run: whatever the fuel, a returned state is again in one of
the phases, and `m` cycles of fuel are enough for the loop to return. -/
theorem pllLoop_locked {α : Type} [Add α] [LT α] [DecidableRel (fun a b : α => a < b)]
    (env : CDREnv α) (edges : List Int) (fnyquist tend e0 P : Int)
    (hexact : ∀ t c e : Int,
      env.flt.ofInt64 t + env.flt.ofInt64 c < env.flt.ofInt64 e ↔ t + c < e)
    (hP : 40000 ≤ P) (hne : 1 ≤ edges.length) (hsz : edges.length < SIZE_MOD)
    (hE : ∀ k, k < edges.length → rd edges k = some (e0 + (k : Int) * P)) :
    ∀ (fuel : Nat) (s : PLLState) (m : Nat), PLLPhase edges e0 P s m →
      (∀ s1, pllLoop env edges fnyquist none tend fuel s = some s1 →
        ∃ m1, PLLPhase edges e0 P s1 m1) ∧
      (m ≤ fuel → ∃ s1, pllLoop env edges fnyquist none tend fuel s = some s1) := by
  intro fuel
  induction fuel with
  | zero =>
    intro s m hq
    unfold pllLoop
    by_cases hc : s.edgepos < tend ∧ s.nedge < subSize edges.length 1
    · rw [if_pos hc]
      refine ⟨fun s1 h => Option.noConfusion h, fun hm => ?_⟩
      obtain ⟨_, m1, _, hm1, _⟩ :=
        pllCycle_locked env edges fnyquist e0 P s m hexact hP hne hsz hE hq hc.2
      omega
    · rw [if_neg hc]
      exact ⟨fun s1 h => ⟨m, (Option.some.inj h) ▸ hq⟩, fun _ => ⟨s, rfl⟩⟩
  | succ f ih =>
    intro s m hq
    unfold pllLoop
    by_cases hc : s.edgepos < tend ∧ s.nedge < subSize edges.length 1
    · rw [if_pos hc]
      obtain ⟨s2, m1, hcy, hm1, hq2⟩ :=
        pllCycle_locked env edges fnyquist e0 P s m hexact hP hne hsz hE hq hc.2
      rw [hcy, Option.some_bind]
      obtain ⟨i1, i2⟩ := ih _ m1 hq2
      exact ⟨i1, fun hm => i2 (by omega)⟩
    · rw [if_neg hc]
      exact ⟨fun s1 h => ⟨m, (Option.some.inj h) ▸ hq⟩, fun _ => ⟨s, rfl⟩⟩

theorem PLLPhase_bounds (edges : List Int) (e0 P : Int) (s : PLLState) (m : Nat)
    (hP : 40000 ≤ P) (hq : PLLPhase edges e0 P s m) :
    s.gating = false ∧ (∀ q ∈ s.m_durations, |q - P| ≤ pllTolerance P) ∧
    |s.period - P| ≤ pllTolerance P ∧ (∀ x ∈ s.deltas, |x| ≤ pllPhaseBound P) := by
  obtain ⟨hg, hdur, hdel, hph⟩ := hq
  obtain ⟨ht0, _, _, _⟩ := pllTolerance_le P hP
  refine ⟨hg, fun q hq => abs_le.mpr ⟨by have := (hdur q hq).1; omega, (hdur q hq).2⟩, ?_,
    fun x hx => abs_le.mpr (hdel x hx)⟩
  rcases hph with ⟨_, h2, _, _⟩ | ⟨_, h2, _, _⟩ | ⟨_, _, _, h4⟩ | ⟨_, h2, h3⟩
  · rw [h2, sub_self, abs_zero]
    exact ht0
  · rw [h2, sub_self, abs_zero]
    exact ht0
  · obtain ⟨b1, b2, _, _, _⟩ := pllLocked_bounds P _ _ hP h4
    exact abs_le.mpr ⟨b1, b2⟩
  · exact abs_le.mpr ⟨h2, h3⟩

/-- The lock of the PLL when the comparison is exact: let the input of `ClockRecoveryFilter::Refresh` be a uniform digital waveform
whose edge list is `edges[k] = e0 + k P` (edges exactly `P` apart), with no gate, a seed
period `round(10^15 / symbolRate) = P ≥ 40000`, and the comparison `tnext + center <
edgepos` evaluated exactly.  Then the PLL loop, started as `Refresh` starts it, never
gates; whatever the number of cycles run, every period it appends (one per cycle) and its
final `period` are within `pllTolerance P ≤ 4⌊P/40000⌋ + 104` of `P`, and every phase
error `delta` it computes is within `pllPhaseBound P ≤ 3⌊P/400⌋` of 0; the loop returns as
soon as the fuel reaches the number of edges; and every duration of a waveform `Refresh`
publishes is within `pllTolerance P` of `P`. -/
theorem ClockRecoveryFilter_PLL_stays_locked {α : Type} [DecidableEq α] [Zero α] [Add α]
    [Mul α] [Div α] [LT α] [DecidableRel (fun a b : α => a < b)] (env : CDREnv α)
    (allowEmpty : Bool) (blank : Waveform α) (st : ClockRecoveryState α) (din : Nat)
    (d : Waveform α) (edges : List Int) (tend e0 P : Int)
    (hexact : ∀ t c e : Int,
      env.flt.ofInt64 t + env.flt.ofInt64 c < env.flt.ofInt64 e ↔ t + c < e)
    (hi : GetInputWaveform st.base 0 = some (some din)) (hd : st.base.heap din = some d)
    (hkind : d.kind = WaveformKind.UniformDigital)
    (hgate : GetInputWaveform st.base 1 = some none)
    (hf : FindZeroCrossings_UniformDigital d.toUniformDigital [] = some edges)
    (hseed : env.flt.toInt64 (env.round (env.lit FS_PER_SECOND / st.m_baud)) = P)
    (hP : 40000 ≤ P) (hne : 1 ≤ edges.length) (hsz : edges.length < SIZE_MOD)
    (hE : ∀ k, k < edges.length → rd edges k = some (e0 + (k : Int) * P)) :
    (∀ fuel s, pllLoop env edges (2 * d.m_timescale) none tend fuel
        (pllInit e0 P clearedClock) = some s →
      s.gating = false ∧ (∀ q ∈ s.m_durations, |q - P| ≤ pllTolerance P) ∧
      |s.period - P| ≤ pllTolerance P ∧ (∀ x ∈ s.deltas, |x| ≤ pllPhaseBound P)) ∧
    (∀ fuel, edges.length ≤ fuel →
      ∃ s, pllLoop env edges (2 * d.m_timescale) none tend fuel
        (pllInit e0 P clearedClock) = some s) ∧
    pllTolerance P ≤ 4 * (P / 40000) + 104 ∧ pllPhaseBound P ≤ 3 * (P / 400) ∧
    (∀ fuel w, publishedWaveform ((ClockRecoveryFilter_Refresh env allowEmpty blank fuel st).map
        fun s => s.base) = some w →
      ∀ q ∈ w.m_durations, |q - P| ≤ pllTolerance P) := by
  have hinit : PLLPhase edges e0 P (pllInit e0 P clearedClock) edges.length :=
    ⟨rfl, fun q hq => absurd hq (List.not_mem_nil q), fun x hx => absurd hx (List.not_mem_nil x),
      Or.inl ⟨rfl, rfl, rfl, le_refl _⟩⟩
  obtain ⟨_, ht1, ht2, _⟩ := pllTolerance_le P hP
  have hloop : ∀ tend1 fuel s, pllLoop env edges (2 * d.m_timescale) none tend1 fuel
      (pllInit e0 P clearedClock) = some s →
      s.gating = false ∧ (∀ q ∈ s.m_durations, |q - P| ≤ pllTolerance P) ∧
      |s.period - P| ≤ pllTolerance P ∧ (∀ x ∈ s.deltas, |x| ≤ pllPhaseBound P) := by
    intro tend1 fuel s h
    obtain ⟨m1, hq⟩ := (pllLoop_locked env edges (2 * d.m_timescale) tend1 e0 P hexact hP hne hsz
      hE fuel _ _ hinit).1 s h
    exact PLLPhase_bounds edges e0 P s m1 hP hq
  refine ⟨hloop tend, fun fuel hfuel => ?_, ht1, ht2, fun fuel w hw => ?_⟩
  · exact (pllLoop_locked env edges (2 * d.m_timescale) tend e0 P hexact hP hne hsz hE fuel _ _
      hinit).2 hfuel
  · rcases ClockRecoveryFilter_Refresh_cases env allowEmpty blank fuel st with hn | hr
    · rw [hn] at hw
      cases hw
    · obtain ⟨st0, din1, d1, gate, edges1, hi1, hd1, hg1, hf1, _, _, _, heq⟩ := hr
      rw [hi] at hi1
      cases hi1
      rw [hd] at hd1
      cases hd1
      rw [hgate] at hg1
      cases hg1
      have hedges : edges1 = edges := by
        unfold ClockRecoveryFilter_findEdges at hf1
        rw [hkind] at hf1
        simp only [hf, Option.map_some', Option.some.injEq, Prod.mk.injEq] at hf1
        exact hf1.1.symm
      subst hedges
      rw [heq, hseed] at hw
      simp only [Option.none_bind] at hw
      cases hrun : ClockRecoveryFilter_run env blank fuel st0 din none edges1 P
          (2 * d.m_timescale) with
      | none =>
        rw [hrun] at hw
        cases hw
      | some st1 =>
        rw [hrun] at hw
        obtain ⟨s, e1, tend1, gs, w1, he1, hgs, hl, hpub, _, _, _, hdu, _, _⟩ :=
          ClockRecoveryFilter_run_published env blank fuel st0 st1 din none edges1 P _ hrun
        simp only [Option.map_some'] at hw
        rw [hpub] at hw
        cases hw
        rw [hgs rfl] at hl
        have he0 : e1 = e0 := by
          have := hE 0 (by omega)
          rw [he1] at this
          simp only [Option.some.injEq] at this
          rw [this]
          push_cast
          ring
        subst he0
        rw [hdu]
        exact (hloop tend1 fuel s hl).2.1

/-- An instance of the lock under the exact comparison: `exampleSquareWave 8`, whose seven edges are 40000 fs apart, with the
symbol rate 25 GHz (seed period 40000 fs). -/
theorem ClockRecoveryFilter_PLL_stays_locked_witness :
    (∀ k, k < exampleEdges.length → rd exampleEdges k = some (45000 + (k : Int) * 40000)) ∧
    (∀ fuel s, pllLoop exampleCDREnv exampleEdges (2 * (exampleSquareWave 8).m_timescale) none
        310000 fuel (pllInit 45000 40000 clearedClock) = some s →
      s.gating = false ∧ (∀ q ∈ s.m_durations, |q - 40000| ≤ pllTolerance 40000) ∧
      |s.period - 40000| ≤ pllTolerance 40000 ∧
      (∀ x ∈ s.deltas, |x| ≤ pllPhaseBound 40000)) ∧
    (∀ fuel, exampleEdges.length ≤ fuel →
      ∃ s, pllLoop exampleCDREnv exampleEdges (2 * (exampleSquareWave 8).m_timescale) none
        310000 fuel (pllInit 45000 40000 clearedClock) = some s) ∧
    pllTolerance 40000 ≤ 4 * (40000 / 40000) + 104 ∧
    pllPhaseBound 40000 ≤ 3 * (40000 / 400) ∧
    (∀ fuel w, publishedWaveform ((ClockRecoveryFilter_Refresh exampleCDREnv false
        (blankWaveform Int) fuel (exampleCDR (exampleSquareWave 8) 25000000000)).map
        fun s => s.base) = some w →
      ∀ q ∈ w.m_durations, |q - 40000| ≤ pllTolerance 40000) :=
  have hE : ∀ k, k < exampleEdges.length →
      rd exampleEdges k = some (45000 + (k : Int) * 40000) := by
    intro k hk
    have hk7 : k < 7 := hk
    interval_cases k <;> rfl
  ⟨hE, ClockRecoveryFilter_PLL_stays_locked exampleCDREnv false (blankWaveform Int)
    (exampleCDR (exampleSquareWave 8) 25000000000) 1 (exampleSquareWave 8) exampleEdges 310000
    45000 40000 (fun _ _ _ => Iff.rfl) (by decide) (by decide) (by decide) (by decide)
    (by decide) (by decide) (by decide) (by decide) (by decide) hE⟩

/-! ### Input verification helpers -/

theorem VerifyInputOK_spec {α : Type} (st : FilterState α) (allowEmpty : Bool)
    (hlive : InputsLive st) (i : Nat) (hi : i < st.m_inputs.length) :
    ∃ ok, VerifyInputOK st i allowEmpty = some ok ∧ (ok = true ↔ InputOK st i allowEmpty) := by
  have hrd : rd st.m_inputs i = some (st.m_inputs.get ⟨i, hi⟩) := by
    unfold rd; exact List.getElem?_eq_getElem hi
  have hmem : st.m_inputs.get ⟨i, hi⟩ ∈ st.m_inputs := List.get_mem _ _ _
  generalize st.m_inputs.get ⟨i, hi⟩ = p at hrd hmem
  unfold VerifyInputOK InputOK
  rw [hrd]
  rcases p with ⟨ch, wf⟩
  cases ch with
  | none =>
    refine ⟨false, rfl, ?_⟩
    constructor
    · intro h; cases h
    · rintro ⟨p, c, a, w, h1, h2, _⟩
      cases h1; cases h2
  | some c =>
    cases wf with
    | none =>
      refine ⟨false, rfl, ?_⟩
      constructor
      · intro h; cases h
      · rintro ⟨p, c, a, w, h1, _, h3, _⟩
        cases h1; cases h3
    | some a =>
      obtain ⟨w, hw⟩ := hlive _ hmem a rfl
      cases allowEmpty with
      | true =>
        exact ⟨true, rfl, fun _ => ⟨_, c, a, w, rfl, rfl, rfl, hw, Or.inl rfl⟩, fun _ => rfl⟩
      | false =>
        refine ⟨decide (w.size ≠ 0), ?_, ?_⟩
        · simp [hw]
        · constructor
          · intro h
            have h2 : w.size ≠ 0 := of_decide_eq_true h
            exact ⟨_, c, a, w, rfl, rfl, rfl, hw, Or.inr (Nat.one_le_iff_ne_zero.mpr h2)⟩
          · rintro ⟨p, c2, a2, w2, h1, _, h3, h4, h5⟩
            cases h1; cases h3
            rw [hw] at h4; cases h4
            rcases h5 with h5 | h5
            · cases h5
            · exact decide_eq_true (Nat.one_le_iff_ne_zero.mp h5)

theorem verifyInputsLoop_spec {α : Type} (st : FilterState α) (allowEmpty : Bool)
    (hlive : InputsLive st) (fuel i : Nat) (hf : st.m_inputs.length ≤ i + fuel) :
    ∃ all, verifyInputsLoop st allowEmpty fuel i = some all ∧
      (all = true ↔ ∀ k, i ≤ k → k < st.m_inputs.length →
        VerifyInputOK st k allowEmpty = some true) := by
  induction fuel generalizing i with
  | zero =>
    refine ⟨true, ?_, ?_⟩
    · unfold verifyInputsLoop; rw [if_neg (by omega)]
    · exact ⟨fun _ k h1 h2 => absurd h2 (by omega), fun _ => rfl⟩
  | succ n ih =>
    unfold verifyInputsLoop
    by_cases hi : i < st.m_inputs.length
    · rw [if_pos hi]
      obtain ⟨ok, hok, _⟩ := VerifyInputOK_spec st allowEmpty hlive i hi
      rw [hok]
      cases ok with
      | false =>
        refine ⟨false, rfl, ?_⟩
        constructor
        · intro h; cases h
        · intro h
          have := h i (le_refl _) hi
          rw [hok] at this; cases this
      | true =>
        obtain ⟨all, hall, hiff⟩ := ih (i + 1) (by omega)
        refine ⟨all, by simpa using hall, ?_⟩
        rw [hiff]
        constructor
        · intro h k h1 h2
          rcases Nat.eq_or_lt_of_le h1 with h3 | h3
          · subst h3; exact hok
          · exact h k h3 h2
        · intro h k h1 h2
          exact h k (by omega) h2
    · rw [if_neg hi]
      exact ⟨true, rfl, fun _ k h1 h2 => absurd h2 (by omega), fun _ => rfl⟩

/-- C21: for a filter state whose input waveform pointers are live, `VerifyInputOK(i,
allowEmpty)` returns, for every input index `i` below the input count, and returns true
exactly when binding `i` has a channel, its stream holds a waveform and (`allowEmpty` or
the waveform has at least one sample); `VerifyAllInputsOK(allowEmpty)` returns, and returns
true exactly when `VerifyInputOK(i, allowEmpty)` is true for every input `i`.  Both are
functions of the state that return only a boolean: they change nothing. -/
theorem VerifyAllInputsOK_spec {α : Type} (st : FilterState α) (allowEmpty : Bool)
    (hlive : InputsLive st) :
    (∀ i, i < st.m_inputs.length →
      ∃ ok, VerifyInputOK st i allowEmpty = some ok ∧
        (ok = true ↔ InputOK st i allowEmpty)) ∧
    ∃ all, VerifyAllInputsOK st allowEmpty = some all ∧
      (all = true ↔ ∀ i, i < st.m_inputs.length →
        VerifyInputOK st i allowEmpty = some true) := by
  refine ⟨fun i hi => VerifyInputOK_spec st allowEmpty hlive i hi, ?_⟩
  obtain ⟨all, hall, hiff⟩ :=
    verifyInputsLoop_spec st allowEmpty hlive st.m_inputs.length 0 (by omega)
  refine ⟨all, hall, ?_⟩
  rw [hiff]
  exact ⟨fun h i hi => h i (Nat.zero_le _) hi, fun h k _ hk => h k hk⟩

theorem exampleThreeInputs_live : InputsLive exampleThreeInputs := by
  intro p hp a ha
  simp only [exampleThreeInputs, List.mem_cons, List.mem_singleton, List.not_mem_nil,
    or_false] at hp
  rcases hp with rfl | rfl | rfl
  · cases ha; exact ⟨_, rfl⟩
  · cases ha; exact ⟨_, rfl⟩
  · cases ha

theorem VerifyAllInputsOK_spec_witness :
    InputsLive exampleThreeInputs ∧
    VerifyInputOK exampleThreeInputs 0 false = some true ∧
    VerifyInputOK exampleThreeInputs 1 false = some false ∧
    VerifyInputOK exampleThreeInputs 1 true = some true ∧
    VerifyInputOK exampleThreeInputs 2 true = some false ∧
    VerifyAllInputsOK exampleThreeInputs true = some false ∧
    ((∀ i, i < exampleThreeInputs.m_inputs.length →
      ∃ ok, VerifyInputOK exampleThreeInputs i false = some ok ∧
        (ok = true ↔ InputOK exampleThreeInputs i false)) ∧
    ∃ all, VerifyAllInputsOK exampleThreeInputs false = some all ∧
      (all = true ↔ ∀ i, i < exampleThreeInputs.m_inputs.length →
        VerifyInputOK exampleThreeInputs i false = some true)) :=
  ⟨exampleThreeInputs_live, by decide, by decide, by decide, by decide, by decide,
    VerifyAllInputsOK_spec exampleThreeInputs false exampleThreeInputs_live⟩

/-! ### Compute dispatch helper -/

theorem ceilDiv_eq (n b : Nat) (hb : 0 < b) :
    (n + b - 1) / b = n / b + (if n % b ≠ 0 then 1 else 0) := by
  have h1 := Nat.div_add_mod n b
  have h2 := Nat.mod_lt n hb
  by_cases hr : n % b = 0
  · rw [if_neg (by simpa using hr), Nat.add_zero]
    apply Nat.div_eq_of_lt_le
    · calc n / b * b = b * (n / b) := Nat.mul_comm _ _
        _ ≤ n + b - 1 := by omega
    · calc n + b - 1 < b * (n / b) + b := by omega
        _ = (n / b + 1) * b := by ring
  · rw [if_pos hr]
    apply Nat.div_eq_of_lt_le
    · calc (n / b + 1) * b = b * (n / b) + b := by ring
        _ ≤ n + b - 1 := by omega
    · calc n + b - 1 < b * (n / b) + b + b := by omega
        _ = (n / b + 1 + 1) * b := by ring

theorem ceilDiv_least (n b : Nat) (hb : 0 < b) :
    n ≤ (n + b - 1) / b * b ∧ ∀ j, n ≤ j * b → (n + b - 1) / b ≤ j := by
  constructor
  · have h1 := Nat.div_add_mod (n + b - 1) b
    have h2 := Nat.mod_lt (n + b - 1) hb
    have h3 : (n + b - 1) / b * b = b * ((n + b - 1) / b) := Nat.mul_comm _ _
    omega
  · intro j hj
    have : (n + b - 1) / b < j + 1 := by
      rw [Nat.div_lt_iff_lt_mul hb]
      calc n + b - 1 < j * b + b := by omega
        _ = (j + 1) * b := by ring
    omega

/-- The value `GetComputeBlockCount` returns for any non-zero block size: the rounded-up
quotient reduced modulo `2^32`. -/
theorem GetComputeBlockCount_eq (numGlobal blockSize : Nat) (hb : 0 < blockSize) :
    GetComputeBlockCount numGlobal blockSize =
      some ((numGlobal + blockSize - 1) / blockSize % UINT32_MOD) := by
  unfold GetComputeBlockCount
  rw [if_neg (by omega), ceilDiv_eq numGlobal blockSize hb]
  by_cases hr : numGlobal % blockSize = 0
  · simp [hr]
  · simp [hr, Nat.add_mod]

/-- C24, counterexample: for `numGlobal = 2^33 - 1` and `blockSize = 2` the quotient
`4294967295` fits in 32 bits, the remainder is 1, and the increment of the `uint32_t`
wraps: the function returns 0, which is not the rounded-up quotient `2^32` and does not
satisfy `k * blockSize >= numGlobal`. -/
theorem GetComputeBlockCount_wraps_at_last_quotient :
    (2 ^ 33 - 1) / 2 < UINT32_MOD ∧
    GetComputeBlockCount (2 ^ 33 - 1) 2 = some 0 ∧
    (2 ^ 33 - 1 + 2 - 1) / 2 = 2 ^ 32 ∧
    ¬ (2 ^ 33 - 1 ≤ 0 * 2) := by
  decide

/-- C24, amended: for every `blockSize > 0` and every `numGlobal` whose rounded-up quotient
fits in 32 bits, `GetComputeBlockCount(numGlobal, blockSize)` returns
`ceil(numGlobal / blockSize)`, the least `k` with `k * blockSize >= numGlobal`; it
returns 0 for `numGlobal = 0`. -/
theorem GetComputeBlockCount_spec (numGlobal blockSize : Nat) (hb : 0 < blockSize)
    (hfit : (numGlobal + blockSize - 1) / blockSize < UINT32_MOD) :
    ∃ k, GetComputeBlockCount numGlobal blockSize = some k ∧
      k = (numGlobal + blockSize - 1) / blockSize ∧
      numGlobal ≤ k * blockSize ∧
      (∀ j, numGlobal ≤ j * blockSize → k ≤ j) ∧
      (numGlobal = 0 → k = 0) := by
  refine ⟨_, (GetComputeBlockCount_eq numGlobal blockSize hb).trans
    (by rw [Nat.mod_eq_of_lt hfit]), rfl, (ceilDiv_least _ _ hb).1, (ceilDiv_least _ _ hb).2, ?_⟩
  intro h0
  subst h0
  exact Nat.le_zero.mp ((ceilDiv_least 0 blockSize hb).2 0 (Nat.zero_le _))

theorem GetComputeBlockCount_spec_witness :
    ∃ k, GetComputeBlockCount 1000 64 = some k ∧
      k = (1000 + 64 - 1) / 64 ∧
      1000 ≤ k * 64 ∧
      (∀ j, 1000 ≤ j * 64 → k ≤ j) ∧
      ((1000 : Nat) = 0 → k = 0) :=
  GetComputeBlockCount_spec 1000 64 (by decide) (by decide)

/-! ### The bang-bang feedback step -/

theorem feedbackStep_period (tnext : Int) (s : PLLState) :
    (feedbackStep false tnext s).period =
      (if 0 < (s.edgepos - tnext) - s.period then s.period - Int.tdiv s.period 40000
       else s.period + Int.tdiv s.period 40000) := by
  unfold feedbackStep
  by_cases h : 0 < (s.edgepos - tnext) - s.period
  · simp only [Bool.false_eq_true, if_false, gt_iff_lt, if_pos h]
  · simp only [Bool.false_eq_true, if_false, gt_iff_lt, if_neg h]

theorem feedbackStep_edgepos (tnext : Int) (s : PLLState) :
    (feedbackStep false tnext s).edgepos =
      (if 0 < (s.edgepos - tnext) - s.period then s.edgepos - Int.tdiv s.period 400
       else s.edgepos + Int.tdiv s.period 400) := by
  unfold feedbackStep
  by_cases h : 0 < (s.edgepos - tnext) - s.period
  · simp only [Bool.false_eq_true, if_false, gt_iff_lt, if_pos h]
  · simp only [Bool.false_eq_true, if_false, gt_iff_lt, if_neg h]

theorem feedbackStep_sign_only (tnext tnext2 : Int) (s s2 : PLLState)
    (hp : s2.period = s.period)
    (hsign : 0 < (s2.edgepos - tnext2) - s2.period ↔ 0 < (s.edgepos - tnext) - s.period) :
    (feedbackStep false tnext2 s2).period - s2.period =
      (feedbackStep false tnext s).period - s.period ∧
    (feedbackStep false tnext2 s2).edgepos - s2.edgepos =
      (feedbackStep false tnext s).edgepos - s.edgepos := by
  rw [feedbackStep_period, feedbackStep_period, feedbackStep_edgepos, feedbackStep_edgepos]
  by_cases h : 0 < (s.edgepos - tnext) - s.period
  · rw [if_pos (hsign.mpr h), if_pos h, if_pos (hsign.mpr h), if_pos h, hp]
    constructor <;> ring
  · have h2 : ¬ 0 < (s2.edgepos - tnext2) - s2.period := fun h3 => h (hsign.mp h3)
    rw [if_neg h2, if_neg h, if_neg h2, if_neg h, hp]
    constructor <;> ring

/-- C28: a pass of the feedback loop of `ClockRecoveryFilter::Refresh` that is not a gate
re-synchronisation (the loop condition holds, the re-sync flag is false) applies
`feedbackStep` and goes on with the next edge.  With `p` the period before the step and
`delta = (edgepos - edge) - p`: when `delta > 0` the period becomes `p - p/40000` and
`edgepos` decreases by `p/400`, otherwise the period becomes `p + p/40000` and `edgepos`
increases by `p/400`, the divisions being those of C++ on `int64_t`.  Two steps from the
same period with phase errors of the same sign change the period and `edgepos` by the
same amounts, whatever the magnitude of the errors. -/
theorem feedbackLoop_bang_bang_step {α : Type} [Add α] [LT α]
    [DecidableRel (fun a b : α => a < b)] (env : CDREnv α) (edges : List Int)
    (fnyquist : Int) (center : α) (fuel : Nat) (tnext : Int) (s : PLLState)
    (hcond : env.flt.ofInt64 tnext + center < env.flt.ofInt64 s.edgepos ∧
      s.nedge + 1 < edges.length) :
    (∃ t1, rd edges (s.nedge + 1) = some t1 ∧
      feedbackLoop env edges fnyquist center false (fuel + 1) tnext s =
        if (feedbackStep false tnext s).period < fnyquist then
          some { feedbackStep false tnext s with nedge := edges.length }
        else
          feedbackLoop env edges fnyquist center false fuel t1
            { feedbackStep false tnext s with nedge := s.nedge + 1 }) ∧
    (feedbackStep false tnext s).period =
      (if 0 < (s.edgepos - tnext) - s.period then s.period - Int.tdiv s.period 40000
       else s.period + Int.tdiv s.period 40000) ∧
    (feedbackStep false tnext s).edgepos =
      (if 0 < (s.edgepos - tnext) - s.period then s.edgepos - Int.tdiv s.period 400
       else s.edgepos + Int.tdiv s.period 400) ∧
    (∀ (tnext2 : Int) (s2 : PLLState), s2.period = s.period →
      (0 < (s2.edgepos - tnext2) - s2.period ↔ 0 < (s.edgepos - tnext) - s.period) →
      (feedbackStep false tnext2 s2).period - s2.period =
        (feedbackStep false tnext s).period - s.period ∧
      (feedbackStep false tnext2 s2).edgepos - s2.edgepos =
        (feedbackStep false tnext s).edgepos - s.edgepos) := by
  refine ⟨?_, ?_, ?_, fun tnext2 s2 hp hsign => feedbackStep_sign_only tnext tnext2 s s2 hp hsign⟩
  · have hlt : s.nedge + 1 < edges.length := hcond.2
    refine ⟨edges.get ⟨s.nedge + 1, hlt⟩, ?_, ?_⟩
    · unfold rd; exact List.getElem?_eq_getElem hlt
    · exact feedbackLoop_once env edges fnyquist center false (fuel + 1) tnext _ s
        (Nat.succ_pos _) hcond (by unfold rd; exact List.getElem?_eq_getElem hlt)
  · exact feedbackStep_period tnext s
  · exact feedbackStep_edgepos tnext s

theorem feedbackLoop_bang_bang_step_witness :
    (exampleCDREnv.flt.ofInt64 125000 + exampleCDREnv.flt.ofInt64 20000 <
        exampleCDREnv.flt.ofInt64 (pllInit 165100 40000 clearedClock).edgepos ∧
      (pllInit 165100 40000 clearedClock).nedge + 1 < exampleEdges.length) ∧
    (feedbackStep false 125000 (pllInit 165100 40000 clearedClock)).period = 39999 ∧
    (feedbackStep false 125000 (pllInit 165100 40000 clearedClock)).edgepos = 165000 ∧
    (feedbackStep false 125000 (pllInit 164900 40000 clearedClock)).period = 40001 ∧
    (feedbackStep false 125000 (pllInit 164900 40000 clearedClock)).edgepos = 165000 ∧
    (feedbackStep false 125000 (pllInit 999999 40000 clearedClock)).period = 39999 ∧
    (feedbackStep false 125000 (pllInit 999999 40000 clearedClock)).edgepos = 999899 ∧
    (feedbackStep false 125000 (pllInit 999999 40000 clearedClock)).period - 40000 =
      (feedbackStep false 125000 (pllInit 165100 40000 clearedClock)).period - 40000 :=
  have hc : exampleCDREnv.flt.ofInt64 125000 + exampleCDREnv.flt.ofInt64 20000 <
        exampleCDREnv.flt.ofInt64 (pllInit 165100 40000 clearedClock).edgepos ∧
      (pllInit 165100 40000 clearedClock).nedge + 1 < exampleEdges.length := by decide
  ⟨hc, by decide, by decide, by decide, by decide, by decide, by decide,
    ((feedbackLoop_bang_bang_step exampleCDREnv exampleEdges 20000
      (exampleCDREnv.flt.ofInt64 20000) 5 125000 (pllInit 165100 40000 clearedClock) hc).2.2.2
      125000 (pllInit 999999 40000 clearedClock) rfl (by decide)).1⟩

/-! ### Ordering of the digital crossing lists -/

theorem SetData_same {α : Type} (st : FilterState α) (p stream : Nat)
    (hg : GetData st stream = some p) : SetData st (some p) stream = some st := by
  unfold GetData at hg
  by_cases hs : stream ≥ st.m_streams.length
  · rw [if_pos hs] at hg
    cases hg
  · rw [if_neg hs] at hg
    unfold SetData
    rw [rd_of_lt_getD _ _ none (by omega), hg]
    simp

/-- The measurement loop from index `2*j` with `k` pairs left: it appends, for each pair
`m` in `j .. j+k-1`, the edge `e[2m]` and the distance to `e[2m+2]`. -/
theorem periodLoop_spec {α : Type} (env : MeasurementEnv α) (edges : List Int)
    (hn : 2 ≤ edges.length) (hsz : edges.length < SIZE_MOD) :
    ∀ (k j fuel : Nat) (acc : List Int × List Int × List α),
      2 * (j + k) + 2 ≥ edges.length → (k = 0 ∨ 2 * (j + k) < edges.length) → k ≤ fuel →
      forLoop (subSize edges.length 2) 2 (periodStep env edges) fuel (2 * j) acc =
        some (acc.1 ++ (List.range' j k).map (fun (m : Nat) => edges.getD (2 * m) 0),
          acc.2.1 ++ (List.range' j k).map
            (fun (m : Nat) => edges.getD (2 * m + 2) 0 - edges.getD (2 * m) 0),
          acc.2.2 ++ (List.range' j k).map
            (fun (m : Nat) => env.flt.ofInt64 (edges.getD (2 * m + 2) 0 - edges.getD (2 * m) 0))) := by
  have hstop : subSize edges.length 2 = edges.length - 2 := subSize_le hn hsz
  intro k
  induction k with
  | zero =>
    intro j fuel acc h1 _ _
    rw [forLoop_done _ _ _ _ _ _ (by rw [hstop]; omega)]
    simp
  | succ k ih =>
    intro j fuel acc h1 h2 hf
    have h3 : 2 * (j + (k + 1)) < edges.length := by
      rcases h2 with h2 | h2
      · omega
      · exact h2
    have hi : 2 * j < subSize edges.length 2 := by rw [hstop]; omega
    have ha : addSize (2 * j) 2 = 2 * j + 2 := by
      unfold addSize
      exact Nat.mod_eq_of_lt (by omega)
    have hr1 : rd edges (2 * j) = some (edges.getD (2 * j) 0) :=
      rd_of_lt_getD edges (2 * j) 0 (by omega)
    have hr2 : rd edges (2 * j + 2) = some (edges.getD (2 * j + 2) 0) :=
      rd_of_lt_getD edges (2 * j + 2) 0 (by omega)
    rw [forLoop_unroll _ _ _ _ _ _ hi (by omega)]
    have hbody : periodStep env edges (2 * j) acc =
        some (acc.1 ++ [edges.getD (2 * j) 0],
          acc.2.1 ++ [edges.getD (2 * j + 2) 0 - edges.getD (2 * j) 0],
          acc.2.2 ++ [env.flt.ofInt64 (edges.getD (2 * j + 2) 0 - edges.getD (2 * j) 0)]) := by
      unfold periodStep
      rw [hr1, ha, hr2]
      rfl
    rw [hbody, Option.some_bind]
    have hnext := ih (j + 1) (fuel - 1)
      (acc.1 ++ [edges.getD (2 * j) 0],
        acc.2.1 ++ [edges.getD (2 * j + 2) 0 - edges.getD (2 * j) 0],
        acc.2.2 ++ [env.flt.ofInt64 (edges.getD (2 * j + 2) 0 - edges.getD (2 * j) 0)])
      (by omega) (by omega) (by omega)
    rw [show 2 * (j + 1) = 2 * j + 2 by ring] at hnext
    rw [hnext]
    simp [List.range'_succ, List.append_assoc]

theorem range'_map_getElem? {β : Type} (f : Nat → β) (k n : Nat) (hk : k < n) :
    ((List.range' 0 n).map f)[k]? = some (f k) := by
  simp [List.getElem?_map, List.getElem?_range', hk]

/-- C23: on a filter whose inputs pass the check, whose input 0 is the live waveform `d` on
which the edge extraction (analog input, threshold `GetAvgVoltage`) finds the crossings
`e[0..n-1]`, and whose stream 0 is `NULL` or a live waveform other than `d`,
`PeriodMeasurement::Refresh` returns.  With `n < 2` it leaves stream 0 `NULL`.  With
`n >= 2` it publishes a sparse analog waveform of timescale 1 with exactly
`floor((n-1)/2)` samples, the `k`-th with offset `e[2k]` and with duration and value
`e[2k+2] - e[2k]` (the value converted to `float`). -/
theorem PeriodMeasurement_Refresh_spec {α : Type} [DecidableEq α] [LT α]
    [DecidableRel (fun a b : α => a < b)] [Mul α] (env : MeasurementEnv α) (allowEmpty : Bool)
    (blank : Waveform α) (fuel : Nat) (st : MeasurementState α) (din : Nat) (d : Waveform α)
    (e : List Int) (an1 : AnalysisState α)
    (hv : VerifyAllInputsOK st.base allowEmpty = some true)
    (hi : GetInputWaveform st.base 0 = some (some din)) (hd : st.base.heap din = some d)
    (hfind : PeriodMeasurement_findEdges env st din d = some (e, an1))
    (hs : 0 < st.base.m_streams.length) (hfresh : st.base.heap st.base.fresh = none)
    (hold : st.base.m_streams.getD 0 none = none ∨
      ∃ p w0, st.base.m_streams.getD 0 none = some p ∧ st.base.heap p = some w0 ∧ p ≠ din)
    (hsz : e.length < SIZE_MOD) (hfuel : e.length ≤ fuel) :
    ∃ st1, PeriodMeasurement_Refresh env allowEmpty blank fuel st = some st1 ∧
      (e.length < 2 → GetData st1.base 0 = none) ∧
      (2 ≤ e.length → ∃ cap w, GetData st1.base 0 = some cap ∧ st1.base.heap cap = some w ∧
        w.kind = WaveformKind.SparseAnalog ∧ w.m_timescale = 1 ∧
        w.size = (e.length - 1) / 2 ∧ w.m_offsets.length = (e.length - 1) / 2 ∧
        w.m_durations.length = (e.length - 1) / 2 ∧
        ∀ k, k < (e.length - 1) / 2 →
          w.m_offsets[k]? = some (e.getD (2 * k) 0) ∧
          w.m_durations[k]? = some (e.getD (2 * k + 2) 0 - e.getD (2 * k) 0) ∧
          w.m_analog[k]? = some (env.flt.ofInt64 (e.getD (2 * k + 2) 0 - e.getD (2 * k) 0))) := by
  unfold PeriodMeasurement_Refresh
  rw [hv]
  simp only [Option.some_bind, Bool.true_eq_false, if_false, hi, hd, hfind]
  by_cases hn : e.length < 2
  · rw [if_pos hn]
    obtain ⟨b, hb, hg, _⟩ := SetData_null st.base 0 hs
    rw [hb]
    exact ⟨_, rfl, fun _ => hg, fun h2 => absurd hn (by omega)⟩
  · rw [if_neg hn]
    obtain ⟨cap, st2, w2, hsetup, hg, hw2, hne, hd2, hk2, _, _⟩ :=
      setupEmptyOutputWaveform_fresh_or_reused blank WaveformKind.SparseAnalog st.base din 0
        true d hs hd hfresh hold
    obtain ⟨w3, hw3, ho, hdu, han, _⟩ :=
      setupEmptyOutputWaveform_cleared blank WaveformKind.SparseAnalog st.base din 0 _ hsetup
    have hw : w3 = w2 := Option.some.inj (hw3.symm.trans hw2)
    subst hw
    unfold SetupEmptySparseAnalogOutputWaveform
    rw [hsetup]
    simp only [Option.some_bind, hw2]
    have hloop := periodLoop_spec env e (by omega) hsz ((e.length - 1) / 2) 0 fuel
      (w3.m_offsets, w3.m_durations, w3.m_analog) (by omega) (by omega) (by omega)
    rw [Nat.mul_zero] at hloop
    rw [hloop]
    simp only [Option.some_bind]
    rw [SetData_same _ cap 0 (by unfold GetData at hg ⊢; exact hg)]
    refine ⟨_, rfl, fun h2 => absurd h2 hn, fun _ => ⟨cap, _, ?_, if_pos rfl, hk2, rfl, ?_, ?_, ?_, ?_⟩⟩
    · unfold GetData at hg ⊢; exact hg
    · unfold Waveform.size
      simp only [hk2]
      rw [if_pos (by decide : WaveformKind.SparseAnalog.isAnalog = true)]
      simp [han]
    · simp [ho]
    · simp [hdu]
    · intro k hk
      simp only [ho, hdu, han, List.nil_append]
      exact ⟨range'_map_getElem? _ k _ hk, range'_map_getElem? _ k _ hk,
        range'_map_getElem? _ k _ hk⟩

theorem PeriodMeasurement_Refresh_spec_witness :
    PeriodMeasurement_findEdges exampleMeasurementEnv (exampleMeasurement (exampleAnalogSquare 3))
      1 (exampleAnalogSquare 3) =
      some ([10, 30, 50, 70, 90],
        { m_zeroCrossingCache := [((1, 0), [10, 30, 50, 70, 90])], scans := 1 }) ∧
    (publishedWaveform ((PeriodMeasurement_Refresh exampleMeasurementEnv false (blankWaveform Int)
      5 (exampleMeasurement (exampleAnalogSquare 3))).map fun s => s.base)).map
        (fun w => (w.m_offsets, w.m_durations, w.m_analog)) =
      some ([10, 50], [40, 40], [40, 40]) ∧
    ∃ st1, PeriodMeasurement_Refresh exampleMeasurementEnv false (blankWaveform Int) 5
        (exampleMeasurement (exampleAnalogSquare 3)) = some st1 ∧
      (([10, 30, 50, 70, 90] : List Int).length < 2 → GetData st1.base 0 = none) ∧
      (2 ≤ ([10, 30, 50, 70, 90] : List Int).length →
        ∃ cap w, GetData st1.base 0 = some cap ∧ st1.base.heap cap = some w ∧
        w.kind = WaveformKind.SparseAnalog ∧ w.m_timescale = 1 ∧
        w.size = (([10, 30, 50, 70, 90] : List Int).length - 1) / 2 ∧
        w.m_offsets.length = (([10, 30, 50, 70, 90] : List Int).length - 1) / 2 ∧
        w.m_durations.length = (([10, 30, 50, 70, 90] : List Int).length - 1) / 2 ∧
        ∀ k, k < (([10, 30, 50, 70, 90] : List Int).length - 1) / 2 →
          w.m_offsets[k]? = some (([10, 30, 50, 70, 90] : List Int).getD (2 * k) 0) ∧
          w.m_durations[k]? = some (([10, 30, 50, 70, 90] : List Int).getD (2 * k + 2) 0 -
            ([10, 30, 50, 70, 90] : List Int).getD (2 * k) 0) ∧
          w.m_analog[k]? = some (exampleMeasurementEnv.flt.ofInt64
            (([10, 30, 50, 70, 90] : List Int).getD (2 * k + 2) 0 -
              ([10, 30, 50, 70, 90] : List Int).getD (2 * k) 0))) :=
  ⟨by decide, by decide,
    PeriodMeasurement_Refresh_spec exampleMeasurementEnv false (blankWaveform Int) 5
      (exampleMeasurement (exampleAnalogSquare 3)) 1 (exampleAnalogSquare 3)
      [10, 30, 50, 70, 90]
      { m_zeroCrossingCache := [((1, 0), [10, 30, 50, 70, 90])], scans := 1 }
      (by decide) (by decide) (by decide) (by decide) (by decide) (by decide)
      (Or.inl (by decide)) (by decide) (by decide)⟩

/-! ### `CRC32` -/

theorem shiftRight_xor (a b n : Nat) : (a ^^^ b) >>> n = (a >>> n) ^^^ (b >>> n) := by
  apply Nat.eq_of_testBit_eq
  intro i
  simp [Nat.testBit_shiftRight, Nat.testBit_xor]

theorem and_shiftLeft_mask (x m k : Nat) : x &&& (m <<< k) = ((x >>> k) &&& m) <<< k := by
  apply Nat.eq_of_testBit_eq
  intro i
  simp only [Nat.testBit_and, Nat.testBit_shiftLeft, Nat.testBit_shiftRight]
  by_cases h : i ≥ k
  · have : k + (i - k) = i := by omega
    simp [h, this]
  · simp [h]

/-- One bit: the serial step of the code on `s` and the standard step on `s ^ (d >> i)`
stay related by `d >> (i+1)`. -/
theorem crc32Bit_standard (d s i : Nat) :
    crc32StandardBit (s ^^^ (d >>> i)) = crc32Bit d s i ^^^ (d >>> (i + 1)) := by
  unfold crc32StandardBit crc32Bit
  have h1 : (s ^^^ (d >>> i)) / 2 = (s >>> 1) ^^^ (d >>> (i + 1)) := by
    rw [Nat.shiftRight_add, ← shiftRight_xor, Nat.shiftRight_eq_div_pow]
    rfl
  have h2 : (s ^^^ (d >>> i)) &&& 1 = (s ^^^ (d >>> i)) % 2 := Nat.and_one_is_mod _
  simp only [h1, h2]
  have h3 := Nat.mod_two_eq_zero_or_one (s ^^^ (d >>> i))
  rcases h3 with h3 | h3
  · rw [if_neg (by omega), if_neg (by omega)]
  · rw [if_pos h3, if_pos (by omega), Nat.xor_assoc, Nat.xor_assoc,
      Nat.xor_comm (d >>> (i + 1))]

theorem crc32Bits_standard (d s : Nat) (k : Nat) :
    Nat.iterate crc32StandardBit k (s ^^^ d) =
      (List.range k).foldl (crc32Bit d) s ^^^ (d >>> k) := by
  induction k with
  | zero => simp
  | succ k ih =>
    rw [Function.iterate_succ_apply', ih, crc32Bit_standard, List.range_succ,
      List.foldl_append]
    rfl

/-- One byte: the bit-serial inner loop of the code computes the standard byte step. -/
theorem crc32Byte_standard (crc : Nat) (b : Fin 256) :
    crc32Byte crc b.val = crc32StandardByte crc b := by
  unfold crc32Byte crc32StandardByte
  rw [crc32Bits_standard b.val crc 8]
  have : b.val >>> 8 = 0 := by
    rw [Nat.shiftRight_eq_div_pow]
    exact Nat.div_eq_of_lt b.isLt
  rw [this, Nat.xor_zero]

theorem crc32Bit_lt (d crc i : Nat) (h : crc < 2 ^ 32) : crc32Bit d crc i < 2 ^ 32 := by
  unfold crc32Bit
  have h1 : crc >>> 1 < 2 ^ 32 := by
    rw [Nat.shiftRight_eq_div_pow]
    exact lt_of_le_of_lt (Nat.div_le_self _ _) h
  simp only
  split
  · exact Nat.xor_lt_two_pow h1 (by decide)
  · exact h1

theorem crc32Byte_lt (crc d : Nat) (h : crc < 2 ^ 32) : crc32Byte crc d < 2 ^ 32 := by
  unfold crc32Byte
  generalize List.range 8 = l
  induction l generalizing crc with
  | nil => exact h
  | cons i l ih => exact ih _ (crc32Bit_lt d crc i h)

theorem foldl_crc32Byte_lt (data : List (Fin 256)) (crc : Nat) (h : crc < 2 ^ 32) :
    data.foldl (fun c (b : Fin 256) => crc32Byte c b.val) crc < 2 ^ 32 := by
  induction data generalizing crc with
  | nil => exact h
  | cons b l ih => exact ih _ (crc32Byte_lt crc b.val h)

/-- The outer loop from `n` to `stop` folds the byte step over `bytes[n..stop]`. -/
theorem crc32Loop_eq (bytes : List (Fin 256)) (stop : Nat) (hstop : stop < bytes.length)
    (hsz : bytes.length < SIZE_MOD) :
    ∀ (k n fuel : Nat) (crc : Nat), n + k = stop + 1 → k ≤ fuel →
      crc32Loop bytes stop fuel n crc =
        some (((bytes.drop n).take k).foldl (fun c (b : Fin 256) => crc32Byte c b.val) crc) := by
  intro k
  induction k with
  | zero =>
    intro n fuel crc hn _
    cases fuel with
    | zero => simp [crc32Loop, show ¬ n ≤ stop by omega]
    | succ f => simp [crc32Loop, show ¬ n ≤ stop by omega]
  | succ k ih =>
    intro n fuel crc hn hf
    cases fuel with
    | zero => omega
    | succ f =>
      have hlt : n < bytes.length := by omega
      have hadd : addSize n 1 = n + 1 := by
        unfold addSize
        exact Nat.mod_eq_of_lt (by omega)
      unfold crc32Loop
      rw [if_pos (by omega), show rd bytes n = some (bytes.get ⟨n, hlt⟩) from
        List.getElem?_eq_getElem hlt, Option.some_bind, hadd,
        ih (n + 1) f _ (by omega) (by omega)]
      congr 1
      rw [List.drop_eq_getElem_cons hlt, List.take_succ_cons, List.foldl_cons]
      rfl

theorem and_ff (x : Nat) : x &&& 0x000000ff = x % 256 :=
  Nat.and_pow_two_sub_one_eq_mod x 8

theorem and_ff00 (x : Nat) : x &&& 0x0000ff00 = x / 256 % 256 * 256 := by
  have h := and_shiftLeft_mask x 255 8
  have h2 : (255 : Nat) <<< 8 = 0x0000ff00 := by decide
  rw [h2] at h
  rw [h, Nat.shiftLeft_eq, Nat.shiftRight_eq_div_pow]
  have := Nat.and_pow_two_sub_one_eq_mod (x / 2 ^ 8) 8
  simpa using this

theorem and_ff0000 (x : Nat) : x &&& 0x00ff0000 = x / 65536 % 256 * 65536 := by
  have h := and_shiftLeft_mask x 255 16
  have h2 : (255 : Nat) <<< 16 = 0x00ff0000 := by decide
  rw [h2] at h
  rw [h, Nat.shiftLeft_eq, Nat.shiftRight_eq_div_pow]
  have := Nat.and_pow_two_sub_one_eq_mod (x / 2 ^ 16) 8
  simpa using this

theorem byteSwap32_bytes (a b c d : Nat) (ha : a < 256) (hb : b < 256) (hc : c < 256)
    (hd : d < 256) :
    byteSwap32 (a + 256 * b + 65536 * c + 16777216 * d) =
      2 ^ 24 * a + (2 ^ 16 * b + (2 ^ 8 * c + d)) := by
  unfold byteSwap32
  have e0 : (a + 256 * b + 65536 * c + 16777216 * d) % 256 = a := by omega
  have e1 : (a + 256 * b + 65536 * c + 16777216 * d) / 2 ^ 8 % 256 = b := by omega
  have e2 : (a + 256 * b + 65536 * c + 16777216 * d) / 2 ^ 16 % 256 = c := by omega
  have e3 : (a + 256 * b + 65536 * c + 16777216 * d) / 2 ^ 24 % 256 = d := by omega
  rw [e0, e1, e2, e3]
  ring

theorem byteSwap32_not32 (a b c d : Nat) (ha : a < 256) (hb : b < 256) (hc : c < 256)
    (hd : d < 256) :
    not32 (2 ^ 24 * a + (2 ^ 16 * b + (2 ^ 8 * c + d))) =
      byteSwap32 (not32 (a + 256 * b + 65536 * c + 16777216 * d)) := by
  have hn : not32 (a + 256 * b + 65536 * c + 16777216 * d) =
      (255 - a) + 256 * (255 - b) + 65536 * (255 - c) + 16777216 * (255 - d) := by
    unfold not32 UINT32_MOD
    omega
  have hm : not32 (2 ^ 24 * a + (2 ^ 16 * b + (2 ^ 8 * c + d))) =
      2 ^ 24 * (255 - a) + (2 ^ 16 * (255 - b) + (2 ^ 8 * (255 - c) + (255 - d))) := by
    unfold not32 UINT32_MOD
    omega
  rw [hn, hm, byteSwap32_bytes _ _ _ _ (by omega) (by omega) (by omega) (by omega)]

/-- The shift-and-mask expression `CRC32` returns is the byte swap of the complement. -/
theorem crc32_final (crc : Nat) (h : crc < 2 ^ 32) :
    not32 ((((crc &&& 0x000000ff) <<< 24) % UINT32_MOD) |||
           (((crc &&& 0x0000ff00) <<< 8) % UINT32_MOD) |||
           ((crc &&& 0x00ff0000) >>> 8) |||
           (crc >>> 24)) = byteSwap32 (not32 crc) := by
  obtain ⟨a, b, c, d, ha, hb, hc, hd, rfl⟩ : ∃ a b c d, a < 256 ∧ b < 256 ∧ c < 256 ∧ d < 256 ∧
      crc = a + 256 * b + 65536 * c + 16777216 * d :=
    ⟨crc % 256, crc / 256 % 256, crc / 65536 % 256, crc / 16777216,
      by omega, by omega, by omega, by omega, by omega⟩
  rw [and_ff, and_ff00, and_ff0000]
  simp only [Nat.shiftLeft_eq, Nat.shiftRight_eq_div_pow, UINT32_MOD]
  have e0 : (a + 256 * b + 65536 * c + 16777216 * d) % 256 = a := by omega
  have e1 : (a + 256 * b + 65536 * c + 16777216 * d) / 256 % 256 = b := by omega
  have e2 : (a + 256 * b + 65536 * c + 16777216 * d) / 65536 % 256 = c := by omega
  have e3 : (a + 256 * b + 65536 * c + 16777216 * d) / 2 ^ 24 = d := by omega
  rw [e0, e1, e2, e3]
  have f1 : a * 2 ^ 24 % 2 ^ 32 = 2 ^ 24 * a := by omega
  have f2 : b * 256 * 2 ^ 8 % 2 ^ 32 = 2 ^ 16 * b := by omega
  have f3 : c * 65536 / 2 ^ 8 = 2 ^ 8 * c := by omega
  rw [f1, f2, f3]
  have o3 : 2 ^ 8 * c ||| d = 2 ^ 8 * c + d := (Nat.mul_add_lt_is_or hd _).symm
  have o2 : 2 ^ 16 * b ||| (2 ^ 8 * c + d) = 2 ^ 16 * b + (2 ^ 8 * c + d) :=
    (Nat.mul_add_lt_is_or (by omega) _).symm
  have o1 : 2 ^ 24 * a ||| (2 ^ 16 * b + (2 ^ 8 * c + d)) =
      2 ^ 24 * a + (2 ^ 16 * b + (2 ^ 8 * c + d)) :=
    (Nat.mul_add_lt_is_or (by omega) _).symm
  rw [Nat.or_assoc, Nat.or_assoc, o3, o2, o1]
  exact byteSwap32_not32 a b c d ha hb hc hd

theorem foldl_crc32Byte_standard (data : List (Fin 256)) (crc : Nat) :
    data.foldl (fun c (b : Fin 256) => crc32Byte c b.val) crc =
      data.foldl crc32StandardByte crc := by
  induction data generalizing crc with
  | nil => rfl
  | cons b l ih => rw [List.foldl_cons, List.foldl_cons, crc32Byte_standard, ih]

set_option maxRecDepth 100000 in
/-- The check value: on the ASCII bytes of `123456789` the standard CRC-32 is `0xCBF43926`
and `CRC32` returns its byte swap `0x2639F4CB`, also when the digits are a slice of a
longer array. -/
theorem CRC32_check_value :
    CRC32 exampleDigits 0 8 = some 0x2639F4CB ∧
    crc32Standard exampleDigits = 0xCBF43926 ∧
    byteSwap32 0xCBF43926 = 0x2639F4CB ∧
    CRC32 [1, 49, 50, 51, 52, 53, 54, 55, 56, 57, 0] 1 9 = some 0x2639F4CB := by
  decide

/-- C25: for every byte array (shorter than the address space) and every `start <= end`
within it, `CRC32(bytes, start, end)` returns the standard Ethernet CRC-32 of
`bytes[start..end]` (reflected polynomial `0xEDB88320`, initial value `0xFFFFFFFF`, final
complement) with its four bytes in reversed order.  For the ASCII bytes of `123456789` the
function returns `0x2639F4CB`, the byte swap of the standard check value `0xCBF43926`. -/
theorem CRC32_spec (bytes : List (Fin 256)) (start stop : Nat) (h1 : start ≤ stop)
    (h2 : stop < bytes.length) (hsz : bytes.length < SIZE_MOD) :
    CRC32 bytes start stop =
      some (byteSwap32 (crc32Standard ((bytes.drop start).take (stop + 1 - start)))) ∧
    CRC32 exampleDigits 0 8 = some 0x2639F4CB ∧
    crc32Standard exampleDigits = 0xCBF43926 ∧
    byteSwap32 0xCBF43926 = 0x2639F4CB := by
  refine ⟨?_, CRC32_check_value.1, CRC32_check_value.2.1, CRC32_check_value.2.2.1⟩
  unfold CRC32
  rw [crc32Loop_eq bytes stop h2 hsz (stop + 1 - start) start (bytes.length + 1) _
    (by omega) (by omega), Option.map_some']
  have hlt := foldl_crc32Byte_lt ((bytes.drop start).take (stop + 1 - start)) 0xffffffff
    (by decide)
  rw [crc32_final _ hlt, foldl_crc32Byte_standard]
  rfl

theorem CRC32_spec_witness :
    CRC32 [1, 49, 50, 51, 52, 53, 54, 55, 56, 57, 0] 1 9 = some 0x2639F4CB ∧
    (CRC32 [1, 49, 50, 51, 52, 53, 54, 55, 56, 57, 0] 1 9 =
      some (byteSwap32 (crc32Standard
        ((([1, 49, 50, 51, 52, 53, 54, 55, 56, 57, 0] : List (Fin 256)).drop 1).take
          (9 + 1 - 1)))) ∧
    CRC32 exampleDigits 0 8 = some 0x2639F4CB ∧
    crc32Standard exampleDigits = 0xCBF43926 ∧
    byteSwap32 0xCBF43926 = 0x2639F4CB) :=
  ⟨CRC32_check_value.2.2.2,
    CRC32_spec [1, 49, 50, 51, 52, 53, 54, 55, 56, 57, 0] 1 9 (by decide) (by decide)
      (by decide)⟩

/-! ### `next_pow2` -/

theorem smear_step (s x n : Nat)
    (h : ∀ i, s.testBit i = true ↔ ∃ j, j < n ∧ x.testBit (i + j) = true) (i : Nat) :
    (s ||| (s >>> n)).testBit i = true ↔ ∃ j, j < n + n ∧ x.testBit (i + j) = true := by
  rw [Nat.testBit_or, Nat.testBit_shiftRight, Bool.or_eq_true, h, h]
  constructor
  · rintro (⟨j, hj, hx⟩ | ⟨j, hj, hx⟩)
    · exact ⟨j, by omega, hx⟩
    · exact ⟨n + j, by omega, by rw [← hx]; congr 1; omega⟩
  · rintro ⟨j, hj, hx⟩
    by_cases hjn : j < n
    · exact Or.inl ⟨j, hjn, hx⟩
    · exact Or.inr ⟨j - n, by omega, by rw [← hx]; congr 1; omega⟩

theorem testBit_top (x t : Nat) (h1 : 2 ^ t ≤ x) (h2 : x < 2 ^ (t + 1)) :
    x.testBit t = true := by
  rw [Nat.testBit_to_div_mod]
  have : x / 2 ^ t = 1 := by
    apply Nat.div_eq_of_lt_le
    · simpa using h1
    · calc x < 2 ^ (t + 1) := h2
        _ = (1 + 1) * 2 ^ t := by ring
  simp [this]

/-- The or-shift cascade of the portable branch fills every bit below the highest set bit
of a 64 bit value. -/
theorem smear_eq (x : Nat) (hx : x < 2 ^ 64) :
    let v1 := x ||| (x >>> 1)
    let v2 := v1 ||| (v1 >>> 2)
    let v3 := v2 ||| (v2 >>> 4)
    let v4 := v3 ||| (v3 >>> 8)
    let v5 := v4 ||| (v4 >>> 16)
    v5 ||| (v5 >>> 32) = 2 ^ x.size - 1 := by
  intro v1 v2 v3 v4 v5
  have h0 : ∀ i, x.testBit i = true ↔ ∃ j, j < 1 ∧ x.testBit (i + j) = true := by
    intro i
    constructor
    · intro h; exact ⟨0, by omega, h⟩
    · rintro ⟨j, hj, h⟩
      have : j = 0 := by omega
      subst this
      exact h
  have h1 := smear_step x x 1 h0
  have h2 := smear_step v1 x 2 h1
  have h3 := smear_step v2 x 4 h2
  have h4 := smear_step v3 x 8 h3
  have h5 := smear_step v4 x 16 h4
  have h6 := smear_step v5 x 32 h5
  apply Nat.eq_of_testBit_eq
  intro i
  rw [Nat.testBit_two_pow_sub_one]
  apply Bool.eq_iff_iff.mpr
  rw [h6, decide_eq_true_iff]
  constructor
  · rintro ⟨j, _, h⟩
    have := Nat.testBit_implies_ge h
    have h7 : i + j < x.size := Nat.lt_size.mpr this
    omega
  · intro hi
    have hpos : 0 < x.size := by omega
    have hle : 2 ^ (x.size - 1) ≤ x := Nat.lt_size.mp (by omega)
    have hlt : x < 2 ^ (x.size - 1 + 1) := by
      rw [Nat.sub_add_cancel hpos]
      exact Nat.lt_size_self x
    have htop := testBit_top x (x.size - 1) hle hlt
    have hsz : x.size ≤ 64 := Nat.size_le.mpr hx
    exact ⟨x.size - 1 - i, by omega, by rw [← htop]; congr 1; omega⟩

theorem next_pow2_portable_eq (v : Nat) (h1 : 1 ≤ v) (h2 : v ≤ 2 ^ 63) :
    next_pow2_portable v = 2 ^ (v - 1).size := by
  have hv0 : (v + UINT64_MOD - 1) % UINT64_MOD = v - 1 := by
    unfold UINT64_MOD
    omega
  have hx : v - 1 < 2 ^ 64 := by omega
  have hs := smear_eq (v - 1) hx
  simp only at hs
  unfold next_pow2_portable
  simp only [hv0]
  rw [hs]
  have hsz : (v - 1).size ≤ 63 := Nat.size_le.mpr (by omega)
  have hp : 2 ^ (v - 1).size ≤ 2 ^ 63 := Nat.pow_le_pow_right (by decide) hsz
  have hpos : 0 < 2 ^ (v - 1).size := Nat.two_pow_pos _
  unfold UINT64_MOD
  omega

/-- The value `2 ^ size (v - 1)` is the smallest power of two that is at least `v`. -/
theorem pow_size_pred_spec (v : Nat) (h1 : 1 ≤ v) :
    v ≤ 2 ^ (v - 1).size ∧ 2 ^ (v - 1).size < 2 * v ∧
    (∀ m, v ≤ 2 ^ m → 2 ^ (v - 1).size ≤ 2 ^ m) ∧
    (∀ m, v = 2 ^ m → 2 ^ (v - 1).size = v) := by
  have ha : v - 1 < 2 ^ (v - 1).size := Nat.lt_size_self _
  have hmin : ∀ m, v ≤ 2 ^ m → 2 ^ (v - 1).size ≤ 2 ^ m := by
    intro m hm
    apply Nat.pow_le_pow_right (by decide)
    exact Nat.size_le.mpr (by omega)
  refine ⟨by omega, ?_, hmin, ?_⟩
  · by_cases hs : (v - 1).size = 0
    · rw [hs]; omega
    · have hle : 2 ^ ((v - 1).size - 1) ≤ v - 1 := Nat.lt_size.mp (by omega)
      have : 2 ^ (v - 1).size = 2 * 2 ^ ((v - 1).size - 1) := by
        rw [← Nat.pow_succ']
        congr 1
        omega
      omega
  · intro m hm
    have := hmin m (by omega)
    omega

theorem clzFrom_add_size (x : Nat) (hx : x ≠ 0) :
    ∀ n, x < 2 ^ n → clzFrom x n + x.size = n := by
  intro n
  induction n with
  | zero =>
    intro h
    simp at h
    exact absurd h hx
  | succ n ih =>
    intro h
    unfold clzFrom
    by_cases hb : x.testBit n = true
    · rw [if_pos hb]
      have h1 : n < x.size := Nat.lt_size.mpr (Nat.testBit_implies_ge hb)
      have h2 : x.size ≤ n + 1 := Nat.size_le.mpr h
      omega
    · rw [if_neg hb]
      have hlt : x < 2 ^ n := by
        by_contra hc
        exact hb (testBit_top x n (by omega) h)
      have := ih hlt
      omega

theorem builtin_clzl_eq (x : Nat) (hx : x ≠ 0) (h : x < 2 ^ 64) :
    builtin_clzl x = some (64 - x.size) := by
  unfold builtin_clzl
  rw [if_neg hx]
  have := clzFrom_add_size x hx 64 h
  congr 1
  omega

/-- Both branches of `next_pow2` on `1 <= v <= 2^63`: the portable branch returns
`2 ^ size (v - 1)`, the smallest power of two that is at least `v`; the `__GNUC__` branch
returns the same value up to `v = 2^30`, the converted `INT_MIN` for `2^30 < v <= 2^31`, and
is undefined above. -/
theorem next_pow2_branches (v : Nat) (h1 : 1 ≤ v) (h2 : v ≤ 2 ^ 63) :
    next_pow2 false v = some (2 ^ (v - 1).size) ∧
    v ≤ 2 ^ (v - 1).size ∧ 2 ^ (v - 1).size < 2 * v ∧
    (∀ m, v ≤ 2 ^ m → 2 ^ (v - 1).size ≤ 2 ^ m) ∧
    (∀ m, v = 2 ^ m → 2 ^ (v - 1).size = v) ∧
    next_pow2 true v =
      (if v ≤ 2 ^ 30 then some (2 ^ (v - 1).size)
       else if v ≤ 2 ^ 31 then some (UINT64_MOD - 2 ^ 31) else none) := by
  obtain ⟨p1, p2, p3, p4⟩ := pow_size_pred_spec v h1
  refine ⟨?_, p1, p2, p3, p4, ?_⟩
  · unfold next_pow2
    rw [if_neg (by decide), next_pow2_portable_eq v h1 h2]
  · unfold next_pow2
    rw [if_pos rfl]
    by_cases hv1 : v = 1
    · subst hv1
      rw [if_pos rfl, if_pos (by decide)]
      congr 1
      omega
    · rw [if_neg hv1]
      have hv0 : (v + UINT64_MOD - 1) % UINT64_MOD = v - 1 := by
        unfold UINT64_MOD
        omega
      rw [hv0, builtin_clzl_eq (v - 1) (by omega) (by omega), Option.some_bind]
      have hsz : (v - 1).size ≤ 63 := Nat.size_le.mpr (by omega)
      have h64 : 64 - (64 - (v - 1).size) = (v - 1).size := by omega
      rw [h64]
      unfold shiftLeftInt1
      by_cases ha : v ≤ 2 ^ 30
      · have : (v - 1).size ≤ 30 := Nat.size_le.mpr (by omega)
        rw [if_pos ha, if_pos (by omega)]
      · have hge : 30 < (v - 1).size := Nat.lt_size.mpr (by omega)
        rw [if_neg ha, if_neg (by omega)]
        by_cases hb : v ≤ 2 ^ 31
        · have : (v - 1).size ≤ 31 := Nat.size_le.mpr (by omega)
          rw [if_pos hb, if_pos (by omega)]
        · have : 31 < (v - 1).size := Nat.lt_size.mpr (by omega)
          rw [if_neg hb, if_neg (by omega)]

/-- C26, the defect: in the branch compiled under `__GNUC__` the shift `1 << n` is a shift of
an `int`.  For `v = 2^32` the shift count is 32 and the result is undefined, and for
`v = 2^31` the result is the converted `INT_MIN`, `0xFFFFFFFF80000000`, which is not a power
of two; the portable branch returns `2^32` and `2^31` there.  Up to `v = 2^30` the two
branches agree. -/
theorem next_pow2_gnuc_shift_is_int :
    next_pow2 true 4294967296 = none ∧
    next_pow2 false 4294967296 = some 4294967296 ∧
    next_pow2 true 2147483648 = some 18446744071562067968 ∧
    next_pow2 false 2147483648 = some 2147483648 ∧
    next_pow2 true 1073741824 = some 1073741824 ∧
    next_pow2 true 1000 = some 1024 ∧
    next_pow2 false 1000 = some 1024 := by
  decide

/-! ### `str_replace` -/

/-- On a terminated buffer and a `search` without terminator inside, `strncmp` over
`search.length()` characters tests whether `search` is a prefix. -/
theorem strncmpEq_prefix (search : List Char) (hnul : NUL ∉ search) (tb : List Char) :
    ∀ rest : List Char,
      strncmpEq search.length (rest ++ [NUL]) (search ++ tb) = some (search.isPrefixOf rest) := by
  induction search with
  | nil =>
    intro rest
    cases rest <;> rfl
  | cons y s ih =>
    intro rest
    have hy : y ≠ NUL := fun h => hnul (h ▸ List.mem_cons_self _ _)
    have hs : NUL ∉ s := fun h => hnul (List.mem_cons_of_mem _ h)
    cases rest with
    | nil =>
      show strncmpEq (s.length + 1) (NUL :: []) (y :: (s ++ tb)) = some false
      rw [strncmpEq, if_pos (fun h => hy h.symm)]
    | cons x r =>
      show strncmpEq (s.length + 1) (x :: (r ++ [NUL])) (y :: (s ++ tb)) =
        some ((y :: s).isPrefixOf (x :: r))
      rw [strncmpEq]
      by_cases hxy : x = y
      · subst hxy
        rw [if_neg (by simp), if_neg hy, ih hs r]
        simp [List.isPrefixOf]
      · rw [if_pos hxy]
        have : (y == x) = false := by
          rw [beq_eq_false_iff_ne]
          exact fun h => hxy h.symm
        simp [List.isPrefixOf, this]

theorem replaceOccurrences_nil (search replace : List Char) (fuel : Nat) :
    replaceOccurrences search replace fuel [] = [] := by
  cases fuel <;> rfl

theorem replaceOccurrences_cons (search replace : List Char) (fuel : Nat) (c : Char)
    (cs : List Char) :
    replaceOccurrences search replace (fuel + 1) (c :: cs) =
      if search.isPrefixOf (c :: cs) then
        replace ++ replaceOccurrences search replace fuel ((c :: cs).drop search.length)
      else c :: replaceOccurrences search replace fuel cs := by
  rw [replaceOccurrences]

/-- The loop of `str_replace` from index `i` appends the reading of the claim of the rest
of `subject`. -/
theorem strReplaceLoop_eq (search replace subject : List Char) (hne : search ≠ [])
    (hnul : NUL ∉ search) (hsz : subject.length < SIZE_MOD) :
    ∀ (fuel i : Nat) (ret : List Char), i ≤ subject.length → subject.length - i ≤ fuel →
      strReplaceLoop search replace subject fuel i ret =
        some (ret ++ replaceOccurrences search replace fuel (subject.drop i)) := by
  have hn : 1 ≤ search.length := by
    cases search with
    | nil => exact absurd rfl hne
    | cons _ _ => simp
  intro fuel
  induction fuel with
  | zero =>
    intro i ret hi hf
    have : i = subject.length := by omega
    subst this
    simp [strReplaceLoop, replaceOccurrences]
  | succ fuel ih =>
    intro i ret hi hf
    unfold strReplaceLoop
    by_cases hlt : i < subject.length
    · rw [if_pos hlt]
      have hdrop : (subject ++ [NUL]).drop i = subject.drop i ++ [NUL] :=
        List.drop_append_of_le_length hi
      have hcons : subject.drop i = subject.get ⟨i, hlt⟩ :: subject.drop (i + 1) :=
        List.drop_eq_getElem_cons hlt
      rw [hdrop, strncmpEq_prefix search hnul [NUL] (subject.drop i), Option.some_bind]
      by_cases hm : search.isPrefixOf (subject.drop i) = true
      · rw [if_pos hm]
        have hpre : search <+: subject.drop i := List.isPrefixOf_iff_prefix.mp hm
        have hlen : search.length ≤ subject.length - i := by
          have := hpre.length_le
          rwa [List.length_drop] at this
        have hadv : addSize (addSize i (subSize search.length 1)) 1 = i + search.length := by
          have h1 : subSize search.length 1 = search.length - 1 := subSize_one hn (by omega)
          have h2 : (i + (search.length - 1)) % SIZE_MOD = i + (search.length - 1) :=
            Nat.mod_eq_of_lt (by omega)
          have h3 : (i + (search.length - 1) + 1) % SIZE_MOD = i + (search.length - 1) + 1 :=
            Nat.mod_eq_of_lt (by omega)
          unfold addSize
          rw [h1, h2, h3]
          omega
        rw [hadv, ih (i + search.length) (ret ++ replace) (by omega) (by omega)]
        have hspec : replaceOccurrences search replace (fuel + 1) (subject.drop i) =
            replace ++ replaceOccurrences search replace fuel
              (subject.drop (i + search.length)) := by
          rw [hcons] at hm ⊢
          rw [replaceOccurrences_cons, if_pos hm, ← hcons, List.drop_drop, Nat.add_comm]
        rw [hspec, List.append_assoc]
      · rw [if_neg hm]
        have hrd : rd subject i = some (subject.get ⟨i, hlt⟩) := List.getElem?_eq_getElem hlt
        have hadv : addSize i 1 = i + 1 := by
          unfold addSize
          exact Nat.mod_eq_of_lt (by omega)
        rw [hrd, Option.some_bind, hadv, ih (i + 1) _ (by omega) (by omega)]
        have hspec : replaceOccurrences search replace (fuel + 1) (subject.drop i) =
            subject.get ⟨i, hlt⟩ :: replaceOccurrences search replace fuel
              (subject.drop (i + 1)) := by
          rw [hcons] at hm ⊢
          rw [replaceOccurrences_cons, if_neg hm]
        rw [hspec]
        simp
    · rw [if_neg hlt]
      have : i = subject.length := by omega
      subst this
      simp [replaceOccurrences_nil]

/-- Where `search` does not occur, the reading of the claim keeps the string. -/
theorem replaceOccurrences_no_occurrence (search replace : List Char) :
    ∀ (fuel : Nat) (s : List Char), ¬ search <:+: s →
      replaceOccurrences search replace fuel s = s := by
  intro fuel
  induction fuel with
  | zero => intro s _; rfl
  | succ fuel ih =>
    intro s hs
    cases s with
    | nil => rfl
    | cons c cs =>
      have h1 : ¬ search.isPrefixOf (c :: cs) = true := fun h =>
        hs (List.isPrefixOf_iff_prefix.mp h).isInfix
      have h2 : ¬ search <:+: cs := fun h => hs (h.trans (List.suffix_cons c cs).isInfix)
      rw [replaceOccurrences_cons, if_neg h1, ih cs h2]

/-- Replacing `search` by itself keeps the string. -/
theorem replaceOccurrences_self (search : List Char) :
    ∀ (fuel : Nat) (s : List Char), replaceOccurrences search search fuel s = s := by
  intro fuel
  induction fuel with
  | zero => intro s; rfl
  | succ fuel ih =>
    intro s
    cases s with
    | nil => rfl
    | cons c cs =>
      rw [replaceOccurrences_cons]
      by_cases h : search.isPrefixOf (c :: cs) = true
      · rw [if_pos h, ih]
        have hpre := List.isPrefixOf_iff_prefix.mp h
        obtain ⟨t, ht⟩ := hpre
        rw [← ht, List.drop_left]
      · rw [if_neg h, ih]

/-- The reading of the claim does not depend on the bound once it covers the string. -/
theorem replaceOccurrences_fuel (search replace : List Char) (hne : search ≠ []) :
    ∀ (f g : Nat) (s : List Char), s.length ≤ f → s.length ≤ g →
      replaceOccurrences search replace f s = replaceOccurrences search replace g s := by
  have hn : 1 ≤ search.length := by
    cases search with
    | nil => exact absurd rfl hne
    | cons _ _ => simp
  intro f
  induction f with
  | zero =>
    intro g s hf _
    have : s = [] := List.length_eq_zero.mp (by omega)
    subst this
    rw [replaceOccurrences_nil, replaceOccurrences_nil]
  | succ f ih =>
    intro g s hf hg
    cases s with
    | nil => rw [replaceOccurrences_nil, replaceOccurrences_nil]
    | cons c cs =>
      cases g with
      | zero => simp at hg
      | succ g =>
        simp only [List.length_cons] at hf hg
        rw [replaceOccurrences_cons, replaceOccurrences_cons]
        by_cases h : search.isPrefixOf (c :: cs) = true
        · rw [if_pos h, if_pos h]
          have hl : ((c :: cs).drop search.length).length ≤ cs.length := by
            rw [List.length_drop, List.length_cons]
            omega
          rw [ih g _ (by omega) (by omega)]
        · rw [if_neg h, if_neg h, ih g cs (by omega) (by omega)]

/-- When the first occurrence of `search` in `u ++ search ++ rest` starts right after `u`,
the reading of the claim is `u`, then `replace`, then the reading of `rest`. -/
theorem replaceOccurrences_first (search replace : List Char) (hne : search ≠ [])
    (rest : List Char) :
    ∀ (u : List Char) (f g : Nat), (u ++ search ++ rest).length ≤ f → rest.length ≤ g →
      (∀ k, k < u.length → ¬ search <+: (u ++ search ++ rest).drop k) →
      replaceOccurrences search replace f (u ++ search ++ rest) =
        u ++ replace ++ replaceOccurrences search replace g rest := by
  intro u
  induction u with
  | nil =>
    intro f g hf hg _
    cases f with
    | zero =>
      simp only [List.nil_append, List.length_append] at hf
      have : search.length = 0 := by omega
      exact absurd (List.length_eq_zero.mp this) hne
    | succ f =>
      cases hsr : search ++ rest with
      | nil =>
        have : search = [] := (List.append_eq_nil.mp hsr).1
        exact absurd this hne
      | cons c cs =>
        have hp : search.isPrefixOf (c :: cs) = true := by
          rw [← hsr]
          exact List.isPrefixOf_iff_prefix.mpr (List.prefix_append _ _)
        simp only [List.nil_append] at hf ⊢
        rw [hsr] at hf ⊢
        rw [replaceOccurrences_cons, if_pos hp, ← hsr, List.drop_left]
        rw [replaceOccurrences_fuel search replace hne f g rest (by
          rw [← hsr, List.length_append] at hf
          have : 1 ≤ search.length := by
            cases search with
            | nil => exact absurd rfl hne
            | cons _ _ => simp
          omega) hg]
  | cons x u ih =>
    intro f g hf hg hfirst
    cases f with
    | zero => simp at hf
    | succ f =>
      have h0 := hfirst 0 (by simp)
      simp only [List.drop_zero, List.cons_append] at h0
      have hnp : ¬ search.isPrefixOf (x :: (u ++ search ++ rest)) = true := fun h =>
        h0 (by simpa using List.isPrefixOf_iff_prefix.mp h)
      simp only [List.cons_append, List.length_cons] at hf ⊢
      rw [replaceOccurrences_cons, if_neg hnp, ih f g (by omega) hg (fun k hk => by
        have := hfirst (k + 1) (by simp; omega)
        simpa using this)]

theorem str_replace_eq (search replace subject : List Char) (hne : search ≠ [])
    (hnul : NUL ∉ search) (hsz : subject.length < SIZE_MOD) :
    str_replace search replace subject =
      some (replaceOccurrences search replace subject.length subject) := by
  unfold str_replace
  rw [strReplaceLoop_eq search replace subject hne hnul hsz subject.length 0 []
    (Nat.zero_le _) (by omega)]
  rfl

/-- C27: for a non-empty `search` without a terminator inside, and every `replace` and
`subject`, `str_replace(search, replace, subject)` returns `subject` with every occurrence
of `search`, found scanning from the left without overlap, replaced by `replace` and every
other character kept in order.  It returns `subject` unchanged when `search` does not occur
in it.  When the first occurrence of `search` in `u ++ search ++ rest` starts right after
`u`, the result is `u`, then `replace`, then the result for `rest`.  And
`str_replace(s, s, x) = x`. -/
theorem str_replace_spec (search replace : List Char) (hne : search ≠ [])
    (hnul : NUL ∉ search) :
    (∀ subject : List Char, subject.length < SIZE_MOD →
      str_replace search replace subject =
        some (replaceOccurrences search replace subject.length subject)) ∧
    (∀ subject : List Char, subject.length < SIZE_MOD → ¬ search <:+: subject →
      str_replace search replace subject = some subject) ∧
    (∀ u rest : List Char, (u ++ search ++ rest).length < SIZE_MOD →
      (∀ k, k < u.length → ¬ search <+: (u ++ search ++ rest).drop k) →
      ∃ r, str_replace search replace rest = some r ∧
        str_replace search replace (u ++ search ++ rest) = some (u ++ replace ++ r)) ∧
    (∀ x : List Char, x.length < SIZE_MOD → str_replace search search x = some x) := by
  refine ⟨fun subject hsz => str_replace_eq search replace subject hne hnul hsz, ?_, ?_, ?_⟩
  · intro subject hsz hno
    rw [str_replace_eq search replace subject hne hnul hsz,
      replaceOccurrences_no_occurrence search replace _ subject hno]
  · intro u rest hsz hfirst
    have hrest : rest.length < SIZE_MOD := by
      simp only [List.length_append] at hsz
      omega
    refine ⟨_, str_replace_eq search replace rest hne hnul hrest, ?_⟩
    rw [str_replace_eq search replace _ hne hnul hsz,
      replaceOccurrences_first search replace hne rest u _ rest.length (le_refl _) (le_refl _)
        hfirst]
  · intro x hsz
    rw [str_replace_eq search search x hne hnul hsz, replaceOccurrences_self]

theorem str_replace_spec_witness :
    str_replace ['a', 'b'] ['X', 'Y', 'Z'] ['c', 'a', 'b', 'a', 'b', 'b', 'a', 'b'] =
      some ['c', 'X', 'Y', 'Z', 'X', 'Y', 'Z', 'b', 'X', 'Y', 'Z'] ∧
    str_replace ['a', 'a'] ['b'] ['a', 'a', 'a', 'a', 'a'] = some ['b', 'b', 'a'] ∧
    str_replace ['a', 'b', 'c'] ['b'] ['a', 'b'] = some ['a', 'b'] ∧
    str_replace [] ['b'] ['a'] = none ∧
    ((∀ subject : List Char, subject.length < SIZE_MOD →
      str_replace ['a', 'b'] ['X', 'Y', 'Z'] subject =
        some (replaceOccurrences ['a', 'b'] ['X', 'Y', 'Z'] subject.length subject)) ∧
    (∀ subject : List Char, subject.length < SIZE_MOD → ¬ ['a', 'b'] <:+: subject →
      str_replace ['a', 'b'] ['X', 'Y', 'Z'] subject = some subject) ∧
    (∀ u rest : List Char, (u ++ ['a', 'b'] ++ rest).length < SIZE_MOD →
      (∀ k, k < u.length → ¬ ['a', 'b'] <+: (u ++ ['a', 'b'] ++ rest).drop k) →
      ∃ r, str_replace ['a', 'b'] ['X', 'Y', 'Z'] rest = some r ∧
        str_replace ['a', 'b'] ['X', 'Y', 'Z'] (u ++ ['a', 'b'] ++ rest) =
          some (u ++ ['X', 'Y', 'Z'] ++ r)) ∧
    (∀ x : List Char, x.length < SIZE_MOD → str_replace ['a', 'b'] ['a', 'b'] x = some x)) :=
  ⟨by decide, by decide, by decide, by decide,
    str_replace_spec ['a', 'b'] ['X', 'Y', 'Z'] (by decide) (by decide)⟩

/-! ### Band edges passed to the coefficient design -/

/-- The clamps of `FIRFilter::Refresh` do their part: for a positive Nyquist limit the
lower band edge is never negative and the upper one never above the Nyquist limit. -/
theorem FIRFilter_bandEdges_clamped (env : MathEnv ℚ) (hlit : ∀ q, env.lit q = q)
    (type : FilterType) (flo fhi nyquist : ℚ) :
    0 ≤ (FIRFilter_bandEdges env type flo fhi nyquist).1 ∧
    (FIRFilter_bandEdges env type flo fhi nyquist).2 ≤ nyquist := by
  unfold FIRFilter_bandEdges
  simp only [hlit]
  constructor <;> split_ifs <;> dsimp only at * <;> linarith

/-- The coefficients `FIRFilter::Refresh` leaves in `m_coefficients` are those the
coefficient design returned for the normalised band edges `flo / nyquist`, `fhi / nyquist`. -/
theorem FIRFilter_run_coefficients {α : Type} [Zero α] [Add α] [Sub α] [Mul α] [Div α] [Neg α]
    [LT α] [DecidableRel (fun a b : α => a < b)] (env : MathEnv α) (plat : FIRPlatform α)
    (fuel : Nat) (blank : Waveform α) (pad : α) (clear : Bool) (st st1 : FIRFilterState α)
    (din : Nat) (fs_per_sample : Int) (flo fhi nyquist atten : α) (L : Nat)
    (hret : FIRFilter_run env plat fuel blank pad clear st din fs_per_sample flo fhi nyquist
      atten L = some st1) :
    CalculateFilterCoefficients env fuel (resize pad st.m_coefficients L) (flo / nyquist)
      (fhi / nyquist) atten st.m_filterType = some st1.m_coefficients := by
  unfold FIRFilter_run at hret
  simp only [Option.bind_eq_some, Option.map_eq_some'] at hret
  obtain ⟨cf, hcf, r, _, w, _, d1, _, d2, _, out, _, d3, _, hst⟩ := hret
  subst hst
  exact hcf

/-- C29, the defect: on the high pass filter `exampleHighPass`, whose corner frequency
`10^12` Hz is twice the Nyquist limit `5 * 10^11` Hz of its input, `FIRFilter::Refresh`
works with the band edges `flo = 10^12`, `fhi = 5 * 10^11`; they differ and the filter
length is 3, so the configuration is not rejected and the coefficient design is run with
`fa = flo / nyquist = 2` and `fb = fhi / nyquist = 1`, which do not satisfy `fa < fb <= 1`;
the filter returns with the coefficients designed from them. -/
theorem FIRFilter_Refresh_passes_inverted_band :
    FIRFilter_bandEdges exampleMath exampleHighPass.m_filterType exampleHighPass.m_freqLow
      exampleHighPass.m_freqHigh 500000000000 = (1000000000000, 500000000000) ∧
    FIRFilter_Refresh exampleMath examplePlatform 5 (blankWaveform ℚ) 0 true exampleHighPass =
      FIRFilter_run exampleMath examplePlatform 5 (blankWaveform ℚ) 0 true exampleHighPass 1
        1000 1000000000000 500000000000 500000000000 10 3 ∧
    (1000000000000 : ℚ) / 500000000000 = 2 ∧ (500000000000 : ℚ) / 500000000000 = 1 ∧
    ¬ ((2 : ℚ) < 1) ∧
    CalculateFilterCoefficients exampleMath 5 [0, 0, 0] 2 1 10
      FilterType.FILTER_TYPE_HIGHPASS = some [221 / 21, -1, 221 / 21] ∧
    ∃ st1, FIRFilter_Refresh exampleMath examplePlatform 5 (blankWaveform ℚ) 0 true
        exampleHighPass = some st1 ∧
      st1.m_coefficients = [221 / 21, -1, 221 / 21] := by
  have hnyq : exampleMath.lit FS_PER_SECOND / exampleMath.lit (exampleAnalogInput.m_timescale : ℚ) /
      exampleMath.lit 2 = 500000000000 := by
    norm_num [exampleMath, FS_PER_SECOND, exampleAnalogInput]
  have hsr : exampleMath.lit FS_PER_SECOND / exampleMath.lit (exampleAnalogInput.m_timescale : ℚ) =
      1000000000000 := by
    norm_num [exampleMath, FS_PER_SECOND, exampleAnalogInput]
  have hedges : FIRFilter_bandEdges exampleMath exampleHighPass.m_filterType
      exampleHighPass.m_freqLow exampleHighPass.m_freqHigh 500000000000 =
      (1000000000000, 500000000000) := by
    norm_num +decide [FIRFilter_bandEdges, exampleMath, exampleHighPass]
  have hL : (3 : Nat) = FIRFilter_filterLength exampleMath exampleHighPass.m_filterLength
      exampleHighPass.m_stopbandAtten 1000000000000 1000000000000 500000000000 := by
    norm_num +decide [FIRFilter_filterLength, exampleHighPass, SIZE_MOD]
  have hcf : CalculateFilterCoefficients exampleMath 5 [0, 0, 0] 2 1 10
      FilterType.FILTER_TYPE_HIGHPASS = some [221 / 21, -1, 221 / 21] := by
    norm_num +decide [CalculateFilterCoefficients, exampleMath, subSize, SIZE_MOD, firImpulse,
      kaiserAlpha, Bessel, BesselLoop, forLoop, windowStep, windowArg, mirrorStep, rd, wr]
  have heq := FIRFilter_Refresh_eq exampleMath examplePlatform 5 (blankWaveform ℚ) 0 true
    exampleHighPass 1 exampleAnalogInput 1000000000000 500000000000 1000000000000 500000000000 3
    (by decide) (by decide) rfl rfl hsr.symm (by rw [← hnyq, hsr]) (by rw [hedges])
    (by rw [hedges]) hL
  have hgood : ¬ ((1000000000000 : ℚ) = 500000000000 ∨ 3 > 4096) := by norm_num
  have heq2 : FIRFilter_Refresh exampleMath examplePlatform 5 (blankWaveform ℚ) 0 true
      exampleHighPass =
      FIRFilter_run exampleMath examplePlatform 5 (blankWaveform ℚ) 0 true exampleHighPass 1
        1000 1000000000000 500000000000 500000000000 10 3 := by
    rw [heq]
    exact if_neg (by exact hgood)
  refine ⟨hedges, heq2, by norm_num, by norm_num, by norm_num, hcf, ?_⟩
  obtain ⟨st1, hst1⟩ := FIRFilter_run_returns exampleMath examplePlatform 5 (blankWaveform ℚ) 0
    true exampleHighPass 1 exampleAnalogInput 1000 1000000000000 500000000000 500000000000 10 3
    [221 / 21, -1, 221 / 21] (by decide) rfl rfl (Or.inl rfl)
    (by
      have h1 : resize (0 : ℚ) exampleHighPass.m_coefficients 3 = [0, 0, 0] := by
        simp [resize, exampleHighPass]
      have h2 : (1000000000000 : ℚ) / 500000000000 = 2 := by norm_num
      have h3 : (500000000000 : ℚ) / 500000000000 = 1 := by norm_num
      rw [h1, h2, h3]
      exact hcf)
    (fun capS hlen => DoFilterKernelGeneric_returns _ _ _ (by decide) (by decide) (by
      rw [hlen]
      decide))
  have hco := FIRFilter_run_coefficients exampleMath examplePlatform 5 (blankWaveform ℚ) 0 true
    exampleHighPass st1 1 1000 1000000000000 500000000000 500000000000 10 3 hst1
  have h1 : resize (0 : ℚ) exampleHighPass.m_coefficients 3 = [0, 0, 0] := by
    simp [resize, exampleHighPass]
  have h2 : (1000000000000 : ℚ) / 500000000000 = 2 := by norm_num
  have h3 : (500000000000 : ℚ) / 500000000000 = 1 := by norm_num
  rw [h1, h2, h3] at hco
  refine ⟨st1, heq2.trans hst1, ?_⟩
  exact (Option.some.inj (hco.symm.trans hcf))

/-! ### Notch and band-pass designs -/

/-- One pass of the windowing loop keeps the two runs opposite on the taps written. -/
theorem windowStep_opposite {α : Type} [Add α] [Sub α] [Mul α] [Div α] [Neg α] [LT α]
    [DecidableRel (fun a b : α => a < b)] (env : MathEnv α) (fuel : Nat)
    (impulse : List α) (alpha ia : α) (np j : Nat) (cN cB cB1 : List α)
    (hneg : ∀ a b c : α, -a * b / c = -(a * b / c))
    (hrel : WindowOpposite np j cN cB)
    (hB : windowStep env fuel false impulse alpha ia np j cB = some cB1) :
    ∃ cN1, windowStep env fuel true impulse alpha ia np j cN = some cN1 ∧
      WindowOpposite np (j + 1) cN1 cB1 := by
  unfold windowStep at hB ⊢
  cases h1 : rd impulse j with
  | none => simp [h1] at hB
  | some imp =>
    cases h2 : Bessel env fuel (windowArg env alpha np j) with
    | none => simp [h1, h2] at hB
    | some b =>
      simp only [h1, h2, Option.some_bind] at hB ⊢
      unfold wr at hB ⊢
      by_cases hlt : np + j < cB.length
      · rw [if_pos hlt] at hB
        rw [if_pos (by rw [hrel.1]; exact hlt)]
        simp only [Bool.false_eq_true, if_false, Option.some.injEq] at hB
        subst hB
        refine ⟨_, rfl, by simp [hrel.1], fun m => ⟨fun hm => ?_, fun hm => ?_⟩⟩
        · by_cases hmj : m = np + j
          · subst hmj
            refine ⟨imp * b / ia, by simp [hlt], ?_⟩
            simp [hrel.1, hlt, hneg]
          · obtain ⟨x, hx1, hx2⟩ := (hrel.2 m).1 ⟨hm.1, by omega⟩
            refine ⟨x, ?_, ?_⟩
            · rw [List.getElem?_set, if_neg (fun h => hmj h.symm)]
              exact hx1
            · rw [List.getElem?_set, if_neg (fun h => hmj h.symm)]
              exact hx2
        · have hmj : ¬ np + j = m := by omega
          rw [List.getElem?_set, if_neg hmj, List.getElem?_set, if_neg hmj]
          exact (hrel.2 m).2 (by omega)
      · rw [if_neg hlt] at hB
        exact Option.noConfusion hB

/-- The windowing loops of the two runs, started opposite on the taps written so far, end
opposite on all the taps `np .. 2*np`. -/
theorem windowLoop_opposite {α : Type} [Add α] [Sub α] [Mul α] [Div α] [Neg α] [LT α]
    [DecidableRel (fun a b : α => a < b)] (env : MathEnv α) (fuel : Nat)
    (impulse : List α) (alpha ia : α) (np : Nat)
    (hneg : ∀ a b c : α, -a * b / c = -(a * b / c)) :
    ∀ (k j f : Nat) (cN cB outB : List α), j + k = np + 1 → k ≤ f →
      WindowOpposite np j cN cB →
      forLoop (np + 1) 1 (windowStep env fuel false impulse alpha ia np) f j cB = some outB →
      ∃ outN, forLoop (np + 1) 1 (windowStep env fuel true impulse alpha ia np) f j cN =
          some outN ∧ WindowOpposite np (np + 1) outN outB := by
  intro k
  induction k with
  | zero =>
    intro j f cN cB outB hjk _ hrel hB
    rw [forLoop_done _ _ _ _ _ _ (by omega)] at hB ⊢
    cases hB
    have : j = np + 1 := by omega
    subst this
    exact ⟨cN, rfl, hrel⟩
  | succ k ih =>
    intro j f cN cB outB hjk hf hrel hB
    have hj : j < np + 1 := by omega
    rw [forLoop_step _ _ _ _ _ hj (by omega)] at hB ⊢
    cases hs : windowStep env fuel false impulse alpha ia np j cB with
    | none => rw [hs] at hB; exact Option.noConfusion hB
    | some cB1 =>
      rw [hs, Option.some_bind] at hB
      obtain ⟨cN1, hN1, hrel1⟩ :=
        windowStep_opposite env fuel impulse alpha ia np j cN cB cB1 hneg hrel hs
      rw [hN1, Option.some_bind]
      exact ih (j + 1) (f - 1) cN1 cB1 outB (by omega) (by omega) hrel1 hB

/-- For an odd number of coefficients, whenever the band-pass design returns `bp` the notch
design with the same arguments returns an array `nt` with `nt[centre] = -bp[centre] + 1`
and `nt[k] = -bp[k]` elsewhere. -/
theorem CalculateFilterCoefficients_notch_of_bandpass {α : Type} [Add α] [Sub α] [Mul α]
    [Div α] [Neg α] [LT α] [DecidableRel (fun a b : α => a < b)] (env : MathEnv α)
    (fuel : Nat) (coeffs : List α) (fa fb stopbandAtten : α) (bp : List α)
    (hodd : coeffs.length % 2 = 1) (hsize : coeffs.length < SIZE_MOD)
    (hneg : ∀ a b c : α, -a * b / c = -(a * b / c))
    (hbp : CalculateFilterCoefficients env fuel coeffs fa fb stopbandAtten
      FilterType.FILTER_TYPE_BANDPASS = some bp) :
    ∃ nt, CalculateFilterCoefficients env fuel coeffs fa fb stopbandAtten
        FilterType.FILTER_TYPE_NOTCH = some nt ∧
      nt.length = coeffs.length ∧ bp.length = coeffs.length ∧
      ∀ k, k < coeffs.length → ∃ x, bp[k]? = some x ∧
        nt[k]? = some (if k = (coeffs.length - 1) / 2 then -x + env.lit 1 else -x) := by
  have h1 : 1 ≤ coeffs.length := by omega
  unfold CalculateFilterCoefficients at hbp ⊢
  simp only [subSize_one h1 hsize] at hbp ⊢
  cases hia : Bessel env fuel (kaiserAlpha env stopbandAtten) with
  | none => simp [hia] at hbp
  | some ia =>
    simp only [hia, Option.some_bind] at hbp ⊢
    rw [if_pos True.intro]
    obtain ⟨cB, hcB, hmB⟩ := Option.bind_eq_some.mp hbp
    have hlB : cB.length = coeffs.length :=
      forLoop_preserves _ _ _ (fun s => s.length = coeffs.length)
        (fun i s s1 hp hs => (windowStep_length env fuel false _ _ ia _ i s s1 hs).trans hp)
        _ _ _ _ rfl hcB
    have hrel0 : WindowOpposite ((coeffs.length - 1) / 2) 0 coeffs coeffs :=
      ⟨rfl, fun m => ⟨fun hm => absurd hm.2 (by omega), fun _ => rfl⟩⟩
    obtain ⟨cN, hcN, hrel⟩ := windowLoop_opposite env fuel _ _ ia ((coeffs.length - 1) / 2) hneg
      ((coeffs.length - 1) / 2 + 1) 0 ((coeffs.length - 1) / 2 + 1) coeffs coeffs cB (by omega)
      (le_refl _) hrel0 hcB
    have hlN : cN.length = coeffs.length := hrel.1.trans hlB
    obtain ⟨x0, hx0B, hx0N⟩ := (hrel.2 ((coeffs.length - 1) / 2)).1 ⟨le_refl _, by omega⟩
    have hnp : (coeffs.length - 1) / 2 < cN.length := by omega
    rw [hcN, Option.some_bind]
    have hrdN : rd cN ((coeffs.length - 1) / 2) = some (-x0) := hx0N
    rw [hrdN, Option.some_bind]
    unfold wr
    rw [if_pos hnp, Option.some_bind]
    obtain ⟨outN, hN1, hN2, hN3⟩ := mirrorLoop_spec coeffs.length h1 hsize
      ((coeffs.length - 1) / 2 + 1) 0 ((coeffs.length - 1) / 2 + 1)
      (cN.set ((coeffs.length - 1) / 2) (-x0 + env.lit 1)) (by omega) (le_refl _)
      (by simpa using hlN)
    obtain ⟨outB, hB1, hB2, hB3⟩ := mirrorLoop_spec coeffs.length h1 hsize
      ((coeffs.length - 1) / 2 + 1) 0 ((coeffs.length - 1) / 2 + 1) cB (by omega) (le_refl _) hlB
    have hbpeq : outB = bp := Option.some.inj (hB1.symm.trans hmB)
    subst hbpeq
    refine ⟨outN, hN1, hN2, hB2, fun k hk => ?_⟩
    rw [hN3 k, hB3 k]
    by_cases hkc : k = (coeffs.length - 1) / 2
    · subst hkc
      have hidx : coeffs.length - 1 - (coeffs.length - 1) / 2 = (coeffs.length - 1) / 2 := by
        omega
      rw [if_pos ⟨Nat.zero_le _, le_refl _⟩, if_pos ⟨Nat.zero_le _, le_refl _⟩, hidx]
      refine ⟨x0, hx0B, ?_⟩
      rw [if_pos rfl, List.getElem?_set, if_pos rfl, if_pos hnp]
    · by_cases hlow : k ≤ (coeffs.length - 1) / 2
      · rw [if_pos ⟨Nat.zero_le _, hlow⟩, if_pos ⟨Nat.zero_le _, hlow⟩]
        obtain ⟨x, hxB, hxN⟩ := (hrel.2 (coeffs.length - 1 - k)).1 ⟨by omega, by omega⟩
        refine ⟨x, hxB, ?_⟩
        rw [if_neg hkc, List.getElem?_set, if_neg (by omega)]
        exact hxN
      · rw [if_neg (fun h => hlow h.2), if_neg (fun h => hlow h.2)]
        obtain ⟨x, hxB, hxN⟩ := (hrel.2 k).1 ⟨by omega, by omega⟩
        refine ⟨x, hxB, ?_⟩
        rw [if_neg hkc, List.getElem?_set, if_neg (fun h => hkc h.symm)]
        exact hxN

/-- C30: for the same `fa`, `fb`, stop-band attenuation and odd length, on a carrier where
negation commutes with the product and quotient and `-x + 1 = 1 - x`: whenever
`CalculateFilterCoefficients` returns the band-pass coefficients `bp`, it returns for the
notch class an array `nt` of the same length with `nt[centre] = 1 - bp[centre]` and
`nt[k] = -bp[k]` for every other `k`.  In exact arithmetic both designs return, in this
relation, as soon as the fuel of the Bessel loops is large enough. -/
theorem CalculateFilterCoefficients_notch_inverts_bandpass {α : Type} [Add α] [Sub α] [Mul α]
    [Div α] [Neg α] [LT α] [DecidableRel (fun a b : α => a < b)] (env : MathEnv α)
    (fuel : Nat) (coeffs : List α) (fa fb stopbandAtten : α)
    (envQ : MathEnv ℚ) (coeffsQ : List ℚ) (faQ fbQ stopbandAttenQ : ℚ)
    (hodd : coeffs.length % 2 = 1) (hsize : coeffs.length < SIZE_MOD)
    (hneg : ∀ a b c : α, -a * b / c = -(a * b / c))
    (hsub : ∀ x : α, -x + env.lit 1 = env.lit 1 - x)
    (hoddQ : coeffsQ.length % 2 = 1) (hsizeQ : coeffsQ.length < SIZE_MOD)
    (hlit : ∀ q, envQ.lit q = q) :
    (∀ bp, CalculateFilterCoefficients env fuel coeffs fa fb stopbandAtten
        FilterType.FILTER_TYPE_BANDPASS = some bp →
      ∃ nt, CalculateFilterCoefficients env fuel coeffs fa fb stopbandAtten
          FilterType.FILTER_TYPE_NOTCH = some nt ∧
        nt.length = bp.length ∧
        ∀ k, k < bp.length → ∃ x, bp[k]? = some x ∧
          nt[k]? = some (if k = (bp.length - 1) / 2 then env.lit 1 - x else -x)) ∧
    (∃ fuel0, ∀ fuel1, fuel0 ≤ fuel1 →
      ∃ bp nt, CalculateFilterCoefficients envQ fuel1 coeffsQ faQ fbQ stopbandAttenQ
          FilterType.FILTER_TYPE_BANDPASS = some bp ∧
        CalculateFilterCoefficients envQ fuel1 coeffsQ faQ fbQ stopbandAttenQ
          FilterType.FILTER_TYPE_NOTCH = some nt ∧
        nt.length = bp.length ∧
        ∀ k, k < bp.length → ∃ x, bp[k]? = some x ∧
          nt[k]? = some (if k = (bp.length - 1) / 2 then 1 - x else -x)) := by
  constructor
  · intro bp hbp
    obtain ⟨nt, hnt, hl1, hl2, hrel⟩ := CalculateFilterCoefficients_notch_of_bandpass env fuel
      coeffs fa fb stopbandAtten bp hodd hsize hneg hbp
    refine ⟨nt, hnt, hl1.trans hl2.symm, fun k hk => ?_⟩
    obtain ⟨x, hx1, hx2⟩ := hrel k (by omega)
    refine ⟨x, hx1, ?_⟩
    rw [hx2, hl2]
    by_cases hkc : k = (coeffs.length - 1) / 2
    · rw [if_pos hkc, if_pos hkc, hsub]
    · rw [if_neg hkc, if_neg hkc]
  · obtain ⟨fuel0, h0⟩ := CalculateFilterCoefficients_returns_exact envQ hlit coeffsQ faQ fbQ
      stopbandAttenQ FilterType.FILTER_TYPE_BANDPASS (by omega) hsizeQ
    refine ⟨fuel0, fun fuel1 hf => ?_⟩
    obtain ⟨bp, hbp⟩ := h0 fuel1 hf
    obtain ⟨nt, hnt, hl1, hl2, hrel⟩ := CalculateFilterCoefficients_notch_of_bandpass envQ fuel1
      coeffsQ faQ fbQ stopbandAttenQ bp hoddQ hsizeQ (fun a b c => by ring) hbp
    refine ⟨bp, nt, hbp, hnt, hl1.trans hl2.symm, fun k hk => ?_⟩
    obtain ⟨x, hx1, hx2⟩ := hrel k (by omega)
    refine ⟨x, hx1, ?_⟩
    rw [hx2, hl2, hlit]
    by_cases hkc : k = (coeffsQ.length - 1) / 2
    · rw [if_pos hkc, if_pos hkc]
      congr 1
      ring
    · rw [if_neg hkc, if_neg hkc]

/-- The two designs on five taps with the stand-in functions of `exampleMath`. -/
theorem CalculateFilterCoefficients_example_designs :
    CalculateFilterCoefficients exampleMath 5 [0, 0, 0, 0, 0] (1 / 4) (1 / 2) 10
      FilterType.FILTER_TYPE_BANDPASS = some [-79 / 168, 47 / 672, 1 / 4, 47 / 672, -79 / 168] ∧
    CalculateFilterCoefficients exampleMath 5 [0, 0, 0, 0, 0] (1 / 4) (1 / 2) 10
      FilterType.FILTER_TYPE_NOTCH = some [79 / 168, -47 / 672, 3 / 4, -47 / 672, 79 / 168] := by
  constructor <;>
  norm_num +decide [CalculateFilterCoefficients, exampleMath, subSize, SIZE_MOD, firImpulse,
    kaiserAlpha, Bessel, BesselLoop, forLoop, windowStep, windowArg, mirrorStep, rd, wr]

theorem CalculateFilterCoefficients_notch_inverts_bandpass_witness :
    CalculateFilterCoefficients exampleMath 5 [0, 0, 0, 0, 0] (1 / 4) (1 / 2) 10
      FilterType.FILTER_TYPE_BANDPASS = some [-79 / 168, 47 / 672, 1 / 4, 47 / 672, -79 / 168] ∧
    CalculateFilterCoefficients exampleMath 5 [0, 0, 0, 0, 0] (1 / 4) (1 / 2) 10
      FilterType.FILTER_TYPE_NOTCH = some [79 / 168, -47 / 672, 3 / 4, -47 / 672, 79 / 168] ∧
    ((∀ bp, CalculateFilterCoefficients exampleMath 5 [0, 0, 0, 0, 0] (1 / 4) (1 / 2) 10
        FilterType.FILTER_TYPE_BANDPASS = some bp →
      ∃ nt, CalculateFilterCoefficients exampleMath 5 [0, 0, 0, 0, 0] (1 / 4) (1 / 2) 10
          FilterType.FILTER_TYPE_NOTCH = some nt ∧
        nt.length = bp.length ∧
        ∀ k, k < bp.length → ∃ x, bp[k]? = some x ∧
          nt[k]? = some (if k = (bp.length - 1) / 2 then exampleMath.lit 1 - x else -x)) ∧
    (∃ fuel0, ∀ fuel1, fuel0 ≤ fuel1 →
      ∃ bp nt, CalculateFilterCoefficients exampleMath fuel1 [0, 0, 0, 0, 0] (1 / 4) (1 / 2) 10
          FilterType.FILTER_TYPE_BANDPASS = some bp ∧
        CalculateFilterCoefficients exampleMath fuel1 [0, 0, 0, 0, 0] (1 / 4) (1 / 2) 10
          FilterType.FILTER_TYPE_NOTCH = some nt ∧
        nt.length = bp.length ∧
        ∀ k, k < bp.length → ∃ x, bp[k]? = some x ∧
          nt[k]? = some (if k = (bp.length - 1) / 2 then 1 - x else -x))) :=
  ⟨CalculateFilterCoefficients_example_designs.1, CalculateFilterCoefficients_example_designs.2,
    CalculateFilterCoefficients_notch_inverts_bandpass exampleMath 5 [0, 0, 0, 0, 0] (1 / 4)
      (1 / 2) 10 exampleMath [0, 0, 0, 0, 0] (1 / 4) (1 / 2) 10 (by decide) (by decide)
      (fun a b c => by ring) (fun x => by simp only [exampleMath]; ring) (by decide) (by decide)
      (fun _ => rfl)⟩

/-! ### What a cache miss leaves in the caller's vector -/

/-- C32 (defect): on a cache miss the sparse digital overload of `FindZeroCrossings`
appends the crossings to whatever the caller's vector held: with prior content `prior` the
vector ends as `prior` followed by the crossing list, and that whole vector is what the
cache stores and what a later hit on the same key hands out. -/
theorem FindZeroCrossings_miss_keeps_prior_content {α : Type} [DecidableEq α] [Zero α]
    (sd : SparseDigitalWaveform) (st : AnalysisState α) (ptr : Nat) (prior later : List Int)
    (hs : 1 ≤ sd.m_samples.length) (ho : sd.m_offsets.length = sd.m_samples.length)
    (hmiss : cacheFind st.m_zeroCrossingCache (ptr, (0 : α)) = none) :
    ∃ st1 : AnalysisState α,
      FindZeroCrossings_SparseDigital st ptr sd prior =
        some (prior ++ (transitionsFrom sd.m_samples 2 (sd.m_samples.length - 2)).map
          (fun (i : Nat) => Int.tdiv sd.m_timescale 2 + sd.m_triggerPhase +
            sd.m_timescale * sd.m_offsets.getD i 0), st1) ∧
      cacheFind st1.m_zeroCrossingCache (ptr, (0 : α)) =
        some (prior ++ (transitionsFrom sd.m_samples 2 (sd.m_samples.length - 2)).map
          (fun (i : Nat) => Int.tdiv sd.m_timescale 2 + sd.m_triggerPhase +
            sd.m_timescale * sd.m_offsets.getD i 0)) ∧
      FindZeroCrossings_SparseDigital st1 ptr sd later =
        some (prior ++ (transitionsFrom sd.m_samples 2 (sd.m_samples.length - 2)).map
          (fun (i : Nat) => Int.tdiv sd.m_timescale 2 + sd.m_triggerPhase +
            sd.m_timescale * sd.m_offsets.getD i 0), st1) := by
  have hscan := scanZeroCrossings_SparseDigital_eq sd prior hs (by omega)
  refine ⟨AnalysisState.mk (cacheStore st.m_zeroCrossingCache (ptr, (0 : α))
      (prior ++ (transitionsFrom sd.m_samples 2 (sd.m_samples.length - 2)).map
        (fun (i : Nat) => Int.tdiv sd.m_timescale 2 + sd.m_triggerPhase +
          sd.m_timescale * sd.m_offsets.getD i 0))) (st.scans + 1), ?_, ?_, ?_⟩
  · unfold FindZeroCrossings_SparseDigital
    rw [hmiss]
    simp only [hscan, Option.map_some']
  · exact cacheFind_store_same _ _ _
  · unfold FindZeroCrossings_SparseDigital
    simp only [cacheFind_store_same]

theorem FindZeroCrossings_miss_keeps_prior_content_witness :
    (FindZeroCrossings_SparseDigital (AnalysisState.mk ([] : List ((Nat × Int) × List Int)) 0) 7
        exampleSparseDigital []).map Prod.fst = some [16, 26] ∧
    ∃ st1 : AnalysisState Int,
      FindZeroCrossings_SparseDigital (AnalysisState.mk [] 0) 7 exampleSparseDigital [5] =
        some ([5, 16, 26], st1) ∧
      cacheFind st1.m_zeroCrossingCache (7, (0 : Int)) = some [5, 16, 26] ∧
      FindZeroCrossings_SparseDigital st1 7 exampleSparseDigital [] =
        some ([5, 16, 26], st1) :=
  ⟨by decide,
   FindZeroCrossings_miss_keeps_prior_content exampleSparseDigital (AnalysisState.mk [] 0) 7
    [5] [] (by decide) (by decide) (by decide)⟩

/-- The sparse analog overload behaves alike: samples `[0, 2, 0, 2]` against the
threshold 1, scanned into a vector that held `[5]`. -/
theorem FindZeroCrossings_SparseAnalog_miss_keeps_prior_content :
    (FindZeroCrossings_SparseAnalog exampleCDREnv.flt (AnalysisState.mk [] 0) 7
        { m_timescale := 2, m_triggerPhase := 1, m_offsets := [0, 3, 7, 9],
          m_durations := [], m_samples := [0, 2, 0, 2] } 1 []).map Prod.fst = some [7, 15] ∧
    (FindZeroCrossings_SparseAnalog exampleCDREnv.flt (AnalysisState.mk [] 0) 7
        { m_timescale := 2, m_triggerPhase := 1, m_offsets := [0, 3, 7, 9],
          m_durations := [], m_samples := [0, 2, 0, 2] } 1 [5]).map Prod.fst =
      some [5, 7, 15] := by
  decide

/-! ### The gate scan of `ClockRecoveryFilter::Refresh` -/

/-- C33 (defect): the gate scan `while(igate < edges.size()-1)` is bounded by the number of
data edges, not by the gate's sample count.  With seven data edges and a gate waveform of
one sample that ends before the first edge, the scan steps to `igate = 1` (where it stops
when the gate has a second sample) and reads `gate->m_offsets[1]`, one past the gate's only
sample: the bounds checked scan fails, and so does `Refresh`, which returns the recovered
clock when no gate is connected. -/
theorem ClockRecoveryFilter_gate_index_exceeds_gate_size :
    (ClockRecoveryFilter_findEdges exampleCDREnv
      (exampleGatedCDR (exampleSquareWave 8) exampleShortGate 25000000000)
      1 (exampleSquareWave 8)).map (fun r => r.1) = some exampleEdges ∧
    exampleShortGate.toSparseDigital.m_samples.length = 1 ∧
    gateScanLoop
      { exampleShortGate.toSparseDigital with
        m_offsets := [0, 20000], m_durations := [10000, 400000], m_samples := [true, true] }
      (subSize exampleEdges.length 1) 45000 exampleEdges.length 0 false = some (1, false) ∧
    rd exampleShortGate.toSparseDigital.m_offsets 1 = none ∧
    gateScanLoop exampleShortGate.toSparseDigital (subSize exampleEdges.length 1) 45000
      exampleEdges.length 0 false = none ∧
    (ClockRecoveryFilter_Refresh exampleCDREnv false (blankWaveform Int) 20
      (exampleGatedCDR (exampleSquareWave 8) exampleShortGate 25000000000)).isSome = false ∧
    publishedWaveform ((ClockRecoveryFilter_Refresh exampleCDREnv false (blankWaveform Int) 20
      (exampleCDR (exampleSquareWave 8) 25000000000)).map fun s => s.base) =
      some exampleRecoveredClock := by
  refine ⟨by decide, by decide, by decide, by decide, by decide, by decide, by decide⟩

/-! ### Termination of the PLL loop -/

/-- The gate scan with reads that cannot fail returns as soon as the fuel covers the
indices left below `bound`, whatever the gate arrays and the unspecified values are. -/
theorem gateScanLoopUnchecked_returns (gate : SparseDigitalWaveform)
    (junk : Nat → Int × Int × Bool) (bound : Nat) (edgepos : Int) :
    ∀ (fuel igate : Nat) (gating : Bool), bound ≤ igate + fuel →
      ∃ r, gateScanLoopUnchecked gate junk bound edgepos fuel igate gating = some r := by
  intro fuel
  induction fuel with
  | zero =>
    intro igate gating hf
    unfold gateScanLoopUnchecked
    rw [if_neg (by omega)]
    exact ⟨_, rfl⟩
  | succ fuel ih =>
    intro igate gating hf
    unfold gateScanLoopUnchecked
    by_cases hb : igate < bound
    · rw [if_pos hb]
      dsimp only
      split_ifs
      · exact ⟨_, rfl⟩
      · exact ih (igate + 1) gating (by omega)
      · exact ⟨_, rfl⟩
    · rw [if_neg hb]
      exact ⟨_, rfl⟩

/-- When the gate arrays cover every index below `bound`, the bounds checked gate scan is
the scan with reads that cannot fail. -/
theorem gateScanLoop_eq_unchecked (gate : SparseDigitalWaveform)
    (junk : Nat → Int × Int × Bool) (bound : Nat) (edgepos : Int)
    (ho : bound ≤ gate.m_offsets.length) (hd : bound ≤ gate.m_durations.length)
    (hs : bound ≤ gate.m_samples.length) :
    ∀ (fuel igate : Nat) (gating : Bool),
      gateScanLoop gate bound edgepos fuel igate gating =
        gateScanLoopUnchecked gate junk bound edgepos fuel igate gating := by
  intro fuel
  induction fuel with
  | zero =>
    intro igate gating
    unfold gateScanLoop gateScanLoopUnchecked
    by_cases hb : igate < bound
    · rw [if_pos hb, if_pos hb, rd_getD_gen gate.m_offsets igate 0 (by omega),
        rd_getD_gen gate.m_durations igate 0 (by omega),
        rd_getD_gen gate.m_samples igate false (by omega)]
      simp only [Option.some_bind, Option.map_some', Option.getD_some]
    · rw [if_neg hb, if_neg hb]
  | succ fuel ih =>
    intro igate gating
    unfold gateScanLoop gateScanLoopUnchecked
    by_cases hb : igate < bound
    · rw [if_pos hb, if_pos hb, rd_getD_gen gate.m_offsets igate 0 (by omega),
        rd_getD_gen gate.m_durations igate 0 (by omega),
        rd_getD_gen gate.m_samples igate false (by omega)]
      simp only [Option.some_bind, Option.map_some', Option.getD_some]
      split_ifs
      · rfl
      · exact ih (igate + 1) gating
      · rfl
    · rw [if_neg hb, if_neg hb]

theorem feedbackStep_nedge (resync : Bool) (tnext : Int) (s : PLLState) :
    (feedbackStep resync tnext s).nedge = s.nedge := by
  unfold feedbackStep
  dsimp only
  split_ifs <;> rfl

/-- The feedback loop returns within `edges.size()` passes: every pass moves `nedge`
forward and reads `edges[nedge+1]` only under the guard `nedge+1 < edges.size()`.  It
leaves the state untouched when it processes no edge, and on return either the period is
at least `fnyquist` or the Nyquist guard has set `nedge = edges.size()`. -/
theorem feedbackLoop_returns {α : Type} [Add α] [LT α] [DecidableRel (fun a b : α => a < b)]
    (env : CDREnv α) (edges : List Int) (fnyquist : Int) (center : α) (resync : Bool) :
    ∀ (fuel : Nat) (tnext : Int) (s : PLLState), edges.length ≤ s.nedge + 1 + fuel →
      s.nedge ≤ edges.length → (fnyquist ≤ s.period ∨ edges.length ≤ s.nedge) →
      ∃ s1, feedbackLoop env edges fnyquist center resync fuel tnext s = some s1 ∧
        s.nedge ≤ s1.nedge ∧ s1.nedge ≤ edges.length ∧ (s1.nedge = s.nedge → s1 = s) ∧
        (fnyquist ≤ s1.period ∨ edges.length ≤ s1.nedge) := by
  intro fuel
  induction fuel with
  | zero =>
    intro tnext s hf hn hinv
    refine ⟨s, ?_, le_refl _, hn, fun _ => rfl, hinv⟩
    unfold feedbackLoop
    rw [if_neg (by intro h; omega)]
  | succ fuel ih =>
    intro tnext s hf hn hinv
    unfold feedbackLoop
    by_cases hc : env.flt.ofInt64 tnext + center < env.flt.ofInt64 s.edgepos ∧
        s.nedge + 1 < edges.length
    · rw [if_pos hc]
      obtain ⟨t1, ht1⟩ : ∃ t1, rd edges (s.nedge + 1) = some t1 :=
        ⟨_, rd_getD_gen edges (s.nedge + 1) 0 hc.2⟩
      rw [ht1]
      simp only [Option.some_bind]
      split_ifs with hny
      · refine ⟨_, rfl, ?_, ?_, ?_, ?_⟩
        · show s.nedge ≤ edges.length
          exact hn
        · show edges.length ≤ edges.length
          exact le_refl _
        · intro h
          have h2 : edges.length = s.nedge := h
          omega
        · right
          show edges.length ≤ edges.length
          exact le_refl _
      · obtain ⟨s1, h1, h2, h3, _, h5⟩ := ih t1
          { feedbackStep resync tnext s with nedge := s.nedge + 1 }
          (by show edges.length ≤ s.nedge + 1 + 1 + fuel; omega)
          (by show s.nedge + 1 ≤ edges.length; omega)
          (Or.inl (by
            have := hny
            simp only [not_lt] at this
            exact this))
        have h2b : s.nedge + 1 ≤ s1.nedge := h2
        exact ⟨s1, h1, by omega, h3, fun h => by omega, h5⟩
    · rw [if_neg hc]
      exact ⟨s, rfl, le_refl _, hn, fun _ => rfl, hinv⟩

theorem emitSample_fields (s : PLLState) :
    (emitSample s).nedge = s.nedge ∧ (emitSample s).edgepos = s.edgepos ∧
      (emitSample s).period = s.period := by
  unfold emitSample
  split_ifs <;> exact ⟨rfl, rfl, rfl⟩

/-- The part of a cycle after the gate scan: the read `edges[nedge]`, the feedback loop
and the push all return. -/
theorem pllCycle_tail_returns {α : Type} [Add α] [LT α] [DecidableRel (fun a b : α => a < b)]
    (env : CDREnv α) (edges : List Int) (fnyquist : Int) (center : α) (resync : Bool)
    (s : PLLState) (ig : Nat × Bool) (hn : s.nedge < edges.length - 1)
    (hinv : fnyquist ≤ s.period ∨ edges.length ≤ s.nedge) :
    ∃ s1, ((rd edges s.nedge).bind fun tnext =>
        (feedbackLoop env edges fnyquist center resync edges.length tnext
          { s with igate := ig.1, gating := ig.2 }).map emitSample) = some s1 ∧
      s.nedge ≤ s1.nedge ∧ s1.nedge ≤ edges.length ∧
      (s1.nedge = s.nedge → s1.edgepos = s.edgepos ∧ s1.period = s.period) ∧
      (fnyquist ≤ s1.period ∨ edges.length ≤ s1.nedge) := by
  obtain ⟨t0, ht0⟩ : ∃ t0, rd edges s.nedge = some t0 :=
    ⟨_, rd_getD_gen edges s.nedge 0 (by omega)⟩
  obtain ⟨s1, h1, h2, h3, h4, h5⟩ := feedbackLoop_returns env edges fnyquist center resync
    edges.length t0 { s with igate := ig.1, gating := ig.2 }
    (by show edges.length ≤ s.nedge + 1 + edges.length; omega)
    (by show s.nedge ≤ edges.length; omega) hinv
  have h2b : s.nedge ≤ s1.nedge := h2
  obtain ⟨e1, e2, e3⟩ := emitSample_fields s1
  refine ⟨emitSample s1, ?_, by omega, by omega, ?_, ?_⟩
  · rw [ht0, Option.some_bind, h1]
    rfl
  · intro h
    have hs : s1 = { s with igate := ig.1, gating := ig.2 } := h4 (by
      show s1.nedge = s.nedge
      omega)
    rw [e2, e3, hs]
    exact ⟨rfl, rfl⟩
  · rw [e1, e3]
    exact h5

/-- One cycle of the PLL loop returns once its gate scan does: `edges[nedge]` is read under
the loop guard `nedge < edges.size()-1`.  `nedge` never goes back nor beyond
`edges.size()`, and a cycle that processes no edge leaves `edgepos` and `period` as they
were. -/
theorem pllCycleWith_returns {α : Type} [Add α] [LT α] [DecidableRel (fun a b : α => a < b)]
    (env : CDREnv α) (edges : List Int) (fnyquist : Int)
    (scan : PLLState → Option (Nat × Bool)) (s : PLLState)
    (hscan : ∃ r, scan s = some r) (hn : s.nedge < edges.length - 1)
    (hinv : fnyquist ≤ s.period ∨ edges.length ≤ s.nedge) :
    ∃ s1, pllCycleWith env edges fnyquist scan s = some s1 ∧
      s.nedge ≤ s1.nedge ∧ s1.nedge ≤ edges.length ∧
      (s1.nedge = s.nedge → s1.edgepos = s.edgepos ∧ s1.period = s.period) ∧
      (fnyquist ≤ s1.period ∨ edges.length ≤ s1.nedge) := by
  obtain ⟨r, hr⟩ := hscan
  unfold pllCycleWith
  simp only [hr, Option.some_bind]
  exact pllCycle_tail_returns env edges fnyquist _ _ s r hn hinv

/-- Termination of the PLL loop by a lexicographic measure, for any gate scan that
returns: a cycle either moves `nedge` forward (at most `edges.size()` times) or leaves
`nedge` and `period` alone and moves `edgepos` forward by `period ≥ fnyquist > 0` towards
`tend`. -/
theorem pllLoopWith_returns_from {α : Type} [Add α] [LT α]
    [DecidableRel (fun a b : α => a < b)] (env : CDREnv α) (edges : List Int)
    (fnyquist : Int) (scan : PLLState → Option (Nat × Bool)) (tend : Int)
    (hlen1 : 1 ≤ edges.length) (hlen : edges.length < SIZE_MOD)
    (hscan : ∀ s, ∃ r, scan s = some r) (hny : 0 < fnyquist) :
    ∀ (a b : Nat) (s : PLLState), edges.length - s.nedge = a →
      (tend - s.edgepos).toNat = b → s.nedge ≤ edges.length →
      (fnyquist ≤ s.period ∨ edges.length ≤ s.nedge) →
      ∃ (N : Nat) (s1 : PLLState), s1.nedge ≤ edges.length ∧
        ∀ fuel, N ≤ fuel → pllLoopWith env edges fnyquist scan tend fuel s = some s1 := by
  have hsub : subSize edges.length 1 = edges.length - 1 := subSize_one hlen1 hlen
  intro a
  induction a using Nat.strong_induction_on with
  | _ a iha =>
    intro b
    induction b using Nat.strong_induction_on with
    | _ b ihb =>
      intro s ha hb hn hinv
      by_cases hc : s.edgepos < tend ∧ s.nedge < subSize edges.length 1
      · have hn1 : s.nedge < edges.length - 1 := by rw [← hsub]; exact hc.2
        obtain ⟨s1, hcyc, h1, h2, h3, h4⟩ :=
          pllCycleWith_returns env edges fnyquist scan s (hscan s) hn1 hinv
        have hper : fnyquist ≤ s.period := by
          rcases hinv with h | h
          · exact h
          · omega
        have hrec : ∃ (N : Nat) (s2 : PLLState), s2.nedge ≤ edges.length ∧
            ∀ fuel, N ≤ fuel → pllLoopWith env edges fnyquist scan tend fuel
              { s1 with edgepos := s1.edgepos + s1.period } = some s2 := by
          by_cases hEq : s1.nedge = s.nedge
          · obtain ⟨e1, e2⟩ := h3 hEq
            refine ihb (tend - (s1.edgepos + s1.period)).toNat ?_
              { s1 with edgepos := s1.edgepos + s1.period } ?_ rfl h2 h4
            · rw [e1, e2]
              have := hc.1
              omega
            · show edges.length - s1.nedge = a
              omega
          · refine iha (edges.length - s1.nedge) ?_ (tend - (s1.edgepos + s1.period)).toNat
              { s1 with edgepos := s1.edgepos + s1.period } rfl rfl h2 h4
            omega
        obtain ⟨N, s2, hs2, hN⟩ := hrec
        refine ⟨N + 1, s2, hs2, fun fuel hf => ?_⟩
        obtain ⟨f, rfl⟩ : ∃ f, fuel = f + 1 := ⟨fuel - 1, by omega⟩
        rw [pllLoopWith, if_pos hc, hcyc, Option.some_bind]
        exact hN f (by omega)
      · refine ⟨0, s, hn, fun fuel _ => ?_⟩
        cases fuel with
        | zero => rw [pllLoopWith, if_neg hc]
        | succ f => rw [pllLoopWith, if_neg hc]

/-- The gate scan of a cycle with reads that cannot fail returns for every gate pointer. -/
theorem uncheckedGateScan_returns (gate : Option GateSource)
    (junk : PLLState → Nat → Int × Int × Bool) (n : Nat) (hn1 : 1 ≤ n) (hn : n < SIZE_MOD)
    (s : PLLState) : ∃ r, uncheckedGateScan gate junk n s = some r := by
  have hsub : subSize n 1 = n - 1 := subSize_one hn1 hn
  unfold uncheckedGateScan
  cases gate with
  | none => exact ⟨_, rfl⟩
  | some g =>
    exact gateScanLoopUnchecked_returns (g.view s) (junk s) (subSize n 1) s.edgepos n s.igate
      s.gating (by omega)

/-- `pllCycle` is `pllCycleWith` on the bounds checked gate scan. -/
theorem pllCycle_eq_with {α : Type} [Add α] [LT α] [DecidableRel (fun a b : α => a < b)]
    (env : CDREnv α) (edges : List Int) (fnyquist : Int) (gate : Option GateSource)
    (s : PLLState) :
    pllCycle env edges fnyquist gate s =
      pllCycleWith env edges fnyquist (checkedGateScan gate edges.length) s := by
  unfold pllCycle pllCycleWith checkedGateScan
  cases gate <;> rfl

/-- `pllLoop` is `pllLoopWith` on the bounds checked gate scan. -/
theorem pllLoop_eq_with {α : Type} [Add α] [LT α] [DecidableRel (fun a b : α => a < b)]
    (env : CDREnv α) (edges : List Int) (fnyquist : Int) (gate : Option GateSource)
    (tend : Int) :
    ∀ (fuel : Nat) (s : PLLState),
      pllLoop env edges fnyquist gate tend fuel s =
        pllLoopWith env edges fnyquist (checkedGateScan gate edges.length) tend fuel s := by
  intro fuel
  induction fuel with
  | zero => intro s; rw [pllLoop, pllLoopWith]
  | succ fuel ih =>
    intro s
    rw [pllLoop, pllLoopWith, pllCycle_eq_with]
    by_cases hc : s.edgepos < tend ∧ s.nedge < subSize edges.length 1
    · rw [if_pos hc, if_pos hc]
      cases pllCycleWith env edges fnyquist (checkedGateScan gate edges.length) s with
      | none => rfl
      | some s1 => exact ih _
    · rw [if_neg hc, if_neg hc]

/-- For a gate pointer whose arrays cover the indices the scan reads, the bounds checked
gate scan is the scan with reads that cannot fail. -/
theorem checkedGateScan_eq_unchecked (gate : Option GateSource)
    (junk : PLLState → Nat → Int × Int × Bool) (n : Nat) (hn1 : 1 ≤ n) (hn : n < SIZE_MOD)
    (hcov : gateCovers gate (n - 1) = true) :
    checkedGateScan gate n = uncheckedGateScan gate junk n := by
  have hsub : subSize n 1 = n - 1 := subSize_one hn1 hn
  funext s
  unfold checkedGateScan uncheckedGateScan
  cases gate with
  | none => rfl
  | some g =>
    cases g with
    | output => exact absurd hcov (by simp [gateCovers])
    | waveform w =>
      simp only [gateCovers, decide_eq_true_eq] at hcov
      simp only [GateSource.view, hsub]
      exact gateScanLoop_eq_unchecked w (junk s) (n - 1) s.edgepos hcov.1 hcov.2.1 hcov.2.2 n
        s.igate s.gating

/-- C34. For a non-empty edge list, timescale ≥ 1 and a seed period ≥ 2*timescale, with no
gate or with any gate pointer (the output itself, or a gate waveform of any size), the PLL
loop of `ClockRecoveryFilter::Refresh` terminates whatever the float comparison decides
and whatever a gate read past the end of the gate arrays yields (`junk`): from some number
of cycles on the loop returns the same final state, every read `edges[nedge]` on the way
was inside the edge list (the reads of `edges` are bounds checked), and `nedge` ends at
most at `edges.size()`.  When the gate arrays cover the indices the scan reads, this is
the result of the fully bounds checked loop `pllLoop`. -/
theorem ClockRecoveryFilter_PLL_terminates {α : Type} [Add α] [LT α]
    [DecidableRel (fun a b : α => a < b)] (env : CDREnv α) (edges : List Int)
    (timescale period e0 tend : Int) (gate : Option GateSource)
    (junk : PLLState → Nat → Int × Int × Bool) (cap : SparseDigitalWaveform)
    (hlen1 : 1 ≤ edges.length) (hlen : edges.length < SIZE_MOD)
    (hts : 1 ≤ timescale) (hper : 2 * timescale ≤ period) :
    ∃ (N : Nat) (s1 : PLLState), s1.nedge ≤ edges.length ∧
      (∀ fuel, N ≤ fuel →
        pllLoopWith env edges (2 * timescale) (uncheckedGateScan gate junk edges.length) tend
          fuel (pllInit e0 period cap) = some s1) ∧
      (gateCovers gate (edges.length - 1) = true → ∀ fuel, N ≤ fuel →
        pllLoop env edges (2 * timescale) gate tend fuel (pllInit e0 period cap) = some s1) := by
  obtain ⟨N, s1, h1, h2⟩ := pllLoopWith_returns_from env edges (2 * timescale)
    (uncheckedGateScan gate junk edges.length) tend hlen1 hlen
    (uncheckedGateScan_returns gate junk edges.length hlen1 hlen) (by omega)
    _ _ (pllInit e0 period cap) rfl rfl hlen1 (Or.inl hper)
  refine ⟨N, s1, h1, h2, fun hcov fuel hf => ?_⟩
  rw [pllLoop_eq_with, checkedGateScan_eq_unchecked gate junk edges.length hlen1 hlen hcov]
  exact h2 fuel hf

theorem ClockRecoveryFilter_PLL_terminates_witness :
    gateCovers (some (GateSource.waveform exampleShortGate.toSparseDigital))
      (exampleEdges.length - 1) = false ∧
    (pllLoopWith exampleCDREnv exampleEdges (2 * 10000)
        (uncheckedGateScan (some (GateSource.waveform exampleShortGate.toSparseDigital))
          (fun _ _ => (0, 0, false)) exampleEdges.length)
        310000 20 (pllInit 45000 40000 clearedClock)).map (fun s => (s.nedge, s.m_offsets)) =
      some (6, [65000, 105000, 145100, 185001, 224900, 264998, 305096]) ∧
    (∃ (N : Nat) (s1 : PLLState), s1.nedge ≤ exampleEdges.length ∧
      (∀ fuel, N ≤ fuel →
        pllLoopWith exampleCDREnv exampleEdges (2 * 10000)
          (uncheckedGateScan (some (GateSource.waveform exampleShortGate.toSparseDigital))
            (fun _ _ => (0, 0, false)) exampleEdges.length)
          310000 fuel (pllInit 45000 40000 clearedClock) = some s1) ∧
      (gateCovers (some (GateSource.waveform exampleShortGate.toSparseDigital))
          (exampleEdges.length - 1) = true → ∀ fuel, N ≤ fuel →
        pllLoop exampleCDREnv exampleEdges (2 * 10000)
          (some (GateSource.waveform exampleShortGate.toSparseDigital)) 310000 fuel
          (pllInit 45000 40000 clearedClock) = some s1)) ∧
    ∃ (N : Nat) (s1 : PLLState), s1.nedge ≤ exampleEdges.length ∧
      (∀ fuel, N ≤ fuel →
        pllLoopWith exampleCDREnv exampleEdges (2 * 10000)
          (uncheckedGateScan (some GateSource.output) (fun _ _ => (0, 0, false))
            exampleEdges.length)
          310000 fuel (pllInit 45000 40000 clearedClock) = some s1) ∧
      (gateCovers (some GateSource.output) (exampleEdges.length - 1) = true →
        ∀ fuel, N ≤ fuel →
        pllLoop exampleCDREnv exampleEdges (2 * 10000) (some GateSource.output) 310000 fuel
          (pllInit 45000 40000 clearedClock) = some s1) :=
  ⟨by decide, by decide,
   ClockRecoveryFilter_PLL_terminates exampleCDREnv exampleEdges 10000 40000 45000 310000 _ _
    clearedClock (by decide) (by decide) (by decide) (by decide),
   ClockRecoveryFilter_PLL_terminates exampleCDREnv exampleEdges 10000 40000 45000 310000 _ _
    clearedClock (by decide) (by decide) (by decide) (by decide)⟩

/-! ### `InterpolateValue` at the last index -/

/-- C35 (defect): at the last index (`index = size - 1`) the guard `index+1 > size` of
`InterpolateValue` is false, so both overloads go on to read position `size`: the uniform
overload reads `samples[size]`, the sparse overload `offsets[size]` first.  In the bounds
checked model the call fails instead of returning `samples[index]`. -/
theorem InterpolateValue_last_index_out_of_bounds {α : Type} [Add α] [Sub α] [Mul α]
    [Div α] (ofInt64 : Int → α)
    (u : UniformAnalogWaveform α) (s : SparseAnalogWaveform α) (frac_ticks : α)
    (hu : 1 ≤ u.m_samples.length) (hu2 : u.m_samples.length < SIZE_MOD)
    (hs : 1 ≤ s.m_samples.length) (hs2 : s.m_samples.length < SIZE_MOD)
    (ho : s.m_offsets.length = s.m_samples.length) :
    addSize (u.m_samples.length - 1) 1 = u.m_samples.length ∧
    rd u.m_samples (addSize (u.m_samples.length - 1) 1) = none ∧
    InterpolateValue_Uniform u (u.m_samples.length - 1) frac_ticks = none ∧
    rd s.m_offsets (addSize (s.m_samples.length - 1) 1) = none ∧
    InterpolateValue_Sparse ofInt64 s (s.m_samples.length - 1) frac_ticks = none := by
  have e1 : addSize (u.m_samples.length - 1) 1 = u.m_samples.length := by
    have h := @addSize_one (u.m_samples.length - 1) (by omega)
    omega
  have e2 : addSize (s.m_samples.length - 1) 1 = s.m_samples.length := by
    have h := @addSize_one (s.m_samples.length - 1) (by omega)
    omega
  have r1 : rd u.m_samples u.m_samples.length = none := by simp [rd]
  have r2 : rd s.m_offsets s.m_samples.length = none := by simp [rd, ho]
  refine ⟨e1, by rw [e1]; exact r1, ?_, by rw [e2]; exact r2, ?_⟩
  · unfold InterpolateValue_Uniform
    rw [e1, if_neg (by omega), r1]
    cases rd u.m_samples (u.m_samples.length - 1) <;> rfl
  · unfold InterpolateValue_Sparse
    rw [e2, if_neg (by omega), r2]
    rfl

theorem InterpolateValue_last_index_out_of_bounds_witness :
    InterpolateValue_Uniform exampleUniformP 0 0 = some 1 ∧
    InterpolateValue_Uniform exampleUniformP (exampleUniformP.m_samples.length - 1) 0 = none ∧
    InterpolateValue_Sparse (fun x : Int => (x : ℚ)) exampleSparseP
      (exampleSparseP.m_samples.length - 1) 0 = none :=
  ⟨by norm_num +decide [InterpolateValue_Uniform, exampleUniformP, addSize, SIZE_MOD, rd],
   (InterpolateValue_last_index_out_of_bounds (fun x : Int => (x : ℚ)) exampleUniformP
      exampleSparseP 0 (by decide) (by decide) (by decide) (by decide) (by decide)).2.2.1,
   (InterpolateValue_last_index_out_of_bounds (fun x : Int => (x : ℚ)) exampleUniformP
      exampleSparseP 0 (by decide) (by decide) (by decide) (by decide) (by decide)).2.2.2.2⟩

/-! ### Advancing to a timestamp -/

theorem rd_identityOffsets (len k : Nat) (hk : k < len) :
    rd (identityOffsets len) k = some (k : Int) := by
  simp [rd, identityOffsets, List.getElem?_map, List.getElem?_range hk]

/-- On offsets `offsets[k] = k` the sparse overload stops at the largest index whose sample
time is at most `timestamp`, and never beyond `len - 1`. -/
theorem AdvanceToTimestamp_Sparse_identity (len : Nat) (timestamp : Int)
    (hlen : len < SIZE_MOD) :
    ∀ (fuel i : Nat), i < len → (i : Int) ≤ timestamp → len - i ≤ fuel →
      AdvanceToTimestamp_Sparse (identityOffsets len) len timestamp fuel i =
        some (min timestamp.toNat (len - 1)) := by
  intro fuel
  induction fuel with
  | zero => intro i hi _ hf; omega
  | succ fuel ih =>
    intro i hi ht hf
    have hadd : addSize i 1 = i + 1 := addSize_one (by omega)
    rw [AdvanceToTimestamp_Sparse, hadd]
    by_cases h1 : i + 1 < len
    · rw [if_pos h1, rd_identityOffsets len (i + 1) h1, Option.some_bind]
      by_cases h2 : ((i + 1 : Nat) : Int) ≤ timestamp
      · rw [if_pos h2]
        exact ih (i + 1) h1 h2 (by omega)
      · rw [if_neg h2]
        congr 1
        omega
    · rw [if_neg h1]
      congr 1
      omega

/-- With timescale 1 and trigger phase 0 the scaled uniform overload stops at the same
index. -/
theorem AdvanceToTimestampScaled_Uniform_unit (len : Nat) (timestamp : Int)
    (hlen : len < SIZE_MOD) :
    ∀ (fuel i : Nat), i < len → (i : Int) ≤ timestamp → len - i ≤ fuel →
      AdvanceToTimestampScaled_Uniform 1 0 len timestamp fuel i =
        some (min timestamp.toNat (len - 1)) := by
  intro fuel
  induction fuel with
  | zero => intro i hi _ hf; omega
  | succ fuel ih =>
    intro i hi ht hf
    have hadd : addSize i 1 = i + 1 := addSize_one (by omega)
    rw [AdvanceToTimestampScaled_Uniform, hadd]
    by_cases h1 : i + 1 < len ∧ ((i + 1 : Nat) : Int) * 1 ≤ timestamp - 0
    · rw [if_pos h1]
      exact ih (i + 1) h1.1 (by omega) (by omega)
    · rw [if_neg h1]
      congr 1
      omega

/-- C36 (defect): the uniform overload of `AdvanceToTimestamp` assigns `timestamp + 1`
whatever `len` is, while the sparse overload on offsets `offsets[k] = k` and the scaled
uniform overload (timescale 1, trigger phase 0) both stop at `min(timestamp, len - 1)`:
for every `len`, start index `i < len` and `timestamp ≥ i` the uniform result is larger
than the sparse one, and it lies beyond `len - 1` as soon as `timestamp ≥ len - 1`. -/
theorem AdvanceToTimestamp_Uniform_overshoots (len i : Nat) (timestamp : Int)
    (hlen : len < SIZE_MOD) (hi : i < len) (ht : (i : Int) ≤ timestamp)
    (hmax : timestamp + 1 < (SIZE_MOD : Int)) :
    AdvanceToTimestamp_Sparse (identityOffsets len) len timestamp len i =
      some (min timestamp.toNat (len - 1)) ∧
    AdvanceToTimestampScaled_Uniform 1 0 len timestamp len i =
      some (min timestamp.toNat (len - 1)) ∧
    AdvanceToTimestamp_Uniform i len timestamp = timestamp.toNat + 1 ∧
    min timestamp.toNat (len - 1) < AdvanceToTimestamp_Uniform i len timestamp ∧
    (((len : Int) - 1 ≤ timestamp) → len - 1 < AdvanceToTimestamp_Uniform i len timestamp) := by
  have hu : AdvanceToTimestamp_Uniform i len timestamp = timestamp.toNat + 1 := by
    unfold AdvanceToTimestamp_Uniform
    rw [Int.emod_eq_of_lt (by omega) hmax]
    omega
  refine ⟨AdvanceToTimestamp_Sparse_identity len timestamp hlen len i hi ht (by omega),
    AdvanceToTimestampScaled_Uniform_unit len timestamp hlen len i hi ht (by omega), hu, ?_, ?_⟩
  · rw [hu]; omega
  · intro h; rw [hu]; omega

theorem AdvanceToTimestamp_Uniform_overshoots_witness :
    AdvanceToTimestamp_Sparse (identityOffsets 10) 10 3 10 0 = some 3 ∧
    AdvanceToTimestampScaled_Uniform 1 0 10 3 10 0 = some 3 ∧
    AdvanceToTimestamp_Uniform 0 10 3 = 4 ∧
    AdvanceToTimestamp_Sparse (identityOffsets 10) 10 100 10 0 = some 9 ∧
    AdvanceToTimestamp_Uniform 0 10 100 = 101 :=
  ⟨(AdvanceToTimestamp_Uniform_overshoots 10 0 3 (by decide) (by decide) (by decide)
      (by decide)).1,
   (AdvanceToTimestamp_Uniform_overshoots 10 0 3 (by decide) (by decide) (by decide)
      (by decide)).2.1,
   (AdvanceToTimestamp_Uniform_overshoots 10 0 3 (by decide) (by decide) (by decide)
      (by decide)).2.2.1,
   (AdvanceToTimestamp_Uniform_overshoots 10 0 100 (by decide) (by decide) (by decide)
      (by decide)).1,
   (AdvanceToTimestamp_Uniform_overshoots 10 0 100 (by decide) (by decide) (by decide)
      (by decide)).2.2.1⟩

/-! ### Rising and falling edges -/

/-- C38 (defect): `EthernetGMIIDecoder::ValidateChannel` ends in `return false` on every
path, so it accepts no stream at all, and `EthernetRGMIIDecoder::ValidateChannel` returns
`true` exactly for a non-null channel on one of its inputs whose type is the wrong one.
Neither agrees with the stated rule on a digital bus offered to input 0 or a digital
stream offered to input 1. -/
theorem Ethernet_ValidateChannel_rejects_valid_streams (i : Nat) (stream : StreamDescriptor) :
    EthernetGMIIDecoder_ValidateChannel i stream = false ∧
    (EthernetRGMIIDecoder_ValidateChannel i stream = true ↔
      stream.m_channel ≠ none ∧ i < 3 ∧
        stream.type ≠ (if i = 0 then StreamType.STREAM_TYPE_DIGITAL_BUS
          else StreamType.STREAM_TYPE_DIGITAL)) ∧
    (validChannelSpec 3 i stream = true → EthernetRGMIIDecoder_ValidateChannel i stream = false) ∧
    validChannelSpec 4 0 ⟨some 1, StreamType.STREAM_TYPE_DIGITAL_BUS⟩ = true ∧
    validChannelSpec 4 1 ⟨some 1, StreamType.STREAM_TYPE_DIGITAL⟩ = true ∧
    validChannelSpec 3 0 ⟨some 1, StreamType.STREAM_TYPE_DIGITAL_BUS⟩ = true ∧
    EthernetRGMIIDecoder_ValidateChannel 0 ⟨some 1, StreamType.STREAM_TYPE_DIGITAL_BUS⟩ = false ∧
    validChannelSpec 3 1 ⟨some 1, StreamType.STREAM_TYPE_ANALOG⟩ = false ∧
    EthernetRGMIIDecoder_ValidateChannel 1 ⟨some 1, StreamType.STREAM_TYPE_ANALOG⟩ = true := by
  have hG : EthernetGMIIDecoder_ValidateChannel i stream = false := by
    unfold EthernetGMIIDecoder_ValidateChannel
    split_ifs <;> rfl
  have hR : EthernetRGMIIDecoder_ValidateChannel i stream = true ↔
      stream.m_channel ≠ none ∧ i < 3 ∧
        stream.type ≠ (if i = 0 then StreamType.STREAM_TYPE_DIGITAL_BUS
          else StreamType.STREAM_TYPE_DIGITAL) := by
    unfold EthernetRGMIIDecoder_ValidateChannel
    by_cases hc : stream.m_channel = none
    · simp [hc]
    · rcases Nat.lt_or_ge i 3 with h3 | h3
      · have : i = 0 ∨ i = 1 ∨ i = 2 := by omega
        rcases this with rfl | rfl | rfl <;> simp [hc]
      · have h0 : i ≠ 0 := by omega
        have h1 : i ≠ 1 := by omega
        have h2 : i ≠ 2 := by omega
        simp [hc, h0, h1, h2]
        omega
  refine ⟨hG, hR, ?_, by decide, by decide, by decide, by decide, by decide, by decide⟩
  intro hv
  cases hr : EthernetRGMIIDecoder_ValidateChannel i stream
  · rfl
  · have h := hR.mp hr
    simp only [validChannelSpec, decide_eq_true_eq] at hv
    exact absurd hv.2.2 h.2.2

/-! ### Running disparity of the 8b/10b decoder -/

/-- C39 (defect): on the sampled bits `0001010001` (three times) the first symbol has
`disp5 = -2` and `disp3 = -2`; `first` sets `last_disp = 1`, neither error branch applies,
and `last_disp += total_disp` leaves -3, which is the running disparity the emitted symbol
carries.  The same happens from +1 or -1 whenever a symbol of total disparity 4 of the
opposite sign arrives. -/
theorem IBM8b10bDecoder_emits_disparity_minus_three :
    findAlignment exampleUnbalancedBits.m_samples = some 0 ∧
    (IBM8b10bDecoder_decode exampleUnbalancedBits).map
      (fun st => st.m_samples.map fun s => s.m_disparity) = some [-3, -1] ∧
    trackDisparity true (-1) (-4) = (false, -3) ∧
    trackDisparity false 1 (-4) = (false, -3) ∧
    trackDisparity false (-1) 4 = (false, 3) := by
  refine ⟨by decide, by decide, by decide, by decide, by decide⟩

/-! ### `str_replace` with an empty search string -/

/-- With an empty search string `strncmp` compares no character and reports a match, and
the index comes back to where it was: `i += search.length() - 1` wraps to `i - 1` and the
loop's `i++` undoes it. -/
theorem strReplaceLoop_empty_search_stuck (replace subject : List Char)
    (hne : subject ≠ []) :
    ∀ (fuel : Nat) (ret : List Char), strReplaceLoop [] replace subject fuel 0 ret = none := by
  have hlen : 0 < subject.length := List.length_pos.mpr hne
  have hidx : addSize (addSize 0 (subSize ([] : List Char).length 1)) 1 = 0 := by
    norm_num [addSize, subSize, SIZE_MOD]
  intro fuel
  induction fuel with
  | zero => intro ret; simp [strReplaceLoop, hlen]
  | succ fuel ih =>
    intro ret
    rw [strReplaceLoop, if_pos hlen]
    show (strncmpEq 0 _ _).bind _ = none
    rw [strncmpEq, Option.some_bind, if_pos rfl, hidx]
    exact ih _

/-- C40 (defect): for an empty search string and any non-empty subject the loop of
`str_replace` never ends, whatever the number of passes allowed: every pass matches,
appends `replace` and leaves the index at 0, so `str_replace` returns no result. -/
theorem str_replace_empty_search_never_returns (replace subject : List Char)
    (hne : subject ≠ []) :
    str_replace [] replace subject = none ∧
    ∀ (fuel : Nat), strReplaceLoop [] replace subject fuel 0 [] = none :=
  ⟨strReplaceLoop_empty_search_stuck replace subject hne _ _,
   fun fuel => strReplaceLoop_empty_search_stuck replace subject hne fuel []⟩

theorem str_replace_empty_search_never_returns_witness :
    str_replace [] ['b'] ['a'] = none ∧
    ∀ (fuel : Nat), strReplaceLoop [] ['b'] ['a'] fuel 0 [] = none :=
  str_replace_empty_search_never_returns ['b'] ['a'] (by decide)

/-! ### The PLL under the binary32 comparison -/

/-- The run of `ClockRecoveryFilter::Refresh` on `lateSquareWave`: the edges found, the
seed period, and the phase errors the loop computes with the comparison
`tnext + center < edgepos` made in binary32. -/
theorem lateSquareWave_run :
    (ClockRecoveryFilter_findEdges binary32CDREnv lateCDR 1 lateSquareWave).map
      (fun r => r.1) = some lateEdges ∧
    binary32CDREnv.flt.toInt64
      (binary32CDREnv.round (binary32CDREnv.lit FS_PER_SECOND / lateCDR.m_baud)) = 40000 ∧
    binary32CDREnv.GetOffsetScaled lateSquareWave (subSize lateSquareWave.size 1) =
      some (2 ^ 38 + 510000) ∧
    (pllLoop binary32CDREnv lateEdges (2 * lateSquareWave.m_timescale) none (2 ^ 38 + 510000)
        20 (pllInit (2 ^ 38 + 45000) 40000 clearedClock)).map (fun s => s.deltas) =
      some [40000, 39900, 39800, 39700, -399, 39698, 39598, 39498, -601] := by
  refine ⟨by decide, by decide, by decide, by decide⟩

/-- C14 (defect): `float center` makes `tnext + center < edgepos` a binary32 comparison, and
binary32 has 24 significant bits.  On the capture `lateSquareWave`, whose edges are exactly
40000 fs apart from `2^38 + 45000` fs on, with the seed period 40000 fs and no gate, the
timestamps are rounded to multiples of `2^15`: the loop processes the edge at
`2^38 + 85000` only in its fourth cycle, with the phase error `delta = 40000`, a whole
period, and goes on with 39900, 39800, 39700, where the bound for this period is
`pllPhaseBound 40000 = 203`.  With the comparison made exactly the same loop computes
0, 100, 1, -99, ... on these edges. -/
theorem ClockRecoveryFilter_PLL_binary32_loses_lock :
    (∀ k, k < lateEdges.length → rd lateEdges k = some (2 ^ 38 + 45000 + (k : Int) * 40000)) ∧
    (ClockRecoveryFilter_findEdges binary32CDREnv lateCDR 1 lateSquareWave).map
      (fun r => r.1) = some lateEdges ∧
    Binary32.ofInt64 (2 ^ 38 + 85000) = Binary32.ofInt64 (2 ^ 38 + 98304) ∧
    (pllLoop binary32CDREnv lateEdges (2 * lateSquareWave.m_timescale) none (2 ^ 38 + 510000)
        20 (pllInit (2 ^ 38 + 45000) 40000 clearedClock)).map (fun s => s.deltas) =
      some [40000, 39900, 39800, 39700, -399, 39698, 39598, 39498, -601] ∧
    pllPhaseBound 40000 = 203 ∧
    (pllLoop exampleCDREnv lateEdges (2 * lateSquareWave.m_timescale) none (2 ^ 38 + 510000)
        20 (pllInit (2 ^ 38 + 45000) 40000 clearedClock)).map (fun s => s.deltas) =
      some [0, 100, 1, -99, -1, 97, -3, 95, -5, 93] ∧
    (publishedWaveform ((ClockRecoveryFilter_Refresh binary32CDREnv false
        (blankWaveform Binary32) 20 lateCDR).map fun s => s.base)).map
        (fun w => w.m_offsets.map fun o => o - 2 ^ 38) =
      some [65000, 105000, 145000, 184899, 224799, 264699, 304698, 344697, 384597, 424497,
        464496, 504495] := by
  refine ⟨?_, lateSquareWave_run.1, by decide, lateSquareWave_run.2.2.2, by decide, by decide,
    by decide⟩
  intro k hk
  have hk12 : k < 12 := hk
  interval_cases k <;> rfl

/-! ### The empty edge list -/

theorem bitLength_eq : ∀ (b fuel n : Nat), b ≤ fuel → n < 2 ^ b → 2 ^ b ≤ 2 * n →
    bitLength fuel n = b := by
  intro b
  induction b with
  | zero =>
    intro fuel n _ h1 h2
    simp at h1 h2
    omega
  | succ b ih =>
    intro fuel n hf h1 h2
    cases fuel with
    | zero => omega
    | succ f =>
      have hp : 2 ^ (b + 1) = 2 * 2 ^ b := by rw [pow_succ]; omega
      rw [hp] at h1 h2
      have hpos : 0 < 2 ^ b := Nat.pow_pos (by decide)
      unfold bitLength
      rw [if_neg (by omega)]
      cases b with
      | zero =>
        simp at h1 h2
        have : n = 1 := by omega
        subst this
        cases f <;> simp [bitLength]
      | succ c =>
        have hq : 2 ^ (c + 1) = 2 * 2 ^ c := by rw [pow_succ]; omega
        rw [ih f (n / 2) (by omega) (by omega) (by omega)]

/-- The conversion of an integer of 41 binary digits keeps the upper 24: it is rounded to
a multiple of `2^17`, ties to the even multiple. -/
theorem Binary32.ofInt64_41 (n q1 : Nat) (h1 : 2 ^ 40 ≤ n) (h2 : n < 2 ^ 41)
    (hq : (if (decide (2 * (n % 131072) > 131072) ||
        (decide (2 * (n % 131072) = 131072) && (false || decide (n / 131072 % 2 = 1)))) = true
      then n / 131072 + 1 else n / 131072) = q1)
    (hfin : ¬ ((bitLength 2048 q1 : Int) + (0 + 17) > 128)) :
    Binary32.ofInt64 (n : Int) = Binary32.normalize 2048 (q1 : Int) (0 + 17) := by
  have hb : bitLength 2048 n = 41 := bitLength_eq 41 2048 n (by decide) h2 (by omega)
  have hk : (((41 : Nat) : Int) - 24) ⊔ (-149 - 0) = 17 := by decide
  have ht : Int.toNat 17 = 17 := rfl
  have hp : (2 : Nat) ^ 17 = 131072 := by norm_num
  have hn : ¬ ((n : Int) < 0) := by omega
  unfold Binary32.ofInt64 Binary32.round
  simp only [Int.natAbs_ofNat, hb, hk, ht, hp, hq]
  rw [if_neg (by decide), if_neg hfin, if_neg hn]

/-- Timestamps from `2^40 + 196609` to `2^40 + 327680` fs all convert to `2^40 + 2^18`. -/
theorem Binary32.ofInt64_low (x : Int) (h1 : 2 ^ 40 + 196608 < x) (h2 : x ≤ 2 ^ 40 + 327680) :
    Binary32.ofInt64 x = Binary32.finite 4194305 18 := by
  obtain ⟨n, rfl⟩ := Int.eq_ofNat_of_zero_le (by omega : 0 ≤ x)
  have h1n : 2 ^ 40 + 196608 < n := by exact_mod_cast h1
  have h2n : n ≤ 2 ^ 40 + 327680 := by exact_mod_cast h2
  rw [Binary32.ofInt64_41 n 8388610 (by omega) (by omega) ?_ (by decide)]
  · decide
  · by_cases hc : n < 2 ^ 40 + 262144
    · have hq : n / 131072 = 8388609 := by omega
      have hr : 2 * (n % 131072) > 131072 := by omega
      simp [hq, hr]
    · have hq : n / 131072 = 8388610 := by omega
      have hr : ¬ 2 * (n % 131072) > 131072 := by omega
      simp [hq, hr]

/-- Timestamps from `2^40 + 327681` to `2^40 + 458751` fs all convert to
`2^40 + 2^18 + 2^17`. -/
theorem Binary32.ofInt64_high (x : Int) (h1 : 2 ^ 40 + 327680 < x) (h2 : x < 2 ^ 40 + 458752) :
    Binary32.ofInt64 x = Binary32.finite 8388611 17 := by
  obtain ⟨n, rfl⟩ := Int.eq_ofNat_of_zero_le (by omega : 0 ≤ x)
  have h1n : 2 ^ 40 + 327680 < n := by exact_mod_cast h1
  have h2n : n < 2 ^ 40 + 458752 := by exact_mod_cast h2
  rw [Binary32.ofInt64_41 n 8388611 (by omega) (by omega) ?_ (by decide)]
  · decide
  · by_cases hc : n < 2 ^ 40 + 393216
    · have hq : n / 131072 = 8388610 := by omega
      have hr : 2 * (n % 131072) > 131072 := by omega
      simp [hq, hr]
    · have hq : n / 131072 = 8388611 := by omega
      have hr : ¬ 2 * (n % 131072) > 131072 := by omega
      have hr2 : ¬ 2 * (n % 131072) = 131072 := by omega
      simp [hq, hr, hr2]

theorem denseEdges_length : denseEdges.length = 407 := by
  simp [denseEdges]

theorem denseEdges_rd (j : Nat) (h : j < 407) :
    rd denseEdges j = some (2 ^ 40 + 247679 + 10 * (j : Int)) := by
  unfold rd denseEdges
  rw [List.getElem?_map, List.getElem?_range h]
  rfl

/-- The run of feedback steps of the fourth cycle on `denseEdges`: as long as `edgepos` is
above `2^40 + 327680` its conversion is one binary32 step above that of every edge, so each
of the remaining edges pulls `edgepos` back by 99 fs. -/
theorem feedbackLoop_dense_run : ∀ (m fuel : Nat) (s : PLLState), m ≤ fuel → m ≤ 404 →
    s.nedge + m = 406 → s.period = 39999 → s.edgepos = 2 ^ 40 + 327583 + 99 * (m : Int) →
    ∃ s1, feedbackLoop binary32CDREnv denseEdges 20 (Binary32.ofInt64 20000) false fuel
        (2 ^ 40 + 247679 + 10 * (s.nedge : Int)) s = some s1 ∧
      s1.edgepos = 2 ^ 40 + 327583 ∧ s1.period = 39999 ∧ s1.nedge = 406 ∧
      s1.gating = s.gating ∧ s1.value = s.value ∧ s1.igate = s.igate ∧
      s1.m_offsets = s.m_offsets ∧ s1.m_durations = s.m_durations ∧
      s1.m_samples = s.m_samples := by
  intro m
  induction m with
  | zero =>
    intro fuel s _ _ hn hp he
    refine ⟨s, feedbackLoop_skip _ _ _ _ _ _ _ _ ?_, ?_, hp, by omega, rfl, rfl, rfl, rfl, rfl,
      rfl⟩
    · rw [denseEdges_length]
      omega
    · rw [he]
      norm_num
  | succ m ih =>
    intro fuel s hf hm hn hp he
    have hlow : binary32CDREnv.flt.ofInt64 (2 ^ 40 + 247679 + 10 * (s.nedge : Int)) =
        Binary32.finite 4194305 18 := Binary32.ofInt64_low _ (by omega) (by omega)
    have hhigh : binary32CDREnv.flt.ofInt64 s.edgepos = Binary32.finite 8388611 17 :=
      Binary32.ofInt64_high _ (by omega) (by omega)
    have hcond : binary32CDREnv.flt.ofInt64 (2 ^ 40 + 247679 + 10 * (s.nedge : Int)) +
          Binary32.ofInt64 20000 < binary32CDREnv.flt.ofInt64 s.edgepos ∧
        s.nedge + 1 < denseEdges.length := by
      rw [hlow, hhigh, denseEdges_length]
      exact ⟨by decide, by omega⟩
    rw [feedbackLoop_once _ _ _ _ _ _ _ _ _ (by omega) hcond
      (denseEdges_rd (s.nedge + 1) (by omega))]
    rw [feedbackStep_down _ _ (by omega) (by omega)]
    simp only [hp]
    rw [if_neg (by decide)]
    obtain ⟨s1, h1, g⟩ := ih (fuel - 1)
      { s with deltas := s.deltas ++ [s.edgepos - (2 ^ 40 + 247679 + 10 * (s.nedge : Int)) -
                                        39999],
               period := 39999 - 39999 / 40000, edgepos := s.edgepos - 39999 / 400,
               nedge := s.nedge + 1 }
      (by omega) (by omega) (by simp only; omega) (by simp only; decide)
      (by simp only; omega)
    refine ⟨s1, ?_, g⟩
    rw [← h1]

theorem pllLoop_step {α : Type} [Add α] [LT α] [DecidableRel (fun a b : α => a < b)]
    (env : CDREnv α) (edges : List Int) (fnyquist : Int) (gate : Option GateSource)
    (tend : Int) (fuel : Nat) (s s1 : PLLState)
    (hc : s.edgepos < tend ∧ s.nedge < subSize edges.length 1)
    (h : pllCycle env edges fnyquist gate s = some s1) :
    pllLoop env edges fnyquist gate tend (fuel + 1) s =
      pllLoop env edges fnyquist gate tend fuel { s1 with edgepos := s1.edgepos + s1.period } := by
  rw [pllLoop, if_pos hc, h]
  rfl

theorem pllLoop_done {α : Type} [Add α] [LT α] [DecidableRel (fun a b : α => a < b)]
    (env : CDREnv α) (edges : List Int) (fnyquist : Int) (gate : Option GateSource)
    (tend : Int) (fuel : Nat) (s : PLLState)
    (hc : ¬ (s.edgepos < tend ∧ s.nedge < subSize edges.length 1)) :
    pllLoop env edges fnyquist gate tend fuel s = some s := by
  cases fuel with
  | zero => rw [pllLoop, if_neg hc]
  | succ f => rw [pllLoop, if_neg hc]

set_option maxRecDepth 100000 in
theorem denseEdges_open_cycles :
    pllInit (2 ^ 40 + 247679) 40000 clearedClock = denseState 0 ∧
    pllCycle binary32CDREnv denseEdges 20 none (denseState 0) =
      some { denseState 1 with edgepos := 2 ^ 40 + 247679 } ∧
    pllCycle binary32CDREnv denseEdges 20 none (denseState 1) =
      some { denseState 2 with edgepos := 2 ^ 40 + 287679 } ∧
    pllCycle binary32CDREnv denseEdges 20 none (denseState 2) =
      some { denseState 3 with edgepos := 2 ^ 40 + 327679 } := by
  refine ⟨by decide, by decide, by decide, by decide⟩


set_option maxRecDepth 100000 in
theorem denseEdges_fourth_first :
    pllCycle binary32CDREnv denseEdges 20 none (denseState 3) =
      (feedbackLoop binary32CDREnv denseEdges 20 (Binary32.ofInt64 20000) false 406
        (2 ^ 40 + 247679 + 10 * ((2 : Nat) : Int)) denseState4).map emitSample := by
  rw [pllCycle_no_gate _ _ _ _ rfl]
  have hr : rd denseEdges (denseState 3).nedge = some (2 ^ 40 + 247679 + 10 * ((1 : Nat) : Int)) :=
    denseEdges_rd 1 (by decide)
  rw [hr]
  rw [Option.some_bind]
  have hcen : binary32CDREnv.flt.ofInt64 (Int.tdiv (denseState 3).period 2) =
      Binary32.ofInt64 20000 := rfl
  have hcond : binary32CDREnv.flt.ofInt64 (2 ^ 40 + 247679 + 10 * ((1 : Nat) : Int)) +
        Binary32.ofInt64 20000 < binary32CDREnv.flt.ofInt64 (denseState 3).edgepos ∧
      (denseState 3).nedge + 1 < denseEdges.length := by decide
  have hst : feedbackStep false (2 ^ 40 + 247679 + 10 * ((1 : Nat) : Int)) (denseState 3) =
      { denseState4 with nedge := 1 } := by decide
  rw [hcen, denseEdges_length,
    feedbackLoop_once binary32CDREnv denseEdges 20 (Binary32.ofInt64 20000) false 407
      (2 ^ 40 + 247679 + 10 * ((1 : Nat) : Int)) _ (denseState 3) (by decide) hcond
      (denseEdges_rd 2 (by decide)), hst, if_neg (by decide)]
  have hs2 : ({ ({ denseState4 with nedge := 1 } : PLLState) with
      nedge := (denseState 3).nedge + 1 } : PLLState) = denseState4 := by decide
  rw [hs2]

/-- The fourth cycle on `denseEdges`: 405 feedback steps pull `edgepos` back from
`2^40 + 367679` to `2^40 + 327583`, and the sample is pushed at `2^40 + 347582`. -/
theorem denseEdges_fourth_cycle :
    ∃ s1, pllCycle binary32CDREnv denseEdges 20 none (denseState 3) = some s1 ∧
      s1.nedge = 406 ∧ s1.m_offsets = (denseState 3).m_offsets ++ [2 ^ 40 + 347582] := by
  obtain ⟨s1, h1, he, hp, hn, hg, _, _, ho, _, _⟩ := feedbackLoop_dense_run 404 406
    denseState4 (by decide) (by decide) (by decide) (by decide) (by decide)
  have hg2 : s1.gating = false := hg
  have ho2 : s1.m_offsets = (denseState 3).m_offsets := ho
  refine ⟨emitSample s1, ?_, ?_, ?_⟩
  · rw [denseEdges_fourth_first]
    exact congrArg (Option.map emitSample) h1
  · rw [emitSample_open s1 hg2]
    exact hn
  · rw [emitSample_open s1 hg2]
    simp only [ho2, he, hp]
    rfl



/-- The part of `ClockRecoveryFilter::Refresh` after the checks returns when stream 0 holds
no waveform yet, the input is live, there is no gate, and the PLL loop returns. -/
theorem ClockRecoveryFilter_run_returns {α : Type} [Add α] [LT α]
    [DecidableRel (fun a b : α => a < b)] (env : CDREnv α) (blank : Waveform α) (fuel : Nat)
    (st : ClockRecoveryState α) (din : Nat) (edges : List Int) (period fnyquist : Int)
    (d : Waveform α) (tend e0 : Int) (s : PLLState)
    (hs : rd st.base.m_streams 0 = some none) (hd : st.base.heap din = some d)
    (hne : din ≠ st.base.fresh)
    (ht : env.GetOffsetScaled d (subSize d.size 1) = some tend) (he : rd edges 0 = some e0)
    (hl : pllLoop env edges fnyquist none tend fuel (pllInit e0 period clearedClock) = some s) :
    ∃ st1 w, ClockRecoveryFilter_run env blank fuel st din none edges period fnyquist =
        some st1 ∧
      publishedWaveform (some st1.base) = some w ∧ w.m_offsets = s.m_offsets ∧
      w.m_durations = s.m_durations ∧ w.m_digital = s.m_samples := by
  have hlt : 0 < st.base.m_streams.length := by
    unfold rd at hs
    by_contra hc
    rw [List.getElem?_eq_none (by omega)] at hs
    cases hs
  have hget : GetData st.base 0 = none := by
    unfold GetData
    rw [if_neg (by omega)]
    unfold rd at hs
    rw [List.getD_eq_getElem?_getD, hs]
    rfl
  unfold ClockRecoveryFilter_run SetupEmptySparseDigitalOutputWaveform setupEmptyOutputWaveform
    acquireOutputWaveform
  rw [hget]
  simp only [dynamicCast, Option.some_bind, SetData, hs]
  simp [hne, hd, ht, he, Waveform.clear, newWaveform, Waveform.toSparseDigital, rd]
  have he1 : edges[0]? = some e0 := he
  have hl1 := hl
  unfold clearedClock at hl1
  have hset : (st.base.m_streams.set 0 (some st.base.fresh))[0]? = some (some st.base.fresh) := by
    simp [hlt]
  rw [he1, Option.some_bind, hl1, Option.some_bind, hset, Option.some_bind, if_pos rfl]
  refine ⟨_, rfl,
    { kind := WaveformKind.SparseDigital, m_timescale := 1,
      m_startTimestamp := d.m_startTimestamp, m_startFemtoseconds := d.m_startFemtoseconds,
      m_triggerPhase := 0, m_revision := blank.m_revision + 1, m_offsets := s.m_offsets,
      m_durations := s.m_durations, m_analog := [], m_digital := s.m_samples }, ?_, rfl, rfl, rfl⟩
  have hnil : st.base.m_streams ≠ [] := fun h => by rw [h] at hlt; exact absurd hlt (by decide)
  simp [publishedWaveform, GetData, hlt, hnil]

/-- The checks of `ClockRecoveryFilter::Refresh` pass when input 0 is ready and live,
input 1 is not connected, the edge list is not empty and the seed period is at least twice
the timescale; the evaluation is then the part after the checks. -/
theorem ClockRecoveryFilter_Refresh_passes_checks {α : Type} [DecidableEq α] [Zero α] [Add α]
    [Mul α] [Div α] [LT α] [DecidableRel (fun a b : α => a < b)] (env : CDREnv α)
    (allowEmpty : Bool) (blank : Waveform α) (fuel : Nat) (st : ClockRecoveryState α)
    (din : Nat) (d : Waveform α) (found : List Int × AnalysisState α)
    (hv : VerifyInputOK st.base 0 allowEmpty = some true)
    (hi : GetInputWaveform st.base 0 = some (some din))
    (hd : st.base.heap din = some d)
    (hg : GetInputWaveform st.base 1 = some none)
    (hf : ClockRecoveryFilter_findEdges env st din d = some found)
    (he : found.1 ≠ [])
    (hp : ¬ env.flt.toInt64 (env.round (env.lit FS_PER_SECOND / st.m_baud)) <
      2 * d.m_timescale) :
    ClockRecoveryFilter_Refresh env allowEmpty blank fuel st =
      ClockRecoveryFilter_run env blank fuel { st with analysis := found.2 } din none found.1
        (env.flt.toInt64 (env.round (env.lit FS_PER_SECOND / st.m_baud)))
        (2 * d.m_timescale) := by
  unfold ClockRecoveryFilter_Refresh
  rw [hv]
  simp only [Option.some_bind, Bool.true_eq_false, if_false, hi, hd, hg, dynamicCast, hf,
    if_neg he, if_neg hp]

/-- The three cycles without feedback on `denseEdges`: under the binary32 comparison the
edge at `2^40 + 247689` is never due, although `edgepos` runs 80000 fs ahead of it. -/
theorem denseEdges_open_cycle (k fuel : Nat) (tend : Int) (hk : k < 3)
    (ht : 2 ^ 40 + 367679 < tend) :
    pllLoop binary32CDREnv denseEdges 20 none tend (fuel + 1) (denseState k) =
      pllLoop binary32CDREnv denseEdges 20 none tend fuel (denseState (k + 1)) := by
  have hsub : subSize denseEdges.length 1 = 406 := by
    rw [denseEdges_length]
    decide
  have hn : (denseState k).nedge < subSize denseEdges.length 1 := by
    rw [hsub]
    exact (by decide : (1 : Nat) < 406)
  have he : (denseState k).edgepos < tend := by
    show 2 ^ 40 + 247679 + 40000 * (k : Int) < tend
    omega
  obtain ⟨h0, h1, h2, h3⟩ := denseEdges_open_cycles
  interval_cases k
  · rw [pllLoop_step _ _ _ _ _ _ _ _ ⟨he, hn⟩ h1]
    exact congrArg _ (by decide)
  · rw [pllLoop_step _ _ _ _ _ _ _ _ ⟨he, hn⟩ h2]
    exact congrArg _ (by decide)
  · rw [pllLoop_step _ _ _ _ _ _ _ _ ⟨he, hn⟩ h3]
    exact congrArg _ (by decide)

/-- The run of the PLL loop on `denseEdges` under the binary32 comparison: four cycles,
the last of which publishes an offset below the one before it. -/
theorem denseEdges_run (fuel : Nat) (tend : Int) (ht : 2 ^ 40 + 367679 < tend) :
    ∃ s, pllLoop binary32CDREnv denseEdges 20 none tend (fuel + 4)
        (pllInit (2 ^ 40 + 247679) 40000 clearedClock) = some s ∧
      s.m_offsets = [2 ^ 40 + 267679, 2 ^ 40 + 307679, 2 ^ 40 + 347679, 2 ^ 40 + 347582] := by
  obtain ⟨s1, hc, hn, ho⟩ := denseEdges_fourth_cycle
  have hsub : subSize denseEdges.length 1 = 406 := by
    rw [denseEdges_length]
    decide
  refine ⟨{ s1 with edgepos := s1.edgepos + s1.period }, ?_, ?_⟩
  · rw [denseEdges_open_cycles.1, denseEdges_open_cycle 0 (fuel + 3) tend (by decide) ht,
      denseEdges_open_cycle 1 (fuel + 2) tend (by decide) ht,
      denseEdges_open_cycle 2 (fuel + 1) tend (by decide) ht,
      pllLoop_step _ _ _ _ _ _ _ _ ⟨?_, ?_⟩ hc, pllLoop_done]
    · rw [hsub]
      show ¬ (_ ∧ s1.nedge < 406)
      rw [hn]
      exact fun h => absurd h.2 (by decide)
    · show 2 ^ 40 + 247679 + 40000 * ((3 : Nat) : Int) < tend
      omega
    · rw [hsub]
      exact (by decide : (1 : Nat) < 406)
  · show s1.m_offsets = _
    rw [ho]
    decide

set_option maxHeartbeats 4000000 in
set_option maxRecDepth 100000 in
theorem denseCapture_transitions :
    [] ++ (transitionsFrom denseCapture.toSparseDigital.m_samples 2
        (denseCapture.toSparseDigital.m_samples.length - 2)).map
        (fun (i : Nat) => Int.tdiv denseCapture.toSparseDigital.m_timescale 2 +
          denseCapture.toSparseDigital.m_triggerPhase +
          denseCapture.toSparseDigital.m_timescale *
            denseCapture.toSparseDigital.m_offsets.getD i 0) = denseEdges := by
  decide

set_option maxRecDepth 100000 in
/-- The edges of `denseCapture` are `denseEdges`. -/
theorem denseCapture_edges :
    ClockRecoveryFilter_findEdges binary32CDREnv denseCDR 1 denseCapture =
      some (denseEdges,
        { m_zeroCrossingCache := cacheStore [] (1, (0 : Binary32)) denseEdges, scans := 1 }) := by
  have h1 : ClockRecoveryFilter_findEdges binary32CDREnv denseCDR 1 denseCapture =
      (scanZeroCrossings_SparseDigital denseCapture.toSparseDigital []).map fun e =>
        (e, ({ m_zeroCrossingCache := cacheStore [] (1, (0 : Binary32)) e, scans := 1 } :
          AnalysisState Binary32)) := rfl
  rw [h1, scanZeroCrossings_SparseDigital_eq _ _ (by decide) (by decide),
    denseCapture_transitions]
  rfl

set_option maxRecDepth 100000 in
/-- The evaluation of `ClockRecoveryFilter::Refresh` on `denseCapture`: it returns for
every fuel of at least four cycles and publishes four samples. -/
theorem denseCapture_refresh (fuel : Nat) (hfuel : 4 ≤ fuel) :
    ∃ st1 w, ClockRecoveryFilter_Refresh binary32CDREnv false (blankWaveform Binary32) fuel
        denseCDR = some st1 ∧
      publishedWaveform (some st1.base) = some w ∧
      w.m_offsets = [2 ^ 40 + 267679, 2 ^ 40 + 307679, 2 ^ 40 + 347679, 2 ^ 40 + 347582] := by
  obtain ⟨f, rfl⟩ : ∃ f, fuel = f + 4 := ⟨fuel - 4, by omega⟩
  obtain ⟨s, hl, ho⟩ := denseEdges_run f (2 ^ 40 + 447654) (by decide)
  have hper : binary32CDREnv.flt.toInt64
      (binary32CDREnv.round (binary32CDREnv.lit FS_PER_SECOND / denseCDR.m_baud)) = 40000 := by
    decide
  have hchecks := ClockRecoveryFilter_Refresh_passes_checks binary32CDREnv false
    (blankWaveform Binary32) (f + 4) denseCDR 1 denseCapture _ (by decide) (by decide) rfl
    (by decide) denseCapture_edges (by decide) (by rw [hper]; decide)
  rw [hper] at hchecks
  obtain ⟨st1, w, hrun, hpub, hw, _, _⟩ := ClockRecoveryFilter_run_returns binary32CDREnv
    (blankWaveform Binary32) (f + 4)
    { denseCDR with
        analysis := { m_zeroCrossingCache := cacheStore [] (1, (0 : Binary32)) denseEdges,
                      scans := 1 } }
    1 denseEdges 40000 (2 * denseCapture.m_timescale) denseCapture (2 ^ 40 + 447654)
    (2 ^ 40 + 247679) s (by decide) rfl (by decide) (by decide) (denseEdges_rd 0 (by decide)) hl
  exact ⟨st1, w, hchecks.trans hrun, hpub, hw.trans ho⟩

/-- C31 (defect): `float center` makes `tnext + center < edgepos` a binary32 comparison.
On `denseCapture`, a sparse digital input with timescale 10 fs whose 407 edges are 10 fs
apart from `2^40 + 247679` fs on, with no gate and the seed period 40000 fs, every edge and
every `edgepos` up to `2^40 + 327680` is converted to the same binary32 value
`2^40 + 2^18`, as is every timestamp above `2^40 + 196608`.  The loop therefore takes no feedback in its first three cycles, although
already in the second the edge is due (`2^40 + 247689 + 20000 < 2^40 + 287679`), and
publishes the offsets `2^40 + 267679`, `2^40 + 307679`, `2^40 + 347679`.  In the fourth
cycle `edgepos = 2^40 + 367679` converts to the next binary32 value and the loop steps
`edgepos` back 405 times, once per remaining edge, to `2^40 + 327583`: the fourth offset
published is `2^40 + 347582`, below the third. -/
theorem ClockRecoveryFilter_PLL_binary32_offsets_decrease :
    (ClockRecoveryFilter_findEdges binary32CDREnv denseCDR 1 denseCapture).map
      (fun r => r.1) = some denseEdges ∧
    (∀ k, k < 407 → rd denseEdges k = some (2 ^ 40 + 247679 + 10 * (k : Int))) ∧
    denseEdges.length = 407 ∧
    denseCapture.m_timescale = 10 ∧
    GetInputWaveform denseCDR.base 1 = some none ∧
    binary32CDREnv.flt.toInt64
      (binary32CDREnv.round (binary32CDREnv.lit FS_PER_SECOND / denseCDR.m_baud)) = 40000 ∧
    (∀ x : Int, 2 ^ 40 + 196608 < x → x ≤ 2 ^ 40 + 327680 →
      Binary32.ofInt64 x = Binary32.ofInt64 (2 ^ 40 + 2 ^ 18)) ∧
    ((2 ^ 40 + 247689 : Int) + 20000 < 2 ^ 40 + 287679 ∧
      ¬ (Binary32.ofInt64 (2 ^ 40 + 247689) + Binary32.ofInt64 20000 <
        Binary32.ofInt64 (2 ^ 40 + 287679))) ∧
    (∀ fuel, 4 ≤ fuel → ∃ st1 w,
      ClockRecoveryFilter_Refresh binary32CDREnv false (blankWaveform Binary32) fuel denseCDR =
        some st1 ∧
      publishedWaveform (some st1.base) = some w ∧
      w.m_offsets = [2 ^ 40 + 267679, 2 ^ 40 + 307679, 2 ^ 40 + 347679, 2 ^ 40 + 347582] ∧
      rd w.m_offsets 2 = some (2 ^ 40 + 347679) ∧ rd w.m_offsets 3 = some (2 ^ 40 + 347582)) ∧
    (2 ^ 40 + 347582 : Int) < 2 ^ 40 + 347679 := by
  refine ⟨?_, fun k hk => denseEdges_rd k hk, denseEdges_length, rfl, by decide, by decide,
    fun x h1 h2 => ?_, ⟨by decide, by decide⟩, fun fuel hfuel => ?_, by decide⟩
  · rw [denseCapture_edges]
    rfl
  · rw [Binary32.ofInt64_low x h1 h2, Binary32.ofInt64_low _ (by decide) (by decide)]
  · obtain ⟨st1, w, h1, h2, h3⟩ := denseCapture_refresh fuel hfuel
    refine ⟨st1, w, h1, h2, h3, ?_, ?_⟩
    · rw [h3]
      rfl
    · rw [h3]
      rfl

end ScopeHal
